import Mathlib

/-!
Apocalypse compiler front end: lexer and parser.

A shallow embedding of `src/Lexer.cpp`, `src/Lexer.h`, `src/Parser.cpp`, of
`get_error_segment` of `src/Errors.cpp`, of `src/Stack.h` and of the functions
`apoc_type_to_llvm`, `to_debug_type` and `get_cast_type` of
`src/LLVM_Helpers.cpp`.

* Bytes are natural numbers, a source buffer is a list of bytes, and a
  pointer into the buffer is an offset.  In the lexer, reading outside the
  list gives 0; in `get_error_segment` it is `Result.undefined`.
* Token kinds are the integers of the `Token` enum.
* `LG_FATAL` ends the process; a function that can reach it returns
  `Result.fatal`.  Loops and recursion carry a fuel argument that the entry
  points initialise from the size of their input; `Result.diverge` means the
  fuel ran out.  The parser functions take their fuel as an argument; it
  bounds the depth of nested calls and loop rounds.
* Reading a token through a pointer outside the token buffer is
  `Result.undefined`, and so is a write after the end of a buffer whose size
  the source fixes.
* The syntax tree is a value: a node holds its children and its `left` and
  `right` links, NULL is `Ast_Node.null`.
* The scope stack and the type registry, whose functions are not under src/,
  are part of `File_Contents` and are modelled from the specification.
* What the source leaves to the build is part of `File_Contents` too: the
  value of the constant `REASONABLE_MAXIMUM`, and the order in which the
  arguments of `ast_selector` are evaluated in `parse_atom_expression`.  A
  theorem about every state holds for every such build.
-/

namespace Apocalypse

/-! ## Bytes and character classes -/

/-- The bytes of an ASCII string. -/
def bytes (s : String) : List Nat := s.toList.map Char.toNat

/-- Modelled from the spec: `is_whitespace` of stdlib/std.h, which is not under
src/.  Whitespace is space, tab, newline, carriage return and form feed. -/
def is_whitespace (c : Nat) : Bool :=
  c == 32 || c == 9 || c == 10 || c == 13 || c == 12

/-- Modelled from the spec: `is_alpha` of stdlib/std.h, which is not under
src/.  The ASCII letters. -/
def is_alpha (c : Nat) : Bool :=
  (65 ≤ c && c ≤ 90) || (97 ≤ c && c ≤ 122)

/-- Modelled from the spec: `is_number` of stdlib/std.h, which is not under
src/.  The decimal digits. -/
def is_number (c : Nat) : Bool :=
  48 ≤ c && c ≤ 57

/-- Modelled from the spec: `is_alnum` of stdlib/std.h, which is not under
src/.  A letter or a digit. -/
def is_alnum (c : Nat) : Bool :=
  is_alpha c || is_number c

/-- Modelled from the spec: `is_hex` of stdlib/std.h, which is not under src/.
A hexadecimal digit of either case. -/
def is_hex (c : Nat) : Bool :=
  is_number c || (97 ≤ c && c ≤ 102) || (65 ≤ c && c ≤ 70)

/-- Modelled from the spec: `is_non_special_char` of stdlib/std.h, which is not
under src/.  The spec leaves the class implementation-defined "but including
underscore"; the model is the underscore alone. -/
def is_non_special_char (c : Nat) : Bool :=
  c == 95

/-- Value of one hexadecimal digit. -/
def hex_digit_value (c : Nat) : Nat :=
  if is_number c then c - 48
  else if 97 ≤ c && c ≤ 102 then c - 87
  else if 65 ≤ c && c ≤ 70 then c - 55
  else 0

/-- Modelled from the spec: `hex_to_num` of stdlib/std.h, which is not under
src/.  The digits are "decoded to a 64-bit unsigned value", most significant
digit first. -/
def hex_to_num (digits : List Nat) : Nat :=
  digits.foldl (fun acc c => (acc * 16 + hex_digit_value c) % 2 ^ 64) 0

/-- Modelled from the spec: `_vstd_U64ToStr` of stdlib/std.h, which is not under
src/.  The value is "re-encoded as a decimal string"; the bytes written are
the decimal digits followed by the terminating NUL. -/
def _vstd_U64ToStr (num : Nat) : List Nat :=
  (Nat.toDigits 10 num).map Char.toNat ++ [0]

/-! ## Token kinds (`Lexer.h`) -/

abbrev Token := Int

def tok_minus : Token := 45
def tok_plus : Token := 43
def tok_not : Token := 33
def tok_star : Token := 42
def tok_equals : Token := 61
def tok_eof : Token := -1
def tok_func : Token := -2
def tok_extern : Token := -3
def tok_arrow : Token := -4
def tok_struct : Token := -5
def tok_cast : Token := -6
def tok_if : Token := -7
def tok_for : Token := -8
def tok_identifier : Token := -9
def tok_const_str : Token := -10
def tok_number : Token := -11
def tok_logical_or : Token := -12
def tok_logical_is : Token := -13
def tok_logical_isnot : Token := -14
def tok_logical_and : Token := -15
def tok_logical_lequal : Token := -16
def tok_logical_gequal : Token := -17
def tok_logical_greater : Token := 62
def tok_logical_lesser : Token := 60
def tok_bits_lshift : Token := -18
def tok_bits_rshift : Token := -19
def tok_bits_or : Token := 124
def tok_bits_xor : Token := 94
def tok_bits_not : Token := 126
def tok_bits_and : Token := 38
def tok_plusplus : Token := -20
def tok_minusminus : Token := -21
def tok_const : Token := -22
def tok_switch : Token := -23
def tok_case : Token := -24
def tok_as : Token := -25
def tok_import : Token := -26
def tok_run : Token := -27
def tok_must : Token := -28
def tok_any : Token := -29
def tok_plus_equals : Token := -30
def tok_minus_equals : Token := -31
def tok_mult_equals : Token := -32
def tok_div_equals : Token := -33
def tok_mod_equals : Token := -34
def tok_and_equals : Token := -35
def tok_xor_equals : Token := -36
def tok_or_equals : Token := -37
def tok_lshift_equals : Token := -38
def tok_rshift_equals : Token := -39
def tok_break : Token := -40
def tok_else : Token := -41
def tok_var_args : Token := -42
def tok_char : Token := -43

/-- Modelled from the spec: `tok_enum` is used by `initialize_compiler` but is
missing from the enum of `Lexer.h` under src/.  Keywords "use distinct negative
enum values"; the model continues the enum after `tok_char`. -/
def tok_enum : Token := -44
/-- Modelled from the spec: `tok_interp`, missing from `Lexer.h` under src/. -/
def tok_interp : Token := -45
/-- Modelled from the spec: `tok_size`, missing from `Lexer.h` under src/. -/
def tok_size : Token := -46
/-- Modelled from the spec: `tok_default`, missing from `Lexer.h` under src/. -/
def tok_default : Token := -47
/-- Modelled from the spec: `tok_union`, missing from `Lexer.h` under src/. -/
def tok_union : Token := -48
/-- Modelled from the spec: `tok_intrinsic`, missing from `Lexer.h` under src/. -/
def tok_intrinsic : Token := -49
/-- Modelled from the spec: `tok_call_conv`, missing from `Lexer.h` under src/. -/
def tok_call_conv : Token := -50
/-- Modelled from the spec: `tok_is_defined`, missing from `Lexer.h` under src/. -/
def tok_is_defined : Token := -51
/-- Modelled from the spec: `tok_end_is`, missing from `Lexer.h` under src/. -/
def tok_end_is : Token := -52
/-- Modelled from the spec: `tok_overload`, missing from `Lexer.h` under src/. -/
def tok_overload : Token := -53
/-- Modelled from the spec: `tok_defer`, missing from `Lexer.h` under src/. -/
def tok_defer : Token := -54

/-- The default of the keyword table: `#define KEYWORD_ERROR 32767`. -/
def KEYWORD_ERROR : Token := 32767

/-- The keyword table filled by `initialize_compiler`, in insertion order. -/
def keyword_table : List (List Nat × Token) :=
  [ (bytes "fn", tok_func), (bytes "extern", tok_extern),
    (bytes "struct", tok_struct), (bytes "enum", tok_enum),
    (bytes "import", tok_import), (bytes "cast", tok_cast),
    (bytes "if", tok_if), (bytes "for", tok_for),
    (bytes "switch", tok_switch), (bytes "case", tok_case),
    (bytes "as", tok_as), (bytes "break", tok_break),
    (bytes "else", tok_else),
    (bytes "->", tok_arrow), (bytes "--", tok_minusminus),
    (bytes "++", tok_plusplus), (bytes "||", tok_logical_or),
    (bytes "==", tok_logical_is), (bytes "!=", tok_logical_isnot),
    (bytes "&&", tok_logical_and), (bytes "::", tok_const),
    (bytes "<<", tok_bits_lshift), (bytes ">>", tok_bits_rshift),
    (bytes ">=", tok_logical_gequal), (bytes "<=", tok_logical_lequal),
    (bytes "+=", tok_plus_equals), (bytes "-=", tok_minus_equals),
    (bytes "*=", tok_mult_equals), (bytes "/=", tok_div_equals),
    (bytes "%=", tok_mod_equals), (bytes "&=", tok_and_equals),
    (bytes "^=", tok_xor_equals), (bytes "|=", tok_or_equals),
    (bytes "<<=", tok_lshift_equals), (bytes ">>=", tok_rshift_equals),
    (bytes "...", tok_var_args),
    (bytes "$run", tok_run), (bytes "$interp", tok_interp),
    (bytes "$size", tok_size), (bytes "$default", tok_default),
    (bytes "$union", tok_union), (bytes "$intrinsic", tok_intrinsic),
    (bytes "$call", tok_call_conv), (bytes "$is_defined", tok_is_defined),
    (bytes "$end_is", tok_end_is),
    (bytes "overload", tok_overload), (bytes "defer", tok_defer) ]

/-- The lookup `shget(keyword_table, name)` with the default installed by
`shdefault(keyword_table, KEYWORD_ERROR)`. -/
def shget (table : List (List Nat × Token)) (name : List Nat) : Token :=
  match table.find? (fun kv => kv.1 == name) with
  | some kv => kv.2
  | none => KEYWORD_ERROR

/-! ## Tokens, lexer state and results -/

/-- The record `Token_Iden`.  `identifier` is the allocated payload, with its
terminating NUL; `none` is the NULL pointer.  `f_start` always points at the
start of the file buffer and is left out. -/
structure Token_Iden where
  identifier : Option (List Nat)
  file : Option (List Nat)
  type : Token
  line : Nat
  column : Nat
deriving DecidableEq, Repr

/-- The zero token `(Token_Iden)\x7b\x7d`. -/
def Token_Iden.zero : Token_Iden :=
  { identifier := none, file := none, type := 0, line := 0, column := 0 }

/-- The fatal diagnostics of the lexer and of the parser, one constructor per
message; `not_implemented` is a call of `LG_FATAL`, `semantic` a call of
`raise_semantic_error`. -/
inductive Error where
  | unexpected_end_of_file
  | expected_hex_characters
  | extra_decimal_point
  | string_literal_end_of_file
  | incorrect_escaped_character
  | char_literal_too_long
  | incorrect_compiler_directive
  | block_comment_end_of_file
  | unexpected_token (expected : String)
  | expected_kind (expected : Token)
  | assertion_failed
  | not_implemented (message : String)
  | semantic (message : String)
deriving DecidableEq, Repr

/-- Outcome of a call: a value, a fatal diagnostic (the process ends), fuel
exhaustion (the call does not return), or a read or write through a pointer
that points outside its buffer or is NULL (the source does not define what
happens). -/
inductive Result (α : Type) where
  | ok (a : α)
  | fatal (e : Error) (line column : Nat)
  | diverge
  | undefined
deriving DecidableEq, Repr

def Result.bind {α β : Type} (r : Result α) (k : α → Result β) : Result β :=
  match r with
  | .ok a => k a
  | .fatal e l c => .fatal e l c
  | .diverge => .diverge
  | .undefined => .undefined

instance : Monad Result where
  pure := Result.ok
  bind := Result.bind

/-- Modelled from the spec: the kinds of `Type_Info` (declared in a header that
is not under src/). -/
inductive Type_Type where
  | T_INVALID
  | T_DETECT
  | T_VOID
  | T_INTEGER
  | T_FLOAT
  | T_BOOLEAN
  | T_STRING
  | T_STRUCT
  | T_UNTYPED_INTEGER
  | T_UNTYPED_FLOAT
deriving DecidableEq, Repr

/-- Modelled from the spec: the record `Type_Info` (declared in a header that is
not under src/), in the fields the sources under src/ use.  A pointer type
owns the type it points to; every type carries its identifier and the token
it comes from. -/
inductive Type_Info where
  | plain (type : Type_Type) (primitive_size : Nat) (identifier : Option (List Nat))
      (token : Token_Iden)
  | pointer (pointed : Type_Info) (identifier : Option (List Nat)) (token : Token_Iden)
deriving DecidableEq, Repr

/-- The field `token` of a type. -/
def Type_Info.token : Type_Info → Token_Iden
  | .plain _ _ _ token => token
  | .pointer _ _ token => token

/-- Modelled from the spec: the kind of a symbol (declared in a header that is
not under src/), in the two values `Parser.cpp` uses. -/
inductive Symbol_Type where
  | S_FUNCTION
  | S_FUNC_ARG
deriving DecidableEq, Repr

/-- Modelled from the spec: the record `Symbol` (declared in a header that is
not under src/): "kind, identifier, originating token, its Type Info".  The
pointer `node` to the syntax tree node that introduced the symbol is not
represented. -/
structure Symbol where
  tag : Symbol_Type
  token : Token_Iden
  identifier : Option (List Nat)
  type : Type_Info
deriving DecidableEq, Repr

/-- Modelled from the spec: the record `Scope_Info` (declared in a header that
is not under src/): "an ordered list of symbols local to the scope, plus the
start line, the file path, and a flag indicating whether a terminator has been
observed".  `Parser.cpp` initialises it as `\x7bfalse, line, 0, file, NULL\x7d`;
the third value is kept as `third`. -/
structure Scope_Info where
  has_terminator : Bool
  start_line : Nat
  third : Nat
  file : Option (List Nat)
  symbols : List Symbol
deriving DecidableEq, Repr

/-- The fields of `File_Contents` that the lexer and the parser use, with the
file-level variables `last_read_token` and `reached_eof` of `Parser.cpp`, the
type registry and the scope stack (innermost frame first).  The pointers into
the token buffer are indices; `none` is the NULL pointer.

The last two fields hold what the source leaves to the build.
`reasonable_maximum` is the value of the constant `REASONABLE_MAXIMUM`, the
length of the member array of `parse_struct`; it is declared in a header that
is not under src/.  `selector_right_to_left` says in which order the build
evaluates the two calls of `advance_token` among the arguments of
`ast_selector(advance_token(f), operand, ast_identifier(f, advance_token(f)))`
in `parse_atom_expression`, which C++ leaves unspecified: false when the first
argument is evaluated first, true when the last one is.  A state written
without them has an array of 256 entries and the first order; these two values
are the model's own, and no theorem about every state depends on them. -/
structure File_Contents where
  path : List Nat := []
  file_data : List Nat := []
  file_size : Nat := 0
  pos : Nat := 0
  current_line : Nat := 1
  current_column : Nat := 1
  token_buffer : List Token_Iden := []
  curr_token : Nat := 0
  prev_token : Option Nat := none
  next_token : Option Nat := none
  saved_token : Option Nat := none
  last_read_token : Token_Iden := Token_Iden.zero
  type_table : List (List Nat × Type_Info) := []
  scope_stack : List Scope_Info := []
  reached_eof : Bool := false
  reasonable_maximum : Nat := 256
  selector_right_to_left : Bool := false
deriving DecidableEq, Repr

/-- The byte `f->at[k]`. -/
def File_Contents.peek_at (f : File_Contents) (k : Nat) : Nat :=
  f.file_data.getD (f.pos + k) 0

/-- The byte `*f->at`. -/
def File_Contents.peek (f : File_Contents) : Nat :=
  f.file_data.getD f.pos 0

/-- The bytes between two offsets, `memcpy(dst, f->file_data + a, b - a)`. -/
def File_Contents.slice (f : File_Contents) (a b : Nat) : List Nat :=
  (f.file_data.drop a).take (b - a)

/-! ## Buffer primitives (`Lexer.cpp`) -/

/-- The function `advance_buffer`. -/
def advance_buffer (f : File_Contents) : Result File_Contents :=
  if f.peek != 0 then
    if f.peek == 10 then
      .ok { f with current_line := f.current_line + 1, current_column := 1,
                   pos := f.pos + 1 }
    else
      .ok { f with current_column := f.current_column + 1, pos := f.pos + 1 }
  else
    .fatal .unexpected_end_of_file f.current_line f.current_column

/-- One iteration of the loop of `rewind_buffer_to`. -/
def rewind_step (f : File_Contents) : File_Contents :=
  let f1 := { f with current_column := f.current_column - 1, pos := f.pos - 1 }
  if f1.peek == 10 then
    { f1 with current_line := f1.current_line - 1, current_column := 1 }
  else f1

/-- The loop of `rewind_buffer_to`, run `n` times. -/
def rewind_steps : Nat → File_Contents → File_Contents
  | 0, f => f
  | n + 1, f => rewind_steps n (rewind_step f)

/-- The function `rewind_buffer_to`, for a target that is not after the scan
position: the loop `while (f->at != to)` runs `f->at - to` times. -/
def rewind_buffer_to (f : File_Contents) (target : Nat) : File_Contents :=
  rewind_steps (f.pos - target) f

/-- The function `char_to_escaped`. -/
def char_to_escaped (c : Nat) : Nat :=
  if c == 97 then 7          -- 'a'
  else if c == 98 then 8     -- 'b'
  else if c == 102 then 12   -- 'f'
  else if c == 110 then 10   -- 'n'
  else if c == 114 then 13   -- 'r'
  else if c == 116 then 9    -- 't'
  else if c == 118 then 11   -- 'v'
  else if c == 92 then 92    -- backslash
  else if c == 39 then 39    -- single quote
  else if c == 34 then 34    -- double quote
  else if c == 63 then 63    -- '?'
  else if c == 48 then 0     -- '0'
  else 1

/-- Modelled from the spec: `vstd_strlen` of stdlib/std.h, which is not under
src/.  The number of bytes from offset `p` up to the first NUL. -/
def vstd_strlen (buf : List Nat) (p : Nat) : Nat :=
  ((buf.drop p).takeWhile (fun c => c != 0)).length

/-- The call `memmove(f->at, f->at + 1, vstd_strlen(f->at) + 1)`: the
`strlen + 1` bytes that start one after offset `p` move down by one; what lies
after them stays.  A byte that would be read past the end of the list is not
represented, so the list gets one shorter when the NUL found is its last byte. -/
def memmove_left (buf : List Nat) (p : Nat) : List Nat :=
  let n := vstd_strlen buf p
  buf.take p ++ (buf.drop (p + 1)).take (n + 1) ++ buf.drop (p + n + 1)

/-- The loop `while(p(*f->at)) advance_buffer(f);`. -/
def advance_while (p : Nat → Bool) : Nat → File_Contents → Result File_Contents
  | 0, _ => .diverge
  | fuel + 1, f =>
    if p f.peek then (advance_buffer f).bind (advance_while p fuel) else .ok f

/-- The do-while loop of the decimal branch of `get_token`. -/
def number_loop (start_line start_col : Nat) :
    Nat → File_Contents → Bool → Result File_Contents
  | 0, _, _ => .diverge
  | fuel + 1, f, found_dot =>
    (advance_buffer f).bind fun f1 =>
      if f1.peek == 46 && found_dot then
        .fatal .extra_decimal_point start_line start_col
      else
        let found_dot1 := found_dot || f1.peek == 46
        if is_number f1.peek || f1.peek == 46 then
          number_loop start_line start_col fuel f1 found_dot1
        else .ok f1

/-- The loop `while(*f->at != '"')` of the string branch of `get_token`. -/
def string_loop (start_line start_col : Nat) :
    Nat → File_Contents → Result File_Contents
  | 0, _ => .diverge
  | fuel + 1, f =>
    if f.peek != 34 then
      if f.peek == 0 then
        .fatal .string_literal_end_of_file start_line start_col
      else if f.peek == 92 then
        let f1 := { f with file_data := memmove_left f.file_data f.pos }
        let f2 := { f1 with file_data := f1.file_data.set f1.pos (char_to_escaped f1.peek) }
        if f2.peek == 1 then
          .fatal .incorrect_escaped_character start_line start_col
        else
          string_loop start_line start_col fuel
            { f2 with file_size := f2.file_size - 1, pos := f2.pos + 1 }
      else (advance_buffer f).bind (string_loop start_line start_col fuel)
    else .ok f

/-- The loop `while(copy_num) \x7b num_len++; copy_num /= 10; \x7d` of the
hexadecimal branch of `get_token`, which counts the decimal digits of a value
other than 0 and gives 0 for the value 0.  A 64-bit value leaves the loop
within 20 rounds. -/
def num_len_loop : Nat → Nat → Nat
  | 0, _ => 0
  | fuel + 1, copy_num =>
    if copy_num != 0 then num_len_loop fuel (copy_num / 10) + 1 else 0

/-- The first loop of the punctuation branch of `get_token`.  The flag is true
when the loop left through `return (Token_Iden)\x7b\x7d`. -/
def punct_loop (string_start : Nat) :
    Nat → File_Contents → Result (File_Contents × Bool)
  | 0, _ => .diverge
  | fuel + 1, f =>
    if !is_whitespace f.peek && !is_alnum f.peek then
      if f.peek == 0 then
        if f.pos == string_start then .ok (f, true) else .ok (f, false)
      else (advance_buffer f).bind (punct_loop string_start fuel)
    else .ok (f, false)

/-- The inner loop `while(*f->at != '*')` of the block comment. -/
def comment_scan (start_line start_col : Nat) :
    Nat → File_Contents → Result File_Contents
  | 0, _ => .diverge
  | fuel + 1, f =>
    if f.peek != 42 then
      if f.peek == 0 then
        .fatal .block_comment_end_of_file start_line start_col
      else (advance_buffer f).bind (comment_scan start_line start_col fuel)
    else .ok f

/-- The loop `while(nest >= 0)` of the block comment. -/
def block_comment (start_line start_col : Nat) :
    Nat → File_Contents → Int → Result File_Contents
  | 0, _, _ => .diverge
  | fuel + 1, f, nest =>
    if nest ≥ 0 then
      (comment_scan start_line start_col (f.file_data.length + 1) f).bind fun f1 =>
        if f1.file_data.getD (f1.pos - 1) 0 == 47 then
          (advance_buffer f1).bind fun f2 =>
            block_comment start_line start_col fuel f2 (nest + 1)
        else
          (advance_buffer f1).bind fun f2 =>
            if f2.peek == 47 then
              (advance_buffer f2).bind fun f3 =>
                block_comment start_line start_col fuel f3 (nest - 1)
            else block_comment start_line start_col fuel f2 nest
    else .ok f

/-- The loop `while(identifier_size)` of the punctuation branch: shorter and
shorter prefixes of the run are looked up.  `some` is the early return. -/
def shorten_loop (symbol : List Nat) : Nat → Option (Nat × Token)
  | 0 => none
  | size + 1 =>
    if shget keyword_table (symbol.take size) != KEYWORD_ERROR then
      some (size, shget keyword_table (symbol.take size))
    else shorten_loop symbol size

/-! ## `get_token` and `lex_file` -/

/-- A token without payload, as the punctuation, keyword and directive branches
build it. -/
def plain_token (f : File_Contents) (type : Token) (line column : Nat) : Token_Iden :=
  { identifier := none, file := some f.path, type := type, line := line, column := column }

/-- A token with a payload. -/
def payload_token (f : File_Contents) (payload : List Nat) (type : Token)
    (line column : Nat) : Token_Iden :=
  { identifier := some payload, file := some f.path, type := type, line := line,
    column := column }

/-- The function `get_token`; the fuel bounds the calls `return get_token(f)`
that follow a comment.  In the hexadecimal branch `_vstd_U64ToStr` writes into
the `num_len + 1` bytes that `AllocateCompileMemory` returned, and a write
after the last of them is `undefined`. -/
def get_token_fuel : Nat → File_Contents → Result (Token_Iden × File_Contents)
  | 0, _ => .diverge
  | fuel + 1, f0 =>
    (advance_while is_whitespace (f0.file_data.length + 1) f0).bind fun f =>
    let last_char := f.peek
    let string_start := f.pos
    let start_col := f.current_column
    let start_line := f.current_line
    if is_alpha last_char || is_non_special_char last_char then
      (advance_while (fun c => is_alnum c || is_non_special_char c)
          (f.file_data.length + 1) f).bind fun f1 =>
        let name := f1.slice string_start f1.pos
        let token := shget keyword_table name
        if token == KEYWORD_ERROR then
          .ok (payload_token f1 (name ++ [0]) tok_identifier start_line start_col, f1)
        else
          .ok (plain_token f1 token start_line start_col, f1)
    else if is_number last_char then
      if last_char == 48 && f.peek_at 1 == 120 then
        (advance_buffer f).bind fun f1 =>
        (advance_buffer f1).bind fun f2 =>
          if !is_hex f2.peek then
            .fatal .expected_hex_characters start_line start_col
          else
            (advance_while is_hex (f2.file_data.length + 1) f2).bind fun f3 =>
              let hex_num := f3.slice (string_start + 2) f3.pos
              let num := hex_to_num hex_num
              let num_len := num_len_loop 20 num
              if (_vstd_U64ToStr num).length ≤ num_len + 1 then
                .ok (payload_token f3 (_vstd_U64ToStr num) tok_number start_line start_col, f3)
              else .undefined
      else
        (number_loop start_line start_col (f.file_data.length + 1) f false).bind fun f1 =>
          let number_string := f1.slice string_start f1.pos ++ [0]
          .ok (payload_token f1 number_string tok_number start_line start_col, f1)
    else if f.peek == 34 then
      (advance_buffer f).bind fun f1 =>
      (string_loop start_line start_col (f1.file_data.length + 1) f1).bind fun f2 =>
      (advance_buffer f2).bind fun f3 =>
        let num_size := f3.pos - (string_start + 1)
        let number_string := (f3.slice (string_start + 1) f3.pos).set (num_size - 1) 0
        .ok (payload_token f3 number_string tok_const_str start_line start_col, f3)
    else if f.peek == 39 then
      (advance_buffer f).bind fun f1 =>
        let c := f1.peek
        (advance_buffer f1).bind fun f2 =>
          if f2.peek != 39 then
            .fatal .char_literal_too_long start_line start_col
          else
            (advance_buffer f2).bind fun f3 =>
              .ok (payload_token f3 [c, 0] tok_char start_line start_col, f3)
    else if f.peek == 36 then
      (advance_buffer f).bind fun f1 =>
      (advance_while (fun c => is_alnum c || is_non_special_char c)
          (f1.file_data.length + 1) f1).bind fun f2 =>
        let name := f2.slice string_start f2.pos
        let type := shget keyword_table name
        if type == KEYWORD_ERROR then
          .fatal .incorrect_compiler_directive start_line start_col
        else
          .ok (plain_token f2 type start_line start_col, f2)
    else
      (punct_loop string_start (f.file_data.length + 1) f).bind fun r =>
        let f1 := r.1
        if r.2 then .ok (Token_Iden.zero, f1)
        else if f1.pos - string_start == 1 then
          .ok (plain_token f1 (Int.ofNat (f1.file_data.getD string_start 0))
                 start_line start_col, f1)
        else if f1.file_data.getD string_start 0 == 47
            && f1.file_data.getD (string_start + 1) 0 == 47 then
          (advance_while (fun c => c != 10) (f1.file_data.length + 1) f1).bind fun f2 =>
          (advance_buffer f2).bind fun f3 =>
            get_token_fuel fuel f3
        else if f1.file_data.getD string_start 0 == 47
            && f1.file_data.getD (string_start + 1) 0 == 42 then
          (block_comment start_line start_col (f1.file_data.length + 1) f1 0).bind fun f2 =>
            get_token_fuel fuel f2
        else
          let symbol := f1.slice string_start f1.pos
          let type := shget keyword_table symbol
          if type == KEYWORD_ERROR then
            match shorten_loop symbol symbol.length with
            | some (size, t) =>
              .ok (plain_token f1 t start_line start_col,
                   rewind_buffer_to f1 (string_start + size))
            | none =>
              .ok (plain_token f1 (Int.ofNat (f1.file_data.getD string_start 0))
                     start_line start_col,
                   rewind_buffer_to f1 (string_start + 1))
          else
            .ok (plain_token f1 type start_line start_col, f1)

/-- The function `get_token`.  Every nested call follows a comment of at least
two bytes, so the size of the buffer bounds the nesting. -/
def get_token (f : File_Contents) : Result (Token_Iden × File_Contents) :=
  get_token_fuel (f.file_data.length + 1) f

/-- The loop `while(f->at - f->file_data < (i64)f->file_size)` of `lex_file`. -/
def lex_loop : Nat → File_Contents → Result File_Contents
  | 0, _ => .diverge
  | fuel + 1, f =>
    if f.pos < f.file_size then
      (get_token f).bind fun r =>
        let to_put := r.1
        let f1 := r.2
        if to_put.type != 32 && to_put.type != 0 then
          lex_loop fuel { f1 with token_buffer := f1.token_buffer ++ [to_put] }
        else lex_loop fuel f1
    else .ok f

/-- The state in which `lex_file` enters its loop.  Modelled from the spec:
`platform_read_entire_file` is not under src/; it fills the zeroed buffer of
`size + 1` bytes with the source and leaves in `file_size` the number of bytes
before the terminating NUL. -/
def lex_init (path src : List Nat) : File_Contents :=
  { path := path, file_data := src ++ [0], file_size := src.length, pos := 0,
    current_line := 1, current_column := 1, token_buffer := [] }

/-- The function `lex_file` on the file at `path` whose bytes are `src`.  A
call of `get_token` that returns away from a NUL moves the scan position
forward, so `src.length + 1` rounds are enough for every run that ends. -/
def lex_file (path src : List Nat) : Result File_Contents :=
  (lex_loop (src.length + 1) (lex_init path src)).bind fun f =>
    let eof_token : Token_Iden :=
      { identifier := none, file := some f.path, type := tok_eof,
        line := f.current_line, column := f.current_column }
    .ok { f with token_buffer := f.token_buffer ++ [eof_token], curr_token := 0,
                 prev_token := none, next_token := none }

/-- The token sequence `lex_file` produces, when it returns. -/
def lex_tokens (src : List Nat) : Result (List Token_Iden) :=
  (lex_file [] src).bind fun f => .ok f.token_buffer

/-! ## The token cursor (`Lexer.cpp`) and the diagnostics of the parser -/

/-- The token a pointer into the token buffer points at. -/
def File_Contents.token_at (f : File_Contents) (i : Nat) : Result Token_Iden :=
  match f.token_buffer.get? i with
  | some t => .ok t
  | none => .undefined

/-- The token `*f->curr_token`. -/
def File_Contents.current (f : File_Contents) : Result Token_Iden :=
  f.token_at f.curr_token

/-- The function `advance_token`: the cursor moves one token forward, the cached
pointers are set around it, and the pointer to the token that was current is
returned. -/
def advance_token (f : File_Contents) : Nat × File_Contents :=
  (f.curr_token,
   { f with curr_token := f.curr_token + 1, prev_token := some f.curr_token,
            next_token := some (f.curr_token + 2) })

/-- The function `save_token_position`. -/
def save_token_position (f : File_Contents) : File_Contents :=
  { f with saved_token := some f.curr_token }

/-- The function `load_token_position`; `Assert(f->saved_token != 0)` fails on
the NULL pointer.  The cached pointers `prev_token` and `next_token` stay as
they are. -/
def load_token_position (f : File_Contents) : Result File_Contents :=
  match f.saved_token with
  | some saved => .ok { f with curr_token := saved }
  | none => .fatal .assertion_failed 0 0

/-- A call of `advance_token` whose result is used as a token: the token that
was current is read. -/
def advance_token_read (f : File_Contents) : Result (Token_Iden × File_Contents) :=
  ((advance_token f).2.token_at (advance_token f).1).bind fun t =>
    .ok (t, (advance_token f).2)

/-- The function `raise_parsing_unexpected_token`: the diagnostic is placed at
the previous token when there is one, at the current token otherwise. -/
def raise_parsing_unexpected_token {α : Type} (e : Error) (f : File_Contents) : Result α :=
  let p := match f.prev_token with
    | some p => p
    | none => f.curr_token
  match f.token_buffer.get? p with
  | some t => .fatal e t.line t.column
  | none => .undefined

/-- The function `parser_eat`. -/
def parser_eat (f : File_Contents) (expected_token : Token) : Result File_Contents :=
  (advance_token_read f).bind fun r =>
    if r.1.type != expected_token then
      raise_parsing_unexpected_token (.expected_kind expected_token) r.2
    else .ok { r.2 with last_read_token := r.1 }

/-! ## Types (`Parser.cpp`) -/

/-- The bytes of a C string: what comes before the first NUL. -/
def c_string (s : List Nat) : List Nat := s.takeWhile (fun c => c != 0)

/-- The assignment `result.token = token`. -/
def Type_Info.set_token : Type_Info → Token_Iden → Type_Info
  | .plain t s i _, tok => .plain t s i tok
  | .pointer p i _, tok => .pointer p i tok

/-- The type `(Type_Info)\x7b.type = T_INVALID\x7d`. -/
def invalid_type : Type_Info := .plain .T_INVALID 0 none Token_Iden.zero

/-- Modelled from the spec: `get_type` is not under src/.  It "returns either
the registered info or `T_INVALID`". -/
def get_type (f : File_Contents) (name : Option (List Nat)) : Type_Info :=
  match name with
  | none => invalid_type
  | some n =>
    match f.type_table.find? (fun kv => c_string kv.1 == c_string n) with
    | some kv => kv.2
    | none => invalid_type

/-- The function `ptr_to_identifier`, with the size of the buffer it returns:
the identifier of the innermost type, copied into a buffer of `len + 64` bytes,
followed by one `*` for each level.  `Assert(ptr.identifier)` fails on a type
without identifier; `vstd_strcat(result, "*")` writes the `*` and the
terminating NUL, and a write after the last byte of the buffer is `undefined`.
Modelled from the spec: `vstd_strcat` of stdlib/std.h is not under src/; the
buffer is taken to hold a NUL after the bytes `memcpy` copies. -/
def ptr_to_identifier_buffer : Type_Info → Result (List Nat × Nat)
  | .pointer pointed _ _ =>
    (ptr_to_identifier_buffer pointed).bind fun r =>
      if (c_string r.1).length + 2 ≤ r.2 then .ok (c_string r.1 ++ [42, 0], r.2)
      else .undefined
  | .plain _ _ (some identifier) _ =>
    .ok (c_string identifier ++ [0], (c_string identifier).length + 64)
  | .plain _ _ none _ => .fatal .assertion_failed 0 0

/-- The function `ptr_to_identifier`. -/
def ptr_to_identifier (ptr : Type_Info) : Result (List Nat) :=
  (ptr_to_identifier_buffer ptr).bind fun r => .ok r.1

/-- The function `parse_type`. -/
def parse_type : Nat → File_Contents → Result (Type_Info × File_Contents)
  | 0, _ => .diverge
  | fuel + 1, f =>
    f.current.bind fun pointer_or_type =>
      if pointer_or_type.type == 42 then
        (parse_type fuel (advance_token f).2).bind fun r =>
          (ptr_to_identifier (.pointer r.1 none pointer_or_type)).bind fun identifier =>
            .ok (.pointer r.1 (some identifier) pointer_or_type, r.2)
      else if pointer_or_type.type == tok_identifier then
        .ok ((get_type f pointer_or_type.identifier).set_token pointer_or_type,
             (advance_token f).2)
      else
        .ok (invalid_type.set_token pointer_or_type, f)

/-! ## Expressions (`Parser.cpp`) -/

/-- The record `Ast_Variable`, as `ast_variable` fills it; the identifier is
held as its token (`pure_identifier` copies the name from the token). -/
structure Ast_Variable where
  type : Type_Info
  identifier : Token_Iden
  is_const : Bool
deriving DecidableEq, Repr

/-- The nodes of the syntax tree that the parser builds.  `null` is the NULL
pointer and `zeroed` a node as `alloc_node` returns it.  The declaration of
`Ast_Node` is not under src/; each constructor holds the fields that
`Parser.cpp` fills for that kind of node, with the links `left` and `right`
where it sets them.  The members of a struct are the first `member_count`
entries of its array; the capacity `REASONABLE_MAXIMUM` of that array is
declared in a header that is not under src/ and is not represented. -/
inductive Ast_Node where
  | null
  | identifier (token : Token_Iden)
  | literal (token : Token_Iden)
  | const_str (token : Token_Iden)
  | binary_expr (op : Token) (token : Token_Iden) (left right : Ast_Node)
  | unary_expr (op : Token_Iden) (expression : Ast_Node)
  | postfix_expr (token : Token_Iden) (operand : Ast_Node)
  | index (token : Token_Iden) (operand expression : Ast_Node)
  | selector (dot_token : Token_Iden) (operand identifier : Ast_Node)
  | cast (token : Token_Iden) (type : Type_Info) (expression : Ast_Node)
  | func_call (token : Token_Iden) (operand : Ast_Node) (arguments : List Ast_Node)
  | struct_init (token : Token_Iden) (operand : Ast_Node) (expressions : List Ast_Node)
  | zeroed
  | type_root
  | type_var (var : Ast_Variable)
  | type_assignment (is_declaration : Bool) (lhs rhs : Ast_Node) (token : Token_Iden)
      (assign_type : Token) (is_const : Bool) (decl_type : Type_Info) (left : Ast_Node)
  | type_struct (struct_id : Token_Iden) (members : List Ast_Variable) (member_count : Nat)
      (left : Ast_Node)
  | type_func (identifier : Token_Iden) (arguments : List Ast_Node) (type : Type_Info)
      (left : Ast_Node)
  | type_scope_start (token : Token_Iden) (right left : Ast_Node)
  | type_scope_end (token : Token_Iden) (left : Ast_Node)
  | type_if (condition left : Ast_Node)
  | type_return (token : Token_Iden) (right left : Ast_Node)
  | type_break (left : Ast_Node)
deriving Repr

/-- The test `operand->type == type_identifier` on a pointer that may be NULL. -/
def Ast_Node.is_identifier : Ast_Node → Bool
  | .identifier _ => true
  | _ => false

/-- The test `node == NULL`. -/
def Ast_Node.is_null : Ast_Node → Bool
  | .null => true
  | _ => false

/-- The sentinel `NO_EXPECT`, the character `'\x18'` that `parse_expression`
compares its stop token with. -/
def NO_EXPECT : Token := 24

/-- The conversion of a `Token` argument to the `char` parameter `stop_at` of
`parse_unary_expression`, `parse_atom_expression` and `parse_operand`. -/
def to_char (t : Token) : Int := (t + 128) % 256 - 128

/-- The function `get_precedence`. -/
def get_precedence (op : Token) (is_lhs : Bool) : Int :=
  if op == tok_plusplus || op == tok_minusminus || op == 40 || op == 91 then
    if is_lhs then 35 else 34
  else if op == 42 || op == 47 || op == 37 then
    if is_lhs then 33 else 32
  else if op == 43 || op == 45 then
    if is_lhs then 31 else 30
  else if op == tok_bits_lshift || op == tok_bits_rshift then
    if is_lhs then 29 else 28
  else if op == 62 || op == 60 || op == tok_logical_gequal || op == tok_logical_lequal then
    if is_lhs then 27 else 26
  else if op == tok_logical_is || op == tok_logical_isnot then
    if is_lhs then 25 else 24
  else if op == tok_bits_and then
    if is_lhs then 23 else 22
  else if op == tok_bits_xor then
    if is_lhs then 21 else 20
  else if op == tok_bits_or then
    if is_lhs then 19 else 18
  else if op == tok_logical_and then
    if is_lhs then 17 else 16
  else if op == tok_logical_or then
    if is_lhs then 15 else 14
  else 0

/-- The function `ast_identifier`. -/
def ast_identifier (f : File_Contents) (identifier_token : Token_Iden) : Result Ast_Node :=
  if identifier_token.type != tok_identifier then
    raise_parsing_unexpected_token (.unexpected_token "identifier") f
  else .ok (.identifier identifier_token)

mutual

/-- The function `parse_expression`. -/
def parse_expression :
    Nat → File_Contents → Token → Bool → Result (Ast_Node × File_Contents)
  | 0, _, _, _ => .diverge
  | fuel + 1, f, stop_at, is_lhs =>
    f.current.bind fun cur =>
      if cur.type == stop_at then
        .ok (.null, (advance_token f).2)
      else
        (parse_binary_expression fuel f stop_at 1 is_lhs).bind fun r =>
          if stop_at != 24 then
            (parser_eat r.2 stop_at).bind fun f2 => .ok (r.1, f2)
          else .ok r

/-- The function `parse_binary_expression`, up to its loop. -/
def parse_binary_expression :
    Nat → File_Contents → Token → Int → Bool → Result (Ast_Node × File_Contents)
  | 0, _, _, _, _ => .diverge
  | fuel + 1, f, stop_at, min_bp, is_lhs =>
    (parse_unary_expression fuel f (to_char stop_at) is_lhs).bind fun r =>
      binary_loop fuel r.2 stop_at min_bp is_lhs r.1

/-- The loop `while(true)` of `parse_binary_expression`; `result` is the node
built so far. -/
def binary_loop :
    Nat → File_Contents → Token → Int → Bool → Ast_Node → Result (Ast_Node × File_Contents)
  | 0, _, _, _, _, _ => .diverge
  | fuel + 1, f, stop_at, min_bp, is_lhs, result =>
    f.current.bind fun current =>
      let l_bp := get_precedence current.type true
      let r_bp := get_precedence current.type false
      if current.type == stop_at || decide (l_bp < min_bp) then
        .ok (result, f)
      else if is_lhs then
        raise_parsing_unexpected_token
          (.unexpected_token "left-handside of statement, not binary operation")
          (advance_token f).2
      else
        (parse_binary_expression fuel (advance_token f).2 stop_at r_bp is_lhs).bind fun r =>
          binary_loop fuel r.2 stop_at min_bp is_lhs
            (.binary_expr current.type current result r.1)

/-- The function `parse_unary_expression`. -/
def parse_unary_expression :
    Nat → File_Contents → Int → Bool → Result (Ast_Node × File_Contents)
  | 0, _, _, _ => .diverge
  | fuel + 1, f, stop_at, is_lhs =>
    f.current.bind fun unary_token =>
      if unary_token.type == 35 then
        (advance_token_read f).bind fun a =>
          if is_lhs then
            raise_parsing_unexpected_token
              (.unexpected_token "left-hand side of statement, not cast") a.2
          else
            (parse_type (a.2.token_buffer.length + 1) a.2).bind fun ty =>
              (parse_unary_expression fuel ty.2 stop_at false).bind fun r =>
                .ok (.cast a.1 ty.1 r.1, r.2)
      else if unary_token.type == 42 || unary_token.type == 64
          || unary_token.type == tok_minus || unary_token.type == tok_not
          || unary_token.type == tok_plusplus || unary_token.type == tok_minusminus then
        (advance_token_read f).bind fun a =>
          if is_lhs && !(unary_token.type == 42) then
            raise_parsing_unexpected_token
              (.unexpected_token "left-hand side of statement, not unary expression") a.2
          else
            (parse_unary_expression fuel a.2 stop_at false).bind fun r =>
              .ok (.unary_expr a.1 r.1, r.2)
      else
        (parse_operand fuel f stop_at is_lhs).bind fun o =>
          (parse_atom_expression fuel o.2 o.1 stop_at is_lhs).bind fun r =>
            if r.1.is_null then
              raise_parsing_unexpected_token (.unexpected_token "opperand") r.2
            else .ok r

/-- The function `parse_operand`. -/
def parse_operand :
    Nat → File_Contents → Int → Bool → Result (Ast_Node × File_Contents)
  | 0, _, _, _ => .diverge
  | fuel + 1, f, _, is_lhs =>
    f.current.bind fun cur =>
      if cur.type == tok_identifier then
        (advance_token_read f).bind fun a =>
          (ast_identifier a.2 a.1).bind fun node => .ok (node, a.2)
      else if cur.type == tok_number then
        if is_lhs then
          raise_parsing_unexpected_token
            (.unexpected_token "left-handside of statement") (advance_token f).2
        else
          (advance_token_read f).bind fun a => .ok (.literal a.1, a.2)
      else if cur.type == tok_const_str then
        if is_lhs then
          raise_parsing_unexpected_token
            (.unexpected_token "left-handside of statement") (advance_token f).2
        else
          (advance_token_read f).bind fun a => .ok (.const_str a.1, a.2)
      else if cur.type == 40 then
        if is_lhs then
          raise_parsing_unexpected_token
            (.unexpected_token "left-handside of statement") (advance_token f).2
        else
          parse_expression fuel (advance_token f).2 41 false
      else .ok (.null, f)

/-- The function `parse_atom_expression`; each round of its loop is one call.
In the selector case the order of the two calls of `advance_token` among the
arguments of `ast_selector` is the one the build has, `selector_right_to_left`:
when the last argument is evaluated first, `ast_identifier` is given the token
at the cursor, which is the dot. -/
def parse_atom_expression :
    Nat → File_Contents → Ast_Node → Int → Bool → Result (Ast_Node × File_Contents)
  | 0, _, _, _, _ => .diverge
  | fuel + 1, f, operand, stop_at, is_lhs =>
    f.current.bind fun cur =>
      if cur.type == stop_at then .ok (operand, f)
      else if cur.type == 40 then
        (parse_func_call fuel f operand).bind fun r =>
          parse_atom_expression fuel r.2 r.1 stop_at is_lhs
      else if cur.type == 123 then
        if is_lhs then
          raise_parsing_unexpected_token
            (.unexpected_token "left-hand side of statement , not got struct initialization") f
        else
          ( parse_struct_initialize fuel (advance_token f).2 operand).bind fun r =>
            parse_atom_expression fuel r.2 r.1 stop_at is_lhs
      else if cur.type == 91 then
        (advance_token_read f).bind fun a =>
          (parse_expression fuel a.2 93 false).bind fun r =>
            parse_atom_expression fuel r.2 (.index a.1 operand r.1) stop_at is_lhs
      else if cur.type == 46 then
        if f.selector_right_to_left then
          (advance_token_read f).bind fun b =>
            (ast_identifier b.2 b.1).bind fun identifier =>
              (advance_token_read b.2).bind fun a =>
                parse_atom_expression fuel a.2 (.selector a.1 operand identifier) stop_at is_lhs
        else
          (advance_token_read f).bind fun a =>
            (advance_token_read a.2).bind fun b =>
              (ast_identifier b.2 b.1).bind fun identifier =>
                parse_atom_expression fuel b.2 (.selector a.1 operand identifier) stop_at is_lhs
      else if cur.type == tok_plusplus || cur.type == tok_minusminus then
        (advance_token_read f).bind fun a =>
          parse_atom_expression fuel a.2 (.postfix_expr a.1 operand) stop_at is_lhs
      else .ok (operand, f)

/-- The function `parse_func_call`, up to its loop. -/
def parse_func_call :
    Nat → File_Contents → Ast_Node → Result (Ast_Node × File_Contents)
  | 0, _, _ => .diverge
  | fuel + 1, f, operand =>
    (advance_token_read f).bind fun a =>
      (func_call_loop fuel a.2 [] false).bind fun r =>
        .ok (.func_call a.1 operand r.1, r.2)

/-- The loop `while(true)` of `parse_func_call`, with the arguments pushed so
far. -/
def func_call_loop :
    Nat → File_Contents → List Ast_Node → Bool → Result (List Ast_Node × File_Contents)
  | 0, _, _, _ => .diverge
  | fuel + 1, f, arguments, has_multiple_args =>
    f.current.bind fun cur =>
      if cur.type == 41 then .ok (arguments, (advance_token f).2)
      else
        (parse_expression fuel f NO_EXPECT false).bind fun e =>
          let arguments1 := if e.1.is_null then arguments else arguments ++ [e.1]
          (advance_token_read e.2).bind fun nx =>
            if has_multiple_args && e.1.is_null then
              raise_parsing_unexpected_token
                (.unexpected_token "expression after [ , ]") nx.2
            else if nx.1.type == 41 then .ok (arguments1, nx.2)
            else if nx.1.type != 44 then
              raise_parsing_unexpected_token
                (.unexpected_token "[ , ] or [ ) ] after expression") nx.2
            else func_call_loop fuel nx.2 arguments1 true

/-- The function `parse_struct_initialize`, up to its loop. -/
def parse_struct_initialize :
    Nat → File_Contents → Ast_Node → Result (Ast_Node × File_Contents)
  | 0, _, _ => .diverge
  | fuel + 1, f, operand =>
    if !operand.is_identifier then
      raise_parsing_unexpected_token
        (.unexpected_token "identifier for struct initialization") f
    else
      f.current.bind fun tok =>
        (struct_init_loop fuel f []).bind fun r =>
          .ok (.struct_init tok operand r.1, r.2)

/-- The loop `while(true)` of `parse_struct_initialize`, with the expressions
pushed so far. -/
def struct_init_loop :
    Nat → File_Contents → List Ast_Node → Result (List Ast_Node × File_Contents)
  | 0, _, _ => .diverge
  | fuel + 1, f, expressions =>
    f.current.bind fun cur =>
      if cur.type == 125 then .ok (expressions, f)
      else
        (parse_expression fuel f NO_EXPECT false).bind fun e =>
          let expressions1 := if e.1.is_null then expressions else expressions ++ [e.1]
          (advance_token_read e.2).bind fun nx =>
            if nx.1.type == 125 then .ok (expressions1, nx.2)
            else if nx.1.type != 44 then
              raise_parsing_unexpected_token
                (.unexpected_token "[ , ] or [ \x7d ] after expression") nx.2
            else struct_init_loop fuel nx.2 expressions1

end

/-! ## The scope stack and the type registry

`push_scope`, `pop_scope`, `add_symbol`, `is_scope_stack_empty`, `add_type` and
`raise_semantic_error` are called by `Parser.cpp` and defined in files that are
not under src/. -/

/-- Modelled from the spec: `push_scope` is not under src/.  The scope stack is
"a LIFO of Scope frames"; the frame pushed becomes the innermost one. -/
def push_scope (f : File_Contents) (scope : Scope_Info) : File_Contents :=
  { f with scope_stack := scope :: f.scope_stack }

/-- Modelled from the spec: `pop_scope` is not under src/.  It removes the
innermost frame.  The spec does not say what a pop of an empty stack does; the
macro `stack_pop` of `Stack.h` reads through the NULL that `_stack_pop` returns
for an empty stack, and the outcome is `undefined` here. -/
def pop_scope (f : File_Contents) (_ : Token_Iden) : Result File_Contents :=
  match f.scope_stack with
  | [] => .undefined
  | _ :: rest => .ok { f with scope_stack := rest }

/-- Modelled from the spec: `add_symbol` is not under src/.  The symbol is
appended to the "ordered list of symbols local to the scope" of the innermost
frame; without a frame there is no list to append to. -/
def add_symbol (f : File_Contents) (symbol : Symbol) : Result File_Contents :=
  match f.scope_stack with
  | [] => .undefined
  | scope :: rest =>
    .ok { f with scope_stack := { scope with symbols := scope.symbols ++ [symbol] } :: rest }

/-- Modelled from the spec: `is_scope_stack_empty` is not under src/. -/
def is_scope_stack_empty (f : File_Contents) : Bool := f.scope_stack.isEmpty

/-- Modelled from the spec: `raise_semantic_error` is not under src/; a fatal
diagnostic at the token it is given. -/
def raise_semantic_error {α : Type} (message : String) (token : Token_Iden) : Result α :=
  .fatal (.semantic message) token.line token.column

/-- Modelled from the spec: `add_type` is not under src/.  "`add_type(node)`
inserts a struct": the name of the struct node is bound to a type of kind
`T_STRUCT`, found by `get_type` before any older entry of that name.  The
member lists of the registered type are not represented. -/
def add_type (f : File_Contents) (node : Ast_Node) : File_Contents :=
  match node with
  | .type_struct struct_id _ _ _ =>
    match struct_id.identifier with
    | some name =>
      { f with type_table := (name, .plain .T_STRUCT 0 (some name) struct_id) :: f.type_table }
    | none => f
  | _ => f

/-! ## Declarations and statements (`Parser.cpp`) -/

/-- The zero token `invalid_token` of `Parser.cpp`. -/
def invalid_token : Token_Iden := Token_Iden.zero

/-- The conversion `(unsigned int)` of a line number. -/
def to_unsigned_int (n : Nat) : Nat := n % 4294967296

/-- The link `node->left`. -/
def Ast_Node.left : Ast_Node → Ast_Node
  | .type_assignment _ _ _ _ _ _ _ left => left
  | .type_struct _ _ _ left => left
  | .type_func _ _ _ left => left
  | .type_scope_start _ _ left => left
  | .type_scope_end _ left => left
  | .type_if _ left => left
  | .type_return _ _ left => left
  | .type_break left => left
  | _ => .null

/-- The assignment `node->left = left`. -/
def Ast_Node.set_left : Ast_Node → Ast_Node → Ast_Node
  | .type_assignment d lhs rhs token op c ty _, left =>
    .type_assignment d lhs rhs token op c ty left
  | .type_struct struct_id members count _, left => .type_struct struct_id members count left
  | .type_func name arguments ty _, left => .type_func name arguments ty left
  | .type_scope_start token right _, left => .type_scope_start token right left
  | .type_scope_end token _, left => .type_scope_end token left
  | .type_if condition _, left => .type_if condition left
  | .type_return token right _, left => .type_return token right left
  | .type_break _, left => .type_break left
  | node, _ => node

/-- The function `get_next_expecting` (`Lexer.cpp`). -/
def get_next_expecting (f : File_Contents) (type : Token) (error_msg : String) :
    Result (Token_Iden × File_Contents) :=
  (advance_token_read f).bind fun a =>
    if a.1.type != type then raise_parsing_unexpected_token (.unexpected_token error_msg) a.2
    else .ok a

/-- The function `find_identifier`; it reads the kind of the node it is given,
also when that node is NULL. -/
def find_identifier : Ast_Node → Result (Option Token_Iden)
  | .null => .undefined
  | .identifier token => .ok (some token)
  | .unary_expr _ expression => find_identifier expression
  | .index _ _ expression => find_identifier expression
  | _ => .ok none

/-- The cases `tok_equals` to `tok_rshift_equals` of the switch of
`parse_identifier_statement`. -/
def is_assignment_token (t : Token) : Bool :=
  t == tok_equals || t == tok_plus_equals || t == tok_minus_equals || t == tok_mult_equals
    || t == tok_div_equals || t == tok_mod_equals || t == tok_and_equals
    || t == tok_or_equals || t == tok_xor_equals || t == tok_lshift_equals
    || t == tok_rshift_equals

/-- The function `parse_identifier_statement`. -/
def parse_identifier_statement (fuel : Nat) (f : File_Contents) :
    Result (Ast_Node × File_Contents) :=
  (parse_expression fuel f NO_EXPECT true).bind fun lhs =>
    (find_identifier lhs.1).bind fun found =>
      (match found with
        | none => raise_parsing_unexpected_token (.unexpected_token "identifier") lhs.2
        | some token => Result.ok token).bind fun identifier_token =>
        lhs.2.current.bind fun cur =>
          if is_assignment_token cur.type then
            (advance_token_read lhs.2).bind fun assign_type =>
              (parse_expression fuel assign_type.2 59 false).bind fun rhs =>
                .ok (.type_assignment false lhs.1 rhs.1 identifier_token assign_type.1.type
                      false invalid_type .null, rhs.2)
          else if cur.type == tok_const || cur.type == 58 then
            let is_const := cur.type == tok_const
            let f1 := (advance_token lhs.2).2
            f1.current.bind fun c1 =>
              (if c1.type == tok_equals then
                  Result.ok (Type_Info.plain .T_DETECT 0 none Token_Iden.zero, f1)
                else parse_type (f1.token_buffer.length + 1) f1).bind fun assign_type =>
                (parser_eat assign_type.2 61).bind fun f2 =>
                  (parse_expression fuel f2 59 false).bind fun rhs =>
                    .ok (.type_assignment true lhs.1 rhs.1 identifier_token 61 is_const
                          assign_type.1 .null, rhs.2)
          else
            raise_parsing_unexpected_token (.unexpected_token "declaration or assignment")
              (advance_token lhs.2).2

/-- The function `parse_var`; `Assert(type_info.token.file != NULL)` fails on a
type whose token has no file. -/
def parse_var (f : File_Contents) (name_token : Token_Iden) :
    Result (Ast_Node × File_Contents) :=
  f.current.bind fun colon =>
    if colon.type != 58 then .ok (.null, f)
    else
      let f1 := (advance_token f).2
      f1.current.bind fun type_tok =>
        (if type_tok.type == 61 then
            Result.ok (Type_Info.plain .T_DETECT 0 none type_tok, (advance_token f1).2)
          else if type_tok.type == tok_identifier || type_tok.type == tok_star then
            parse_type (f1.token_buffer.length + 1) f1
          else
            raise_parsing_unexpected_token
              (.unexpected_token
                "Type after ':'.In the case of a declaration you can alse use '='") f1).bind
          fun type_info =>
            if type_info.1.token.file == none then .fatal .assertion_failed 0 0
            else
              .ok (.type_var { type := type_info.1, identifier := name_token, is_const := false },
                   type_info.2)

/-- The function `parse_func_arg`. -/
def parse_func_arg (f : File_Contents) : Result (Ast_Node × File_Contents) :=
  (advance_token_read f).bind fun identifier_token =>
    if identifier_token.1.type == tok_var_args then
      .ok (.type_var { type := .plain .T_DETECT 0 none Token_Iden.zero,
                       identifier := identifier_token.1, is_const := true },
           identifier_token.2)
    else
      (parse_var identifier_token.2 identifier_token.1).bind fun result =>
        if result.1.is_null then
          raise_parsing_unexpected_token (.unexpected_token "correctly formated argument")
            result.2
        else .ok result

/-- The loop `while (true)` of `delimited`, with the items pushed so far; the
variable `has_args` is false throughout. -/
def delimited_loop :
    Nat → File_Contents → Int → Int → (File_Contents → Result (Ast_Node × File_Contents)) →
      List Ast_Node → Result (List Ast_Node × File_Contents)
  | 0, _, _, _, _, _ => .diverge
  | fuel + 1, f, stop, seperator, parser, result =>
    let has_args := false
    f.current.bind fun cur =>
      if cur.type == stop then
        if has_args then
          raise_parsing_unexpected_token (.unexpected_token "expression") f
        else .ok (result, f)
      else
        (parser f).bind fun item =>
          let result1 := if item.1.is_null then result else result ++ [item.1]
          item.2.current.bind fun cur1 =>
            if cur1.type == stop then .ok (result1, item.2)
            else
              (parser_eat item.2 seperator).bind fun f1 =>
                delimited_loop fuel f1 stop seperator parser result1

/-- The function `delimited`. -/
def delimited (fuel : Nat) (f : File_Contents) (start stop seperator : Int)
    (parser : File_Contents → Result (Ast_Node × File_Contents)) :
    Result (List Ast_Node × File_Contents) :=
  (parser_eat f start).bind fun f1 =>
    (delimited_loop fuel f1 stop seperator parser []).bind fun result =>
      (parser_eat result.2 stop).bind fun f2 => .ok (result.1, f2)

/-- What follows `if(curr_tok.type != tok_identifier)` in the loop of
`parse_struct`: one member `name : Type`, `curr_tok` being its name. -/
def parse_struct_member (f : File_Contents) (curr_tok : Token_Iden) :
    Result (Ast_Variable × File_Contents) :=
  if curr_tok.type != tok_identifier then
    raise_parsing_unexpected_token
      (.unexpected_token "struct member or end of structer '\x7d'") f
  else
    (parser_eat f 58).bind fun f1 =>
      (parse_type (f1.token_buffer.length + 1) f1).bind fun type =>
        (ast_identifier type.2 curr_tok).bind fun _ =>
          .ok ({ type := type.1, identifier := curr_tok, is_const := false }, type.2)

/-- The statement `members[member_count++] = member` of `parse_struct`, on the
array `Ast_Variable members[REASONABLE_MAXIMUM]` of which `members` are the
entries written so far: there is no test of `member_count`, and a write after
the last entry of the array is `undefined`. -/
def store_member (capacity : Nat) (members : List Ast_Variable) (member : Ast_Variable) :
    Result (List Ast_Variable) :=
  if members.length < capacity then .ok (members ++ [member]) else .undefined

/-- The loop `while(true)` of `parse_struct`, with the length of the array
`members` and the members stored so far. -/
def struct_member_loop (capacity : Nat) :
    Nat → File_Contents → List Ast_Variable → Result (List Ast_Variable × File_Contents)
  | 0, _, _ => .diverge
  | fuel + 1, f, members =>
    (advance_token_read f).bind fun curr_tok =>
      if curr_tok.1.type == 125 then .ok (members, curr_tok.2)
      else if curr_tok.1.type == 59 then
        (advance_token_read curr_tok.2).bind fun curr_tok1 =>
          if curr_tok1.1.type == 125 then .ok (members, curr_tok1.2)
          else
            (parse_struct_member curr_tok1.2 curr_tok1.1).bind fun member =>
              (store_member capacity members member.1).bind fun members1 =>
                struct_member_loop capacity fuel member.2 members1
      else
        (parse_struct_member curr_tok.2 curr_tok.1).bind fun member =>
          (store_member capacity members member.1).bind fun members1 =>
            struct_member_loop capacity fuel member.2 members1

/-- The function `parse_struct`.  The node holds the `member_count` entries of
the array that were written; `ast_struct` copies the whole array, whose other
entries are the zeroed ones of `members[REASONABLE_MAXIMUM] = \x7b\x7d`. -/
def parse_struct (fuel : Nat) (f : File_Contents) : Result (Ast_Node × File_Contents) :=
  (parser_eat f tok_struct).bind fun f1 =>
    (get_next_expecting f1 tok_identifier "struct name").bind fun struct_id =>
      (parser_eat struct_id.2 123).bind fun f2 =>
        (struct_member_loop f.reasonable_maximum fuel f2 []).bind fun members =>
          if members.1.length == 0 then
            raise_parsing_unexpected_token (.unexpected_token "struct members") members.2
          else
            (ast_identifier members.2 struct_id.1).bind fun _ =>
              let result := Ast_Node.type_struct struct_id.1 members.1 members.1.length .null
              .ok (result, add_type members.2 result)

/-- The record `Ast_Func`, as `parse_func` fills it. -/
structure Ast_Func where
  identifier : Token_Iden
  arguments : List Ast_Node
  type : Type_Info

/-- The type `parse_func` gives a function without return type: kind `T_VOID`
and identifier `"void"`, the other fields zero. -/
def void_type : Type_Info := .plain .T_VOID 0 (some (bytes "void" ++ [0])) Token_Iden.zero

/-- The function `parse_func` up to `this_func.type = func_type`: the keyword,
the name, the parameters, the arrow and the return type. -/
def parse_func_signature (fuel : Nat) (f : File_Contents) : Result (Ast_Func × File_Contents) :=
  (parser_eat f tok_func).bind fun f1 =>
    (advance_token_read f1).bind fun name =>
      (ast_identifier name.2 name.1).bind fun _ =>
        (delimited fuel name.2 40 41 44 parse_func_arg).bind fun arguments =>
          (parser_eat arguments.2 tok_arrow).bind fun f2 =>
            f2.current.bind fun maybe_type =>
              (if maybe_type.type != 123 && maybe_type.type != 59 then
                  parse_type (f2.token_buffer.length + 1) f2
                else Result.ok (void_type, f2)).bind fun func_type =>
                .ok ({ identifier := name.1, arguments := arguments.1, type := func_type.1 },
                     func_type.2)

/-- The symbol `parse_func` builds for the function. -/
def function_symbol (this_func : Ast_Func) : Symbol :=
  { tag := .S_FUNCTION, token := this_func.identifier,
    identifier := this_func.identifier.identifier, type := this_func.type }

/-- The symbol `parse_func` builds for the argument `arg` of the function; its
token is the token of the function name.  An argument that is not a variable
node does not occur. -/
def argument_symbol (this_func : Ast_Func) (arg : Ast_Node) : Symbol :=
  match arg with
  | .type_var v =>
    { tag := .S_FUNC_ARG, token := this_func.identifier,
      identifier := v.identifier.identifier, type := v.type }
  | _ =>
    { tag := .S_FUNC_ARG, token := this_func.identifier, identifier := none,
      type := invalid_type }

/-- The loop `for(size_t i = 0; i < SDCount(result->function.arguments); ++i)`
of `parse_func`. -/
def add_argument_symbols (this_func : Ast_Func) :
    List Ast_Node → File_Contents → Result File_Contents
  | [], f => .ok f
  | arg :: rest, f =>
    (add_symbol f (argument_symbol this_func arg)).bind fun f1 =>
      add_argument_symbols this_func rest f1

/-- The block of `case '\x7d'` in `parse_statement`, which `case tok_break`
runs into as well: `result` is the node built so far. -/
def scope_end_case (f : File_Contents) (result : Ast_Node) : Result (Ast_Node × File_Contents) :=
  let f1 := (advance_token f).2
  f1.current.bind fun token =>
    (pop_scope f1 token).bind fun f2 => .ok (.type_scope_end token result.left, f2)

mutual

/-- The function `parse_file_level_statement`.  The variable `expected` that the
branch `result == NULL` reads is never assigned. -/
def parse_file_level_statement : Nat → File_Contents → Result (Ast_Node × File_Contents)
  | 0, _ => .diverge
  | fuel + 1, f =>
    f.current.bind fun cur =>
      if cur.type == 36 then .ok (.zeroed, f)
      else if cur.type == tok_struct then
        (parse_struct fuel f).bind fun result =>
          (parse_file_level_statement fuel result.2).bind fun left =>
            .ok (result.1.set_left left.1, left.2)
      else if cur.type == tok_func then
        (parse_func fuel f).bind fun result =>
          if result.1.is_null then
            raise_parsing_unexpected_token (.unexpected_token "") result.2
          else .ok result
      else if cur.type == tok_eof then .ok (.null, { f with reached_eof := true })
      else raise_parsing_unexpected_token (.unexpected_token "top level statement") f

/-- The function `parse_func`, from `Token_Iden body = *f->curr_token` on. -/
def parse_func : Nat → File_Contents → Result (Ast_Node × File_Contents)
  | 0, _ => .diverge
  | fuel + 1, f =>
    (parse_func_signature fuel f).bind fun s =>
      let this_func := s.1
      s.2.current.bind fun body =>
        (add_symbol s.2 (function_symbol this_func)).bind fun f1 =>
          if body.type == 123 then
            (add_argument_symbols this_func this_func.arguments f1).bind fun f2 =>
              (parse_body fuel f2 true invalid_token).bind fun left =>
                .ok (.type_func this_func.identifier this_func.arguments this_func.type left.1,
                     left.2)
          else if body.type == 59 then
            (parse_file_level_statement fuel f1).bind fun left =>
              .ok (.type_func this_func.identifier this_func.arguments this_func.type left.1,
                   left.2)
          else raise_parsing_unexpected_token (.unexpected_token "'\x7b' or ';'") f1

/-- The function `parse_body`. -/
def parse_body : Nat → File_Contents → Bool → Token_Iden → Result (Ast_Node × File_Contents)
  | 0, _, _, _ => .diverge
  | fuel + 1, f, is_func, opt_tok =>
    (if opt_tok.file == none then
        f.current.bind fun token => (parser_eat f 123).bind fun f1 => Result.ok (token, f1)
      else Result.ok (opt_tok, f)).bind fun start =>
      start.2.current.bind fun cur =>
        let new_scope : Scope_Info :=
          { has_terminator := false, start_line := to_unsigned_int cur.line, third := 0,
            file := some start.2.path, symbols := [] }
        (parse_statement fuel (push_scope start.2 new_scope)).bind fun right =>
          (if is_func then parse_file_level_statement fuel right.2
            else parse_statement fuel right.2).bind fun left =>
            .ok (.type_scope_start start.1 right.1 left.1, left.2)

/-- The function `parse_statement`.  `parse_for_statement` returns NULL without
reading a token.  `case tok_break` has no `break;` and runs into
`case '\x7d'`. -/
def parse_statement : Nat → File_Contents → Result (Ast_Node × File_Contents)
  | 0, _ => .diverge
  | fuel + 1, f =>
    f.current.bind fun cur =>
      if cur.type == 36 then .fatal (.not_implemented "$ has not been implemented") 0 0
      else if cur.type == 123 then parse_body fuel f false invalid_token
      else if cur.type == tok_if then
        (parse_expression fuel (advance_token f).2 123 false).bind fun condition =>
          (parse_body fuel condition.2 false condition.2.last_read_token).bind fun left =>
            .ok (.type_if condition.1 left.1, left.2)
      else if cur.type == tok_for then .ok (.null, f)
      else if cur.type == tok_star || cur.type == tok_identifier then
        (parse_identifier_statement fuel f).bind fun result =>
          (parse_statement fuel result.2).bind fun left =>
            .ok (result.1.set_left left.1, left.2)
      else if cur.type == tok_arrow then
        let f1 := (advance_token f).2
        f1.current.bind fun token =>
          (parse_expression fuel f1 59 false).bind fun right =>
            (parse_statement fuel right.2).bind fun left =>
              .ok (.type_return token right.1 left.1, left.2)
      else if cur.type == tok_break then
        (parse_statement fuel (advance_token f).2).bind fun left =>
          scope_end_case left.2 (.type_break left.1)
      else if cur.type == 125 then scope_end_case f .zeroed
      else raise_parsing_unexpected_token (.unexpected_token "[ '\x7d' ]") f

end

/-- The function `parse`.  The node of kind `type_root` that it allocates first
is dropped when `root` is assigned the result of `parse_file_level_statement`. -/
def parse (fuel : Nat) (f : File_Contents) : Result (Ast_Node × File_Contents) :=
  f.current.bind fun info_tok =>
    let scope_info : Scope_Info :=
      { has_terminator := false, start_line := to_unsigned_int info_tok.line, third := 0,
        file := info_tok.file, symbols := [] }
    (parse_file_level_statement fuel (push_scope f scope_info)).bind fun root =>
      (if !root.2.reached_eof then
          raise_parsing_unexpected_token (.unexpected_token "end of file") root.2
        else Result.ok ()).bind fun _ =>
        (match root.2.prev_token with
          | some p => root.2.token_at p
          | none => Result.undefined).bind fun prev =>
          (pop_scope root.2 prev).bind fun f1 =>
            if !is_scope_stack_empty f1 then
              raise_semantic_error "not all scopes closed by eof" prev
            else .ok (root.1, f1)

/-! ## The excerpt of a diagnostic (`Errors.cpp`) -/

/-- The read `*p` of a byte of a buffer or of an array. -/
def read_byte (buffer : List Nat) (p : Nat) : Result Nat :=
  match buffer.get? p with
  | some c => .ok c
  | none => .undefined

/-- The first loop of `get_error_segment`: `some` is the value of `scanner` at
the `break`, `none` the exit `return (u8 *)""`.  The comparison
`row == error_token.line - 1` is made in 64 bits without sign. -/
def segment_start : Nat → List Nat → Nat → Nat → Nat → Result (Option Nat)
  | 0, _, _, _, _ => .diverge
  | fuel + 1, data, line, scanner, row =>
    (read_byte data scanner).bind fun c =>
      if c == 0 then .ok none
      else
        (read_byte data (scanner + 1)).bind fun c1 =>
          let row1 := if c1 == 10 then row + 1 else row
          if row1 == (line + 18446744073709551615) % 18446744073709551616 then
            .ok (some (scanner + 1))
          else segment_start fuel data line (scanner + 1) row1

/-- The second loop of `get_error_segment`: `some` holds the value of
`scanner` at the `break`, `last_line_columns` and the array `white_space`;
`none` is the exit `return (u8 *)""`. -/
def segment_end :
    Nat → List Nat → Nat → Nat → Nat → List Nat → Result (Option (Nat × Nat × List Nat))
  | 0, _, _, _, _, _ => .diverge
  | fuel + 1, data, scanner, counter, last_line_columns, white_space =>
    (read_byte data scanner).bind fun c =>
      if c == 0 then
        if counter != 0 then .ok (some (scanner - 1, last_line_columns, white_space))
        else .ok none
      else
        let white_space1 :=
          if counter == 1 then white_space ++ [if c == 9 then 9 else 32] else white_space
        let last_line_columns1 :=
          if counter == 2 then last_line_columns + 1 else last_line_columns
        let counter1 := if c == 10 then counter + 1 else counter
        if counter1 == 3 then .ok (some (scanner, last_line_columns1, white_space1))
        else segment_end fuel data (scanner + 1) counter1 last_line_columns1 white_space1

/-- The loop `while(tick_counter != error_token.column + 1)` of
`get_error_segment`, run `n` times: the bytes it writes. -/
def caret_ticks : Nat → List Nat → Nat → Result (List Nat)
  | 0, _, _ => .ok []
  | n + 1, white_space, white_space_it =>
    let it := if white_space_it == white_space.length then 0 else white_space_it
    (read_byte white_space it).bind fun c =>
      (caret_ticks n white_space (it + 1)).bind fun rest => .ok (c :: rest)

/-- The function `get_error_segment`.  The value is the buffer it returns, up to
the last byte it writes; `""` is the one byte NUL.  The buffer has
`len + last_line_columns + 10` bytes, and a write after its last byte is
`undefined`. -/
def get_error_segment (f : File_Contents) (error_token : Token_Iden) : Result (List Nat) :=
  (segment_start (f.file_data.length + 1) f.file_data error_token.line 0 1).bind fun s =>
    match s with
    | none => .ok [0]
    | some scanner =>
      let start := scanner + 1
      (segment_end (f.file_data.length + 1) f.file_data start 0 0 []).bind fun e =>
        match e with
        | none => .ok [0]
        | some (stop, last_line_columns, white_space) =>
          let len := stop - start + 1
          let ticks := (error_token.column + 1) % 18446744073709551616
          if len + 1 + ticks < len + last_line_columns + 10 then
            (caret_ticks ticks white_space 0).bind fun line =>
              let result := f.slice start (start + len) ++ [10] ++ line
              .ok (((result.set (len + 1 + ticks - 2) 94).set (len + 1 + ticks - 1) 94)
                    ++ [94])
          else .undefined

/-! ## The stack (`Stack.h`) -/

/-- The functions of `SimpleDArray.h` that `Stack.h` calls.  That header is not
under src/, so the two functions are parameters; a dynamic array is the list of
its slots. -/
structure SimpleDArray (α : Type) where
  _ISimpleDArrayCreate : Int → List α
  _ISimpleDArrayInsert : List α → α → Int → List α

/-- The record `Stack`.  The slots of `type_size` bytes are values of type `α`. -/
structure Stack (α : Type) where
  d_array_ptr : List α
  top : Int
  default_value : Int
  type_size : Int
deriving DecidableEq, Repr

/-- The constant `STACK_DEFAULT_VALUE`. -/
def STACK_DEFAULT_VALUE : Int := -2147483647 - 1

/-- Whether a value is in the range of the type `i32`; an `i32` operation whose
result is not has no defined result. -/
def fits_i32 (n : Int) : Bool := decide (-2147483648 ≤ n) && decide (n ≤ 2147483647)

/-- The function `_stack_allocate`. -/
def _stack_allocate {α : Type} (lib : SimpleDArray α) (type_size : Int) : Stack α :=
  { d_array_ptr := lib._ISimpleDArrayCreate type_size, top := -1,
    default_value := STACK_DEFAULT_VALUE, type_size := type_size }

/-- The function `_stack_push`. -/
def _stack_push {α : Type} (lib : SimpleDArray α) (s : Stack α) (item : α) :
    Result (Stack α) :=
  if fits_i32 (s.top + 1) then
    .ok { s with top := s.top + 1,
                 d_array_ptr := lib._ISimpleDArrayInsert s.d_array_ptr item (s.top + 1) }
  else .undefined

/-- The function `_stack_pop`.  The pointer it returns is `none` for NULL and
`some k` for `d_array_ptr + k * type_size`, the address of slot `k`. -/
def _stack_pop {α : Type} (s : Stack α) : Result (Option Int × Stack α) :=
  if s.top == -1 then .ok (none, s)
  else if fits_i32 (s.top * s.type_size) && fits_i32 (s.top - 1) then
    .ok (some s.top, { s with top := s.top - 1 })
  else .undefined

/-- The function `_stack_peek`, with the stack it leaves. -/
def _stack_peek {α : Type} (s : Stack α) : Result (Option Int × Stack α) :=
  if s.top == -1 then .ok (none, s)
  else if fits_i32 (s.top * s.type_size) then .ok (some s.top, s)
  else .undefined

/-- The macro `is_stack_empty`. -/
def is_stack_empty {α : Type} (s : Stack α) : Bool := s.top == -1

/-- The read `*(type *)p` of a slot through a pointer that `_stack_pop` or
`_stack_peek` returned. -/
def read_slot {α : Type} (s : Stack α) (p : Option Int) : Result α :=
  match p with
  | none => .undefined
  | some k =>
    if 0 ≤ k then
      match s.d_array_ptr.get? k.toNat with
      | some x => .ok x
      | none => .undefined
    else .undefined

/-- The macro `stack_push`. -/
def stack_push {α : Type} (lib : SimpleDArray α) (s : Stack α) (item : α) :
    Result (Stack α) :=
  _stack_push lib s item

/-- The macro `stack_pop`: the value of the slot `_stack_pop` returns. -/
def stack_pop {α : Type} (s : Stack α) : Result (α × Stack α) :=
  (_stack_pop s).bind fun r => (read_slot r.2 r.1).bind fun x => .ok (x, r.2)

/-- The macro `stack_peek`. -/
def stack_peek {α : Type} (s : Stack α) : Result (α × Stack α) :=
  (_stack_peek s).bind fun r => (read_slot r.2 r.1).bind fun x => .ok (x, r.2)

/-! ## Types in the back end (`LLVM_Helpers.cpp`) -/

/-- The enumerators of the sizes of the primitive types.  The enumeration is
declared in `Type.h`, which is not under src/; the values are the positions of
the names in the table `type_names`, which `to_debug_type` indexes with them. -/
def byte1 : Nat := 1

def byte2 : Nat := 2

def byte4 : Nat := 3

def byte8 : Nat := 4

def ubyte1 : Nat := 5

def ubyte2 : Nat := 6

def ubyte4 : Nat := 7

def ubyte8 : Nat := 8

def real32 : Nat := 9

def real64 : Nat := 10

/-- The types of LLVM that `apoc_type_to_llvm` returns. -/
inductive LLVM_Type where
  | integer (bits : Nat)
  | float_type
  | double_type
  | pointer (pointee : LLVM_Type)
  | struct_type (name : List Nat)
  | void_type
deriving DecidableEq, Repr

/-- The table `llvm_int_types`: each function is the type it returns, `none` is
the NULL of index 0. -/
def llvm_int_types : List (Option LLVM_Type) :=
  [ none, some (.integer 8), some (.integer 16), some (.integer 32), some (.integer 64),
    some (.integer 8), some (.integer 16), some (.integer 32), some (.integer 64) ]

/-- The table `type_names`. -/
def type_names : List (List Nat) :=
  [ bytes "", bytes "i8", bytes "i16", bytes "i32", bytes "i64", bytes "u8", bytes "u16",
    bytes "u32", bytes "u64", bytes "f32", bytes "f64" ]

/-- The kind of a type; a pointer type has the kind `T_POINTER`, which is the
constructor `pointer` here. -/
def Type_Info.is_pointer : Type_Info → Bool
  | .pointer _ _ _ => true
  | .plain _ _ _ _ => false

/-- The field `type` of a type that is not a pointer. -/
def Type_Info.kind : Type_Info → Option Type_Type
  | .plain type _ _ _ => some type
  | .pointer _ _ _ => none

/-- The field `primitive.size`. -/
def Type_Info.size : Type_Info → Nat
  | .plain _ primitive_size _ _ => primitive_size
  | .pointer _ _ _ => 0

/-- The field `identifier`. -/
def Type_Info.identifier : Type_Info → Option (List Nat)
  | .plain _ _ identifier _ => identifier
  | .pointer _ identifier _ => identifier

/-- The assignment `type.primitive.size = size`. -/
def Type_Info.set_size : Type_Info → Nat → Type_Info
  | .plain type _ identifier token, size => .plain type size identifier token
  | .pointer pointed identifier token, _ => .pointer pointed identifier token

/-- Modelled from the spec: `is_untyped` is declared in a header that is not
under src/.  The kinds "untyped-integer and untyped-float". -/
def is_untyped (type : Type_Info) : Bool :=
  type.kind == some .T_UNTYPED_INTEGER || type.kind == some .T_UNTYPED_FLOAT

/-- Modelled from the spec: `is_integer` is declared in a header that is not
under src/.  An integer or an untyped integer. -/
def is_integer (type : Type_Info) : Bool :=
  type.kind == some .T_INTEGER || type.kind == some .T_UNTYPED_INTEGER

/-- Modelled from the spec: `is_float` is declared in a header that is not under
src/.  A float or an untyped float. -/
def is_float (type : Type_Info) : Bool :=
  type.kind == some .T_FLOAT || type.kind == some .T_UNTYPED_FLOAT

/-- Modelled from the spec: `is_signed` is declared in a header that is not
under src/.  "`byte1..byte8` (signed integers 8..64 bit), `ubyte1..ubyte8`
(unsigned 8..64 bit)": the sizes up to `byte8` are the signed ones. -/
def is_signed (type : Type_Info) : Bool :=
  decide (type.size ≤ byte8)

/-- Modelled from the spec: `vstd_strcmp` of stdlib/std.h, which is not under
src/.  It holds when the two strings are equal. -/
def vstd_strcmp (a b : List Nat) : Bool := c_string a == c_string b

/-- The function `apoc_type_to_llvm`.  The table `backend.struct_types` is the
argument `struct_types`; a call through the NULL of `llvm_int_types`, or through
an entry after its end, has no defined result. -/
def apoc_type_to_llvm (struct_types : List (List Nat × LLVM_Type)) :
    Type_Info → Result LLVM_Type
  | .pointer pointed _ _ =>
    (apoc_type_to_llvm struct_types pointed).bind fun base_type => .ok (.pointer base_type)
  | .plain kind size identifier token =>
    let type := Type_Info.plain kind size identifier token
    if is_untyped type && is_integer type then .ok (.integer 64)
    else if is_untyped type && is_float type then .ok .double_type
    else if is_integer type then
      match llvm_int_types.get? size with
      | some (some t) => .ok t
      | _ => .undefined
    else if is_float type then
      if size == real32 then .ok .float_type
      else if size == real64 then .ok .double_type
      else .fatal .assertion_failed 0 0
    else if kind == .T_BOOLEAN then .ok (.integer 1)
    else if kind == .T_STRING then .ok (.pointer (.integer 8))
    else if kind == .T_STRUCT then
      match identifier with
      | some name =>
        match struct_types.find? (fun kv => c_string kv.1 == c_string name) with
        | some kv => .ok kv.2
        | none => .undefined
      | none => .undefined
    else if kind == .T_VOID then .ok .void_type
    else .fatal .assertion_failed 0 0

/-- The encodings `dwarf::DW_ATE_*` that `to_debug_type` passes. -/
inductive DW_ATE where
  | DW_ATE_signed
  | DW_ATE_unsigned
  | DW_ATE_float
  | DW_ATE_boolean
deriving DecidableEq, Repr

/-- The debug types `to_debug_type` creates, each with the arguments of the
call of the builder that creates it; of a struct type the name is kept. -/
inductive DIType where
  | basic (name : List Nat) (size_in_bits : Nat) (encoding : DW_ATE)
  | pointer (pointee : DIType) (size_in_bits : Nat)
  | struct_type (name : List Nat)
deriving DecidableEq, Repr

/-- The static variables of `to_debug_type`: the array `debug_types` of 16
entries and the two function-level caches; `none` is NULL. -/
structure Debug_Types where
  debug_types : List (Option DIType) := List.replicate 16 none
  bool_debug_type : Option DIType := none
  string_type : Option DIType := none
deriving DecidableEq, Repr

/-- The conversion of an `int` to the parameter `uint64_t SizeInBits`. -/
def to_uint64 (n : Int) : Nat := (n % 18446744073709551616).toNat

/-- The branch `is_integer(type)` of `to_debug_type`. -/
def to_debug_type_integer (type : Type_Info) (cache : Debug_Types) :
    Result (DIType × Debug_Types) :=
  match cache.debug_types.get? type.size with
  | none => .undefined
  | some (some result) => .ok (result, cache)
  | some none =>
    match type_names.get? type.size with
    | none => .undefined
    | some name =>
      let result :=
        if is_signed type then
          DIType.basic name (to_uint64 (8 * (type.size : Int))) .DW_ATE_signed
        else
          DIType.basic name (to_uint64 (8 * ((type.size : Int) - 4))) .DW_ATE_unsigned
      .ok (result, { cache with debug_types := cache.debug_types.set type.size (some result) })

/-- The function `to_debug_type`.  The table `debug->symbol_map` is not
represented: the debug type of a struct keeps the identifier it is looked up
with. -/
def to_debug_type : Type_Info → Debug_Types → Result (DIType × Debug_Types)
  | .pointer pointed _ _, cache =>
    (to_debug_type pointed cache).bind fun r => .ok (.pointer r.1 64, r.2)
  | .plain kind size identifier token, cache =>
    let type := Type_Info.plain kind size identifier token
    if is_integer type then to_debug_type_integer type cache
    else if is_float type then
      match cache.debug_types.get? size with
      | none => .undefined
      | some (some result) => .ok (result, cache)
      | some none =>
        match type_names.get? size with
        | none => .undefined
        | some name =>
          if size == real32 then
            .ok (.basic name 32 .DW_ATE_float,
                 { cache with debug_types :=
                     cache.debug_types.set size (some (.basic name 32 .DW_ATE_float)) })
          else if size == real64 then
            .ok (.basic name 64 .DW_ATE_float,
                 { cache with debug_types :=
                     cache.debug_types.set size (some (.basic name 64 .DW_ATE_float)) })
          else .fatal .assertion_failed 0 0
    else if kind == .T_BOOLEAN then
      match cache.bool_debug_type with
      | some result => .ok (result, cache)
      | none =>
        .ok (.basic (bytes "bool") 8 .DW_ATE_boolean,
             { cache with bool_debug_type := some (.basic (bytes "bool") 8 .DW_ATE_boolean) })
    else if kind == .T_STRING then
      match cache.string_type with
      | some result => .ok (result, cache)
      | none =>
        (to_debug_type_integer (.plain .T_INTEGER ubyte1 none Token_Iden.zero) cache).bind
          fun u8_debug =>
            .ok (.pointer u8_debug.1 64,
                 { u8_debug.2 with string_type := some (.pointer u8_debug.1 64) })
    else if kind == .T_STRUCT then
      match identifier with
      | some name => .ok (.struct_type name, cache)
      | none => .undefined
    else .fatal .assertion_failed 0 0

/-- The cast instructions `Instruction::CastOps` that `get_cast_type` returns. -/
inductive CastOps where
  | ZExt
  | SExt
  | Trunc
  | FPTrunc
  | FPExt
  | SIToFP
  | UIToFP
  | PtrToInt
  | FPToSI
  | IntToPtr
deriving DecidableEq, Repr

/-- The subtraction `size - 4` in the type `size_t`. -/
def size_minus_4 (size : Nat) : Nat := (size + 18446744073709551612) % 18446744073709551616

/-- The assignments `primitive.size = byte8` and `primitive.size = real64` that
`get_cast_type` makes to an untyped type. -/
def typed_size (type : Type_Info) : Type_Info :=
  if is_untyped type then
    if is_integer type then type.set_size byte8
    else if is_float type then type.set_size real64
    else type
  else type

/-- The function `get_cast_type`: the instruction it returns and the value it
leaves in `*should_cast`.  The parameters `to` and `from` are `to_type` and
`from_type`. -/
def get_cast_type (to_type from_type : Type_Info) : Result (CastOps × Bool) :=
  let same :=
    match to_type.identifier, from_type.identifier with
    | some a, some b => vstd_strcmp a b
    | _, _ => false
  if same then .ok (.ZExt, false)
  else
    let to_type := typed_size to_type
    let from_type := typed_size from_type
    if is_float to_type then
      if is_float from_type then
        if from_type.size > to_type.size then .ok (.FPTrunc, true)
        else if from_type.size < to_type.size then .ok (.FPExt, true)
        else .ok (.ZExt, false)
      else if is_integer from_type then
        if is_signed from_type then .ok (.SIToFP, true) else .ok (.UIToFP, true)
      else .ok (.ZExt, false)
    else if is_integer to_type then
      if is_signed to_type then
        if is_integer from_type then
          if is_signed from_type then
            if from_type.size < to_type.size then .ok (.ZExt, true)
            else if from_type.size > to_type.size then .ok (.Trunc, true)
            else .ok (.ZExt, false)
          else
            let signed_size := size_minus_4 from_type.size
            if signed_size < to_type.size then .ok (.SExt, true)
            else if signed_size > to_type.size then .ok (.Trunc, true)
            else .ok (.SExt, true)
        else if from_type.is_pointer then .ok (.PtrToInt, true)
        else if is_float from_type then .ok (.FPToSI, true)
        else .fatal .assertion_failed 0 0
      else
        let to_size := size_minus_4 to_type.size
        if is_integer from_type then
          if is_signed from_type then
            if from_type.size < to_size then .ok (.ZExt, true)
            else if from_type.size > to_size then .ok (.Trunc, true)
            else .ok (.ZExt, false)
          else
            let signed_size := size_minus_4 from_type.size
            if signed_size < to_size then .ok (.ZExt, true)
            else if signed_size > to_size then .ok (.Trunc, true)
            else .ok (.ZExt, false)
        else if is_float from_type then .ok (.FPToSI, true)
        else .fatal .assertion_failed 0 0
    else if !to_type.is_pointer then .fatal .assertion_failed 0 0
    else if is_integer from_type then .ok (.IntToPtr, true)
    else .fatal .assertion_failed 0 0

/-! ## Definitions used to state the properties -/

/-- The state after the scan has moved over `n` bytes, none of them a newline. -/
def File_Contents.moved (f : File_Contents) (n : Nat) : File_Contents :=
  { f with pos := f.pos + n, current_column := f.current_column + n }

/-- What every scanning step leaves alone. -/
def Frame (f g : File_Contents) : Prop :=
  g.token_buffer = f.token_buffer ∧ g.path = f.path

/-- A scanning step that does not rewrite the buffer either. -/
def FrameData (f g : File_Contents) : Prop :=
  g.file_data = f.file_data ∧ g.token_buffer = f.token_buffer ∧ g.path = f.path

/-- The kinds C2 rules out before the last token, apart from kind 0. -/
def KindOk (t : Token) : Prop :=
  t ≠ tok_eof ∧ ∀ c : Nat, is_whitespace c = true → t ≠ Int.ofNat c

/-- The 1-indexed (line, column) of the byte at `offset` of a buffer: lines end
at a newline byte, which is the last column of its line. -/
def position_of (src : List Nat) (offset : Nat) : Nat × Nat :=
  (src.take offset).foldl (fun p c => if c = 10 then (p.1 + 1, 1) else (p.1, p.2 + 1)) (1, 1)

/-- The buffer `lex_file` leaves behind, when it returns. -/
def lex_buffer (src : List Nat) : Result (List Nat) :=
  (lex_file [] src).bind fun f => .ok f.file_data

/-- The value of a hexadecimal digit of either case: its place among the
digits `0123456789abcdef` or `0123456789ABCDEF`. -/
def hex_digit (c : Nat) : Nat :=
  min ([48, 49, 50, 51, 52, 53, 54, 55, 56, 57, 97, 98, 99, 100, 101, 102].indexOf c)
    ([48, 49, 50, 51, 52, 53, 54, 55, 56, 57, 65, 66, 67, 68, 69, 70].indexOf c)

/-- The value of a run of hexadecimal digits, most significant digit first. -/
def hex_value (h : List Nat) : Nat :=
  h.foldl (fun acc c => acc * 16 + hex_digit c) 0

/-- The decimal string of a number, as bytes. -/
def decimal_string (v : Nat) : List Nat := bytes (toString v)

/-- The escapes of the spec with the byte each stands for. -/
def escape_table : List (Nat × Nat) :=
  [ (97, 7), (98, 8), (102, 12), (110, 10), (114, 13), (116, 9), (118, 11),
    (92, 92), (39, 39), (34, 34), (63, 63), (48, 0) ]

/-- The byte an escape letter stands for, if it is one of the spec's escapes. -/
def escape_value (c : Nat) : Option Nat :=
  (escape_table.find? (fun kv => kv.1 == c)).map Prod.snd

/-- One element of the body of a string literal: an ordinary byte, or a
backslash followed by an escape letter. -/
inductive StrItem where
  | plain (c : Nat)
  | esc (c : Nat)
deriving DecidableEq, Repr

/-- The source bytes of an element. -/
def StrItem.encode : StrItem → List Nat
  | .plain c => [c]
  | .esc c => [92, c]

/-- The byte an element denotes. -/
def StrItem.decode : StrItem → Nat
  | .plain c => c
  | .esc c => (escape_value c).getD 1

/-- An ordinary byte is not a quote, a backslash or NUL; an escape letter is
one of the spec's. -/
def StrItem.valid : StrItem → Prop
  | .plain c => c ≠ 34 ∧ c ≠ 92 ∧ c ≠ 0
  | .esc c => (escape_value c).isSome = true

instance (i : StrItem) : Decidable i.valid := by
  cases i <;> unfold StrItem.valid <;> infer_instance

/-- The source bytes of a body. -/
def encode_body (body : List StrItem) : List Nat := (body.map StrItem.encode).flatten

/-- The bytes a body denotes. -/
def decode_body (body : List StrItem) : List Nat := body.map StrItem.decode

/-- The state after `n` calls of `advance_token`. -/
def advance_tokens : Nat → File_Contents → File_Contents
  | 0, f => f
  | n + 1, f => advance_tokens n (advance_token f).2

/-- The tokens that `parse_operand` turns into a node by themselves. -/
def is_operand_token (t : Token_Iden) : Prop :=
  t.type = tok_identifier ∨ t.type = tok_number ∨ t.type = tok_const_str

instance (t : Token_Iden) : Decidable (is_operand_token t) := by
  unfold is_operand_token
  infer_instance

/-- The node `parse_operand` builds from an operand token. -/
def operand_node (t : Token_Iden) : Ast_Node :=
  if t.type = tok_identifier then .identifier t
  else if t.type = tok_number then .literal t
  else .const_str t

/-- The kinds of the binary operators: the entries of the table of
`get_precedence` apart from `++ -- ( [`, which `parse_atom_expression` takes as
postfix operators before the binary loop sees them. -/
def binary_operators : List Token :=
  [ 42, 47, 37, 43, 45, tok_bits_lshift, tok_bits_rshift, 62, 60,
    tok_logical_gequal, tok_logical_lequal, tok_logical_is, tok_logical_isnot,
    tok_bits_and, tok_bits_xor, tok_bits_or, tok_logical_and, tok_logical_or ]

/-- The kinds at which `parse_atom_expression` continues an operand. -/
def postfix_starts : List Token := [40, 123, 91, 46, tok_plusplus, tok_minusminus]

/-- The binary node `parse_binary_expression` builds for an operator token. -/
def binary_node (op : Token_Iden) (left right : Ast_Node) : Ast_Node :=
  .binary_expr op.type op left right

/-- The tokens of the source `a - b - c;`. -/
def tokens_a_minus_b_minus_c : List Token_Iden :=
  [ ⟨some [97, 0], some [], tok_identifier, 1, 1⟩, ⟨none, some [], 45, 1, 3⟩,
    ⟨some [98, 0], some [], tok_identifier, 1, 5⟩, ⟨none, some [], 45, 1, 7⟩,
    ⟨some [99, 0], some [], tok_identifier, 1, 9⟩, ⟨none, some [], 59, 1, 10⟩,
    ⟨none, some [], tok_eof, 1, 11⟩ ]

/-- The tokens of the source `a + b * c;`. -/
def tokens_a_plus_b_times_c : List Token_Iden :=
  [ ⟨some [97, 0], some [], tok_identifier, 1, 1⟩, ⟨none, some [], 43, 1, 3⟩,
    ⟨some [98, 0], some [], tok_identifier, 1, 5⟩, ⟨none, some [], 42, 1, 7⟩,
    ⟨some [99, 0], some [], tok_identifier, 1, 9⟩, ⟨none, some [], 59, 1, 10⟩,
    ⟨none, some [], tok_eof, 1, 11⟩ ]

/-- The tokens of the source `a * b + c;`. -/
def tokens_a_times_b_plus_c : List Token_Iden :=
  [ ⟨some [97, 0], some [], tok_identifier, 1, 1⟩, ⟨none, some [], 42, 1, 3⟩,
    ⟨some [98, 0], some [], tok_identifier, 1, 5⟩, ⟨none, some [], 43, 1, 7⟩,
    ⟨some [99, 0], some [], tok_identifier, 1, 9⟩, ⟨none, some [], 59, 1, 10⟩,
    ⟨none, some [], tok_eof, 1, 11⟩ ]

/-- The table of binding powers as the specification gives it for an
operator on the left-hand side: the operator kinds of a row and their power. -/
def precedence_table : List (List Token × Int) :=
  [ ([tok_plusplus, tok_minusminus, 40, 91], 35),
    ([42, 47, 37], 33),
    ([43, 45], 31),
    ([tok_bits_lshift, tok_bits_rshift], 29),
    ([60, 62, tok_logical_lequal, tok_logical_gequal], 27),
    ([tok_logical_is, tok_logical_isnot], 25),
    ([38], 23),
    ([94], 21),
    ([124], 19),
    ([tok_logical_and], 17),
    ([tok_logical_or], 15) ]

/-- The binding power the specification gives a token kind: the power of its
row, one less when `is_lhs` is false, and 0 for a kind that is in no row. -/
def table_precedence (op : Token) (is_lhs : Bool) : Int :=
  match precedence_table.find? (fun row => row.1.contains op) with
  | some row => if is_lhs then row.2 else row.2 - 1
  | none => 0

/-- The kinds of the prefix operators `* @ - ! ++ --`. -/
def prefix_operators : List Token := [42, 64, tok_minus, tok_not, tok_plusplus, tok_minusminus]

/-- The unary node `parse_unary_expression` builds for a prefix operator. -/
def unary_node (op : Token_Iden) (expression : Ast_Node) : Ast_Node :=
  .unary_expr op expression

/-- The tokens of the source `*x + 1;`. -/
def tokens_star_x_plus_1 : List Token_Iden :=
  [ ⟨none, some [], 42, 1, 1⟩, ⟨some [120, 0], some [], tok_identifier, 1, 2⟩,
    ⟨none, some [], 43, 1, 4⟩, ⟨some [49, 0], some [], tok_number, 1, 6⟩,
    ⟨none, some [], 59, 1, 7⟩, ⟨none, some [], tok_eof, 1, 8⟩ ]

/-- What a call did, without the value it returned. -/
def outcome {α : Type} (r : Result α) : Result Unit := r.bind fun _ => .ok ()

/-- The symbols of each frame of the scope stack, innermost frame first, as
kind and name. -/
def frame_symbols (f : File_Contents) : List (List (Symbol_Type × Option (List Nat))) :=
  f.scope_stack.map fun scope => scope.symbols.map fun s => (s.tag, s.identifier)

/-- The frame `parse` pushes for a file whose first token is on line 1. -/
def global_frame : Scope_Info :=
  { has_terminator := false, start_line := 1, third := 0, file := some [], symbols := [] }

/-- The kinds of a list of tokens. -/
def token_kinds (tokens : List Token_Iden) : List Token := tokens.map fun t => t.type

/-- The tokens of the source `fn f() -> i32;`. -/
def tokens_prototype : List Token_Iden :=
  [ ⟨none, some [], tok_func, 1, 1⟩, ⟨some [102, 0], some [], tok_identifier, 1, 4⟩,
    ⟨none, some [], 40, 1, 5⟩, ⟨none, some [], 41, 1, 6⟩, ⟨none, some [], tok_arrow, 1, 8⟩,
    ⟨some [105, 51, 50, 0], some [], tok_identifier, 1, 11⟩, ⟨none, some [], 59, 1, 14⟩,
    ⟨none, some [], tok_eof, 1, 15⟩ ]

/-- The tokens of the source `fn f(x : i32) -> void \x7b \x7d`. -/
def tokens_func_with_parameter : List Token_Iden :=
  [ ⟨none, some [], tok_func, 1, 1⟩, ⟨some [102, 0], some [], tok_identifier, 1, 4⟩,
    ⟨none, some [], 40, 1, 5⟩, ⟨some [120, 0], some [], tok_identifier, 1, 6⟩,
    ⟨none, some [], 58, 1, 8⟩, ⟨some [105, 51, 50, 0], some [], tok_identifier, 1, 10⟩,
    ⟨none, some [], 41, 1, 13⟩, ⟨none, some [], tok_arrow, 1, 15⟩,
    ⟨some [118, 111, 105, 100, 0], some [], tok_identifier, 1, 18⟩,
    ⟨none, some [], 123, 1, 23⟩, ⟨none, some [], 125, 1, 25⟩,
    ⟨none, some [], tok_eof, 1, 26⟩ ]

/-- The tokens of the source `fn f() -> void \x7b break for`. -/
def tokens_break_for : List Token_Iden :=
  [ ⟨none, some [], tok_func, 1, 1⟩, ⟨some [102, 0], some [], tok_identifier, 1, 4⟩,
    ⟨none, some [], 40, 1, 5⟩, ⟨none, some [], 41, 1, 6⟩, ⟨none, some [], tok_arrow, 1, 8⟩,
    ⟨some [118, 111, 105, 100, 0], some [], tok_identifier, 1, 11⟩,
    ⟨none, some [], 123, 1, 16⟩, ⟨none, some [], tok_break, 1, 18⟩,
    ⟨none, some [], tok_for, 1, 24⟩, ⟨none, some [], tok_eof, 1, 27⟩ ]

/-- The tokens of the source `fn f() -> void \x7b break \x7d ;`. -/
def tokens_break_close : List Token_Iden :=
  [ ⟨none, some [], tok_func, 1, 1⟩, ⟨some [102, 0], some [], tok_identifier, 1, 4⟩,
    ⟨none, some [], 40, 1, 5⟩, ⟨none, some [], 41, 1, 6⟩, ⟨none, some [], tok_arrow, 1, 8⟩,
    ⟨some [118, 111, 105, 100, 0], some [], tok_identifier, 1, 11⟩,
    ⟨none, some [], 123, 1, 16⟩, ⟨none, some [], tok_break, 1, 18⟩,
    ⟨none, some [], 125, 1, 24⟩, ⟨none, some [], 59, 1, 26⟩,
    ⟨none, some [], tok_eof, 1, 27⟩ ]

/-- The tokens of the source `fn f() -> \x7b \x7d`. -/
def tokens_func_without_type : List Token_Iden :=
  [ ⟨none, some [], tok_func, 1, 1⟩, ⟨some [102, 0], some [], tok_identifier, 1, 4⟩,
    ⟨none, some [], 40, 1, 5⟩, ⟨none, some [], 41, 1, 6⟩, ⟨none, some [], tok_arrow, 1, 8⟩,
    ⟨none, some [], 123, 1, 11⟩, ⟨none, some [], 125, 1, 13⟩,
    ⟨none, some [], tok_eof, 1, 14⟩ ]

/-- The tokens of the source `fn f() -> i32 \x7b \x7d`. -/
def tokens_func_with_type : List Token_Iden :=
  [ ⟨none, some [], tok_func, 1, 1⟩, ⟨some [102, 0], some [], tok_identifier, 1, 4⟩,
    ⟨none, some [], 40, 1, 5⟩, ⟨none, some [], 41, 1, 6⟩, ⟨none, some [], tok_arrow, 1, 8⟩,
    ⟨some [105, 51, 50, 0], some [], tok_identifier, 1, 11⟩,
    ⟨none, some [], 123, 1, 15⟩, ⟨none, some [], 125, 1, 17⟩,
    ⟨none, some [], tok_eof, 1, 18⟩ ]

/-- Modelled from the spec: the registry entry of the primitive type `i32`, a
signed integer of size `byte4` (the third of the sizes). -/
def i32_entry : List Nat × Type_Info :=
  ([105, 51, 50, 0], .plain .T_INTEGER 3 (some [105, 51, 50, 0]) Token_Iden.zero)

/-- The node `ast_assignment_from_decl` builds. -/
def declaration_node (lhs rhs : Ast_Node) (decl_type : Type_Info) (error_token : Token_Iden)
    (is_const : Bool) : Ast_Node :=
  .type_assignment true lhs rhs error_token 61 is_const decl_type .null

/-- The type of a declaration without type: kind `T_DETECT`, all else zero. -/
def detect_type : Type_Info := .plain .T_DETECT 0 none Token_Iden.zero

/-- The tokens of the source `x := 1;`. -/
def tokens_declaration : List Token_Iden :=
  [ ⟨some [120, 0], some [], tok_identifier, 1, 1⟩, ⟨none, some [], 58, 1, 3⟩,
    ⟨none, some [], 61, 1, 4⟩, ⟨some [49, 0], some [], tok_number, 1, 6⟩,
    ⟨none, some [], 59, 1, 7⟩, ⟨none, some [], tok_eof, 1, 8⟩ ]

/-- The tokens of the source `x :: i32 = 1;`. -/
def tokens_const_declaration : List Token_Iden :=
  [ ⟨some [120, 0], some [], tok_identifier, 1, 1⟩, ⟨none, some [], tok_const, 1, 3⟩,
    ⟨some [105, 51, 50, 0], some [], tok_identifier, 1, 6⟩, ⟨none, some [], 61, 1, 10⟩,
    ⟨some [49, 0], some [], tok_number, 1, 12⟩, ⟨none, some [], 59, 1, 13⟩,
    ⟨none, some [], tok_eof, 1, 14⟩ ]

/-- The tokens of the source `x : i32 ;`. -/
def tokens_declaration_without_value : List Token_Iden :=
  [ ⟨some [120, 0], some [], tok_identifier, 1, 1⟩, ⟨none, some [], 58, 1, 3⟩,
    ⟨some [105, 51, 50, 0], some [], tok_identifier, 1, 5⟩, ⟨none, some [], 59, 1, 9⟩,
    ⟨none, some [], tok_eof, 1, 10⟩ ]

/-- Where the name of a struct member stands: at the cursor for the first
member, after a `;` for a later one. -/
def member_start : Bool → File_Contents → File_Contents → Prop
  | false, g, start => start = g
  | true, g, start =>
    (∃ semi : Token_Iden, g.token_buffer.get? g.curr_token = some semi ∧ semi.type = 59)
      ∧ start = (advance_token g).2

/-- One member `name : Type` of a struct body, from the state `g` to the state
`g1`: the name is an identifier, a `:` follows, and `parse_type` returns the
type of the member for the tokens after it. -/
def member_step (later : Bool) (g : File_Contents) (v : Ast_Variable) (g1 : File_Contents) :
    Prop :=
  ∃ (start : File_Contents) (colon : Token_Iden),
    member_start later g start
    ∧ start.token_buffer.get? start.curr_token = some v.identifier
    ∧ v.identifier.type = tok_identifier
    ∧ start.token_buffer.get? (start.curr_token + 1) = some colon ∧ colon.type = 58
    ∧ parse_type (start.token_buffer.length + 1)
        { (advance_tokens 2 start) with last_read_token := colon } = .ok (v.type, g1)
    ∧ v.is_const = false

/-- The members `m1 : T1; ...; mk : Tk` of a struct body, from the state `g`
to the state `g1`. -/
def member_run : Bool → File_Contents → List Ast_Variable → File_Contents → Prop
  | _, g, [], g1 => g1 = g
  | later, g, v :: vs, g1 => ∃ g2, member_step later g v g2 ∧ member_run true g2 vs g1

/-- The tokens of the source `struct V \x7b x : i32; y : *i32 \x7d`. -/
def tokens_struct : List Token_Iden :=
  [ ⟨none, some [], tok_struct, 1, 1⟩, ⟨some [86, 0], some [], tok_identifier, 1, 8⟩,
    ⟨none, some [], 123, 1, 10⟩, ⟨some [120, 0], some [], tok_identifier, 1, 12⟩,
    ⟨none, some [], 58, 1, 14⟩, ⟨some [105, 51, 50, 0], some [], tok_identifier, 1, 16⟩,
    ⟨none, some [], 59, 1, 19⟩, ⟨some [121, 0], some [], tok_identifier, 1, 21⟩,
    ⟨none, some [], 58, 1, 23⟩, ⟨none, some [], 42, 1, 25⟩,
    ⟨some [105, 51, 50, 0], some [], tok_identifier, 1, 26⟩, ⟨none, some [], 125, 1, 30⟩,
    ⟨none, some [], tok_eof, 1, 31⟩ ]

/-- The tokens of the source `struct V \x7b \x7d`. -/
def tokens_empty_struct : List Token_Iden :=
  [ ⟨none, some [], tok_struct, 1, 1⟩, ⟨some [86, 0], some [], tok_identifier, 1, 8⟩,
    ⟨none, some [], 123, 1, 10⟩, ⟨none, some [], 125, 1, 12⟩,
    ⟨none, some [], tok_eof, 1, 13⟩ ]

/-- The tokens of the source `*-a = 1;`. -/
def tokens_deref_minus : List Token_Iden :=
  [ ⟨none, some [], 42, 1, 1⟩, ⟨none, some [], 45, 1, 2⟩,
    ⟨some [97, 0], some [], tok_identifier, 1, 3⟩, ⟨none, some [], 61, 1, 5⟩,
    ⟨some [49, 0], some [], tok_number, 1, 7⟩, ⟨none, some [], 59, 1, 8⟩,
    ⟨none, some [], tok_eof, 1, 9⟩ ]

/-- The tokens of the source `*(a) = 1;`. -/
def tokens_deref_paren : List Token_Iden :=
  [ ⟨none, some [], 42, 1, 1⟩, ⟨none, some [], 40, 1, 2⟩,
    ⟨some [97, 0], some [], tok_identifier, 1, 3⟩, ⟨none, some [], 41, 1, 4⟩,
    ⟨none, some [], 61, 1, 6⟩, ⟨some [49, 0], some [], tok_number, 1, 8⟩,
    ⟨none, some [], 59, 1, 9⟩, ⟨none, some [], tok_eof, 1, 10⟩ ]

/-- The prefix operators other than `*`. -/
def rejected_prefix_operators : List Token :=
  [64, tok_minus, tok_not, tok_plusplus, tok_minusminus]

/-- The tokens of the source `1 = 2;`. -/
def tokens_literal_assignment : List Token_Iden :=
  [ ⟨some [49, 0], some [], tok_number, 1, 1⟩, ⟨none, some [], 61, 1, 3⟩,
    ⟨some [50, 0], some [], tok_number, 1, 5⟩, ⟨none, some [], 59, 1, 6⟩,
    ⟨none, some [], tok_eof, 1, 7⟩ ]

/-- The state `g` comes after the state `f` in the same token buffer: the
cursor has not moved back and `reached_eof` is as it was. -/
def Advances (f g : File_Contents) : Prop :=
  g.token_buffer = f.token_buffer ∧ f.curr_token ≤ g.curr_token ∧ g.reached_eof = f.reached_eof

/-- Every state a call returns satisfies `Q`. -/
def Returns {α : Type} (m : Result (α × File_Contents)) (Q : File_Contents → Prop) : Prop :=
  ∀ (a : α) (g : File_Contents), m = .ok (a, g) → Q g

/-- The token at position `p` has kind `k`. -/
def kind_at (tokens : List Token_Iden) (p : Nat) (k : Token) : Bool :=
  match tokens.get? p with
  | some t => t.type == k
  | none => false

/-- Following the links `left` from `node` visits, for the positions `ps` of
the token sequence in turn, the node of the struct or of the function whose
keyword stands at that position and whose name is the next token, after a
function node the scope-start node of its body, and no other node; the chain
ends with NULL, at the last position, which holds the eof token. -/
def chain_matches (tokens : List Token_Iden) : List Nat → Ast_Node → Bool
  | [p], .null => kind_at tokens p tok_eof
  | p :: ps, .type_struct struct_id _ _ left =>
    kind_at tokens p tok_struct && tokens.get? (p + 1) == some struct_id
      && chain_matches tokens ps left
  | p :: ps, .type_func name _ _ (.type_scope_start _ _ left) =>
    kind_at tokens p tok_func && tokens.get? (p + 1) == some name
      && chain_matches tokens ps left
  | _, _ => false

/-- The chain of `left` links of `node` holds the declarations of the token
sequence from position `c` on, each once and in source order: it matches
positions that increase strictly and are at least `c`. -/
def DeclarationChain (tokens : List Token_Iden) (c : Nat) (node : Ast_Node) : Prop :=
  ∃ ps : List Nat, ps.Pairwise (fun a b => a < b) ∧ (∀ p ∈ ps, c ≤ p)
    ∧ chain_matches tokens ps node = true

/-- The test `node->type == type_root` on a pointer that may be NULL. -/
def Ast_Node.is_root : Ast_Node → Bool
  | .type_root => true
  | _ => false

/-- The test `node->type == type_struct` on a pointer that may be NULL. -/
def Ast_Node.is_struct : Ast_Node → Bool
  | .type_struct _ _ _ _ => true
  | _ => false

/-- The test `node->type == type_func` on a pointer that may be NULL. -/
def Ast_Node.is_func : Ast_Node → Bool
  | .type_func _ _ _ _ => true
  | _ => false

/-- The test `node->type == type_scope_start` on a pointer that may be NULL. -/
def Ast_Node.is_scope_start : Ast_Node → Bool
  | .type_scope_start _ _ _ => true
  | _ => false

/-- The tokens of the source `struct V \x7b x : i32 \x7d`. -/
def tokens_one_struct : List Token_Iden :=
  [ ⟨none, some [], tok_struct, 1, 1⟩, ⟨some [86, 0], some [], tok_identifier, 1, 8⟩,
    ⟨none, some [], 123, 1, 10⟩, ⟨some [120, 0], some [], tok_identifier, 1, 12⟩,
    ⟨none, some [], 58, 1, 14⟩, ⟨some [105, 51, 50, 0], some [], tok_identifier, 1, 16⟩,
    ⟨none, some [], 125, 1, 20⟩, ⟨none, some [], tok_eof, 1, 21⟩ ]

/-- The tokens of the source `fn f() -> void \x7b \x7d`. -/
def tokens_one_func : List Token_Iden :=
  [ ⟨none, some [], tok_func, 1, 1⟩, ⟨some [102, 0], some [], tok_identifier, 1, 4⟩,
    ⟨none, some [], 40, 1, 5⟩, ⟨none, some [], 41, 1, 6⟩, ⟨none, some [], tok_arrow, 1, 8⟩,
    ⟨some [118, 111, 105, 100, 0], some [], tok_identifier, 1, 11⟩,
    ⟨none, some [], 123, 1, 16⟩, ⟨none, some [], 125, 1, 18⟩,
    ⟨none, some [], tok_eof, 1, 19⟩ ]

/-- The tokens of the source `struct V \x7b x : i32 \x7d fn f() -> void \x7b \x7d`. -/
def tokens_struct_and_func : List Token_Iden :=
  [ ⟨none, some [], tok_struct, 1, 1⟩, ⟨some [86, 0], some [], tok_identifier, 1, 8⟩,
    ⟨none, some [], 123, 1, 10⟩, ⟨some [120, 0], some [], tok_identifier, 1, 12⟩,
    ⟨none, some [], 58, 1, 14⟩, ⟨some [105, 51, 50, 0], some [], tok_identifier, 1, 16⟩,
    ⟨none, some [], 125, 1, 20⟩, ⟨none, some [], tok_func, 1, 22⟩,
    ⟨some [102, 0], some [], tok_identifier, 1, 25⟩, ⟨none, some [], 40, 1, 26⟩,
    ⟨none, some [], 41, 1, 27⟩, ⟨none, some [], tok_arrow, 1, 29⟩,
    ⟨some [118, 111, 105, 100, 0], some [], tok_identifier, 1, 32⟩,
    ⟨none, some [], 123, 1, 37⟩, ⟨none, some [], 125, 1, 39⟩,
    ⟨none, some [], tok_eof, 1, 40⟩ ]

/-! ## Definitions used to state the properties of calls, parameters, positions and pointer types -/

/-- The tokens of the source `f(a, )`. -/
def tokens_call_trailing_comma : List Token_Iden :=
  [ ⟨some [102, 0], some [], tok_identifier, 1, 1⟩, ⟨none, some [], 40, 1, 2⟩,
    ⟨some [97, 0], some [], tok_identifier, 1, 3⟩, ⟨none, some [], 44, 1, 4⟩,
    ⟨none, some [], 41, 1, 6⟩, ⟨none, some [], tok_eof, 1, 7⟩ ]

/-- The tokens of the source `f(a, b, c)`. -/
def tokens_call_three_arguments : List Token_Iden :=
  [ ⟨some [102, 0], some [], tok_identifier, 1, 1⟩, ⟨none, some [], 40, 1, 2⟩,
    ⟨some [97, 0], some [], tok_identifier, 1, 3⟩, ⟨none, some [], 44, 1, 4⟩,
    ⟨some [98, 0], some [], tok_identifier, 1, 6⟩, ⟨none, some [], 44, 1, 7⟩,
    ⟨some [99, 0], some [], tok_identifier, 1, 9⟩, ⟨none, some [], 41, 1, 10⟩,
    ⟨none, some [], tok_eof, 1, 11⟩ ]

/-- The tokens of the source `1 : i32`. -/
def tokens_number_parameter : List Token_Iden :=
  [ ⟨some [49, 0], some [], tok_number, 1, 1⟩, ⟨none, some [], 58, 1, 3⟩,
    ⟨some [105, 51, 50, 0], some [], tok_identifier, 1, 5⟩, ⟨none, some [], tok_eof, 1, 8⟩ ]

/-- The tokens of the source `fn f(1 : i32) -> void \x7b \x7d`. -/
def tokens_func_number_parameter : List Token_Iden :=
  [ ⟨none, some [], tok_func, 1, 1⟩, ⟨some [102, 0], some [], tok_identifier, 1, 4⟩,
    ⟨none, some [], 40, 1, 5⟩, ⟨some [49, 0], some [], tok_number, 1, 6⟩,
    ⟨none, some [], 58, 1, 8⟩, ⟨some [105, 51, 50, 0], some [], tok_identifier, 1, 10⟩,
    ⟨none, some [], 41, 1, 13⟩, ⟨none, some [], tok_arrow, 1, 15⟩,
    ⟨some [118, 111, 105, 100, 0], some [], tok_identifier, 1, 18⟩,
    ⟨none, some [], 123, 1, 23⟩, ⟨none, some [], 125, 1, 25⟩,
    ⟨none, some [], tok_eof, 1, 26⟩ ]

/-- The variable a node of kind `type_var` holds. -/
def Ast_Node.variable : Ast_Node → Option Ast_Variable
  | .type_var var => some var
  | _ => none

/-- The tokens of the source `break \x7d \x7d`. -/
def tokens_break_two_closes : List Token_Iden :=
  [ ⟨none, some [], tok_break, 1, 1⟩, ⟨none, some [], 125, 1, 7⟩,
    ⟨none, some [], 125, 1, 9⟩, ⟨none, some [], tok_eof, 1, 10⟩ ]

/-- The test `node->type == type_break` on a pointer that may be NULL. -/
def Ast_Node.is_break : Ast_Node → Bool
  | .type_break _ => true
  | _ => false

/-- The test `node->type == type_scope_end` on a pointer that may be NULL. -/
def Ast_Node.is_scope_end : Ast_Node → Bool
  | .type_scope_end _ _ => true
  | _ => false

/-- The state in which `get_error_segment` runs on the source `src`, and a
token at a line and a column of it. -/
def segment_of (src : List Nat) (line column : Nat) : Result (List Nat) :=
  get_error_segment { file_data := src ++ [0], file_size := src.length }
    { Token_Iden.zero with line := line, column := column }

/-- The type the claim describes for the stars `stars` in front of the name of
the registered type `base`, the identifier of that type being `b`: one pointer
for each star, the outermost first; the pointer around `k - 1` others (depth
`k`) has the identifier `b` followed by `k` times `*` and the terminating NUL,
and the token of its star. -/
def pointer_chain (b : List Nat) (base : Type_Info) : List Token_Iden → Type_Info
  | [] => base
  | star :: stars =>
    .pointer (pointer_chain b base stars)
      (some (c_string b ++ List.replicate (stars.length + 1) 42 ++ [0])) star

/-- The `n` star tokens of columns 1 to `n` of line 1. -/
def star_tokens (n : Nat) : List Token_Iden :=
  (List.range n).map fun i => ⟨none, some [], 42, 1, i + 1⟩

/-- The tokens of `n` stars followed by `i32`, and the eof token. -/
def tokens_pointer_to_i32 (n : Nat) : List Token_Iden :=
  star_tokens n ++
    [ ⟨some [105, 51, 50, 0], some [], tok_identifier, 1, n + 1⟩,
      ⟨none, some [], tok_eof, 1, n + 4⟩ ]

/-- The order of positions: by line, then by column. -/
def lex_le (a b : Nat × Nat) : Prop := a.1 < b.1 ∨ (a.1 = b.1 ∧ a.2 ≤ b.2)

instance (a b : Nat × Nat) : Decidable (lex_le a b) := by
  unfold lex_le
  infer_instance

/-- The line and the column of the scan position. -/
def File_Contents.position (f : File_Contents) : Nat × Nat :=
  (f.current_line, f.current_column)

/-- The line and the column a token records. -/
def Token_Iden.position (t : Token_Iden) : Nat × Nat := (t.line, t.column)

/-- The tokens of the source of the two lines `a "\n" b<=-1` and
` /* c */ 'd'`. -/
def tokens_two_lines : List Token_Iden :=
  [ ⟨some [97, 0], some [], tok_identifier, 1, 1⟩, ⟨some [10, 0], some [], tok_const_str, 1, 3⟩,
    ⟨some [98, 0], some [], tok_identifier, 1, 6⟩, ⟨none, some [], tok_logical_lequal, 1, 7⟩,
    ⟨none, some [], 45, 1, 9⟩, ⟨some [49, 0], some [], tok_number, 1, 10⟩,
    ⟨some [100, 0], some [], tok_char, 2, 10⟩, ⟨none, some [], tok_eof, 2, 13⟩ ]

/-- The state in which `lex_file` leaves that source: the escape is collapsed in
the buffer. -/
def state_two_lines : File_Contents :=
  { file_data := [97, 32, 34, 10, 34, 32, 98, 60, 61, 45, 49, 10, 32, 47, 42, 32, 99, 32, 42,
                  47, 32, 39, 100, 39, 0],
    file_size := 24, pos := 24, current_line := 2, current_column := 13,
    token_buffer := tokens_two_lines }

/-! ## Definitions used to state the properties of statements, of the stack and of the back end -/

/-- The tokens of the source `a[1] = 2;`. -/
def tokens_index_assignment : List Token_Iden :=
  [ ⟨some [97, 0], some [], tok_identifier, 1, 1⟩, ⟨none, some [], 91, 1, 2⟩,
    ⟨some [49, 0], some [], tok_number, 1, 3⟩, ⟨none, some [], 93, 1, 4⟩,
    ⟨none, some [], 61, 1, 6⟩, ⟨some [50, 0], some [], tok_number, 1, 8⟩,
    ⟨none, some [], 59, 1, 9⟩, ⟨none, some [], tok_eof, 1, 10⟩ ]

/-- The tokens of the source `v.x = 1;`. -/
def tokens_selector_assignment : List Token_Iden :=
  [ ⟨some [118, 0], some [], tok_identifier, 1, 1⟩, ⟨none, some [], 46, 1, 2⟩,
    ⟨some [120, 0], some [], tok_identifier, 1, 3⟩, ⟨none, some [], 61, 1, 5⟩,
    ⟨some [49, 0], some [], tok_number, 1, 7⟩, ⟨none, some [], 59, 1, 8⟩,
    ⟨none, some [], tok_eof, 1, 9⟩ ]

/-- The tokens of the source `a[i] = 2;`. -/
def tokens_index_by_name_assignment : List Token_Iden :=
  [ ⟨some [97, 0], some [], tok_identifier, 1, 1⟩, ⟨none, some [], 91, 1, 2⟩,
    ⟨some [105, 0], some [], tok_identifier, 1, 3⟩, ⟨none, some [], 93, 1, 4⟩,
    ⟨none, some [], 61, 1, 6⟩, ⟨some [50, 0], some [], tok_number, 1, 8⟩,
    ⟨none, some [], 59, 1, 9⟩, ⟨none, some [], tok_eof, 1, 10⟩ ]

/-- The token `ast_assignment` stores in an assignment node. -/
def Ast_Node.assignment_token : Ast_Node → Option Token_Iden
  | .type_assignment _ _ _ token _ _ _ _ => some token
  | _ => none

/-- The tokens of the source `[1];`. -/
def tokens_leading_bracket : List Token_Iden :=
  [ ⟨none, some [], 91, 1, 1⟩, ⟨some [49, 0], some [], tok_number, 1, 2⟩,
    ⟨none, some [], 93, 1, 3⟩, ⟨none, some [], 59, 1, 4⟩, ⟨none, some [], tok_eof, 1, 5⟩ ]

/-- The tokens of the source `.m;`. -/
def tokens_leading_dot : List Token_Iden :=
  [ ⟨none, some [], 46, 1, 1⟩, ⟨some [109, 0], some [], tok_identifier, 1, 2⟩,
    ⟨none, some [], 59, 1, 3⟩, ⟨none, some [], tok_eof, 1, 4⟩ ]

/-- The tokens of the source `x = [1];`. -/
def tokens_assign_bracket : List Token_Iden :=
  [ ⟨some [120, 0], some [], tok_identifier, 1, 1⟩, ⟨none, some [], 61, 1, 3⟩,
    ⟨none, some [], 91, 1, 5⟩, ⟨some [49, 0], some [], tok_number, 1, 6⟩,
    ⟨none, some [], 93, 1, 7⟩, ⟨none, some [], 59, 1, 8⟩, ⟨none, some [], tok_eof, 1, 9⟩ ]

/-- The tokens of the source `* 1`. -/
def tokens_star_number : List Token_Iden :=
  [ ⟨none, some [], 42, 1, 1⟩, ⟨some [49, 0], some [], tok_number, 1, 3⟩,
    ⟨none, some [], tok_eof, 1, 4⟩ ]

/-- The tokens of the source `x : * = 1;`. -/
def tokens_declare_star : List Token_Iden :=
  [ ⟨some [120, 0], some [], tok_identifier, 1, 1⟩, ⟨none, some [], 58, 1, 3⟩,
    ⟨none, some [], 42, 1, 5⟩, ⟨none, some [], 61, 1, 7⟩,
    ⟨some [49, 0], some [], tok_number, 1, 9⟩, ⟨none, some [], 59, 1, 10⟩,
    ⟨none, some [], tok_eof, 1, 11⟩ ]

/-- What the stack needs of the array library: an insert at an index up to the
length of the array stores the item in that slot and leaves the slots before
it as they are. -/
def SimpleDArray.stores {α : Type} (lib : SimpleDArray α) : Prop :=
  ∀ (a : List α) (x : α) (i : Nat), i ≤ a.length →
    (lib._ISimpleDArrayInsert a x i).get? i = some x
    ∧ ∀ j, j < i → (lib._ISimpleDArrayInsert a x i).get? j = a.get? j

/-- An array library on lists: an insert at a slot that exists overwrites it,
an insert after the last slot appends. -/
def list_array (α : Type) : SimpleDArray α :=
  { _ISimpleDArrayCreate := fun _ => [],
    _ISimpleDArrayInsert := fun a x i => if i.toNat < a.length then a.set i.toNat x else a ++ [x] }

/-- A stack state with room for a push: `top` is at least -1, the slots up to
`top` exist, and slot `top + 1` has an index and an offset in the range of
`i32`. -/
def Stack.valid {α : Type} (s : Stack α) : Prop :=
  -1 ≤ s.top ∧ s.top + 1 ≤ s.d_array_ptr.length ∧ 0 ≤ s.type_size
    ∧ s.top + 1 ≤ 2147483647 ∧ (s.top + 1) * s.type_size ≤ 2147483647

/-- The items of a stack, the oldest first: the slots 0 to `top`. -/
def Stack.items {α : Type} (s : Stack α) : List α :=
  s.d_array_ptr.take (s.top + 1).toNat

/-- The calls `stack_push(s, x)` for the items of a list, in order. -/
def push_all {α : Type} (lib : SimpleDArray α) : Stack α → List α → Result (Stack α)
  | s, [] => .ok s
  | s, x :: xs => (stack_push lib s x).bind fun s1 => push_all lib s1 xs

/-- The values of `n` calls of `stack_pop`, in the order of the calls. -/
def pop_all {α : Type} : Nat → Stack α → Result (List α × Stack α)
  | 0, s => .ok ([], s)
  | n + 1, s =>
    (stack_pop s).bind fun r => (pop_all n r.2).bind fun rest => .ok (r.1 :: rest.1, rest.2)

/-- A call on a stack. -/
inductive Stack_Op (α : Type) where
  | push (item : α)
  | pop
  | peek

/-- The stack after a sequence of calls, with the number of pushes and the
number of pops that returned a slot. -/
def run_ops {α : Type} (lib : SimpleDArray α) :
    Stack α → Nat → Nat → List (Stack_Op α) → Result (Stack α × Nat × Nat)
  | s, pushes, pops, [] => .ok (s, pushes, pops)
  | s, pushes, pops, .push item :: ops =>
    (_stack_push lib s item).bind fun s1 => run_ops lib s1 (pushes + 1) pops ops
  | s, pushes, pops, .pop :: ops =>
    (_stack_pop s).bind fun r =>
      run_ops lib r.2 pushes (if r.1.isSome then pops + 1 else pops) ops
  | s, pushes, pops, .peek :: ops =>
    (_stack_peek s).bind fun r => run_ops lib r.2 pushes pops ops

/-- The type `initialize_compiler` registers for the integer primitive of a
size: kind `T_INTEGER`, the size, and the name of the table `type_names`. -/
def integer_type (size : Nat) : Type_Info :=
  .plain .T_INTEGER size (some ((type_names.getD size []) ++ [0])) Token_Iden.zero

/-- The sizes of the signed integer primitives `i8`, `i16`, `i32`, `i64`. -/
def signed_sizes : List Nat := [byte1, byte2, byte4, byte8]

/-- The sizes of the unsigned integer primitives `u8`, `u16`, `u32`, `u64`. -/
def unsigned_sizes : List Nat := [ubyte1, ubyte2, ubyte4, ubyte8]

/-- The bit width of a primitive as the language defines it: 8, 16, 32, 64 for
`i8`..`i64` and for `u8`..`u64`. -/
def bit_width (size : Nat) : Nat :=
  if size == byte1 || size == ubyte1 then 8
  else if size == byte2 || size == ubyte2 then 16
  else if size == byte4 || size == ubyte4 then 32
  else 64

/-- The size in bits that `to_debug_type` passes when it creates the basic type
of an integer primitive, the cache being empty. -/
def debug_bits (size : Nat) : Result Nat :=
  (to_debug_type (integer_type size) {}).bind fun r =>
    match r.1 with
    | .basic _ size_in_bits _ => .ok size_in_bits
    | _ => .undefined

/-- The bit width of the LLVM type `apoc_type_to_llvm` selects for an integer
primitive. -/
def llvm_bits (size : Nat) : Result Nat :=
  (apoc_type_to_llvm [] (integer_type size)).bind fun t =>
    match t with
    | .integer bits => .ok bits
    | _ => .undefined

/-- A call that ends: it raises a fatal diagnostic, or it returns a value, which
satisfies `Q`. -/
def Ends {α : Type} (r : Result α) (Q : α → Prop) : Prop :=
  (∃ e line column, r = .fatal e line column) ∨ ∃ a, r = .ok a ∧ Q a

/-- The body of a function on its own: what `parse_body` does for a function
up to the end of its statement, before it goes on with the rest of the file.
The opening brace is read, the frame of the body is pushed and the statement
is parsed; the result is the token of the brace with the node of the
statement. -/
def body_statement (fuel : Nat) (f : File_Contents) :
    Result ((Token_Iden × Ast_Node) × File_Contents) :=
  f.current.bind fun token =>
    (parser_eat f 123).bind fun f1 =>
      f1.current.bind fun cur =>
        let new_scope : Scope_Info :=
          { has_terminator := false, start_line := to_unsigned_int cur.line, third := 0,
            file := some f1.path, symbols := [] }
        (parse_statement fuel (push_scope f1 new_scope)).bind fun right =>
          .ok ((token, right.1), right.2)

/-- A function declaration on its own: the signature, the symbols of the
function and of its parameters, and the body up to the end of its statement.
The node is the function node with the scope-start node of the body, which has
no `left` link yet. -/
def function_declaration (fuel : Nat) (f : File_Contents) : Result (Ast_Node × File_Contents) :=
  (parse_func_signature (fuel + 1) f).bind fun s =>
    s.2.current.bind fun body =>
      (add_symbol s.2 (function_symbol s.1)).bind fun f1 =>
        if body.type == 123 then
          (add_argument_symbols s.1 s.1.arguments f1).bind fun f2 =>
            (body_statement fuel f2).bind fun b =>
              .ok (.type_func s.1.identifier s.1.arguments s.1.type
                     (.type_scope_start b.1.1 b.1.2 .null), b.2)
        else raise_parsing_unexpected_token (.unexpected_token "'\x7b' or ';'") f1

/-- One file-level declaration on its own, at the cursor: a struct as
`parse_struct` reads it, a function as `function_declaration` does.  The state
returned has the cursor on the first token after the declaration. -/
def parse_declaration (fuel : Nat) (f : File_Contents) : Result (Ast_Node × File_Contents) :=
  f.current.bind fun cur =>
    if cur.type == tok_struct then parse_struct fuel f
    else if cur.type == tok_func then function_declaration fuel f
    else raise_parsing_unexpected_token (.unexpected_token "top level statement") f

/-- The token sequence is, from the cursor of `f` on, the declarations `ds` one
after the other and then the eof token: each declaration is read where the one
before it ended. -/
def Declarations : File_Contents → List Ast_Node → Prop
  | f, [] => ∃ t, f.current = .ok t ∧ t.type = tok_eof
  | f, d :: ds => ∃ fuel g, parse_declaration fuel f = .ok (d, g) ∧ Declarations g ds

/-- The declarations that following the links `left` from `node` visits, each
without its own `left` link: struct nodes, and function nodes with the
scope-start node of their body.  `none` when the chain holds another node. -/
def declarations_of : Ast_Node → Option (List Ast_Node)
  | .null => some []
  | .type_struct struct_id members count left =>
    (declarations_of left).map fun ds => .type_struct struct_id members count .null :: ds
  | .type_func name arguments ty (.type_scope_start token right left) =>
    (declarations_of left).map fun ds =>
      .type_func name arguments ty (.type_scope_start token right .null) :: ds
  | _ => none

/-- The tokens `; x : i32` written `n` times, then the closing brace and the
eof token. -/
def wide_struct_rest : Nat → List Token_Iden
  | 0 => [⟨none, some [], 125, 1, 1⟩, ⟨none, some [], tok_eof, 1, 1⟩]
  | n + 1 =>
    ⟨none, some [], 59, 1, 1⟩ :: ⟨some [120, 0], some [], tok_identifier, 1, 1⟩
      :: ⟨none, some [], 58, 1, 1⟩ :: ⟨some [105, 51, 50, 0], some [], tok_identifier, 1, 1⟩
      :: wide_struct_rest n

/-- The tokens of a struct `V` with `n + 1` members `x : i32`, as
`struct V \x7b x : i32; ...; x : i32 \x7d`; the positions are left at line 1,
column 1. -/
def tokens_wide_struct (n : Nat) : List Token_Iden :=
  ⟨none, some [], tok_struct, 1, 1⟩ :: ⟨some [86, 0], some [], tok_identifier, 1, 1⟩
    :: ⟨none, some [], 123, 1, 1⟩ :: ⟨some [120, 0], some [], tok_identifier, 1, 1⟩
    :: ⟨none, some [], 58, 1, 1⟩ :: ⟨some [105, 51, 50, 0], some [], tok_identifier, 1, 1⟩
    :: wide_struct_rest n

/-- The member `x : i32` of `tokens_wide_struct`, for an empty type registry. -/
def wide_member : Ast_Variable :=
  { type := invalid_type.set_token ⟨some [105, 51, 50, 0], some [], tok_identifier, 1, 1⟩,
    identifier := ⟨some [120, 0], some [], tok_identifier, 1, 1⟩, is_const := false }

/-! ## Basic facts: results, buffer reads, scanning a run -/

theorem Result.bind_ok {α β : Type} (a : α) (k : α → Result β) :
    (Result.ok a).bind k = k a := rfl

theorem Result.bind_eq_ok {α β : Type} (r : Result α) (k : α → Result β) (b : β) :
    r.bind k = .ok b ↔ ∃ a, r = .ok a ∧ k a = .ok b := by
  cases r <;> simp [Result.bind]

theorem moved_zero (f : File_Contents) : f.moved 0 = f := by
  cases f; simp [File_Contents.moved]

theorem moved_moved (f : File_Contents) (m n : Nat) : (f.moved m).moved n = f.moved (m + n) := by
  cases f; simp [File_Contents.moved, Nat.add_assoc]

theorem getD_append_mid (pre rest : List Nat) (k : Nat) :
    (pre ++ rest).getD (pre.length + k) 0 = rest.getD k 0 := by
  simp [List.getD_eq_getElem?_getD, List.getElem?_append_right]

theorem getD_zero_eq_headD (l : List Nat) : l.getD 0 0 = l.headD 0 := by
  cases l <;> rfl

theorem peek_of_data (f : File_Contents) (pre rest : List Nat)
    (hd : f.file_data = pre ++ rest) (hp : f.pos = pre.length) :
    f.peek = rest.headD 0 := by
  unfold File_Contents.peek
  rw [hd, hp, ← getD_zero_eq_headD]
  exact getD_append_mid pre rest 0

theorem advance_buffer_plain (f : File_Contents) (h0 : f.peek ≠ 0) (h10 : f.peek ≠ 10) :
    advance_buffer f = .ok (f.moved 1) := by
  simp [advance_buffer, h0, h10, File_Contents.moved]

theorem advance_while_run (p : Nat → Bool) :
    ∀ (run pre rest : List Nat) (f : File_Contents) (fuel : Nat),
      f.file_data = pre ++ (run ++ rest) → f.pos = pre.length →
      (∀ c ∈ run, p c = true ∧ c ≠ 0 ∧ c ≠ 10) → p (rest.headD 0) = false →
      run.length < fuel →
      advance_while p fuel f = .ok (f.moved run.length) := by
  intro run
  induction run with
  | nil =>
    intro pre rest f fuel hd hp _ hstop hfuel
    obtain ⟨n, rfl⟩ : ∃ n, fuel = n + 1 := ⟨fuel - 1, by simp at hfuel; omega⟩
    have hpk : f.peek = rest.headD 0 := peek_of_data f pre rest (by simpa using hd) hp
    rw [advance_while, hpk, hstop]
    simp [moved_zero]
  | cons c run ih =>
    intro pre rest f fuel hd hp hrun hstop hfuel
    obtain ⟨n, rfl⟩ : ∃ n, fuel = n + 1 := ⟨fuel - 1, by simp at hfuel; omega⟩
    have hpk : f.peek = c := by
      rw [peek_of_data f pre (c :: run ++ rest) (by simpa using hd) hp]; rfl
    have hc := hrun c (by simp)
    have hadv : advance_buffer f = .ok (f.moved 1) :=
      advance_buffer_plain f (by rw [hpk]; exact hc.2.1) (by rw [hpk]; exact hc.2.2)
    have hnext := ih (pre ++ [c]) rest (f.moved 1) n
      (by simp [File_Contents.moved, hd]) (by simp [File_Contents.moved, hp])
      (fun d hdm => hrun d (by simp [hdm])) hstop (by simp at hfuel; omega)
    rw [advance_while, hpk, hc.1, hadv]
    simp only [Result.bind, if_true]
    rw [hnext, moved_moved, Nat.add_comm]
    rfl

/-! ## The keyword table -/

theorem keyword_keys_nodup : (keyword_table.map Prod.fst).Nodup := by decide

theorem keyword_values_range : ∀ kv ∈ keyword_table, -54 ≤ kv.2 ∧ kv.2 ≤ -2 := by decide

theorem find_of_mem_nodup (w : List Nat) (v : Token) :
    ∀ l : List (List Nat × Token), (l.map Prod.fst).Nodup → (w, v) ∈ l →
      l.find? (fun kv => kv.1 == w) = some (w, v) := by
  intro l
  induction l with
  | nil => intro _ h; simp at h
  | cons kv l ih =>
    intro hnd hmem
    rw [List.map_cons, List.nodup_cons] at hnd
    rcases List.mem_cons.mp hmem with h | h
    · subst h; simp
    · have hne : kv.1 ≠ w := by
        intro he
        apply hnd.1
        rw [he]
        exact List.mem_map_of_mem Prod.fst h
      have hb : (kv.1 == w) = false := by simpa using hne
      rw [List.find?_cons, hb]
      exact ih hnd.2 h

theorem shget_of_mem (w : List Nat) (v : Token) (h : (w, v) ∈ keyword_table) :
    shget keyword_table w = v := by
  unfold shget
  rw [find_of_mem_nodup w v keyword_table keyword_keys_nodup h]

theorem shget_of_not_mem (w : List Nat) (h : w ∉ keyword_table.map Prod.fst) :
    shget keyword_table w = KEYWORD_ERROR := by
  unfold shget
  have : keyword_table.find? (fun kv => kv.1 == w) = none := by
    rw [List.find?_eq_none]
    intro kv hkv heq
    apply h
    simp only [beq_iff_eq] at heq
    rw [← heq]
    exact List.mem_map_of_mem Prod.fst hkv
  rw [this]

theorem shget_range (w : List Nat) :
    shget keyword_table w = KEYWORD_ERROR ∨
      (-54 ≤ shget keyword_table w ∧ shget keyword_table w ≤ -2) := by
  unfold shget
  cases hfind : keyword_table.find? (fun kv => kv.1 == w) with
  | none => left; rfl
  | some kv => right; exact keyword_values_range kv (List.mem_of_find?_eq_some hfind)

/-! ## What the scanning loops leave unchanged, and the kinds of tokens -/

theorem FrameData.refl (f : File_Contents) : FrameData f f := ⟨rfl, rfl, rfl⟩

theorem FrameData.trans {f g h : File_Contents} (a : FrameData f g) (b : FrameData g h) :
    FrameData f h :=
  ⟨b.1.trans a.1, b.2.1.trans a.2.1, b.2.2.trans a.2.2⟩

theorem FrameData.frame {f g : File_Contents} (a : FrameData f g) : Frame f g := ⟨a.2.1, a.2.2⟩

theorem Frame.same (f : File_Contents) : Frame f f := ⟨rfl, rfl⟩

theorem Frame.seq {f g h : File_Contents} (a : Frame f g) (b : Frame g h) : Frame f h :=
  ⟨b.1.trans a.1, b.2.trans a.2⟩

theorem advance_buffer_frame (f g : File_Contents) (h : advance_buffer f = .ok g) :
    FrameData f g := by
  unfold advance_buffer at h
  split at h
  · split at h <;> (injection h with h; subst h; exact ⟨rfl, rfl, rfl⟩)
  · exact absurd h (by simp)

theorem advance_while_frame (p : Nat → Bool) :
    ∀ (fuel : Nat) (f g : File_Contents), advance_while p fuel f = .ok g →
      FrameData f g ∧ p g.peek = false := by
  intro fuel
  induction fuel with
  | zero => intro f g h; simp [advance_while] at h
  | succ n ih =>
    intro f g h
    rw [advance_while] at h
    split at h
    · obtain ⟨f1, h1, h2⟩ := (Result.bind_eq_ok _ _ _).mp h
      have := ih f1 g h2
      exact ⟨(advance_buffer_frame f f1 h1).trans this.1, this.2⟩
    · injection h with h
      subst h
      exact ⟨FrameData.refl f, by simpa using ‹¬ p f.peek = true›⟩

theorem number_loop_frame (sl sc : Nat) :
    ∀ (fuel : Nat) (f g : File_Contents) (d : Bool),
      number_loop sl sc fuel f d = .ok g → FrameData f g := by
  intro fuel
  induction fuel with
  | zero => intro f g d h; simp [number_loop] at h
  | succ n ih =>
    intro f g d h
    rw [number_loop] at h
    obtain ⟨f1, h1, h2⟩ := (Result.bind_eq_ok _ _ _).mp h
    have hf := advance_buffer_frame f f1 h1
    split at h2
    · exact absurd h2 (by simp)
    · dsimp only at h2
      split at h2
      · exact hf.trans (ih f1 g _ h2)
      · injection h2 with h2
        subst h2
        exact hf

theorem string_loop_frame (sl sc : Nat) :
    ∀ (fuel : Nat) (f g : File_Contents),
      string_loop sl sc fuel f = .ok g → Frame f g := by
  intro fuel
  induction fuel with
  | zero => intro f g h; simp [string_loop] at h
  | succ n ih =>
    intro f g h
    rw [string_loop] at h
    split at h
    · split at h
      · exact absurd h (by simp)
      · split at h
        · dsimp only at h
          split at h
          · exact absurd h (by simp)
          · have := ih _ g h
            exact ⟨this.1, this.2⟩
        · obtain ⟨f1, h1, h2⟩ := (Result.bind_eq_ok _ _ _).mp h
          exact (advance_buffer_frame f f1 h1).frame.seq (ih f1 g h2)
    · injection h with h
      subst h
      exact Frame.same f

theorem punct_loop_frame (start : Nat) :
    ∀ (fuel : Nat) (f g : File_Contents) (b : Bool),
      punct_loop start fuel f = .ok (g, b) → FrameData f g := by
  intro fuel
  induction fuel with
  | zero => intro f g b h; simp [punct_loop] at h
  | succ n ih =>
    intro f g b h
    rw [punct_loop] at h
    split at h
    · split at h
      · split at h <;>
          (injection h with h; injection h with h1 h2; subst h1; exact FrameData.refl f)
      · obtain ⟨f1, h1, h2⟩ := (Result.bind_eq_ok _ _ _).mp h
        exact (advance_buffer_frame f f1 h1).trans (ih f1 g b h2)
    · injection h with h; injection h with h1 h2; subst h1; exact FrameData.refl f

theorem comment_scan_frame (sl sc : Nat) :
    ∀ (fuel : Nat) (f g : File_Contents),
      comment_scan sl sc fuel f = .ok g → FrameData f g := by
  intro fuel
  induction fuel with
  | zero => intro f g h; simp [comment_scan] at h
  | succ n ih =>
    intro f g h
    rw [comment_scan] at h
    split at h
    · split at h
      · exact absurd h (by simp)
      · obtain ⟨f1, h1, h2⟩ := (Result.bind_eq_ok _ _ _).mp h
        exact (advance_buffer_frame f f1 h1).trans (ih f1 g h2)
    · injection h with h; subst h; exact FrameData.refl f

theorem block_comment_frame (sl sc : Nat) :
    ∀ (fuel : Nat) (f g : File_Contents) (nest : Int),
      block_comment sl sc fuel f nest = .ok g → FrameData f g := by
  intro fuel
  induction fuel with
  | zero => intro f g nest h; simp [block_comment] at h
  | succ n ih =>
    intro f g nest h
    rw [block_comment] at h
    split at h
    · obtain ⟨f1, h1, h2⟩ := (Result.bind_eq_ok _ _ _).mp h
      have hf1 := comment_scan_frame sl sc _ f f1 h1
      split at h2
      · obtain ⟨f2, h3, h4⟩ := (Result.bind_eq_ok _ _ _).mp h2
        exact hf1.trans ((advance_buffer_frame f1 f2 h3).trans (ih f2 g _ h4))
      · obtain ⟨f2, h3, h4⟩ := (Result.bind_eq_ok _ _ _).mp h2
        have hf2 := hf1.trans (advance_buffer_frame f1 f2 h3)
        split at h4
        · obtain ⟨f3, h5, h6⟩ := (Result.bind_eq_ok _ _ _).mp h4
          exact hf2.trans ((advance_buffer_frame f2 f3 h5).trans (ih f3 g _ h6))
        · exact hf2.trans (ih f2 g _ h4)
    · injection h with h; subst h; exact FrameData.refl f

theorem rewind_step_frame (f : File_Contents) : FrameData f (rewind_step f) := by
  unfold rewind_step
  dsimp only
  split <;> exact ⟨rfl, rfl, rfl⟩

theorem rewind_steps_frame : ∀ (n : Nat) (f : File_Contents), FrameData f (rewind_steps n f) := by
  intro n
  induction n with
  | zero => intro f; exact FrameData.refl f
  | succ n ih => intro f; exact (rewind_step_frame f).trans (ih _)

theorem shorten_loop_some (symbol : List Nat) :
    ∀ (n size : Nat) (t : Token), shorten_loop symbol n = some (size, t) →
      size < n ∧ t = shget keyword_table (symbol.take size) ∧ t ≠ KEYWORD_ERROR := by
  intro n
  induction n with
  | zero => intro size t h; simp [shorten_loop] at h
  | succ n ih =>
    intro size t h
    rw [shorten_loop] at h
    split at h
    · rename_i hne
      injection h with h; injection h with h1 h2
      subst h1; subst h2
      exact ⟨Nat.lt_succ_self _, rfl, by simpa using hne⟩
    · have := ih size t h
      exact ⟨Nat.lt_succ_of_lt this.1, this.2⟩

theorem kindOk_of_range (t : Token) (h : -54 ≤ t ∧ t ≤ -2) : KindOk t := by
  constructor
  · intro he; rw [he] at h; exact absurd h.2 (by decide)
  · intro c _ he
    have : (0 : Int) ≤ Int.ofNat c := Int.ofNat_nonneg c
    rw [← he] at this
    have h2 := h.2
    have : (0 : Int) ≤ -2 := le_trans this h2
    exact absurd this (by decide)

theorem kindOk_shget (w : List Nat) (h : shget keyword_table w ≠ KEYWORD_ERROR) :
    KindOk (shget keyword_table w) := by
  rcases shget_range w with h1 | h1
  · exact absurd h1 h
  · exact kindOk_of_range _ h1

theorem kindOk_byte (c : Nat) (h : is_whitespace c = false) : KindOk (Int.ofNat c) := by
  constructor
  · intro he
    have : (0 : Int) ≤ Int.ofNat c := Int.ofNat_nonneg c
    rw [he] at this
    exact absurd this (by decide)
  · intro d hd he
    have : c = d := Int.ofNat_inj.mp he
    rw [this, hd] at h
    exact absurd h (by simp)

theorem kindOk_identifier : KindOk tok_identifier := kindOk_of_range _ (by decide)

theorem kindOk_number : KindOk tok_number := kindOk_of_range _ (by decide)

theorem kindOk_const_str : KindOk tok_const_str := kindOk_of_range _ (by decide)

theorem kindOk_char : KindOk tok_char := kindOk_of_range _ (by decide)

theorem get_token_fuel_kind :
    ∀ (fuel : Nat) (g g1 : File_Contents) (t : Token_Iden),
      get_token_fuel fuel g = .ok (t, g1) →
        Frame g g1 ∧ (t.type = 0 ∨ KindOk t.type) := by
  intro fuel
  induction fuel with
  | zero => intro g g1 t h; simp [get_token_fuel] at h
  | succ n ih =>
    intro g g1 t h
    rw [get_token_fuel] at h
    obtain ⟨f, hws, h⟩ := (Result.bind_eq_ok _ _ _).mp h
    obtain ⟨hwf, hnws⟩ := advance_while_frame _ _ _ _ hws
    dsimp only at h
    by_cases c1 : (is_alpha f.peek || is_non_special_char f.peek) = true
    · -- identifier or keyword
      rw [if_pos c1] at h
      obtain ⟨f1, h1, h⟩ := (Result.bind_eq_ok _ _ _).mp h
      have hf1 := (advance_while_frame _ _ _ _ h1).1
      split at h
      · injection h with h; injection h with ht hg
        subst ht; subst hg
        exact ⟨(hwf.trans hf1).frame, Or.inr kindOk_identifier⟩
      · rename_i hne
        injection h with h; injection h with ht hg
        subst ht; subst hg
        exact ⟨(hwf.trans hf1).frame, Or.inr (kindOk_shget _ (by simpa using hne))⟩
    rw [if_neg c1] at h
    by_cases c2 : is_number f.peek = true
    · -- number
      rw [if_pos c2] at h
      split at h
      · obtain ⟨f1, h1, h⟩ := (Result.bind_eq_ok _ _ _).mp h
        obtain ⟨f2, h2, h⟩ := (Result.bind_eq_ok _ _ _).mp h
        split at h
        · exact absurd h (by simp)
        · obtain ⟨f3, h3, h⟩ := (Result.bind_eq_ok _ _ _).mp h
          split at h
          · injection h with h; injection h with ht hg
            subst ht; subst hg
            exact ⟨(hwf.trans ((advance_buffer_frame _ _ h1).trans
              ((advance_buffer_frame _ _ h2).trans (advance_while_frame _ _ _ _ h3).1))).frame,
              Or.inr kindOk_number⟩
          · cases h
      · obtain ⟨f1, h1, h⟩ := (Result.bind_eq_ok _ _ _).mp h
        injection h with h; injection h with ht hg
        subst ht; subst hg
        exact ⟨(hwf.trans (number_loop_frame _ _ _ _ _ _ h1)).frame,
          Or.inr kindOk_number⟩
    rw [if_neg c2] at h
    by_cases c3 : (f.peek == 34) = true
    · -- string literal
      rw [if_pos c3] at h
      obtain ⟨f1, h1, h⟩ := (Result.bind_eq_ok _ _ _).mp h
      obtain ⟨f2, h2, h⟩ := (Result.bind_eq_ok _ _ _).mp h
      obtain ⟨f3, h3, h⟩ := (Result.bind_eq_ok _ _ _).mp h
      injection h with h; injection h with ht hg
      subst ht; subst hg
      exact ⟨((hwf.trans (advance_buffer_frame _ _ h1)).frame.seq
        (string_loop_frame _ _ _ _ _ h2)).seq (advance_buffer_frame _ _ h3).frame,
        Or.inr kindOk_const_str⟩
    rw [if_neg c3] at h
    by_cases c4 : (f.peek == 39) = true
    · -- character literal
      rw [if_pos c4] at h
      obtain ⟨f1, h1, h⟩ := (Result.bind_eq_ok _ _ _).mp h
      obtain ⟨f2, h2, h⟩ := (Result.bind_eq_ok _ _ _).mp h
      split at h
      · exact absurd h (by simp)
      · obtain ⟨f3, h3, h⟩ := (Result.bind_eq_ok _ _ _).mp h
        injection h with h; injection h with ht hg
        subst ht; subst hg
        exact ⟨(hwf.trans ((advance_buffer_frame _ _ h1).trans
          ((advance_buffer_frame _ _ h2).trans (advance_buffer_frame _ _ h3)))).frame,
          Or.inr kindOk_char⟩
    rw [if_neg c4] at h
    by_cases c5 : (f.peek == 36) = true
    · -- compiler directive
      rw [if_pos c5] at h
      obtain ⟨f1, h1, h⟩ := (Result.bind_eq_ok _ _ _).mp h
      obtain ⟨f2, h2, h⟩ := (Result.bind_eq_ok _ _ _).mp h
      split at h
      · exact absurd h (by simp)
      · rename_i hne
        injection h with h; injection h with ht hg
        subst ht; subst hg
        exact ⟨(hwf.trans ((advance_buffer_frame _ _ h1).trans
          (advance_while_frame _ _ _ _ h2).1)).frame,
          Or.inr (kindOk_shget _ (by simpa using hne))⟩
    rw [if_neg c5] at h
    -- punctuation
    obtain ⟨r, h1, h⟩ := (Result.bind_eq_ok _ _ _).mp h
    obtain ⟨f1, b⟩ := r
    have hpf := punct_loop_frame _ _ _ _ _ h1
    have hfirst : KindOk (Int.ofNat (f1.file_data.getD f.pos 0)) := by
      rw [hpf.1]
      exact kindOk_byte _ hnws
    dsimp only at h
    by_cases c6 : b = true
    · rw [if_pos c6] at h
      injection h with h; injection h with ht hg
      subst ht; subst hg
      exact ⟨(hwf.trans hpf).frame, Or.inl rfl⟩
    rw [if_neg c6] at h
    by_cases c7 : (f1.pos - f.pos == 1) = true
    · rw [if_pos c7] at h
      injection h with h; injection h with ht hg
      subst ht; subst hg
      exact ⟨(hwf.trans hpf).frame, Or.inr hfirst⟩
    rw [if_neg c7] at h
    by_cases c8 : (f1.file_data.getD f.pos 0 == 47
        && f1.file_data.getD (f.pos + 1) 0 == 47) = true
    · rw [if_pos c8] at h
      obtain ⟨f2, h2, h⟩ := (Result.bind_eq_ok _ _ _).mp h
      obtain ⟨f3, h3, h⟩ := (Result.bind_eq_ok _ _ _).mp h
      have := ih _ _ _ h
      exact ⟨(hwf.trans (hpf.trans ((advance_while_frame _ _ _ _ h2).1.trans
        (advance_buffer_frame _ _ h3)))).frame.seq this.1, this.2⟩
    rw [if_neg c8] at h
    by_cases c9 : (f1.file_data.getD f.pos 0 == 47
        && f1.file_data.getD (f.pos + 1) 0 == 42) = true
    · rw [if_pos c9] at h
      obtain ⟨f2, h2, h⟩ := (Result.bind_eq_ok _ _ _).mp h
      have := ih _ _ _ h
      exact ⟨(hwf.trans (hpf.trans
        (block_comment_frame _ _ _ _ _ _ h2))).frame.seq this.1, this.2⟩
    rw [if_neg c9] at h
    by_cases c10 : (shget keyword_table (f1.slice f.pos f1.pos) == KEYWORD_ERROR) = true
    · rw [if_pos c10] at h
      cases hs : shorten_loop (f1.slice f.pos f1.pos) (f1.slice f.pos f1.pos).length with
      | none =>
        rw [hs] at h
        injection h with h; injection h with ht hg
        subst ht; subst hg
        exact ⟨(hwf.trans (hpf.trans (rewind_steps_frame _ _))).frame, Or.inr hfirst⟩
      | some st =>
        obtain ⟨size, t0⟩ := st
        rw [hs] at h
        injection h with h; injection h with ht hg
        subst ht; subst hg
        have hsl := shorten_loop_some _ _ _ _ hs
        refine ⟨(hwf.trans (hpf.trans (rewind_steps_frame _ _))).frame, Or.inr ?_⟩
        show KindOk t0
        rw [hsl.2.1]
        exact kindOk_shget _ (by rw [← hsl.2.1]; exact hsl.2.2)
    · rw [if_neg c10] at h
      injection h with h; injection h with ht hg
      subst ht; subst hg
      exact ⟨(hwf.trans hpf).frame, Or.inr (kindOk_shget _ (by simpa using c10))⟩

theorem get_token_kind (g g1 : File_Contents) (t : Token_Iden)
    (h : get_token g = .ok (t, g1)) :
    Frame g g1 ∧ (t.type = 0 ∨ KindOk t.type) :=
  get_token_fuel_kind _ g g1 t h

theorem lex_loop_kinds :
    ∀ (fuel : Nat) (f g : File_Contents), lex_loop fuel f = .ok g →
      ∃ toks, g.token_buffer = f.token_buffer ++ toks ∧
        ∀ t ∈ toks, t.type ≠ 0 ∧ KindOk t.type := by
  intro fuel
  induction fuel with
  | zero => intro f g h; simp [lex_loop] at h
  | succ n ih =>
    intro f g h
    rw [lex_loop] at h
    split at h
    · obtain ⟨r, h1, h⟩ := (Result.bind_eq_ok _ _ _).mp h
      obtain ⟨t, f1⟩ := r
      obtain ⟨hfr, hk⟩ := get_token_kind f f1 t h1
      dsimp only at h
      split at h
      · rename_i hput
        obtain ⟨toks, htoks, hall⟩ := ih _ g h
        refine ⟨t :: toks, ?_, ?_⟩
        · rw [htoks]
          simp [hfr.1]
        · intro u hu
          rcases List.mem_cons.mp hu with hu | hu
          · subst hu
            have h0 : u.type ≠ 0 := by
              simp only [Bool.and_eq_true, bne_iff_ne] at hput
              exact hput.2
            exact ⟨h0, hk.resolve_left h0⟩
          · exact hall u hu
      · obtain ⟨toks, htoks, hall⟩ := ih _ g h
        exact ⟨toks, by rw [htoks, hfr.1], hall⟩
    · injection h with h
      subst h
      exact ⟨[], by simp, by simp⟩


/-! ## Identifiers and keywords -/

theorem ident_char_props (c : Nat) (h : (is_alnum c || is_non_special_char c) = true) :
    c ≠ 0 ∧ c ≠ 10 ∧ is_whitespace c = false := by
  simp only [is_alnum, is_alpha, is_number, is_non_special_char, is_whitespace,
    Bool.or_eq_true, Bool.and_eq_true, decide_eq_true_eq, beq_iff_eq] at h
  refine ⟨by omega, by omega, ?_⟩
  simp only [is_whitespace, Bool.or_eq_false_iff, beq_eq_false_iff_ne]
  omega

theorem slice_of_data (f : File_Contents) (pre run rest : List Nat)
    (hd : f.file_data = pre ++ (run ++ rest)) :
    f.slice pre.length (pre.length + run.length) = run := by
  simp [File_Contents.slice, hd]

theorem skip_whitespace_none (f : File_Contents) (pre rest : List Nat)
    (hd : f.file_data = pre ++ rest) (hp : f.pos = pre.length)
    (hws : is_whitespace (rest.headD 0) = false) (fuel : Nat) :
    advance_while is_whitespace (fuel + 1) f = .ok f := by
  have h := advance_while_run is_whitespace [] pre rest f (fuel + 1) (by simpa using hd) hp
    (by simp) hws (by simp)
  rw [h]
  exact congrArg Result.ok (moved_zero f)


/-! ## Runs of punctuation -/

theorem punct_char_props (c : Nat) (h : is_alnum c = false ∧ is_whitespace c = false ∧ c ≠ 0) :
    (!is_whitespace c && !is_alnum c) = true ∧ c ≠ 0 ∧ c ≠ 10 ∧ is_alpha c = false ∧
      is_number c = false := by
  obtain ⟨h1, h2, h3⟩ := h
  refine ⟨by simp [h1, h2], h3, ?_, ?_, ?_⟩
  · intro he; subst he; simp [is_whitespace] at h2
  · simp only [is_alnum, Bool.or_eq_false_iff] at h1; exact h1.1
  · simp only [is_alnum, Bool.or_eq_false_iff] at h1; exact h1.2

theorem punct_loop_run (start : Nat) :
    ∀ (run pre rest : List Nat) (f : File_Contents) (fuel : Nat),
      f.file_data = pre ++ (run ++ rest) → f.pos = pre.length →
      (∀ c ∈ run, is_alnum c = false ∧ is_whitespace c = false ∧ c ≠ 0) →
      (is_whitespace (rest.headD 0) = true ∨ is_alnum (rest.headD 0) = true ∨ rest.headD 0 = 0) →
      run.length < fuel → start ≤ f.pos → start < f.pos + run.length →
      punct_loop start fuel f = .ok (f.moved run.length, false) := by
  intro run
  induction run with
  | nil =>
    intro pre rest f fuel hd hp _ hstop hfuel hle hlt
    obtain ⟨n, rfl⟩ : ∃ n, fuel = n + 1 := ⟨fuel - 1, by simp at hfuel; omega⟩
    have hpk : f.peek = rest.headD 0 := peek_of_data f pre rest (by simpa using hd) hp
    have hne : f.pos ≠ start := by simp at hlt; omega
    rw [punct_loop, hpk, List.length_nil, moved_zero]
    generalize rest.headD 0 = x at hstop
    rcases hstop with h | h | h
    · simp [h]
    · simp [h]
    · simp [h, hne]
  | cons c run ih =>
    intro pre rest f fuel hd hp hrun hstop hfuel hle hlt
    obtain ⟨n, rfl⟩ : ∃ n, fuel = n + 1 := ⟨fuel - 1, by simp at hfuel; omega⟩
    have hpk : f.peek = c := by
      rw [peek_of_data f pre (c :: run ++ rest) (by simpa using hd) hp]; rfl
    have hc := punct_char_props c (hrun c (by simp))
    have hadv : advance_buffer f = .ok (f.moved 1) :=
      advance_buffer_plain f (by rw [hpk]; exact hc.2.1) (by rw [hpk]; exact hc.2.2.1)
    have hnext := ih (pre ++ [c]) rest (f.moved 1) n
      (by simp [File_Contents.moved, hd]) (by simp [File_Contents.moved, hp])
      (fun d hdm => hrun d (by simp [hdm])) hstop (by simp at hfuel; omega)
      (by simp [File_Contents.moved]; omega) (by simp [File_Contents.moved]; omega)
    have hc0 : (c == 0) = false := by simpa using hc.2.1
    rw [punct_loop, hpk, hc.1, hadv]
    simp only [if_true, hc0, Result.bind]
    rw [hnext, moved_moved, Nat.add_comm]
    simp

theorem rewind_steps_moved (f : File_Contents) (pre run rest : List Nat)
    (hd : f.file_data = pre ++ (run ++ rest)) (hp : f.pos = pre.length)
    (hrun : ∀ c ∈ run, c ≠ 10) :
    ∀ (m k : Nat), k + m ≤ run.length →
      rewind_steps m (f.moved (k + m)) = f.moved k := by
  intro m
  induction m with
  | zero => intro k _; rfl
  | succ m ih =>
    intro k hk
    have hstep : rewind_step (f.moved (k + (m + 1))) = f.moved (k + m) := by
      have hlt : k + m < run.length := by omega
      have hbyte : f.file_data.getD (f.pos + (k + m)) 0 ≠ 10 := by
        rw [hd, hp, getD_append_mid]
        have : (run ++ rest).getD (k + m) 0 = run[k + m] := by
          simp [List.getD_eq_getElem?_getD, List.getElem?_append_left hlt,
            List.getElem?_eq_getElem hlt]
        rw [this]
        exact hrun _ (List.getElem_mem _)
      unfold rewind_step
      have hpk : ({ f.moved (k + (m + 1)) with
          current_column := (f.moved (k + (m + 1))).current_column - 1,
          pos := (f.moved (k + (m + 1))).pos - 1 } : File_Contents).peek
          = f.file_data.getD (f.pos + (k + m)) 0 := by
        simp [File_Contents.peek, File_Contents.moved]
        rfl
      simp only [hpk]
      have h10 : (f.file_data.getD (f.pos + (k + m)) 0 == 10) = false := by simpa using hbyte
      rw [h10]
      simp [File_Contents.moved]
      constructor <;> omega
    rw [rewind_steps, hstep]
    exact ih k (by omega)

theorem keyword_keys_length : ∀ kv ∈ keyword_table, 2 ≤ kv.1.length := by decide

theorem keyword_value_ne_error (w : List Nat) (v : Token) (h : (w, v) ∈ keyword_table) :
    v ≠ KEYWORD_ERROR := by
  have h2 : -54 ≤ v ∧ v ≤ -2 := keyword_values_range _ h
  intro he
  rw [he] at h2
  exact absurd h2.2 (by decide)

theorem short_not_key (w : List Nat) (h : w.length < 2) : w ∉ keyword_table.map Prod.fst := by
  intro hm
  obtain ⟨kv, hkv, he⟩ := List.mem_map.mp hm
  have := keyword_keys_length kv hkv
  rw [he] at this
  omega

theorem shorten_loop_none (symbol : List Nat) :
    ∀ n : Nat, (∀ j, j < n → symbol.take j ∉ keyword_table.map Prod.fst) →
      shorten_loop symbol n = none := by
  intro n
  induction n with
  | zero => intro _; rfl
  | succ n ih =>
    intro h
    have hn := shget_of_not_mem _ (h n (Nat.lt_succ_self n))
    rw [shorten_loop, hn]
    simp only [bne_self_eq_false, Bool.false_eq_true, if_false]
    exact ih (fun j hj => h j (Nat.lt_succ_of_lt hj))

theorem shorten_loop_find (symbol : List Nat) (k : Nat) (v : Token)
    (hk : (symbol.take k, v) ∈ keyword_table) :
    ∀ n : Nat, k < n →
      (∀ j, k < j → j < n → symbol.take j ∉ keyword_table.map Prod.fst) →
      shorten_loop symbol n = some (k, v) := by
  intro n
  induction n with
  | zero => intro h; exact absurd h (Nat.not_lt_zero k)
  | succ n ih =>
    intro hkn h
    rw [shorten_loop]
    by_cases he : k = n
    · subst he
      have hv := shget_of_mem _ v hk
      have hne := keyword_value_ne_error _ v hk
      rw [hv]
      simp [hne]
    · have hlt : k < n := by omega
      have hn := shget_of_not_mem _ (h n hlt (Nat.lt_succ_self n))
      rw [hn]
      simp only [bne_self_eq_false, Bool.false_eq_true, if_false]
      exact ih hlt (fun j h1 h2 => h j h1 (Nat.lt_succ_of_lt h2))


/-! ## Number literals -/

theorem hex_char_props (c : Nat) (h : is_hex c = true) : c ≠ 0 ∧ c ≠ 10 := by
  simp only [is_hex, is_number, Bool.or_eq_true, Bool.and_eq_true, decide_eq_true_eq] at h
  constructor <;> omega

theorem hex_digit_eq (c : Nat) (h : is_hex c = true) : hex_digit_value c = hex_digit c := by
  have hlt : c < 103 := by
    simp only [is_hex, is_number, Bool.or_eq_true, Bool.and_eq_true, decide_eq_true_eq] at h
    omega
  have key : ∀ d : Nat, d < 103 → is_hex d = true → hex_digit_value d = hex_digit d := by
    decide
  exact key c hlt h

theorem hex_foldl_ge : ∀ (l : List Nat) (a : Nat),
    a ≤ l.foldl (fun acc c => acc * 16 + hex_digit c) a := by
  intro l
  induction l with
  | nil => intro a; exact Nat.le_refl a
  | cons c l ih =>
    intro a
    rw [List.foldl_cons]
    exact le_trans (by omega) (ih _)

theorem hex_foldl_mod : ∀ (l : List Nat) (a : Nat), (∀ c ∈ l, is_hex c = true) →
    l.foldl (fun acc c => acc * 16 + hex_digit c) a < 2 ^ 64 →
    l.foldl (fun acc c => (acc * 16 + hex_digit_value c) % 2 ^ 64) a
      = l.foldl (fun acc c => acc * 16 + hex_digit c) a := by
  intro l
  induction l with
  | nil => intro a _ _; rfl
  | cons c l ih =>
    intro a hh h
    rw [List.foldl_cons] at h
    rw [List.foldl_cons, List.foldl_cons, hex_digit_eq c (hh c (List.mem_cons_self _ _))]
    have hlt : a * 16 + hex_digit c < 2 ^ 64 := lt_of_le_of_lt (hex_foldl_ge l _) h
    rw [Nat.mod_eq_of_lt hlt]
    exact ih _ (fun d hd => hh d (List.mem_cons_of_mem _ hd)) h

theorem hex_to_num_eq (h : List Nat) (hh : ∀ c ∈ h, is_hex c = true)
    (hv : hex_value h < 2 ^ 64) : hex_to_num h = hex_value h :=
  hex_foldl_mod h 0 hh hv

theorem num_len_loop_bound : ∀ (fuel n : Nat), n < 10 ^ fuel → n < 10 ^ num_len_loop fuel n := by
  intro fuel
  induction fuel with
  | zero => intro n h; exact h
  | succ k ih =>
    intro n h
    rw [num_len_loop]
    by_cases h0 : (n != 0) = true
    · rw [if_pos h0]
      have hdiv : n / 10 < 10 ^ k := by
        rw [Nat.div_lt_iff_lt_mul (by decide)]
        rw [Nat.pow_succ] at h
        exact h
      have := ih (n / 10) hdiv
      rw [Nat.pow_succ]
      exact (Nat.div_lt_iff_lt_mul (by decide)).mp this
    · rw [if_neg h0]
      have : n = 0 := by simpa using h0
      rw [this]
      decide

/-- The buffer of `num_len + 1` bytes holds the decimal string of a 64-bit
value and its NUL exactly when the value is not 0. -/
theorem U64ToStr_fits (v : Nat) (hv : v < 2 ^ 64) :
    (_vstd_U64ToStr v).length ≤ num_len_loop 20 v + 1 ↔ v ≠ 0 := by
  constructor
  · intro h hz
    rw [hz] at h
    exact absurd h (by decide)
  · intro hz
    have hb : v < 10 ^ num_len_loop 20 v :=
      num_len_loop_bound 20 v (lt_trans hv (by decide))
    have hpos : 0 < num_len_loop 20 v := by
      rw [num_len_loop, if_pos (by simpa using hz)]
      omega
    have := Nat.toDigitsCore_length 10 (by decide) (v + 1) v _ hb hpos
    simp only [_vstd_U64ToStr, List.length_append, List.length_map, List.length_singleton,
      Nat.toDigits]
    omega

theorem U64ToStr_eq (v : Nat) : _vstd_U64ToStr v = decimal_string v ++ [0] := by
  have hs : (toString v).toList = Nat.toDigits 10 v := rfl
  simp only [_vstd_U64ToStr, decimal_string, bytes, hs]


theorem digit_props (c : Nat) (h : is_number c = true) :
    c ≠ 0 ∧ c ≠ 10 ∧ c ≠ 46 ∧ is_alpha c = false ∧ is_non_special_char c = false ∧
      is_whitespace c = false := by
  simp only [is_number, Bool.and_eq_true, decide_eq_true_eq] at h
  refine ⟨by omega, by omega, by omega, ?_, ?_, ?_⟩
  · simp only [is_alpha, Bool.or_eq_false_iff, Bool.and_eq_false_iff, decide_eq_false_iff_not]
    omega
  · simp only [is_non_special_char, beq_eq_false_iff_ne]; omega
  · simp only [is_whitespace, Bool.or_eq_false_iff, beq_eq_false_iff_ne]; omega

theorem number_loop_run (sl sc : Nat) :
    ∀ (ds : List Nat) (c0 : Nat) (pre rest : List Nat) (f : File_Contents) (fuel : Nat)
      (b : Bool),
      f.file_data = pre ++ (c0 :: ds ++ rest) → f.pos = pre.length →
      c0 ≠ 0 → c0 ≠ 10 →
      (∀ c ∈ ds, is_number c = true ∨ c = 46) →
      is_number (rest.headD 0) = false → rest.headD 0 ≠ 46 →
      ds.length < fuel →
      (ds.count 46 + (if b then 1 else 0) ≤ 1 →
          number_loop sl sc fuel f b = .ok (f.moved (1 + ds.length)))
      ∧ (2 ≤ ds.count 46 + (if b then 1 else 0) →
          number_loop sl sc fuel f b = .fatal .extra_decimal_point sl sc) := by
  intro ds
  induction ds with
  | nil =>
    intro c0 pre rest f fuel b hd hp h0 h10 _ hm1 hm2 hfuel
    obtain ⟨n, rfl⟩ : ∃ n, fuel = n + 1 := ⟨fuel - 1, by simp at hfuel; omega⟩
    have hpk : f.peek = c0 := by
      rw [peek_of_data f pre (c0 :: [] ++ rest) (by simpa using hd) hp]; rfl
    have hadv : advance_buffer f = .ok (f.moved 1) :=
      advance_buffer_plain f (by rw [hpk]; exact h0) (by rw [hpk]; exact h10)
    have hpk1 : (f.moved 1).peek = rest.headD 0 :=
      peek_of_data (f.moved 1) (pre ++ [c0]) rest
        (by simp [File_Contents.moved, hd]) (by simp [File_Contents.moved, hp])
    have h46 : (rest.headD 0 == 46) = false := by simpa using hm2
    constructor
    · intro _
      rw [number_loop, hadv]
      simp only [Result.bind, hpk1, h46, hm1]
      rfl
    · intro h
      exfalso
      cases b <;> simp at h
  | cons c ds ih =>
    intro c0 pre rest f fuel b hd hp h0 h10 hds hm1 hm2 hfuel
    obtain ⟨n, rfl⟩ : ∃ n, fuel = n + 1 := ⟨fuel - 1, by simp at hfuel; omega⟩
    have hpk : f.peek = c0 := by
      rw [peek_of_data f pre (c0 :: (c :: ds) ++ rest) (by simpa using hd) hp]; rfl
    have hadv : advance_buffer f = .ok (f.moved 1) :=
      advance_buffer_plain f (by rw [hpk]; exact h0) (by rw [hpk]; exact h10)
    have hpk1 : (f.moved 1).peek = c := by
      rw [peek_of_data (f.moved 1) (pre ++ [c0]) (c :: ds ++ rest)
        (by simp [File_Contents.moved, hd]) (by simp [File_Contents.moved, hp])]; rfl
    have hc : c ≠ 0 ∧ c ≠ 10 := by
      rcases hds c (by simp) with h | h
      · exact ⟨(digit_props c h).1, (digit_props c h).2.1⟩
      · subst h; exact ⟨by decide, by decide⟩
    have hnext := fun b' => ih c (pre ++ [c0]) rest (f.moved 1) n b'
      (by simp [File_Contents.moved, hd]) (by simp [File_Contents.moved, hp])
      hc.1 hc.2 (fun d hdm => hds d (by simp [hdm])) hm1 hm2 (by simp at hfuel; omega)
    have hlen : (f.moved 1).moved (1 + ds.length) = f.moved (1 + (c :: ds).length) := by
      rw [moved_moved]; simp [Nat.add_comm]
    have hcont : (is_number c || c == 46) = true := by
      rcases hds c (by simp) with h | h
      · simp [h]
      · simp [h]
    by_cases h46 : c = 46
    · subst h46
      cases b with
      | true =>
        constructor
        · intro h
          exfalso
          simp at h
        · intro _
          rw [number_loop, hadv]
          simp only [Result.bind, hpk1]
          rfl
      | false =>
        have hn := hnext true
        constructor
        · intro h
          rw [number_loop, hadv]
          simp only [Result.bind, hpk1]
          simp only [beq_self_eq_true, Bool.and_false, Bool.false_eq_true, if_false,
            Bool.or_true, if_true, Bool.false_or]
          rw [hn.1 (by simpa using h), hlen]
        · intro h
          rw [number_loop, hadv]
          simp only [Result.bind, hpk1]
          simp only [beq_self_eq_true, Bool.and_false, Bool.false_eq_true, if_false,
            Bool.or_true, if_true, Bool.false_or]
          rw [hn.2 (by simpa using h)]
    · have hb46 : (c == 46) = false := by simpa using h46
      have hcount : (c :: ds).count 46 = ds.count 46 := by
        rw [List.count_cons]; simp [hb46]
      have hn := hnext b
      have hnum : is_number c = true := (hds c (by simp)).resolve_right h46
      rw [hcount]
      constructor
      · intro h
        rw [number_loop, hadv]
        simp only [Result.bind, hpk1, hb46, hnum, Bool.false_and, Bool.or_false,
          Bool.false_eq_true, if_false, if_true]
        rw [hn.1 h, hlen]
      · intro h
        rw [number_loop, hadv]
        simp only [Result.bind, hpk1, hb46, hnum, Bool.false_and, Bool.or_false,
          Bool.false_eq_true, if_false, if_true]
        rw [hn.2 h]


/-! ## String literals -/

theorem char_to_escaped_small : ∀ c < 128, char_to_escaped c = (escape_value c).getD 1 := by
  decide

theorem char_to_escaped_large (c : Nat) (h : 128 ≤ c) : char_to_escaped c = 1 := by
  unfold char_to_escaped
  have e : ∀ k : Nat, k < 128 → (c == k) = false := by
    intro k hk
    simp only [beq_eq_false_iff_ne]
    omega
  simp only [e 97 (by decide), e 98 (by decide), e 102 (by decide), e 110 (by decide),
    e 114 (by decide), e 116 (by decide), e 118 (by decide), e 92 (by decide),
    e 39 (by decide), e 34 (by decide), e 63 (by decide), e 48 (by decide),
    Bool.false_eq_true, if_false]

theorem escape_value_large (c : Nat) (h : 128 ≤ c) : escape_value c = none := by
  unfold escape_value
  have : escape_table.find? (fun kv => kv.1 == c) = none := by
    rw [List.find?_eq_none]
    intro kv hkv
    have hb : ∀ kv ∈ escape_table, kv.1 < 128 := by decide
    have := hb kv hkv
    simp only [beq_iff_eq]
    omega
  rw [this]
  rfl

theorem char_to_escaped_eq (c : Nat) : char_to_escaped c = (escape_value c).getD 1 := by
  by_cases h : c < 128
  · exact char_to_escaped_small c h
  · rw [char_to_escaped_large c (by omega), escape_value_large c (by omega)]
    rfl

theorem escape_values_ne_one : ∀ kv ∈ escape_table, kv.2 ≠ 1 ∧ kv.1 ≠ 0 := by decide

theorem escape_value_some (c v : Nat) (h : escape_value c = some v) :
    char_to_escaped c = v ∧ v ≠ 1 ∧ c ≠ 0 := by
  refine ⟨by rw [char_to_escaped_eq, h]; rfl, ?_⟩
  unfold escape_value at h
  cases hf : escape_table.find? (fun kv => kv.1 == c) with
  | none => rw [hf] at h; exact absurd h (by simp)
  | some kv =>
    rw [hf] at h
    have hm := List.mem_of_find?_eq_some hf
    have hk := List.find?_some hf
    simp only [beq_iff_eq] at hk
    simp only [Option.map_some', Option.some.injEq] at h
    have := escape_values_ne_one kv hm
    rw [h, hk] at this
    exact this

theorem escape_value_none (c : Nat) (h : escape_value c = none) :
    char_to_escaped c = 1 := by
  rw [char_to_escaped_eq, h]
  rfl

theorem strlen_run : ∀ (x : List Nat) (tl : List Nat), (∀ c ∈ x, c ≠ 0) →
    ((x ++ 0 :: tl).takeWhile (fun c => c != 0)).length = x.length := by
  intro x
  induction x with
  | nil => intro tl _; simp
  | cons c x ih =>
    intro tl h
    have hc : (c != 0) = true := by simpa using h c (by simp)
    rw [List.cons_append, List.takeWhile_cons, hc]
    simp only [if_true, List.length_cons]
    rw [ih tl (fun d hd => h d (by simp [hd]))]

theorem memmove_left_run (pre x : List Nat) (c : Nat) (hx : ∀ d ∈ c :: x, d ≠ 0) :
    memmove_left (pre ++ (c :: x ++ [0])) pre.length = pre ++ (x ++ [0]) := by
  have hlen : vstd_strlen (pre ++ (c :: x ++ [0])) pre.length = (c :: x).length := by
    unfold vstd_strlen
    rw [List.drop_left]
    exact strlen_run (c :: x) [] hx
  unfold memmove_left
  simp only [hlen]
  rw [List.take_left]
  have h1 : (pre ++ (c :: x ++ [0])).drop (pre.length + 1) = x ++ [0] := by
    rw [← List.drop_drop, List.drop_left]
    rfl
  have h2 : (pre ++ (c :: x ++ [0])).drop (pre.length + (c :: x).length + 1) = [] := by
    apply List.drop_of_length_le
    simp
    omega
  rw [h1, h2, List.take_of_length_le (by simp), List.append_nil]

theorem advance_buffer_ok (f : File_Contents) (h0 : f.peek ≠ 0) :
    ∃ g, advance_buffer f = .ok g ∧ g.file_data = f.file_data ∧ g.pos = f.pos + 1 ∧
      g.path = f.path := by
  unfold advance_buffer
  have : (f.peek != 0) = true := by simpa using h0
  rw [if_pos this]
  by_cases h10 : (f.peek == 10) = true
  · rw [if_pos h10]; exact ⟨_, rfl, rfl, rfl, rfl⟩
  · rw [if_neg h10]; exact ⟨_, rfl, rfl, rfl, rfl⟩

theorem encode_body_nonzero : ∀ (body : List StrItem), (∀ i ∈ body, i.valid) →
    ∀ c ∈ encode_body body, c ≠ 0 := by
  intro body
  induction body with
  | nil => intro _ c hc; simp [encode_body] at hc
  | cons i body ih =>
    intro hv c hc
    have hi := hv i (by simp)
    simp only [encode_body, List.map_cons, List.flatten_cons, List.mem_append] at hc
    rcases hc with hc | hc
    · cases i with
      | plain d =>
        simp only [StrItem.encode, List.mem_singleton] at hc
        subst hc
        exact hi.2.2
      | esc d =>
        simp only [StrItem.encode, List.mem_cons, List.mem_singleton, List.mem_nil_iff,
          or_false] at hc
        rcases hc with hc | hc
        · subst hc; decide
        · subst hc
          simp only [StrItem.valid] at hi
          obtain ⟨v, hv1⟩ := Option.isSome_iff_exists.mp hi
          exact (escape_value_some _ v hv1).2.2
    · exact ih (fun j hj => hv j (by simp [hj])) c hc

theorem set_at_split (pre tl : List Nat) (c v : Nat) :
    (pre ++ (c :: tl)).set pre.length v = pre ++ (v :: tl) := by
  induction pre with
  | nil => rfl
  | cons a pre ih => simp [List.set, ih]

theorem string_loop_body (sl sc : Nat) :
    ∀ (body : List StrItem) (pre0 cont : List Nat) (g : File_Contents) (fuel : Nat),
      g.file_data = pre0 ++ (encode_body body ++ cont ++ [0]) → g.pos = pre0.length →
      (∀ i ∈ body, i.valid) → (∀ c ∈ cont, c ≠ 0) → body.length < fuel →
      ∃ g', string_loop sl sc fuel g = string_loop sl sc (fuel - body.length) g' ∧
        g'.file_data = pre0 ++ (decode_body body ++ cont ++ [0]) ∧
        g'.pos = pre0.length + body.length ∧ g'.path = g.path := by
  intro body
  induction body with
  | nil =>
    intro pre0 cont g fuel hd hp _ _ _
    exact ⟨g, rfl, by simpa [encode_body, decode_body] using hd, by simpa using hp, rfl⟩
  | cons i body ih =>
    intro pre0 cont g fuel hd hp hv hcont hfuel
    obtain ⟨n, rfl⟩ : ∃ n, fuel = n + 1 := ⟨fuel - 1, by simp at hfuel; omega⟩
    have hfn : n + 1 - (i :: body).length = n - body.length := by simp
    have hvb : ∀ j ∈ body, j.valid := fun j hj => hv j (by simp [hj])
    have hi := hv i (by simp)
    rw [hfn]
    cases i with
    | plain c =>
      have hd1 : g.file_data = pre0 ++ (c :: (encode_body body ++ cont ++ [0])) := by
        rw [hd]; simp [encode_body, StrItem.encode]
      have hpk : g.peek = c := by rw [peek_of_data g pre0 _ hd1 hp]; rfl
      obtain ⟨g1, ha, hgd, hgp, hgpath⟩ := advance_buffer_ok g (by rw [hpk]; exact hi.2.2)
      obtain ⟨g', hrun, hd', hp', hpath'⟩ := ih (pre0 ++ [c]) cont g1 n
        (by rw [hgd, hd1]; simp) (by rw [hgp, hp]; simp) hvb hcont (by simp at hfuel; omega)
      refine ⟨g', ?_, ?_, ?_, ?_⟩
      · have c34 : (c != 34) = true := by simpa using hi.1
        have c0 : (c == 0) = false := by simpa using hi.2.2
        have c92 : (c == 92) = false := by simpa using hi.2.1
        rw [string_loop, hpk, if_pos c34, c0, c92, ha]
        simp only [Bool.false_eq_true, if_false, Result.bind]
        exact hrun
      · rw [hd']; simp [decode_body, StrItem.decode]
      · rw [hp']; simp; omega
      · rw [hpath', hgpath]
    | esc c =>
      simp only [StrItem.valid] at hi
      obtain ⟨v, hv1⟩ := Option.isSome_iff_exists.mp hi
      obtain ⟨hce, hv1ne, hc0⟩ := escape_value_some c v hv1
      have hd1 : g.file_data = pre0 ++ (92 :: (c :: encode_body body ++ cont) ++ [0]) := by
        rw [hd]; simp [encode_body, StrItem.encode]
      have hpk : g.peek = 92 := by rw [peek_of_data g pre0 _ hd1 hp]; rfl
      have hmm : memmove_left g.file_data g.pos
          = pre0 ++ (c :: (encode_body body ++ cont ++ [0])) := by
        rw [hd1, hp, memmove_left_run pre0 (c :: encode_body body ++ cont) 92]
        · simp
        · intro d hdm
          simp only [List.mem_cons, List.mem_append] at hdm
          rcases hdm with h | (h | h) | h
          · subst h; decide
          · subst h; exact hc0
          · exact encode_body_nonzero body hvb d h
          · exact hcont d h
      obtain ⟨g', hrun, hd', hp', hpath'⟩ := ih (pre0 ++ [v]) cont
        { g with file_data := pre0 ++ (v :: (encode_body body ++ cont ++ [0])),
                 file_size := g.file_size - 1, pos := g.pos + 1 } n
        (by simp) (by simp [hp]) hvb hcont (by simp at hfuel; omega)
      refine ⟨g', ?_, ?_, ?_, ?_⟩
      · rw [string_loop, hpk]
        simp only [bne_iff_ne, ne_eq, Nat.reduceEqDiff, not_false_eq_true, if_true,
          Nat.reduceBEq, Bool.false_eq_true, if_false, beq_self_eq_true]
        have hpk1 : ({ g with file_data := memmove_left g.file_data g.pos } : File_Contents).peek
            = c := by
          rw [peek_of_data { g with file_data := memmove_left g.file_data g.pos } pre0
            (c :: (encode_body body ++ cont ++ [0])) hmm hp]; rfl
        rw [hpk1, hce]
        have hset : (memmove_left g.file_data g.pos).set g.pos v
            = pre0 ++ (v :: (encode_body body ++ cont ++ [0])) := by
          rw [hmm, hp, set_at_split]
        simp only [hset]
        have hpk2 : ({ g with file_data := pre0 ++ (v :: (encode_body body ++ cont ++ [0])) }
            : File_Contents).peek = v := by
          rw [peek_of_data
            { g with file_data := pre0 ++ (v :: (encode_body body ++ cont ++ [0])) } pre0
            (v :: (encode_body body ++ cont ++ [0])) rfl hp]; rfl
        rw [hpk2]
        have hv1b : (v == 1) = false := by simpa using hv1ne
        rw [hv1b]
        simp only [Bool.false_eq_true, if_false]
        exact hrun
      · rw [hd']; simp [decode_body, StrItem.decode, hv1]
      · rw [hp']; simp; omega
      · rw [hpath']

theorem encode_body_length (body : List StrItem) : body.length ≤ (encode_body body).length := by
  induction body with
  | nil => simp [encode_body]
  | cons i body ih =>
    cases i <;>
      (simp only [encode_body, List.map_cons, List.flatten_cons, StrItem.encode,
        List.length_append, List.length_cons, List.length_nil] at ih ⊢; omega)

theorem string_open (f : File_Contents) (pre tl : List Nat)
    (hd : f.file_data = pre ++ (34 :: tl)) (hp : f.pos = pre.length) :
    get_token f =
      ((string_loop f.current_line f.current_column (f.file_data.length + 1) (f.moved 1)).bind
        fun f2 => (advance_buffer f2).bind fun f3 =>
          .ok (payload_token f3
                ((f3.slice (f.pos + 1) f3.pos).set (f3.pos - (f.pos + 1) - 1) 0)
                tok_const_str f.current_line f.current_column, f3)) := by
  have hws : advance_while is_whitespace (f.file_data.length + 1) f = .ok f :=
    skip_whitespace_none f pre (34 :: tl) hd hp (by simp [is_whitespace]) _
  have hpk : f.peek = 34 := by rw [peek_of_data f pre (34 :: tl) hd hp]; rfl
  have ha1 : advance_buffer f = .ok (f.moved 1) :=
    advance_buffer_plain f (by rw [hpk]; decide) (by rw [hpk]; decide)
  unfold get_token
  rw [get_token_fuel, hws]
  simp only [Result.bind, hpk]
  rw [ha1]
  rfl

theorem slice_set_last (f : File_Contents) (pre mid tl : List Nat) (c : Nat)
    (hd : f.file_data = pre ++ (mid ++ c :: tl)) :
    (f.slice pre.length (pre.length + mid.length + 1)).set
      (pre.length + mid.length + 1 - pre.length - 1) 0 = mid ++ [0] := by
  have h1 : f.slice pre.length (pre.length + mid.length + 1) = mid ++ [c] := by
    have := slice_of_data f pre (mid ++ [c]) tl (by rw [hd]; simp)
    simpa [Nat.add_assoc] using this
  have h2 : pre.length + mid.length + 1 - pre.length - 1 = mid.length := by omega
  rw [h1, h2, set_at_split]


/-! ## Binary expressions -/

theorem advance_tokens_buffer : ∀ (n : Nat) (f : File_Contents),
    (advance_tokens n f).token_buffer = f.token_buffer ∧
      (advance_tokens n f).curr_token = f.curr_token + n := by
  intro n
  induction n with
  | zero => intro f; exact ⟨rfl, rfl⟩
  | succ n ih =>
    intro f
    have := ih (advance_token f).2
    refine ⟨this.1, ?_⟩
    rw [advance_tokens, this.2]
    simp only [advance_token]
    omega

theorem advance_tokens_succ (n : Nat) (f : File_Contents) :
    (advance_token (advance_tokens n f)).2 = advance_tokens (n + 1) f := by
  induction n generalizing f with
  | zero => rfl
  | succ n ih => exact ih (advance_token f).2

theorem current_of_get (g : File_Contents) (t : Token_Iden)
    (h : g.token_buffer.get? g.curr_token = some t) : g.current = .ok t := by
  simp only [File_Contents.current, File_Contents.token_at, h]

theorem advance_token_read_of_get (g : File_Contents) (t : Token_Iden)
    (h : g.token_buffer.get? g.curr_token = some t) :
    advance_token_read g = .ok (t, (advance_token g).2) := by
  have : (advance_token g).2.token_at (advance_token g).1 = .ok t := by
    simp only [advance_token, File_Contents.token_at, h]
  rw [advance_token_read, this]
  rfl

theorem binary_operator_facts : ∀ k ∈ binary_operators,
    get_precedence k false = get_precedence k true - 1 ∧
    15 ≤ get_precedence k true ∧ get_precedence k true % 2 = 1 ∧
    k ∉ postfix_starts ∧ k ≠ tok_identifier ∧ k ≠ tok_number ∧ k ≠ tok_const_str := by
  decide

theorem operand_not_unary (t : Token_Iden) (h : is_operand_token t) :
    (t.type == 35) = false ∧
    (t.type == 42 || t.type == 64 || t.type == tok_minus || t.type == tok_not
      || t.type == tok_plusplus || t.type == tok_minusminus) = false := by
  rcases h with h | h | h <;> rw [h] <;> exact ⟨by decide, by decide⟩

theorem parse_operand_of_token (g : File_Contents) (t : Token_Iden) (stop : Int) (fuel : Nat)
    (ht : g.token_buffer.get? g.curr_token = some t) (hop : is_operand_token t) :
    parse_operand (fuel + 1) g stop false = .ok (operand_node t, (advance_token g).2) := by
  rw [parse_operand, current_of_get g t ht]
  simp only [Result.bind]
  rw [advance_token_read_of_get g t ht]
  rcases hop with h | h | h
  · simp [h, Result.bind, ast_identifier, operand_node]
  · have h1 : (tok_number == tok_identifier) = false := by decide
    simp [h, h1, Result.bind, operand_node]
    rfl
  · have h1 : (tok_const_str == tok_identifier) = false := by decide
    have h2 : (tok_const_str == tok_number) = false := by decide
    simp [h, h1, h2, Result.bind, operand_node]
    rfl

theorem not_postfix_facts (k : Token) (h : k ∉ postfix_starts) :
    (k == 40) = false ∧ (k == 123) = false ∧ (k == 91) = false ∧ (k == 46) = false ∧
      (k == tok_plusplus || k == tok_minusminus) = false := by
  simp only [postfix_starts, List.mem_cons, List.mem_singleton, List.mem_nil_iff, or_false,
    not_or] at h
  obtain ⟨h1, h2, h3, h4, h5, h6⟩ := h
  refine ⟨by simpa using h1, by simpa using h2, by simpa using h3, by simpa using h4, ?_⟩
  simp [h5, h6]

theorem parse_atom_done (g : File_Contents) (t : Token_Iden) (operand : Ast_Node)
    (stop : Int) (fuel : Nat)
    (ht : g.token_buffer.get? g.curr_token = some t) (hn : t.type ∉ postfix_starts) :
    parse_atom_expression (fuel + 1) g operand stop false = .ok (operand, g) := by
  obtain ⟨h1, h2, h3, h4, h5⟩ := not_postfix_facts t.type hn
  rw [parse_atom_expression, current_of_get g t ht]
  simp only [Result.bind, h1, h2, h3, h4, h5, Bool.false_eq_true, if_false]
  by_cases hs : (t.type == stop) = true
  · rw [if_pos hs]
  · rw [if_neg hs]

theorem operand_node_not_null (t : Token_Iden) : (operand_node t).is_null = false := by
  unfold operand_node
  split
  · rfl
  · split <;> rfl

theorem parse_unary_of_operand (g : File_Contents) (t t1 : Token_Iden) (stop : Int)
    (fuel : Nat)
    (ht : g.token_buffer.get? g.curr_token = some t)
    (ht1 : g.token_buffer.get? (g.curr_token + 1) = some t1)
    (hop : is_operand_token t) (hn : t1.type ∉ postfix_starts) :
    parse_unary_expression (fuel + 2) g stop false
      = .ok (operand_node t, (advance_token g).2) := by
  obtain ⟨hu1, hu2⟩ := operand_not_unary t hop
  rw [parse_unary_expression, current_of_get g t ht]
  simp only [Result.bind, hu1, hu2, Bool.false_eq_true, if_false]
  rw [parse_operand_of_token g t stop fuel ht hop]
  simp only []
  rw [parse_atom_done (advance_token g).2 t1 (operand_node t) stop fuel
    (by simpa [advance_token] using ht1) hn]
  simp only [operand_node_not_null, Bool.false_eq_true, if_false]

/-- An operand: a stretch of tokens that `parse_unary_expression` turns into
the node `node`, taking the cursor from `g` to `g1`, whenever it gets at least
`k` units of fuel. -/
theorem operand_of_token (g : File_Contents) (t t1 : Token_Iden) (stop : Int)
    (ht : g.token_buffer.get? g.curr_token = some t)
    (ht1 : g.token_buffer.get? (g.curr_token + 1) = some t1)
    (hop : is_operand_token t) (hn : t1.type ∉ postfix_starts) :
    ∀ n : Nat, 2 ≤ n →
      parse_unary_expression n g stop false = .ok (operand_node t, (advance_token g).2) := by
  intro n hn2
  obtain ⟨m, rfl⟩ : ∃ m, n = m + 2 := ⟨n - 2, by omega⟩
  exact parse_unary_of_operand g t t1 stop m ht ht1 hop hn

/-- One operand followed by a token that ends the expression at this level. -/
theorem parse_binary_single (g g1 : File_Contents) (node : Ast_Node) (t1 : Token_Iden)
    (stop : Token) (min_bp : Int) (k fuel : Nat)
    (hu : ∀ n : Nat, k ≤ n →
      parse_unary_expression n g (to_char stop) false = .ok (node, g1))
    (ht1 : g1.current = .ok t1)
    (h : t1.type = stop ∨ get_precedence t1.type true < min_bp)
    (hfuel : k + 1 ≤ fuel) (hk : 1 ≤ k) :
    parse_binary_expression fuel g stop min_bp false = .ok (node, g1) := by
  obtain ⟨m, rfl⟩ : ∃ m, fuel = m + 2 := ⟨fuel - 2, by omega⟩
  rw [parse_binary_expression, hu (m + 1) (by omega)]
  simp only [Result.bind]
  rw [binary_loop, ht1]
  have hc : (t1.type == stop || decide (get_precedence t1.type true < min_bp)) = true := by
    rcases h with h | h
    · simp [h]
    · simp [h]
  simp only [Result.bind, hc, if_true]

theorem binary_loop_end (g : File_Contents) (t : Token_Iden) (stop : Token) (min_bp : Int)
    (result : Ast_Node) (fuel : Nat)
    (ht : g.current = .ok t)
    (h : t.type = stop ∨ get_precedence t.type true < min_bp) (hfuel : 1 ≤ fuel) :
    binary_loop fuel g stop min_bp false result = .ok (result, g) := by
  obtain ⟨m, rfl⟩ : ∃ m, fuel = m + 1 := ⟨fuel - 1, by omega⟩
  rw [binary_loop, ht]
  have hc : (t.type == stop || decide (get_precedence t.type true < min_bp)) = true := by
    rcases h with h | h
    · simp [h]
    · simp [h]
  simp only [Result.bind, hc, if_true]

theorem binary_loop_operator (g : File_Contents) (t : Token_Iden) (stop : Token) (min_bp : Int)
    (result : Ast_Node) (fuel : Nat)
    (ht : g.current = .ok t)
    (h1 : t.type ≠ stop) (h2 : min_bp ≤ get_precedence t.type true) :
    binary_loop (fuel + 1) g stop min_bp false result =
      (parse_binary_expression fuel (advance_token g).2 stop
          (get_precedence t.type false) false).bind fun r =>
        binary_loop fuel r.2 stop min_bp false (binary_node t result r.1) := by
  rw [binary_loop, ht]
  have hc : (t.type == stop || decide (get_precedence t.type true < min_bp)) = false := by
    simp [h1]
    omega
  simp only [Result.bind, hc, Bool.false_eq_true, if_false]
  rfl

/-- Operand, operator `x`, operand, operator `y`, operand, where `y` binds at
least as tightly as the right side of `x`: `y` takes the middle operand. -/
theorem parse_binary_nest_right (g0 g1 g2 g3 g4 : File_Contents) (na nb nc : Ast_Node)
    (x y e : Token_Iden) (stop : Token) (min_bp : Int) (k fuel : Nat)
    (hA : ∀ n : Nat, k ≤ n →
      parse_unary_expression n g0 (to_char stop) false = .ok (na, g1))
    (hx0 : g1.current = .ok x)
    (hB : ∀ n : Nat, k ≤ n →
      parse_unary_expression n (advance_token g1).2 (to_char stop) false = .ok (nb, g2))
    (hy0 : g2.current = .ok y) (hg3 : g3 = (advance_token g2).2)
    (hC : ∀ n : Nat, k ≤ n →
      parse_unary_expression n g3 (to_char stop) false = .ok (nc, g4))
    (he0 : g4.current = .ok e)
    (hx : x.type ∈ binary_operators) (hy : y.type ∈ binary_operators)
    (hxs : x.type ≠ stop) (hys : y.type ≠ stop)
    (he2 : e.type = stop ∨ get_precedence e.type true = 0)
    (hmin1 : 1 ≤ min_bp) (hmin2 : min_bp ≤ get_precedence x.type true)
    (hxy : get_precedence x.type false ≤ get_precedence y.type true)
    (hk : 1 ≤ k) (hfuel : k + 6 ≤ fuel) :
    parse_binary_expression fuel g0 stop min_bp false
      = .ok (binary_node x na (binary_node y nb nc), g4) := by
  obtain ⟨m, rfl⟩ : ∃ m, fuel = m + 6 := ⟨fuel - 6, by omega⟩
  obtain ⟨hx1, hx2, _⟩ := binary_operator_facts x.type hx
  obtain ⟨hy1, hy2, _⟩ := binary_operator_facts y.type hy
  subst hg3
  have hend : ∀ bound : Int, 1 ≤ bound →
      (e.type = stop ∨ get_precedence e.type true < bound) := by
    intro bound hbd
    rcases he2 with h | h
    · exact Or.inl h
    · exact Or.inr (by rw [h]; omega)
  have inner : parse_binary_expression (m + 2) (advance_token g2).2 stop
      (get_precedence y.type false) false = .ok (nc, g4) :=
    parse_binary_single _ g4 nc e stop _ k (m + 2) hC he0 (hend _ (by omega)) (by omega) hk
  have mid : parse_binary_expression (m + 4) (advance_token g1).2 stop
      (get_precedence x.type false) false = .ok (binary_node y nb nc, g4) := by
    rw [parse_binary_expression, hB (m + 3) (by omega)]
    simp only [Result.bind]
    rw [binary_loop_operator g2 y stop _ _ (m + 2) hy0 hys hxy, inner]
    simp only [Result.bind]
    exact binary_loop_end g4 e stop _ _ (m + 2) he0 (hend _ (by omega)) (by omega)
  rw [parse_binary_expression, hA (m + 5) (by omega)]
  simp only [Result.bind]
  rw [binary_loop_operator g1 x stop min_bp na (m + 4) hx0 hxs hmin2, mid]
  simp only [Result.bind]
  exact binary_loop_end g4 e stop _ _ (m + 4) he0 (hend _ hmin1) (by omega)

/-- Operand, operator `x`, operand, operator `y`, operand, where `y` binds less
tightly than the right side of `x`: `x` takes the middle operand. -/
theorem parse_binary_nest_left (g0 g1 g2 g3 g4 : File_Contents) (na nb nc : Ast_Node)
    (x y e : Token_Iden) (stop : Token) (min_bp : Int) (k fuel : Nat)
    (hA : ∀ n : Nat, k ≤ n →
      parse_unary_expression n g0 (to_char stop) false = .ok (na, g1))
    (hx0 : g1.current = .ok x)
    (hB : ∀ n : Nat, k ≤ n →
      parse_unary_expression n (advance_token g1).2 (to_char stop) false = .ok (nb, g2))
    (hy0 : g2.current = .ok y) (hg3 : g3 = (advance_token g2).2)
    (hC : ∀ n : Nat, k ≤ n →
      parse_unary_expression n g3 (to_char stop) false = .ok (nc, g4))
    (he0 : g4.current = .ok e)
    (hx : x.type ∈ binary_operators) (hy : y.type ∈ binary_operators)
    (hxs : x.type ≠ stop) (hys : y.type ≠ stop)
    (he2 : e.type = stop ∨ get_precedence e.type true = 0)
    (hmin1 : 1 ≤ min_bp) (hmin2 : min_bp ≤ get_precedence y.type true)
    (hxy : get_precedence y.type true < get_precedence x.type false)
    (hk : 1 ≤ k) (hfuel : k + 6 ≤ fuel) :
    parse_binary_expression fuel g0 stop min_bp false
      = .ok (binary_node y (binary_node x na nb) nc, g4) := by
  obtain ⟨m, rfl⟩ : ∃ m, fuel = m + 6 := ⟨fuel - 6, by omega⟩
  obtain ⟨hx1, hx2, _⟩ := binary_operator_facts x.type hx
  obtain ⟨hy1, hy2, _⟩ := binary_operator_facts y.type hy
  subst hg3
  have hend : ∀ bound : Int, 1 ≤ bound →
      (e.type = stop ∨ get_precedence e.type true < bound) := by
    intro bound hbd
    rcases he2 with h | h
    · exact Or.inl h
    · exact Or.inr (by rw [h]; omega)
  have first : parse_binary_expression (m + 4) (advance_token g1).2 stop
      (get_precedence x.type false) false = .ok (nb, g2) :=
    parse_binary_single _ g2 nb y stop _ k (m + 4) hB hy0 (Or.inr hxy) (by omega) hk
  have last : parse_binary_expression (m + 3) (advance_token g2).2 stop
      (get_precedence y.type false) false = .ok (nc, g4) :=
    parse_binary_single _ g4 nc e stop _ k (m + 3) hC he0 (hend _ (by omega)) (by omega) hk
  have hxmin : min_bp ≤ get_precedence x.type true := by omega
  rw [parse_binary_expression, hA (m + 5) (by omega)]
  simp only [Result.bind]
  rw [binary_loop_operator g1 x stop min_bp na (m + 4) hx0 hxs hxmin, first]
  simp only [Result.bind]
  rw [binary_loop_operator g2 y stop min_bp _ (m + 3) hy0 hys hmin2, last]
  simp only [Result.bind]
  exact binary_loop_end g4 e stop _ _ (m + 3) he0 (hend _ hmin1) (by omega)

/-! ## The table of binding powers and prefix operators -/

theorem precedence_kinds : ∀ k ∈ ([tok_plusplus, tok_minusminus, 40, 91, 42, 47, 37, 43, 45,
      tok_bits_lshift, tok_bits_rshift, 60, 62, tok_logical_lequal, tok_logical_gequal,
      tok_logical_is, tok_logical_isnot, 38, 94, 124, tok_logical_and, tok_logical_or]
      : List Token), ∀ b : Bool,
    get_precedence k b = table_precedence k b := by
  decide

theorem get_of_current (g : File_Contents) (t : Token_Iden) (h : g.current = .ok t) :
    g.token_buffer.get? g.curr_token = some t := by
  simp only [File_Contents.current, File_Contents.token_at] at h
  split at h
  · rename_i x hx
    rw [hx]
    cases h
    rfl
  · cases h

theorem prefix_operator_facts : ∀ k ∈ prefix_operators,
    (k == 35) = false ∧
    (k == 42 || k == 64 || k == tok_minus || k == tok_not
      || k == tok_plusplus || k == tok_minusminus) = true := by
  decide

/-- A prefix operator outside a left-hand side: the operator is read and the
operand is parsed by `parse_unary_expression` itself. -/
theorem parse_unary_prefix (g : File_Contents) (u : Token_Iden) (stop : Int) (fuel : Nat)
    (hu0 : g.token_buffer.get? g.curr_token = some u) (hu : u.type ∈ prefix_operators) :
    parse_unary_expression (fuel + 1) g stop false =
      (parse_unary_expression fuel (advance_token g).2 stop false).bind fun r =>
        .ok (unary_node u r.1, r.2) := by
  obtain ⟨h1, h2⟩ := prefix_operator_facts u.type hu
  rw [parse_unary_expression, current_of_get g u hu0]
  simp only [Result.bind, h1, h2, Bool.false_eq_true, if_false, if_true]
  rw [advance_token_read_of_get g u hu0]
  simp only [Bool.false_and, Bool.false_eq_true, if_false]
  rfl

theorem parser_eat_of_get (g : File_Contents) (t : Token_Iden) (k : Token)
    (h : g.token_buffer.get? g.curr_token = some t) (hk : t.type = k) :
    parser_eat g k = .ok { (advance_token g).2 with last_read_token := t } := by
  rw [parser_eat, advance_token_read_of_get g t h]
  simp [Result.bind, hk]

theorem rejected_prefix_facts : ∀ k ∈ rejected_prefix_operators,
    (k == 35) = false ∧
    (k == 42 || k == 64 || k == tok_minus || k == tok_not
      || k == tok_plusplus || k == tok_minusminus) = true ∧ (k == 42) = false := by
  decide

theorem raise_after_advance {α : Type} (e : Error) (g : File_Contents) (t : Token_Iden)
    (h : g.token_buffer.get? g.curr_token = some t) :
    (raise_parsing_unexpected_token e (advance_token g).2 : Result α)
      = .fatal e t.line t.column := by
  simp only [raise_parsing_unexpected_token, advance_token, h]

/-- The start of an expression in an lhs context: a literal or an opening
parenthesis is fatal in `parse_operand`. -/
theorem lhs_literal_fatal (fuel : Nat) (f : File_Contents) (t : Token_Iden) (stop : Token)
    (ht : f.token_buffer.get? f.curr_token = some t) (hstop : t.type ≠ stop)
    (hk : t.type = tok_number ∨ t.type = tok_const_str ∨ t.type = 40) :
    parse_expression (fuel + 4) f stop true
      = .fatal (.unexpected_token "left-handside of statement") t.line t.column := by
  have hs : (t.type == stop) = false := by simpa using hstop
  have hop : parse_operand (fuel + 1) f (to_char stop) true
      = .fatal (.unexpected_token "left-handside of statement") t.line t.column := by
    rw [parse_operand, current_of_get f t ht]
    rcases hk with h | h | h <;>
      simp [Result.bind, h, tok_number, tok_identifier, tok_const_str,
        raise_after_advance _ f t ht]
  have hu : (t.type == 35) = false ∧
      (t.type == 42 || t.type == 64 || t.type == tok_minus || t.type == tok_not
        || t.type == tok_plusplus || t.type == tok_minusminus) = false := by
    rcases hk with h | h | h <;> rw [h] <;> exact ⟨by decide, by decide⟩
  rw [parse_expression, current_of_get f t ht]
  simp only [Result.bind, hs, Bool.false_eq_true, if_false]
  rw [parse_binary_expression, parse_unary_expression, current_of_get f t ht]
  simp only [Result.bind, hu.1, hu.2, Bool.false_eq_true, if_false, hop]

/-- The start of an expression in an lhs context: a cast is fatal. -/
theorem lhs_cast_fatal (fuel : Nat) (f : File_Contents) (t : Token_Iden) (stop : Token)
    (ht : f.token_buffer.get? f.curr_token = some t) (hstop : t.type ≠ stop)
    (hk : t.type = 35) :
    parse_expression (fuel + 3) f stop true
      = .fatal (.unexpected_token "left-hand side of statement, not cast")
          t.line t.column := by
  have hs : (t.type == stop) = false := by simpa using hstop
  rw [parse_expression, current_of_get f t ht]
  simp only [Result.bind, hs, Bool.false_eq_true, if_false]
  rw [parse_binary_expression, parse_unary_expression, current_of_get f t ht]
  simp only [Result.bind, hk, beq_self_eq_true, if_true, advance_token_read_of_get f t ht,
    raise_after_advance _ f t ht]

/-- The start of an expression in an lhs context: a prefix operator other than
`*` is fatal. -/
theorem lhs_prefix_fatal (fuel : Nat) (f : File_Contents) (t : Token_Iden) (stop : Token)
    (ht : f.token_buffer.get? f.curr_token = some t) (hstop : t.type ≠ stop)
    (hk : t.type ∈ rejected_prefix_operators) :
    parse_expression (fuel + 3) f stop true
      = .fatal (.unexpected_token "left-hand side of statement, not unary expression")
          t.line t.column := by
  have hs : (t.type == stop) = false := by simpa using hstop
  obtain ⟨h1, h2, h3⟩ := rejected_prefix_facts t.type hk
  rw [parse_expression, current_of_get f t ht]
  simp only [Result.bind, hs, Bool.false_eq_true, if_false]
  rw [parse_binary_expression, parse_unary_expression, current_of_get f t ht]
  simp only [Result.bind, h1, h2, Bool.false_eq_true, if_false, if_true,
    advance_token_read_of_get f t ht]
  simp only [h3, raise_after_advance _ f t ht, Bool.not_false, Bool.and_self, if_true]

/-- An identifier followed by an opening brace in an lhs context: the struct
initialisation is fatal in `parse_atom_expression`. -/
theorem lhs_struct_init_fatal (fuel : Nat) (f : File_Contents) (t t1 : Token_Iden)
    (stop : Token)
    (ht : f.token_buffer.get? f.curr_token = some t) (hstop : t.type ≠ stop)
    (hk : t.type = tok_identifier)
    (ht1 : f.token_buffer.get? (f.curr_token + 1) = some t1) (hk1 : t1.type = 123)
    (hstop1 : to_char stop ≠ 123) :
    parse_expression (fuel + 4) f stop true
      = .fatal (.unexpected_token
          "left-hand side of statement , not got struct initialization")
          t.line t.column := by
  have hs : (t.type == stop) = false := by simpa using hstop
  have hu : (t.type == 35) = false ∧
      (t.type == 42 || t.type == 64 || t.type == tok_minus || t.type == tok_not
        || t.type == tok_plusplus || t.type == tok_minusminus) = false := by
    rw [hk]; exact ⟨by decide, by decide⟩
  have hop : parse_operand (fuel + 1) f (to_char stop) true
      = .ok (.identifier t, (advance_token f).2) := by
    rw [parse_operand, current_of_get f t ht]
    simp [Result.bind, hk, advance_token_read_of_get f t ht, ast_identifier]
  have ht1a : (advance_token f).2.token_buffer.get? (advance_token f).2.curr_token = some t1 := by
    simpa [advance_token] using ht1
  have hs1 : ((123 : Int) == to_char stop) = false := by
    simp only [beq_eq_false_iff_ne, ne_eq]
    exact fun h => hstop1 h.symm
  have hraise : (raise_parsing_unexpected_token
      (.unexpected_token "left-hand side of statement , not got struct initialization")
      (advance_token f).2 : Result (Ast_Node × File_Contents))
      = .fatal (.unexpected_token
          "left-hand side of statement , not got struct initialization")
          t.line t.column := raise_after_advance _ f t ht
  have hat : parse_atom_expression (fuel + 1) (advance_token f).2 (.identifier t)
      (to_char stop) true
      = .fatal (.unexpected_token
          "left-hand side of statement , not got struct initialization")
          t.line t.column := by
    rw [parse_atom_expression, current_of_get _ t1 ht1a]
    simp only [Result.bind, hk1, hs1, Bool.false_eq_true, if_false, hraise]
    rfl
  rw [parse_expression, current_of_get f t ht]
  simp only [Result.bind, hs, Bool.false_eq_true, if_false]
  rw [parse_binary_expression, parse_unary_expression, current_of_get f t ht]
  simp only [Result.bind, hu.1, hu.2, Bool.false_eq_true, if_false, hop, hat]

/-- An operand followed by a binary operator in an lhs context: the operator
is fatal in the loop of `parse_binary_expression`. -/
theorem lhs_binary_fatal (fuel k : Nat) (f g1 : File_Contents) (t p : Token_Iden)
    (na : Ast_Node) (stop : Token)
    (ht : f.token_buffer.get? f.curr_token = some t) (hstop : t.type ≠ stop)
    (hA : ∀ n : Nat, k ≤ n →
      parse_unary_expression n f (to_char stop) true = .ok (na, g1))
    (hp0 : g1.token_buffer.get? g1.curr_token = some p) (hp : p.type ∈ binary_operators)
    (hps : p.type ≠ stop) (hk : 1 ≤ k) (hfuel : k + 2 ≤ fuel) :
    parse_expression fuel f stop true
      = .fatal (.unexpected_token "left-handside of statement, not binary operation")
          p.line p.column := by
  obtain ⟨m, rfl⟩ : ∃ m, fuel = m + 3 := ⟨fuel - 3, by omega⟩
  have hs : (t.type == stop) = false := by simpa using hstop
  obtain ⟨_, hp2, _⟩ := binary_operator_facts p.type hp
  have hc : (p.type == stop || decide (get_precedence p.type true < 1)) = false := by
    simp [hps]
    omega
  rw [parse_expression, current_of_get f t ht]
  simp only [Result.bind, hs, Bool.false_eq_true, if_false]
  rw [parse_binary_expression, hA (m + 1) (by omega)]
  simp only [Result.bind]
  rw [binary_loop, current_of_get g1 p hp0]
  simp only [Result.bind, hc, Bool.false_eq_true, if_false, if_true,
    raise_after_advance _ g1 p hp0]

/-- A leading `*` in an lhs context: its operand is parsed by
`parse_unary_expression` with `is_lhs` false. -/
theorem lhs_star_operand (fuel : Nat) (f : File_Contents) (t : Token_Iden) (stop : Int)
    (ht : f.token_buffer.get? f.curr_token = some t) (hk : t.type = 42) :
    parse_unary_expression (fuel + 1) f stop true =
      (parse_unary_expression fuel (advance_token f).2 stop false).bind fun r =>
        .ok (unary_node t r.1, r.2) := by
  rw [parse_unary_expression, current_of_get f t ht]
  simp only [Result.bind, hk, advance_token_read_of_get f t ht]
  rfl

/-- An identifier that no postfix operator follows, in an lhs context. -/
theorem lhs_operand_of_identifier (g : File_Contents) (t t1 : Token_Iden) (stop : Int)
    (ht : g.token_buffer.get? g.curr_token = some t)
    (ht1 : g.token_buffer.get? (g.curr_token + 1) = some t1)
    (hk : t.type = tok_identifier) (hn : t1.type ∉ postfix_starts) :
    ∀ n : Nat, 2 ≤ n →
      parse_unary_expression n g stop true = .ok (.identifier t, (advance_token g).2) := by
  intro n hn2
  obtain ⟨m, rfl⟩ : ∃ m, n = m + 2 := ⟨n - 2, by omega⟩
  have hu : (t.type == 35) = false ∧
      (t.type == 42 || t.type == 64 || t.type == tok_minus || t.type == tok_not
        || t.type == tok_plusplus || t.type == tok_minusminus) = false := by
    rw [hk]; exact ⟨by decide, by decide⟩
  have hop : parse_operand (m + 1) g stop true = .ok (.identifier t, (advance_token g).2) := by
    rw [parse_operand, current_of_get g t ht]
    simp [Result.bind, hk, advance_token_read_of_get g t ht, ast_identifier]
  have ht1a : (advance_token g).2.token_buffer.get? (advance_token g).2.curr_token = some t1 := by
    simpa [advance_token] using ht1
  obtain ⟨h1, h2, h3, h4, h5⟩ := not_postfix_facts t1.type hn
  have hat : parse_atom_expression (m + 1) (advance_token g).2 (.identifier t) stop true
      = .ok (.identifier t, (advance_token g).2) := by
    rw [parse_atom_expression, current_of_get _ t1 ht1a]
    simp only [Result.bind, h1, h2, h3, h4, h5, Bool.false_eq_true, if_false]
    by_cases hs : (t1.type == stop) = true
    · rw [if_pos hs]
    · rw [if_neg hs]
  rw [parse_unary_expression, current_of_get g t ht]
  simp only [Result.bind, hu.1, hu.2, Bool.false_eq_true, if_false, hop, hat, Ast_Node.is_null]

/-! ## Declarations and statements -/

theorem separator_facts (k : Token) (h : k = 58 ∨ k = tok_const) :
    is_assignment_token k = false ∧ (k == tok_const || k == 58) = true := by
  rcases h with h | h <;> subst h <;> exact ⟨by decide, by decide⟩

theorem parser_eat_other (g : File_Contents) (t : Token_Iden) (k : Token)
    (h : g.token_buffer.get? g.curr_token = some t) (hk : t.type ≠ k) :
    parser_eat g k = .fatal (.expected_kind k) t.line t.column := by
  rw [parser_eat, advance_token_read_of_get g t h]
  have : (t.type != k) = true := by simpa using hk
  simp only [Result.bind, this, if_true, raise_parsing_unexpected_token, advance_token, h]

theorem parse_struct_member_ok (start g1 : File_Contents) (v : Ast_Variable)
    (colon : Token_Iden)
    (hname : v.identifier.type = tok_identifier)
    (hcolon : start.token_buffer.get? (start.curr_token + 1) = some colon)
    (hcolon1 : colon.type = 58)
    (hty : parse_type (start.token_buffer.length + 1)
        { (advance_tokens 2 start) with last_read_token := colon } = .ok (v.type, g1))
    (hconst : v.is_const = false) :
    parse_struct_member (advance_token start).2 v.identifier = .ok (v, g1) := by
  have heat : parser_eat (advance_token start).2 58
      = .ok { (advance_tokens 2 start) with last_read_token := colon } :=
    parser_eat_of_get _ colon 58 (by simpa [advance_token] using hcolon) hcolon1
  have hne : (v.identifier.type != tok_identifier) = false := by simp [hname]
  have hid : ∀ g, ast_identifier g v.identifier = .ok (.identifier v.identifier) := by
    intro g
    simp [ast_identifier, hname]
  have hty1 : parse_type
      (({ (advance_tokens 2 start) with last_read_token := colon } :
          File_Contents).token_buffer.length + 1)
      { (advance_tokens 2 start) with last_read_token := colon } = .ok (v.type, g1) := hty
  rw [parse_struct_member]
  simp only [hne, Bool.false_eq_true, if_false, heat, Result.bind, hty1, hid]
  cases v
  simp only at hconst
  subst hconst
  rfl

theorem struct_member_loop_run (capacity : Nat) : ∀ (vs : List Ast_Variable) (later : Bool)
    (g g1 : File_Contents) (acc : List Ast_Variable) (close : Token_Iden) (fuel : Nat),
    member_run later g vs g1 →
    g1.token_buffer.get? g1.curr_token = some close → close.type = 125 →
    vs.length + 1 ≤ fuel → acc.length + vs.length ≤ capacity →
    struct_member_loop capacity fuel g acc = .ok (acc ++ vs, (advance_token g1).2) := by
  intro vs
  induction vs with
  | nil =>
    intro later g g1 acc close fuel hrun hclose hclose1 hfuel _
    obtain ⟨m, rfl⟩ : ∃ m, fuel = m + 1 := ⟨fuel - 1, by omega⟩
    have hg : g1 = g := by cases later <;> exact hrun
    subst hg
    rw [struct_member_loop, advance_token_read_of_get g1 close hclose]
    simp [Result.bind, hclose1]
  | cons v vs ih =>
    intro later g g1 acc close fuel hrun hclose hclose1 hfuel hcap
    obtain ⟨m, rfl⟩ : ∃ m, fuel = m + 1 := ⟨fuel - 1, by omega⟩
    have hlen : vs.length + 1 ≤ m := by simpa using hfuel
    have hroom : acc.length < capacity := by
      simp only [List.length_cons] at hcap
      omega
    have hst : store_member capacity acc v = .ok (acc ++ [v]) := by
      rw [store_member, if_pos hroom]
    obtain ⟨g2, ⟨start, colon, hstart, hname, hname1, hcolon, hcolon1, hty, hconst⟩, hrest⟩ :
        ∃ g2, member_step later g v g2 ∧ member_run true g2 vs g1 := by
      cases later <;> exact hrun
    have hmem := parse_struct_member_ok start g2 v colon hname1 hcolon hcolon1 hty hconst
    have hrec := ih true g2 g1 (acc ++ [v]) close m hrest hclose hclose1 hlen (by
      simp only [List.length_append, List.length_cons, List.length_nil] at hcap ⊢
      omega)
    have hk1 : (v.identifier.type == 125) = false := by rw [hname1]; decide
    have hk2 : (v.identifier.type == 59) = false := by rw [hname1]; decide
    cases later with
    | false =>
      have hs : start = g := hstart
      subst hs
      rw [struct_member_loop, advance_token_read_of_get start v.identifier hname]
      simp only [Result.bind, hk1, hk2, Bool.false_eq_true, if_false, hmem, hst, hrec,
        List.append_assoc, List.singleton_append]
    | true =>
      obtain ⟨⟨semi, hsemi, hsemi1⟩, hs⟩ := hstart
      subst hs
      have hk3 : (semi.type == 125) = false := by rw [hsemi1]; decide
      have hk4 : (semi.type == 59) = true := by rw [hsemi1]; decide
      rw [struct_member_loop, advance_token_read_of_get g semi hsemi]
      simp only [Result.bind, hk3, hk4, Bool.false_eq_true, if_false, if_true]
      rw [advance_token_read_of_get (advance_token g).2 v.identifier hname]
      simp only [Result.bind, hk1, Bool.false_eq_true, if_false, hmem, hst, hrec,
        List.append_assoc, List.singleton_append]

/-- A struct body with more members than the array has entries: the write of
the first member that has no entry is `undefined`. -/
theorem struct_member_loop_overflow (capacity : Nat) : ∀ (vs : List Ast_Variable)
    (later : Bool) (g g1 : File_Contents) (acc : List Ast_Variable) (fuel : Nat),
    member_run later g vs g1 → vs.length + 1 ≤ fuel →
    acc.length ≤ capacity → capacity < acc.length + vs.length →
    struct_member_loop capacity fuel g acc = .undefined := by
  intro vs
  induction vs with
  | nil =>
    intro later g g1 acc fuel _ _ h1 h2
    simp only [List.length_nil] at h2
    omega
  | cons v vs ih =>
    intro later g g1 acc fuel hrun hfuel hle hcap
    obtain ⟨m, rfl⟩ : ∃ m, fuel = m + 1 := ⟨fuel - 1, by omega⟩
    have hlen : vs.length + 1 ≤ m := by simpa using hfuel
    obtain ⟨g2, ⟨start, colon, hstart, hname, hname1, hcolon, hcolon1, hty, hconst⟩, hrest⟩ :
        ∃ g2, member_step later g v g2 ∧ member_run true g2 vs g1 := by
      cases later <;> exact hrun
    have hmem := parse_struct_member_ok start g2 v colon hname1 hcolon hcolon1 hty hconst
    have hk1 : (v.identifier.type == 125) = false := by rw [hname1]; decide
    have hk2 : (v.identifier.type == 59) = false := by rw [hname1]; decide
    have hnext : (store_member capacity acc v).bind
        (fun members1 => struct_member_loop capacity m g2 members1) = .undefined := by
      by_cases hroom : acc.length < capacity
      · rw [store_member, if_pos hroom]
        exact ih true g2 g1 (acc ++ [v]) m hrest hlen (by
          simp only [List.length_append, List.length_cons, List.length_nil]
          omega) (by
          simp only [List.length_append, List.length_cons, List.length_nil] at hcap ⊢
          omega)
      · rw [store_member, if_neg hroom]
        rfl
    cases later with
    | false =>
      have hs : start = g := hstart
      subst hs
      rw [struct_member_loop, advance_token_read_of_get start v.identifier hname]
      simp only [Result.bind, hk1, hk2, Bool.false_eq_true, if_false, hmem]
      exact hnext
    | true =>
      obtain ⟨⟨semi, hsemi, hsemi1⟩, hs⟩ := hstart
      subst hs
      have hk3 : (semi.type == 125) = false := by rw [hsemi1]; decide
      have hk4 : (semi.type == 59) = true := by rw [hsemi1]; decide
      rw [struct_member_loop, advance_token_read_of_get g semi hsemi]
      simp only [Result.bind, hk3, hk4, Bool.false_eq_true, if_false, if_true]
      rw [advance_token_read_of_get (advance_token g).2 v.identifier hname]
      simp only [Result.bind, hk1, Bool.false_eq_true, if_false, hmem]
      exact hnext

/-! ## The cursor never moves back, and the chain of declarations -/

theorem advances_same (f : File_Contents) : Advances f f := ⟨rfl, Nat.le_refl _, rfl⟩

theorem advances_seq {f g h : File_Contents} (h1 : Advances f g) (h2 : Advances g h) :
    Advances f h :=
  ⟨h2.1.trans h1.1, Nat.le_trans h1.2.1 h2.2.1, h2.2.2.trans h1.2.2⟩

theorem advances_token (f : File_Contents) : Advances f (advance_token f).2 :=
  ⟨rfl, Nat.le_succ _, rfl⟩

theorem advances_step {f g : File_Contents} (h : Advances f g) :
    Advances f (advance_token g).2 :=
  advances_seq h (advances_token g)

theorem advances_last_read {f g : File_Contents} (t : Token_Iden) (h : Advances f g) :
    Advances f { g with last_read_token := t } := h

theorem returns_ok {α : Type} {Q : File_Contents → Prop} (a : α) (g : File_Contents)
    (h : Q g) : Returns (Result.ok (a, g)) Q := by
  intro b g1 e
  cases e
  exact h

theorem returns_fatal {α : Type} {Q : File_Contents → Prop} (e : Error) (l c : Nat) :
    Returns (Result.fatal e l c : Result (α × File_Contents)) Q := by
  intro b g1 h
  cases h

theorem returns_diverge {α : Type} {Q : File_Contents → Prop} :
    Returns (Result.diverge : Result (α × File_Contents)) Q := by
  intro b g1 h
  cases h

theorem returns_undefined {α : Type} {Q : File_Contents → Prop} :
    Returns (Result.undefined : Result (α × File_Contents)) Q := by
  intro b g1 h
  cases h

theorem raise_not_ok {α : Type} (e : Error) (f : File_Contents) (a : α) :
    (raise_parsing_unexpected_token e f : Result α) ≠ .ok a := by
  unfold raise_parsing_unexpected_token
  dsimp only
  split <;> simp

theorem returns_raise {α : Type} {Q : File_Contents → Prop} (e : Error) (f : File_Contents) :
    Returns (raise_parsing_unexpected_token e f : Result (α × File_Contents)) Q := by
  intro b g1 h
  exact absurd h (raise_not_ok e f _)

theorem returns_mono {α : Type} {m : Result (α × File_Contents)} {Q1 Q : File_Contents → Prop}
    (h1 : Returns m Q1) (h2 : ∀ g, Q1 g → Q g) : Returns m Q :=
  fun a g e => h2 g (h1 a g e)

theorem returns_bind {α β : Type} {m : Result (α × File_Contents)}
    {k : α × File_Contents → Result (β × File_Contents)} {Q1 Q : File_Contents → Prop}
    (h1 : Returns m Q1) (h2 : ∀ r, Q1 r.2 → Returns (k r) Q) : Returns (m.bind k) Q := by
  intro b g e
  obtain ⟨r, hr, hk⟩ := (Result.bind_eq_ok _ _ _).mp e
  exact h2 r (h1 r.1 r.2 hr) b g hk

theorem returns_value {α β : Type} {m : Result α} {k : α → Result (β × File_Contents)}
    {Q : File_Contents → Prop} (h : ∀ a, m = .ok a → Returns (k a) Q) :
    Returns (m.bind k) Q := by
  intro b g e
  obtain ⟨r, hr, hk⟩ := (Result.bind_eq_ok _ _ _).mp e
  exact h r hr b g hk

theorem returns_ite {α : Type} {c : Prop} [Decidable c] {t e : Result (α × File_Contents)}
    {Q : File_Contents → Prop} (h1 : c → Returns t Q) (h2 : ¬c → Returns e Q) :
    Returns (if c then t else e) Q := by
  by_cases h : c
  · rw [if_pos h]; exact h1 h
  · rw [if_neg h]; exact h2 h

theorem advance_token_read_returns (f : File_Contents) :
    Returns (advance_token_read f) (fun g => g = (advance_token f).2) := by
  intro t g e
  rw [advance_token_read] at e
  obtain ⟨r, _, hk⟩ := (Result.bind_eq_ok _ _ _).mp e
  cases hk
  rfl

theorem parser_eat_advances (f g : File_Contents) (k : Token) (h : parser_eat f k = .ok g) :
    Advances f g ∧ f.curr_token < g.curr_token ∧
      ∃ t, f.token_buffer.get? f.curr_token = some t ∧ t.type = k := by
  rw [parser_eat] at h
  obtain ⟨r, hr, hk⟩ := (Result.bind_eq_ok _ _ _).mp h
  have h2 := advance_token_read_returns f r.1 r.2 hr
  rw [advance_token_read] at hr
  obtain ⟨t, ht, hk2⟩ := (Result.bind_eq_ok _ _ _).mp hr
  cases hk2
  by_cases c : (t.type != k) = true
  · rw [if_pos c] at hk
    exact absurd hk (raise_not_ok _ _ _)
  · rw [if_neg c] at hk
    cases hk
    refine ⟨advances_token f, Nat.lt_succ_self _, t, ?_, by simpa using c⟩
    simp only [File_Contents.token_at, advance_token] at ht
    split at ht
    · rename_i x hx
      cases ht
      exact hx
    · cases ht

theorem returns_adv_bind {α β : Type} {f g : File_Contents} {m : Result (α × File_Contents)}
    {k : α × File_Contents → Result (β × File_Contents)}
    (hg : Advances f g) (h1 : Returns m (Advances g))
    (h2 : ∀ r, Advances f r.2 → Returns (k r) (Advances f)) :
    Returns (m.bind k) (Advances f) :=
  returns_bind (returns_mono h1 fun _ hx => advances_seq hg hx) h2

theorem returns_adv_call {α : Type} {f g : File_Contents} {m : Result (α × File_Contents)}
    (hg : Advances f g) (h1 : Returns m (Advances g)) : Returns m (Advances f) :=
  returns_mono h1 fun _ hx => advances_seq hg hx

theorem advance_token_read_advances (g : File_Contents) :
    Returns (advance_token_read g) (Advances g) :=
  returns_mono (advance_token_read_returns g) fun x hx => by rw [hx]; exact advances_token g

theorem returns_eat {β : Type} {f g : File_Contents} {k : Token}
    {c : File_Contents → Result (β × File_Contents)}
    (hg : Advances f g) (h2 : ∀ g1, Advances f g1 → Returns (c g1) (Advances f)) :
    Returns ((parser_eat g k).bind c) (Advances f) := by
  intro b g2 e
  obtain ⟨r, hr, hk⟩ := (Result.bind_eq_ok _ _ _).mp e
  exact h2 r (advances_seq hg (parser_eat_advances g r k hr).1) b g2 hk

theorem parse_type_advances : ∀ (fuel : Nat) (f : File_Contents),
    Returns (parse_type fuel f) (Advances f) := by
  intro fuel
  induction fuel with
  | zero => intro f; rw [parse_type]; exact returns_diverge
  | succ n ih =>
    intro f
    rw [parse_type]
    refine returns_value fun tok _ => returns_ite (fun _ => ?_) (fun _ => returns_ite
      (fun _ => returns_ok _ _ (advances_token f)) (fun _ => returns_ok _ _ (advances_same f)))
    refine returns_adv_bind (advances_token f) (ih _) fun r hr => ?_
    exact returns_value fun id _ => returns_ok _ _ hr

theorem expression_advances : ∀ n : Nat,
    (∀ f s l, Returns (parse_expression n f s l) (Advances f))
    ∧ (∀ f s m l, Returns (parse_binary_expression n f s m l) (Advances f))
    ∧ (∀ f s m l r, Returns (binary_loop n f s m l r) (Advances f))
    ∧ (∀ f s l, Returns (parse_unary_expression n f s l) (Advances f))
    ∧ (∀ f s l, Returns (parse_operand n f s l) (Advances f))
    ∧ (∀ f o s l, Returns (parse_atom_expression n f o s l) (Advances f))
    ∧ (∀ f o, Returns (parse_func_call n f o) (Advances f))
    ∧ (∀ f a h, Returns (func_call_loop n f a h) (Advances f))
    ∧ (∀ f o, Returns ( parse_struct_initialize n f o) (Advances f))
    ∧ (∀ f e, Returns (struct_init_loop n f e) (Advances f)) := by
  intro n
  induction n with
  | zero =>
    refine ⟨?_, ?_, ?_, ?_, ?_, ?_, ?_, ?_, ?_, ?_⟩
    · intro f s l; rw [parse_expression]; exact returns_diverge
    · intro f s m l; rw [parse_binary_expression]; exact returns_diverge
    · intro f s m l r; rw [binary_loop]; exact returns_diverge
    · intro f s l; rw [parse_unary_expression]; exact returns_diverge
    · intro f s l; rw [parse_operand]; exact returns_diverge
    · intro f o s l; rw [parse_atom_expression]; exact returns_diverge
    · intro f o; rw [parse_func_call]; exact returns_diverge
    · intro f a h; rw [func_call_loop]; exact returns_diverge
    · intro f o; rw [ parse_struct_initialize]; exact returns_diverge
    · intro f e; rw [struct_init_loop]; exact returns_diverge
  | succ n ih =>
    obtain ⟨ihE, ihB, ihL, ihU, ihO, ihA, ihF, ihFL, ihS, ihSL⟩ := ih
    refine ⟨?_, ?_, ?_, ?_, ?_, ?_, ?_, ?_, ?_, ?_⟩
    · intro f s l
      rw [parse_expression]
      refine returns_value fun cur _ => returns_ite
        (fun _ => returns_ok _ _ (advances_token f)) (fun _ => ?_)
      refine returns_adv_bind (advances_same f) (ihB f s 1 l) fun r hr => ?_
      refine returns_ite (fun _ => ?_) (fun _ => returns_ok _ _ hr)
      exact returns_eat hr fun g1 hg1 => returns_ok _ _ hg1
    · intro f s m l
      rw [parse_binary_expression]
      exact returns_adv_bind (advances_same f) (ihU f _ l) fun r hr =>
        returns_adv_call hr (ihL r.2 s m l r.1)
    · intro f s m l r
      rw [binary_loop]
      refine returns_value fun cur _ => ?_
      dsimp only
      refine returns_ite (fun _ => returns_ok _ _ (advances_same f)) (fun _ => ?_)
      refine returns_ite (fun _ => returns_raise _ _) (fun _ => ?_)
      exact returns_adv_bind (advances_token f) (ihB _ s _ l) fun r1 hr1 =>
        returns_adv_call hr1 (ihL r1.2 s m l _)
    · intro f s l
      rw [parse_unary_expression]
      refine returns_value fun cur _ => returns_ite (fun _ => ?_) (fun _ => returns_ite
        (fun _ => ?_) (fun _ => ?_))
      · refine returns_adv_bind (advances_same f) (advance_token_read_advances f) fun a ha => ?_
        refine returns_ite (fun _ => returns_raise _ _) (fun _ => ?_)
        refine returns_adv_bind ha (parse_type_advances _ a.2) fun ty hty => ?_
        exact returns_adv_bind hty (ihU ty.2 s false) fun r hr => returns_ok _ _ hr
      · refine returns_adv_bind (advances_same f) (advance_token_read_advances f) fun a ha => ?_
        refine returns_ite (fun _ => returns_raise _ _) (fun _ => ?_)
        exact returns_adv_bind ha (ihU a.2 s false) fun r hr => returns_ok _ _ hr
      · refine returns_adv_bind (advances_same f) (ihO f s l) fun o ho => ?_
        refine returns_adv_bind ho (ihA o.2 o.1 s l) fun r hr => ?_
        exact returns_ite (fun _ => returns_raise _ _) (fun _ => returns_ok _ _ hr)
    · intro f s l
      rw [parse_operand]
      refine returns_value fun cur _ => returns_ite (fun _ => ?_) (fun _ => returns_ite
        (fun _ => ?_) (fun _ => returns_ite (fun _ => ?_) (fun _ => returns_ite
        (fun _ => ?_) (fun _ => returns_ok _ _ (advances_same f)))))
      · refine returns_adv_bind (advances_same f) (advance_token_read_advances f) fun a ha => ?_
        exact returns_value fun node _ => returns_ok _ _ ha
      · refine returns_ite (fun _ => returns_raise _ _) (fun _ => ?_)
        exact returns_adv_bind (advances_same f) (advance_token_read_advances f) fun a ha =>
          returns_ok _ _ ha
      · refine returns_ite (fun _ => returns_raise _ _) (fun _ => ?_)
        exact returns_adv_bind (advances_same f) (advance_token_read_advances f) fun a ha =>
          returns_ok _ _ ha
      · refine returns_ite (fun _ => returns_raise _ _) (fun _ => ?_)
        exact returns_adv_call (advances_token f) (ihE _ 41 false)
    · intro f o s l
      rw [parse_atom_expression]
      refine returns_value fun cur _ => returns_ite
        (fun _ => returns_ok _ _ (advances_same f)) (fun _ => returns_ite
        (fun _ => ?_) (fun _ => returns_ite (fun _ => ?_) (fun _ => returns_ite
        (fun _ => ?_) (fun _ => returns_ite (fun _ => ?_) (fun _ => returns_ite
        (fun _ => ?_) (fun _ => returns_ok _ _ (advances_same f)))))))
      · exact returns_adv_bind (advances_same f) (ihF f o) fun r hr =>
          returns_adv_call hr (ihA r.2 r.1 s l)
      · refine returns_ite (fun _ => returns_raise _ _) (fun _ => ?_)
        exact returns_adv_bind (advances_token f) (ihS _ o) fun r hr =>
          returns_adv_call hr (ihA r.2 r.1 s l)
      · refine returns_adv_bind (advances_same f) (advance_token_read_advances f) fun a ha => ?_
        exact returns_adv_bind ha (ihE a.2 93 false) fun r hr =>
          returns_adv_call hr (ihA r.2 _ s l)
      · refine returns_ite (fun _ => ?_) (fun _ => ?_)
        · refine returns_adv_bind (advances_same f) (advance_token_read_advances f)
            fun b hb => ?_
          refine returns_value fun node _ => ?_
          exact returns_adv_bind hb (advance_token_read_advances b.2) fun a ha =>
            returns_adv_call ha (ihA a.2 _ s l)
        · refine returns_adv_bind (advances_same f) (advance_token_read_advances f)
            fun a ha => ?_
          refine returns_adv_bind ha (advance_token_read_advances a.2) fun b hb => ?_
          exact returns_value fun node _ => returns_adv_call hb (ihA b.2 _ s l)
      · exact returns_adv_bind (advances_same f) (advance_token_read_advances f) fun a ha =>
          returns_adv_call ha (ihA a.2 _ s l)
    · intro f o
      rw [parse_func_call]
      refine returns_adv_bind (advances_same f) (advance_token_read_advances f) fun a ha => ?_
      exact returns_adv_bind ha (ihFL a.2 [] false) fun r hr => returns_ok _ _ hr
    · intro f a h
      rw [func_call_loop]
      refine returns_value fun cur _ => returns_ite
        (fun _ => returns_ok _ _ (advances_token f)) (fun _ => ?_)
      refine returns_adv_bind (advances_same f) (ihE f NO_EXPECT false) fun e he => ?_
      dsimp only
      refine returns_adv_bind he (advance_token_read_advances e.2) fun nx hnx => ?_
      refine returns_ite (fun _ => returns_raise _ _) (fun _ => returns_ite
        (fun _ => returns_ok _ _ hnx) (fun _ => returns_ite
        (fun _ => returns_raise _ _) (fun _ => ?_)))
      exact returns_adv_call hnx (ihFL nx.2 _ true)
    · intro f o
      rw [ parse_struct_initialize]
      refine returns_ite (fun _ => returns_raise _ _) (fun _ => ?_)
      refine returns_value fun tok _ => ?_
      exact returns_adv_bind (advances_same f) (ihSL f []) fun r hr => returns_ok _ _ hr
    · intro f e
      rw [struct_init_loop]
      refine returns_value fun cur _ => returns_ite
        (fun _ => returns_ok _ _ (advances_same f)) (fun _ => ?_)
      refine returns_adv_bind (advances_same f) (ihE f NO_EXPECT false) fun x hx => ?_
      dsimp only
      refine returns_adv_bind hx (advance_token_read_advances x.2) fun nx hnx => ?_
      refine returns_ite (fun _ => returns_ok _ _ hnx) (fun _ => returns_ite
        (fun _ => returns_raise _ _) (fun _ => ?_))
      exact returns_adv_call hnx (ihSL nx.2 _)

theorem returns_state {β : Type} {m : Result File_Contents}
    {k : File_Contents → Result (β × File_Contents)} {Q1 Q : File_Contents → Prop}
    (h1 : ∀ g, m = .ok g → Q1 g) (h2 : ∀ g, Q1 g → Returns (k g) Q) :
    Returns (m.bind k) Q := by
  intro b g e
  obtain ⟨r, hr, hk⟩ := (Result.bind_eq_ok _ _ _).mp e
  exact h2 r (h1 r hr) b g hk

theorem push_scope_advances (f : File_Contents) (s : Scope_Info) :
    Advances f (push_scope f s) := ⟨rfl, Nat.le_refl _, rfl⟩

theorem pop_scope_advances (f g : File_Contents) (t : Token_Iden)
    (h : pop_scope f t = .ok g) : Advances f g := by
  unfold pop_scope at h
  split at h
  · cases h
  · cases h
    exact ⟨rfl, Nat.le_refl _, rfl⟩

theorem add_symbol_advances (f g : File_Contents) (s : Symbol)
    (h : add_symbol f s = .ok g) : Advances f g ∧ g.curr_token = f.curr_token := by
  unfold add_symbol at h
  split at h
  · cases h
  · cases h
    exact ⟨⟨rfl, Nat.le_refl _, rfl⟩, rfl⟩

theorem add_type_advances (f : File_Contents) (node : Ast_Node) :
    Advances f (add_type f node) := by
  unfold add_type
  split
  · split
    · exact ⟨rfl, Nat.le_refl _, rfl⟩
    · exact advances_same f
  · exact advances_same f

theorem add_argument_symbols_advances (this_func : Ast_Func) :
    ∀ (arguments : List Ast_Node) (f g : File_Contents),
      add_argument_symbols this_func arguments f = .ok g → Advances f g := by
  intro arguments
  induction arguments with
  | nil =>
    intro f g h
    rw [add_argument_symbols] at h
    cases h
    exact advances_same f
  | cons a rest ih =>
    intro f g h
    rw [add_argument_symbols] at h
    obtain ⟨f1, h1, h2⟩ := (Result.bind_eq_ok _ _ _).mp h
    exact advances_seq (add_symbol_advances f f1 _ h1).1 (ih f1 g h2)

theorem parse_identifier_statement_advances (fuel : Nat) (f : File_Contents) :
    Returns (parse_identifier_statement fuel f) (Advances f) := by
  have hE := (expression_advances fuel).1
  rw [parse_identifier_statement]
  refine returns_adv_bind (advances_same f) (hE f NO_EXPECT true) fun lhs hl => ?_
  refine returns_value fun found _ => returns_value fun identifier_token _ =>
    returns_value fun cur _ => returns_ite (fun _ => ?_) (fun _ => returns_ite
      (fun _ => ?_) (fun _ => returns_raise _ _))
  · refine returns_adv_bind hl (advance_token_read_advances lhs.2) fun a ha => ?_
    exact returns_adv_bind ha (hE a.2 59 false) fun rhs hr => returns_ok _ _ hr
  · dsimp only
    refine returns_value fun c1 _ => ?_
    refine returns_adv_bind (advances_step hl)
      (returns_ite (fun _ => returns_ok _ _ (advances_same _))
        (fun _ => parse_type_advances _ _)) fun ty hty => ?_
    refine returns_eat hty fun f2 hf2 => ?_
    exact returns_adv_bind hf2 (hE f2 59 false) fun rhs hr => returns_ok _ _ hr

theorem parse_var_advances (f : File_Contents) (name_token : Token_Iden) :
    Returns (parse_var f name_token) (Advances f) := by
  rw [parse_var]
  refine returns_value fun colon _ => returns_ite
    (fun _ => returns_ok _ _ (advances_same f)) (fun _ => ?_)
  dsimp only
  refine returns_value fun type_tok _ => ?_
  refine returns_adv_bind (advances_token f)
    (returns_ite (fun _ => returns_ok _ _ (advances_token _)) (fun _ => returns_ite
      (fun _ => parse_type_advances _ _) (fun _ => returns_raise _ _))) fun ty hty => ?_
  exact returns_ite (fun _ => returns_fatal _ _ _) (fun _ => returns_ok _ _ hty)

theorem parse_func_arg_advances (f : File_Contents) :
    Returns (parse_func_arg f) (Advances f) := by
  rw [parse_func_arg]
  refine returns_adv_bind (advances_same f) (advance_token_read_advances f) fun a ha => ?_
  refine returns_ite (fun _ => returns_ok _ _ ha) (fun _ => ?_)
  refine returns_adv_bind ha (parse_var_advances a.2 a.1) fun r hr => ?_
  exact returns_ite (fun _ => returns_raise _ _) (fun _ => returns_ok _ _ hr)

theorem delimited_loop_advances
    (parser : File_Contents → Result (Ast_Node × File_Contents))
    (hp : ∀ g, Returns (parser g) (Advances g)) :
    ∀ (fuel : Nat) (f : File_Contents) (stop seperator : Int) (result : List Ast_Node),
      Returns (delimited_loop fuel f stop seperator parser result) (Advances f) := by
  intro fuel
  induction fuel with
  | zero => intro f stop seperator result; rw [delimited_loop]; exact returns_diverge
  | succ n ih =>
    intro f stop seperator result
    rw [delimited_loop]
    dsimp only
    refine returns_value fun cur _ => returns_ite (fun _ => returns_ite
      (fun _ => returns_raise _ _) (fun _ => returns_ok _ _ (advances_same f))) (fun _ => ?_)
    refine returns_adv_bind (advances_same f) (hp f) fun item hi => ?_
    refine returns_value fun cur1 _ => returns_ite (fun _ => returns_ok _ _ hi) (fun _ => ?_)
    exact returns_eat hi fun f1 hf1 => returns_adv_call hf1 (ih f1 stop seperator _)

theorem delimited_advances (fuel : Nat) (f : File_Contents) (start stop seperator : Int)
    (parser : File_Contents → Result (Ast_Node × File_Contents))
    (hp : ∀ g, Returns (parser g) (Advances g)) :
    Returns (delimited fuel f start stop seperator parser) (Advances f) := by
  rw [delimited]
  refine returns_eat (advances_same f) fun f1 hf1 => ?_
  refine returns_adv_bind hf1 (delimited_loop_advances parser hp fuel f1 stop seperator [])
    fun r hr => ?_
  exact returns_eat hr fun f2 hf2 => returns_ok _ _ hf2

theorem scope_end_case_advances (f : File_Contents) (result : Ast_Node) :
    Returns (scope_end_case f result) (Advances f) := by
  rw [scope_end_case]
  refine returns_value fun token _ => ?_
  exact returns_state (fun g hg => advances_seq (advances_token f)
    (pop_scope_advances _ g token hg)) fun g hg => returns_ok _ _ hg

/-- A call of `parse_statement`, and of `parse_body` for a block that is not
the body of a function, leaves the token buffer and `reached_eof` as they are
and does not move the cursor back. -/
theorem statement_advances : ∀ n : Nat,
    (∀ f, Returns (parse_statement n f) (Advances f))
    ∧ (∀ f opt_tok, Returns (parse_body n f false opt_tok) (Advances f)) := by
  intro n
  induction n with
  | zero =>
    refine ⟨?_, ?_⟩
    · intro f; rw [parse_statement]; exact returns_diverge
    · intro f opt_tok; rw [parse_body]; exact returns_diverge
  | succ n ih =>
    obtain ⟨ihS, ihB⟩ := ih
    have hE := (expression_advances n).1
    refine ⟨?_, ?_⟩
    · intro f
      rw [parse_statement]
      refine returns_value fun cur _ => returns_ite (fun _ => returns_fatal _ _ _)
        (fun _ => returns_ite (fun _ => ihB f _) (fun _ => returns_ite (fun _ => ?_)
        (fun _ => returns_ite (fun _ => returns_ok _ _ (advances_same f))
        (fun _ => returns_ite (fun _ => ?_) (fun _ => returns_ite (fun _ => ?_)
        (fun _ => returns_ite (fun _ => ?_) (fun _ => returns_ite
        (fun _ => scope_end_case_advances f _) (fun _ => returns_raise _ _))))))))
      · refine returns_adv_bind (advances_token f) (hE _ 123 false) fun c hc => ?_
        exact returns_adv_bind hc (ihB c.2 _) fun l hl => returns_ok _ _ hl
      · refine returns_adv_bind (advances_same f) (parse_identifier_statement_advances n f)
          fun r hr => ?_
        exact returns_adv_bind hr (ihS r.2) fun l hl => returns_ok _ _ hl
      · dsimp only
        refine returns_value fun token _ => ?_
        refine returns_adv_bind (advances_token f) (hE _ 59 false) fun e he => ?_
        exact returns_adv_bind he (ihS e.2) fun l hl => returns_ok _ _ hl
      · refine returns_adv_bind (advances_token f) (ihS _) fun l hl => ?_
        exact returns_adv_call hl (scope_end_case_advances l.2 _)
    · intro f opt_tok
      rw [parse_body]
      refine returns_adv_bind (advances_same f)
        (returns_ite (fun _ => returns_value fun token _ =>
            returns_eat (advances_same f) fun f1 hf1 => returns_ok _ _ hf1)
          (fun _ => returns_ok _ _ (advances_same f))) fun start hs => ?_
      refine returns_value fun cur _ => ?_
      dsimp only
      refine returns_adv_bind (advances_seq hs (push_scope_advances _ _)) (ihS _)
        fun right hr => ?_
      simp only [Bool.false_eq_true, if_false]
      exact returns_adv_bind hr (ihS right.2) fun left hl => returns_ok _ _ hl

theorem advance_token_read_get (f g : File_Contents) (t : Token_Iden)
    (h : advance_token_read f = .ok (t, g)) :
    g = (advance_token f).2 ∧ f.token_buffer.get? f.curr_token = some t := by
  rw [advance_token_read] at h
  obtain ⟨r, hr, hk⟩ := (Result.bind_eq_ok _ _ _).mp h
  simp only [Result.ok.injEq, Prod.mk.injEq] at hk
  obtain ⟨rfl, rfl⟩ := hk
  refine ⟨rfl, ?_⟩
  simp only [File_Contents.token_at, advance_token] at hr
  split at hr
  · rename_i x hx
    cases hr
    exact hx
  · cases hr

theorem parser_eat_get (f g : File_Contents) (k : Token) (h : parser_eat f k = .ok g) :
    g.token_buffer = f.token_buffer ∧ g.curr_token = f.curr_token + 1
      ∧ g.reached_eof = f.reached_eof ∧ kind_at f.token_buffer f.curr_token k = true := by
  rw [parser_eat] at h
  obtain ⟨r, hr, hk⟩ := (Result.bind_eq_ok _ _ _).mp h
  obtain ⟨h1, h2⟩ := advance_token_read_get f r.2 r.1 hr
  by_cases c : (r.1.type != k) = true
  · rw [if_pos c] at hk
    exact absurd hk (raise_not_ok _ _ _)
  · rw [if_neg c] at hk
    cases hk
    rw [h1]
    refine ⟨rfl, rfl, rfl, ?_⟩
    simp only [kind_at, h2]
    simpa using c

theorem struct_member_loop_advances (capacity : Nat) : ∀ (fuel : Nat) (f : File_Contents)
    (members : List Ast_Variable),
    Returns (struct_member_loop capacity fuel f members) (Advances f) := by
  have hm : ∀ g t, Returns (parse_struct_member g t) (Advances g) := by
    intro g t
    rw [parse_struct_member]
    refine returns_ite (fun _ => returns_raise _ _) (fun _ => ?_)
    refine returns_eat (advances_same g) fun f1 hf1 => ?_
    refine returns_adv_bind hf1 (parse_type_advances _ f1) fun ty hty => ?_
    exact returns_value fun _ _ => returns_ok _ _ hty
  intro fuel
  induction fuel with
  | zero => intro f members; rw [struct_member_loop]; exact returns_diverge
  | succ n ih =>
    intro f members
    rw [struct_member_loop]
    refine returns_adv_bind (advances_same f) (advance_token_read_advances f) fun a ha => ?_
    refine returns_ite (fun _ => returns_ok _ _ ha) (fun _ => returns_ite (fun _ => ?_)
      (fun _ => ?_))
    · refine returns_adv_bind ha (advance_token_read_advances a.2) fun b hb => ?_
      refine returns_ite (fun _ => returns_ok _ _ hb) (fun _ => ?_)
      exact returns_adv_bind hb (hm b.2 b.1) fun m hm1 =>
        returns_value fun members1 _ => returns_adv_call hm1 (ih m.2 members1)
    · exact returns_adv_bind ha (hm a.2 a.1) fun m hm1 =>
        returns_value fun members1 _ => returns_adv_call hm1 (ih m.2 members1)

/-- What `parse_struct` returns: a struct node without `left` link whose name
is the token after the keyword, two tokens or more further on. -/
theorem parse_struct_shape (fuel : Nat) (f g : File_Contents) (node : Ast_Node)
    (h : parse_struct fuel f = .ok (node, g)) :
    Advances f g ∧ f.curr_token + 2 ≤ g.curr_token
      ∧ ∃ struct_id members, node = .type_struct struct_id members members.length .null
        ∧ kind_at f.token_buffer f.curr_token tok_struct = true
        ∧ f.token_buffer.get? (f.curr_token + 1) = some struct_id := by
  rw [parse_struct] at h
  obtain ⟨f1, h1, h⟩ := (Result.bind_eq_ok _ _ _).mp h
  obtain ⟨id, h2, h⟩ := (Result.bind_eq_ok _ _ _).mp h
  obtain ⟨f2, h3, h⟩ := (Result.bind_eq_ok _ _ _).mp h
  obtain ⟨ms, h4, h⟩ := (Result.bind_eq_ok _ _ _).mp h
  obtain ⟨e1, e2, e3, e4⟩ := parser_eat_get f f1 _ h1
  rw [get_next_expecting] at h2
  obtain ⟨a, ha, h2⟩ := (Result.bind_eq_ok _ _ _).mp h2
  obtain ⟨a1, a2⟩ := advance_token_read_get f1 a.2 a.1 ha
  by_cases c : (a.1.type != tok_identifier) = true
  · rw [if_pos c] at h2
    exact absurd h2 (raise_not_ok _ _ _)
  rw [if_neg c] at h2
  simp only [Result.ok.injEq] at h2
  subst h2
  obtain ⟨b1, b2, b3, _⟩ := parser_eat_get a.2 f2 _ h3
  have hm := struct_member_loop_advances _ fuel f2 [] ms.1 ms.2 h4
  by_cases c2 : (ms.1.length == 0) = true
  · rw [if_pos c2] at h
    exact absurd h (raise_not_ok _ _ _)
  rw [if_neg c2] at h
  obtain ⟨x, _, h⟩ := (Result.bind_eq_ok _ _ _).mp h
  simp only [Result.ok.injEq, Prod.mk.injEq] at h
  obtain ⟨rfl, rfl⟩ := h
  have hf2 : Advances f f2 := by
    refine ⟨?_, ?_, ?_⟩
    · rw [b1, a1]; exact e1
    · rw [b2, a1]; simp only [advance_token]; omega
    · rw [b3, a1]; exact e3
  have hc : f2.curr_token = f.curr_token + 3 := by
    rw [b2, a1]; simp only [advance_token]; omega
  refine ⟨advances_seq (advances_seq hf2 hm) (add_type_advances _ _), ?_, a.1, ms.1, rfl, e4, ?_⟩
  · have h5 := (add_type_advances ms.2
      (.type_struct a.1 ms.1 ms.1.length .null)).2.1
    have h6 := hm.2.1
    omega
  · rw [← e1, ← e2]; exact a2

/-- What `parse_func_signature` returns: the name is the token after the
keyword, and the cursor is two tokens or more further on. -/
theorem parse_func_signature_shape (fuel : Nat) (f g : File_Contents) (s : Ast_Func)
    (h : parse_func_signature fuel f = .ok (s, g)) :
    Advances f g ∧ f.curr_token + 2 ≤ g.curr_token
      ∧ kind_at f.token_buffer f.curr_token tok_func = true
      ∧ f.token_buffer.get? (f.curr_token + 1) = some s.identifier := by
  rw [parse_func_signature] at h
  obtain ⟨f1, h1, h⟩ := (Result.bind_eq_ok _ _ _).mp h
  obtain ⟨name, h2, h⟩ := (Result.bind_eq_ok _ _ _).mp h
  obtain ⟨x, _, h⟩ := (Result.bind_eq_ok _ _ _).mp h
  obtain ⟨args, h3, h⟩ := (Result.bind_eq_ok _ _ _).mp h
  obtain ⟨f2, h4, h⟩ := (Result.bind_eq_ok _ _ _).mp h
  obtain ⟨maybe_type, _, h⟩ := (Result.bind_eq_ok _ _ _).mp h
  obtain ⟨ty, h5, h⟩ := (Result.bind_eq_ok _ _ _).mp h
  simp only [Result.ok.injEq, Prod.mk.injEq] at h
  obtain ⟨rfl, rfl⟩ := h
  obtain ⟨e1, e2, e3, e4⟩ := parser_eat_get f f1 _ h1
  obtain ⟨a1, a2⟩ := advance_token_read_get f1 name.2 name.1 h2
  have hd := delimited_advances fuel name.2 40 41 44 parse_func_arg parse_func_arg_advances
    args.1 args.2 h3
  have h4a := parser_eat_advances args.2 f2 _ h4
  have h5a : Advances f2 ty.2 := by
    revert h5
    refine returns_ite (fun _ => parse_type_advances _ _)
      (fun _ => returns_ok _ _ (advances_same f2)) ty.1 ty.2
  have hn : Advances f name.2 := by
    rw [a1]
    exact ⟨e1, by simp only [advance_token]; omega, e3⟩
  have hc : name.2.curr_token = f.curr_token + 2 := by
    rw [a1]; simp only [advance_token]; omega
  refine ⟨advances_seq (advances_seq (advances_seq hn hd) h4a.1) h5a, ?_, e4, ?_⟩
  · have := hd.2.1
    have := h4a.1.2.1
    have := h5a.2.1
    omega
  · rw [← e1, ← e2]; exact a2

theorem chain_matches_struct (tokens : List Token_Iden) (p : Nat) (ps : List Nat)
    (struct_id : Token_Iden) (members : List Ast_Variable) (count : Nat) (left : Ast_Node)
    (h1 : kind_at tokens p tok_struct = true) (h2 : tokens.get? (p + 1) = some struct_id)
    (h3 : chain_matches tokens ps left = true) :
    chain_matches tokens (p :: ps) (.type_struct struct_id members count left) = true := by
  cases ps with
  | nil => simp [chain_matches] at h3
  | cons q qs =>
    rw [chain_matches, h1, h2, h3]
    simp

theorem chain_matches_func (tokens : List Token_Iden) (p : Nat) (ps : List Nat)
    (name tok : Token_Iden) (arguments : List Ast_Node) (ty : Type_Info)
    (right left : Ast_Node)
    (h1 : kind_at tokens p tok_func = true) (h2 : tokens.get? (p + 1) = some name)
    (h3 : chain_matches tokens ps left = true) :
    chain_matches tokens (p :: ps)
      (.type_func name arguments ty (.type_scope_start tok right left)) = true := by
  cases ps with
  | nil => simp [chain_matches] at h3
  | cons q qs =>
    rw [chain_matches, h1, h2, h3]
    simp

theorem declaration_chain_cons (tokens : List Token_Iden) (p c : Nat) (left node : Ast_Node)
    (hc : p + 2 ≤ c) (h : DeclarationChain tokens c left)
    (hm : ∀ ps, chain_matches tokens ps left = true →
      chain_matches tokens (p :: ps) node = true) :
    DeclarationChain tokens p node := by
  obtain ⟨ps, h1, h2, h3⟩ := h
  refine ⟨p :: ps, ?_, ?_, hm ps h3⟩
  · rw [List.pairwise_cons]
    exact ⟨fun q hq => by have := h2 q hq; omega, h1⟩
  · intro q hq
    rcases List.mem_cons.mp hq with h | h
    · omega
    · have := h2 q h; omega

theorem declaration_chain_weaken (tokens : List Token_Iden) (c d : Nat) (node : Ast_Node)
    (hcd : c ≤ d) (h : DeclarationChain tokens d node) : DeclarationChain tokens c node := by
  obtain ⟨ps, h1, h2, h3⟩ := h
  exact ⟨ps, h1, fun q hq => Nat.le_trans hcd (h2 q hq), h3⟩

theorem file_level_rejects (f : File_Contents) (t : Token_Iden) (n : Nat)
    (a : Ast_Node × File_Contents)
    (ht : f.current = .ok t) (hk : t.type = 59) :
    parse_file_level_statement n f ≠ .ok a := by
  cases n with
  | zero => rw [parse_file_level_statement]; simp
  | succ n =>
    rw [parse_file_level_statement, ht]
    simp only [Result.bind, hk]
    have h1 : ((59 : Token) == 36) = false := by decide
    have h2 : ((59 : Token) == tok_struct) = false := by decide
    have h3 : ((59 : Token) == tok_func) = false := by decide
    have h4 : ((59 : Token) == tok_eof) = false := by decide
    simp only [h1, h2, h3, h4, Bool.false_eq_true, if_false]
    exact raise_not_ok _ _ _

theorem current_of_same (f g : File_Contents) (h1 : g.token_buffer = f.token_buffer)
    (h2 : g.curr_token = f.curr_token) : g.current = f.current := by
  simp only [File_Contents.current, File_Contents.token_at, h1, h2]

/-- The chain of `left` links that the file-level functions build, when the
end of the file has been reached. -/
theorem file_level_chain : ∀ n : Nat,
    (∀ f node g, parse_file_level_statement n f = .ok (node, g) → f.reached_eof = false →
        g.reached_eof = true → DeclarationChain f.token_buffer f.curr_token node)
    ∧ (∀ f node g, parse_func n f = .ok (node, g) → f.reached_eof = false →
        g.reached_eof = true →
        ∃ name arguments ty tok right left,
          node = .type_func name arguments ty (.type_scope_start tok right left)
          ∧ kind_at f.token_buffer f.curr_token tok_func = true
          ∧ f.token_buffer.get? (f.curr_token + 1) = some name
          ∧ DeclarationChain f.token_buffer (f.curr_token + 2) left)
    ∧ (∀ f opt_tok node g, parse_body n f true opt_tok = .ok (node, g) →
        f.reached_eof = false → g.reached_eof = true →
        ∃ tok right left, node = .type_scope_start tok right left
          ∧ DeclarationChain f.token_buffer f.curr_token left) := by
  intro n
  induction n with
  | zero =>
    refine ⟨?_, ?_, ?_⟩
    · intro f node g h; rw [parse_file_level_statement] at h; cases h
    · intro f node g h; rw [parse_func] at h; cases h
    · intro f opt_tok node g h; rw [parse_body] at h; cases h
  | succ n ih =>
    obtain ⟨ihF, ihFn, ihB⟩ := ih
    refine ⟨?_, ?_, ?_⟩
    · intro f node g h h0 hg
      rw [parse_file_level_statement] at h
      obtain ⟨cur, hcur, h⟩ := (Result.bind_eq_ok _ _ _).mp h
      by_cases c1 : (cur.type == 36) = true
      · rw [if_pos c1] at h
        simp only [Result.ok.injEq, Prod.mk.injEq] at h
        obtain ⟨_, rfl⟩ := h
        rw [h0] at hg
        cases hg
      rw [if_neg c1] at h
      by_cases c2 : (cur.type == tok_struct) = true
      · rw [if_pos c2] at h
        obtain ⟨s, hs, h⟩ := (Result.bind_eq_ok _ _ _).mp h
        obtain ⟨l, hl, h⟩ := (Result.bind_eq_ok _ _ _).mp h
        simp only [Result.ok.injEq, Prod.mk.injEq] at h
        obtain ⟨rfl, rfl⟩ := h
        obtain ⟨hadv, hc, struct_id, ms, hnode, hk, hid⟩ := parse_struct_shape n f s.2 s.1 hs
        have hl0 : s.2.reached_eof = false := by rw [hadv.2.2]; exact h0
        have hch := ihF s.2 l.1 l.2 hl hl0 hg
        rw [hadv.1] at hch
        rw [hnode]
        exact declaration_chain_cons _ _ _ l.1 _ hc hch fun ps h3 =>
          chain_matches_struct _ _ ps struct_id ms ms.length l.1 hk hid h3
      rw [if_neg c2] at h
      by_cases c3 : (cur.type == tok_func) = true
      · rw [if_pos c3] at h
        obtain ⟨r, hr, h⟩ := (Result.bind_eq_ok _ _ _).mp h
        by_cases c4 : r.1.is_null = true
        · rw [if_pos c4] at h
          exact absurd h (raise_not_ok _ _ _)
        rw [if_neg c4] at h
        simp only [Result.ok.injEq] at h
        subst h
        obtain ⟨name, args, ty, tok, right, left, hnode, hk, hid, hch⟩ :=
          ihFn f _ _ hr h0 hg
        rw [hnode]
        exact declaration_chain_cons _ _ _ left _ (Nat.le_refl _) hch fun ps h3 =>
          chain_matches_func _ _ ps name tok args ty right left hk hid h3
      rw [if_neg c3] at h
      by_cases c5 : (cur.type == tok_eof) = true
      · rw [if_pos c5] at h
        simp only [Result.ok.injEq, Prod.mk.injEq] at h
        obtain ⟨rfl, rfl⟩ := h
        refine ⟨[f.curr_token], List.pairwise_singleton _ _, ?_, ?_⟩
        · intro p hp
          rw [List.mem_singleton.mp hp]
        · rw [chain_matches, kind_at, get_of_current f cur hcur]
          exact c5
      rw [if_neg c5] at h
      exact absurd h (raise_not_ok _ _ _)
    · intro f node g h h0 hg
      rw [parse_func] at h
      obtain ⟨s, hs, h⟩ := (Result.bind_eq_ok _ _ _).mp h
      dsimp only at h
      obtain ⟨body, hbody, h⟩ := (Result.bind_eq_ok _ _ _).mp h
      obtain ⟨f1, hf1, h⟩ := (Result.bind_eq_ok _ _ _).mp h
      obtain ⟨hadv, hc, hk, hid⟩ := parse_func_signature_shape n f s.2 s.1 hs
      obtain ⟨hsym, hsymc⟩ := add_symbol_advances s.2 f1 _ hf1
      by_cases c1 : (body.type == 123) = true
      · rw [if_pos c1] at h
        obtain ⟨f2, hf2, h⟩ := (Result.bind_eq_ok _ _ _).mp h
        obtain ⟨left, hleft, h⟩ := (Result.bind_eq_ok _ _ _).mp h
        simp only [Result.ok.injEq, Prod.mk.injEq] at h
        obtain ⟨rfl, rfl⟩ := h
        have ha2 := add_argument_symbols_advances s.1 _ f1 f2 hf2
        have hall : Advances f f2 := advances_seq (advances_seq hadv hsym) ha2
        obtain ⟨tok, right, l, hnode, hch⟩ :=
          ihB f2 invalid_token left.1 left.2 hleft (by rw [hall.2.2]; exact h0) hg
        rw [hall.1] at hch
        refine ⟨s.1.identifier, s.1.arguments, s.1.type, tok, right, l, by rw [hnode], hk, hid,
          declaration_chain_weaken _ _ _ _ ?_ hch⟩
        have := hsym.2.1
        have := ha2.2.1
        omega
      rw [if_neg c1] at h
      by_cases c2 : (body.type == 59) = true
      · rw [if_pos c2] at h
        obtain ⟨left, hleft, h⟩ := (Result.bind_eq_ok _ _ _).mp h
        have hb : f1.current = .ok body := by
          rw [current_of_same s.2 f1 hsym.1 hsymc]; exact hbody
        exact absurd hleft (file_level_rejects f1 body n left hb (by simpa using c2))
      rw [if_neg c2] at h
      exact absurd h (raise_not_ok _ _ _)
    · intro f opt_tok node g h h0 hg
      rw [parse_body] at h
      obtain ⟨start, hstart, h⟩ := (Result.bind_eq_ok _ _ _).mp h
      obtain ⟨cur, hcur, h⟩ := (Result.bind_eq_ok _ _ _).mp h
      dsimp only at h
      obtain ⟨right, hright, h⟩ := (Result.bind_eq_ok _ _ _).mp h
      simp only [if_true] at h
      obtain ⟨left, hleft, h⟩ := (Result.bind_eq_ok _ _ _).mp h
      simp only [Result.ok.injEq, Prod.mk.injEq] at h
      obtain ⟨rfl, rfl⟩ := h
      have hs : Advances f start.2 := by
        revert hstart
        exact (returns_ite (fun _ => returns_value fun token _ =>
            returns_eat (advances_same f) fun f1 hf1 => returns_ok _ _ hf1)
          (fun _ => returns_ok _ _ (advances_same f))) start.1 start.2
      have hr := (statement_advances n).1 _ right.1 right.2 hright
      have hall : Advances f right.2 :=
        advances_seq (advances_seq hs (push_scope_advances _ _)) hr
      have hch := ihF right.2 left.1 left.2 hleft (by rw [hall.2.2]; exact h0) hg
      rw [hall.1] at hch
      exact ⟨start.1, right.1, left.1, rfl,
        declaration_chain_weaken _ _ _ _ hall.2.1 hch⟩

theorem declarations_of_struct (struct_id : Token_Iden) (members : List Ast_Variable)
    (count : Nat) (left : Ast_Node) (ds : List Ast_Node) (h : declarations_of left = some ds) :
    declarations_of (.type_struct struct_id members count left)
      = some (.type_struct struct_id members count .null :: ds) := by
  rw [declarations_of, h]
  rfl

theorem declarations_of_func (name token : Token_Iden) (arguments : List Ast_Node)
    (ty : Type_Info) (right left : Ast_Node) (ds : List Ast_Node)
    (h : declarations_of left = some ds) :
    declarations_of (.type_func name arguments ty (.type_scope_start token right left))
      = some (.type_func name arguments ty (.type_scope_start token right .null) :: ds) := by
  rw [declarations_of, h]
  rfl

/-- The declarations on the chain of `left` links that the file-level functions
build are the declarations of the token sequence, one after the other from the
cursor to the eof token. -/
theorem file_level_declarations : ∀ n : Nat,
    (∀ f node g, parse_file_level_statement n f = .ok (node, g) → f.reached_eof = false →
        g.reached_eof = true →
        ∃ ds, declarations_of node = some ds ∧ Declarations f ds)
    ∧ (∀ f node g, parse_func n f = .ok (node, g) → f.reached_eof = false →
        g.reached_eof = true →
        ∃ k d g1 ds, function_declaration k f = .ok (d, g1)
          ∧ declarations_of node = some (d :: ds) ∧ Declarations g1 ds)
    ∧ (∀ f node g, parse_body n f true invalid_token = .ok (node, g) →
        f.reached_eof = false → g.reached_eof = true →
        ∃ k b g1 left ds, n = k + 1 ∧ body_statement k f = .ok (b, g1)
          ∧ node = .type_scope_start b.1 b.2 left
          ∧ declarations_of left = some ds ∧ Declarations g1 ds) := by
  intro n
  induction n with
  | zero =>
    refine ⟨?_, ?_, ?_⟩
    · intro f node g h; rw [parse_file_level_statement] at h; cases h
    · intro f node g h; rw [parse_func] at h; cases h
    · intro f node g h; rw [parse_body] at h; cases h
  | succ n ih =>
    obtain ⟨ihF, ihFn, ihB⟩ := ih
    refine ⟨?_, ?_, ?_⟩
    · intro f node g h h0 hg
      rw [parse_file_level_statement] at h
      obtain ⟨cur, hcur, h⟩ := (Result.bind_eq_ok _ _ _).mp h
      by_cases c1 : (cur.type == 36) = true
      · rw [if_pos c1] at h
        simp only [Result.ok.injEq, Prod.mk.injEq] at h
        obtain ⟨_, rfl⟩ := h
        rw [h0] at hg
        cases hg
      rw [if_neg c1] at h
      by_cases c2 : (cur.type == tok_struct) = true
      · rw [if_pos c2] at h
        obtain ⟨s, hs, h⟩ := (Result.bind_eq_ok _ _ _).mp h
        obtain ⟨l, hl, h⟩ := (Result.bind_eq_ok _ _ _).mp h
        simp only [Result.ok.injEq, Prod.mk.injEq] at h
        obtain ⟨rfl, rfl⟩ := h
        obtain ⟨hadv, _, struct_id, ms, hnode, _, _⟩ := parse_struct_shape n f s.2 s.1 hs
        have hl0 : s.2.reached_eof = false := by rw [hadv.2.2]; exact h0
        obtain ⟨ds, hds, hdecl⟩ := ihF s.2 l.1 l.2 hl hl0 hg
        refine ⟨s.1 :: ds, ?_, n, s.2, ?_, hdecl⟩
        · rw [hnode]
          exact declarations_of_struct _ _ _ _ _ hds
        · rw [parse_declaration, hcur]
          simp only [Result.bind, c2, if_true]
          exact hs
      rw [if_neg c2] at h
      by_cases c3 : (cur.type == tok_func) = true
      · rw [if_pos c3] at h
        obtain ⟨r, hr, h⟩ := (Result.bind_eq_ok _ _ _).mp h
        by_cases c4 : r.1.is_null = true
        · rw [if_pos c4] at h
          exact absurd h (raise_not_ok _ _ _)
        rw [if_neg c4] at h
        simp only [Result.ok.injEq] at h
        subst h
        obtain ⟨k, d, g1, ds, hd, hds, hdecl⟩ := ihFn f _ _ hr h0 hg
        refine ⟨d :: ds, hds, k, g1, ?_, hdecl⟩
        rw [parse_declaration, hcur]
        simp only [Result.bind, c2, c3, if_true, Bool.false_eq_true, if_false]
        exact hd
      rw [if_neg c3] at h
      by_cases c5 : (cur.type == tok_eof) = true
      · rw [if_pos c5] at h
        simp only [Result.ok.injEq, Prod.mk.injEq] at h
        obtain ⟨rfl, rfl⟩ := h
        exact ⟨[], rfl, cur, hcur, by simpa using c5⟩
      rw [if_neg c5] at h
      exact absurd h (raise_not_ok _ _ _)
    · intro f node g h h0 hg
      rw [parse_func] at h
      obtain ⟨s, hs, h⟩ := (Result.bind_eq_ok _ _ _).mp h
      dsimp only at h
      obtain ⟨body, hbody, h⟩ := (Result.bind_eq_ok _ _ _).mp h
      obtain ⟨f1, hf1, h⟩ := (Result.bind_eq_ok _ _ _).mp h
      obtain ⟨hadv, _, _, _⟩ := parse_func_signature_shape n f s.2 s.1 hs
      obtain ⟨hsym, hsymc⟩ := add_symbol_advances s.2 f1 _ hf1
      by_cases c1 : (body.type == 123) = true
      · rw [if_pos c1] at h
        obtain ⟨f2, hf2, h⟩ := (Result.bind_eq_ok _ _ _).mp h
        obtain ⟨left, hleft, h⟩ := (Result.bind_eq_ok _ _ _).mp h
        simp only [Result.ok.injEq, Prod.mk.injEq] at h
        obtain ⟨rfl, rfl⟩ := h
        have ha2 := add_argument_symbols_advances s.1 _ f1 f2 hf2
        have hall : Advances f f2 := advances_seq (advances_seq hadv hsym) ha2
        obtain ⟨k, b, g1, l, ds, hn, hb, hnode, hds, hdecl⟩ :=
          ihB f2 left.1 left.2 hleft (by rw [hall.2.2]; exact h0) hg
        subst hn
        refine ⟨k, .type_func s.1.identifier s.1.arguments s.1.type
          (.type_scope_start b.1 b.2 .null), g1, ds, ?_, ?_, hdecl⟩
        · rw [function_declaration, hs]
          simp only [Result.bind, hbody, hf1, c1, if_true, hf2, hb]
        · rw [hnode]
          exact declarations_of_func _ _ _ _ _ _ _ hds
      rw [if_neg c1] at h
      by_cases c2 : (body.type == 59) = true
      · rw [if_pos c2] at h
        obtain ⟨left, hleft, h⟩ := (Result.bind_eq_ok _ _ _).mp h
        have hb : f1.current = .ok body := by
          rw [current_of_same s.2 f1 hsym.1 hsymc]; exact hbody
        exact absurd hleft (file_level_rejects f1 body n left hb (by simpa using c2))
      rw [if_neg c2] at h
      exact absurd h (raise_not_ok _ _ _)
    · intro f node g h h0 hg
      rw [parse_body] at h
      obtain ⟨start, hstart, h⟩ := (Result.bind_eq_ok _ _ _).mp h
      obtain ⟨cur, hcur, h⟩ := (Result.bind_eq_ok _ _ _).mp h
      dsimp only at h
      obtain ⟨right, hright, h⟩ := (Result.bind_eq_ok _ _ _).mp h
      simp only [if_true] at h
      obtain ⟨left, hleft, h⟩ := (Result.bind_eq_ok _ _ _).mp h
      simp only [Result.ok.injEq, Prod.mk.injEq] at h
      obtain ⟨rfl, rfl⟩ := h
      have hfile : (invalid_token.file == none) = true := rfl
      rw [if_pos hfile] at hstart
      obtain ⟨token, htoken, hstart⟩ := (Result.bind_eq_ok _ _ _).mp hstart
      obtain ⟨f1, heat, hstart⟩ := (Result.bind_eq_ok _ _ _).mp hstart
      simp only [Result.ok.injEq] at hstart
      subst hstart
      have hs : Advances f f1 := (parser_eat_advances f f1 _ heat).1
      have hr := (statement_advances n).1 _ right.1 right.2 hright
      have hall : Advances f right.2 :=
        advances_seq (advances_seq hs (push_scope_advances _ _)) hr
      obtain ⟨ds, hds, hdecl⟩ :=
        ihF right.2 left.1 left.2 hleft (by rw [hall.2.2]; exact h0) hg
      refine ⟨n, (token, right.1), right.2, left.1, ds, rfl, ?_, rfl, hds, hdecl⟩
      rw [body_statement, htoken]
      simp only [Result.bind, heat]
      dsimp only at hcur hright
      rw [hcur]
      simp only [hright]

/-! ## Positions only grow along the scan -/

theorem lex_le_refl (a : Nat × Nat) : lex_le a a := Or.inr ⟨rfl, Nat.le_refl _⟩

theorem lex_le_trans {a b c : Nat × Nat} (h1 : lex_le a b) (h2 : lex_le b c) : lex_le a c := by
  unfold lex_le at *
  omega

theorem advance_buffer_position (f g : File_Contents) (h : advance_buffer f = .ok g) :
    lex_le f.position g.position := by
  unfold advance_buffer at h
  split at h
  · split at h <;>
      (injection h with h; subst h; simp [lex_le, File_Contents.position])
  · exact absurd h (by simp)

theorem advance_while_position (p : Nat → Bool) :
    ∀ (fuel : Nat) (f g : File_Contents), advance_while p fuel f = .ok g →
      lex_le f.position g.position := by
  intro fuel
  induction fuel with
  | zero => intro f g h; simp [advance_while] at h
  | succ n ih =>
    intro f g h
    rw [advance_while] at h
    split at h
    · obtain ⟨f1, h1, h2⟩ := (Result.bind_eq_ok _ _ _).mp h
      exact lex_le_trans (advance_buffer_position f f1 h1) (ih f1 g h2)
    · injection h with h
      subst h
      exact lex_le_refl _

theorem number_loop_position (sl sc : Nat) :
    ∀ (fuel : Nat) (f g : File_Contents) (d : Bool),
      number_loop sl sc fuel f d = .ok g → lex_le f.position g.position := by
  intro fuel
  induction fuel with
  | zero => intro f g d h; simp [number_loop] at h
  | succ n ih =>
    intro f g d h
    rw [number_loop] at h
    obtain ⟨f1, h1, h2⟩ := (Result.bind_eq_ok _ _ _).mp h
    have hf := advance_buffer_position f f1 h1
    split at h2
    · exact absurd h2 (by simp)
    · dsimp only at h2
      split at h2
      · exact lex_le_trans hf (ih f1 g _ h2)
      · injection h2 with h2
        subst h2
        exact hf

theorem string_loop_position (sl sc : Nat) :
    ∀ (fuel : Nat) (f g : File_Contents),
      string_loop sl sc fuel f = .ok g → lex_le f.position g.position := by
  intro fuel
  induction fuel with
  | zero => intro f g h; simp [string_loop] at h
  | succ n ih =>
    intro f g h
    rw [string_loop] at h
    split at h
    · split at h
      · exact absurd h (by simp)
      · split at h
        · dsimp only at h
          split at h
          · exact absurd h (by simp)
          · have := ih _ g h
            exact this
        · obtain ⟨f1, h1, h2⟩ := (Result.bind_eq_ok _ _ _).mp h
          exact lex_le_trans (advance_buffer_position f f1 h1) (ih f1 g h2)
    · injection h with h
      subst h
      exact lex_le_refl _

theorem comment_scan_position (sl sc : Nat) :
    ∀ (fuel : Nat) (f g : File_Contents),
      comment_scan sl sc fuel f = .ok g → lex_le f.position g.position := by
  intro fuel
  induction fuel with
  | zero => intro f g h; simp [comment_scan] at h
  | succ n ih =>
    intro f g h
    rw [comment_scan] at h
    split at h
    · split at h
      · exact absurd h (by simp)
      · obtain ⟨f1, h1, h2⟩ := (Result.bind_eq_ok _ _ _).mp h
        exact lex_le_trans (advance_buffer_position f f1 h1) (ih f1 g h2)
    · injection h with h; subst h; exact lex_le_refl _

theorem block_comment_position (sl sc : Nat) :
    ∀ (fuel : Nat) (f g : File_Contents) (nest : Int),
      block_comment sl sc fuel f nest = .ok g → lex_le f.position g.position := by
  intro fuel
  induction fuel with
  | zero => intro f g nest h; simp [block_comment] at h
  | succ n ih =>
    intro f g nest h
    rw [block_comment] at h
    split at h
    · obtain ⟨f1, h1, h2⟩ := (Result.bind_eq_ok _ _ _).mp h
      have hf1 := comment_scan_position sl sc _ f f1 h1
      split at h2
      · obtain ⟨f2, h3, h4⟩ := (Result.bind_eq_ok _ _ _).mp h2
        exact lex_le_trans hf1
          (lex_le_trans (advance_buffer_position f1 f2 h3) (ih f2 g _ h4))
      · obtain ⟨f2, h3, h4⟩ := (Result.bind_eq_ok _ _ _).mp h2
        have hf2 := lex_le_trans hf1 (advance_buffer_position f1 f2 h3)
        split at h4
        · obtain ⟨f3, h5, h6⟩ := (Result.bind_eq_ok _ _ _).mp h4
          exact lex_le_trans hf2
            (lex_le_trans (advance_buffer_position f2 f3 h5) (ih f3 g _ h6))
        · exact lex_le_trans hf2 (ih f2 g _ h4)
    · injection h with h; subst h; exact lex_le_refl _

theorem whitespace_newline : is_whitespace 10 = true := by decide

theorem punct_loop_position (start : Nat) :
    ∀ (fuel : Nat) (f g : File_Contents) (b : Bool),
      punct_loop start fuel f = .ok (g, b) →
        g.current_line = f.current_line
        ∧ g.current_column = f.current_column + (g.pos - f.pos)
        ∧ f.pos ≤ g.pos
        ∧ g.file_data = f.file_data
        ∧ ∀ i, f.pos ≤ i → i < g.pos → f.file_data.getD i 0 ≠ 10 := by
  intro fuel
  induction fuel with
  | zero => intro f g b h; simp [punct_loop] at h
  | succ n ih =>
    intro f g b h
    have hstop : ∀ (x : Bool), Result.ok (f, x) = Result.ok (g, b) →
        g.current_line = f.current_line
        ∧ g.current_column = f.current_column + (g.pos - f.pos)
        ∧ f.pos ≤ g.pos
        ∧ g.file_data = f.file_data
        ∧ ∀ i, f.pos ≤ i → i < g.pos → f.file_data.getD i 0 ≠ 10 := by
      intro x hx
      injection hx with hx; injection hx with h1 h2
      subst h1
      exact ⟨rfl, by simp, Nat.le_refl _, rfl, fun i h1 h2 => absurd h1 (by omega)⟩
    rw [punct_loop] at h
    split at h
    · rename_i hc
      split at h
      · split at h
        · exact hstop _ h
        · exact hstop _ h
      · rename_i h0
        obtain ⟨f1, h1, h2⟩ := (Result.bind_eq_ok _ _ _).mp h
        have h10 : f.peek ≠ 10 := by
          intro he
          rw [he, whitespace_newline] at hc
          simp at hc
        have hadv := advance_buffer_plain f (by simpa using h0) h10
        rw [hadv] at h1
        injection h1 with h1
        subst h1
        obtain ⟨i1, i2, i3, i4, i5⟩ := ih _ g b h2
        simp only [File_Contents.moved] at i1 i2 i3 i4 i5
        refine ⟨i1, by omega, by omega, i4, ?_⟩
        intro i hi1 hi2
        by_cases hi : i = f.pos
        · subst hi
          exact h10
        · exact i5 i (by omega) hi2
    · exact hstop _ h

theorem rewind_steps_position :
    ∀ (k : Nat) (g : File_Contents),
      (∀ i, g.pos - k ≤ i → i < g.pos → g.file_data.getD i 0 ≠ 10) → k ≤ g.pos →
        (rewind_steps k g).current_line = g.current_line
        ∧ (rewind_steps k g).current_column = g.current_column - k := by
  intro k
  induction k with
  | zero => intro g _ _; exact ⟨rfl, rfl⟩
  | succ k ih =>
    intro g hb hk
    have hbyte : g.file_data.getD (g.pos - 1) 0 ≠ 10 := hb (g.pos - 1) (by omega) (by omega)
    have hstep : rewind_step g
        = { g with current_column := g.current_column - 1, pos := g.pos - 1 } := by
      unfold rewind_step
      have hpk : ({ g with current_column := g.current_column - 1, pos := g.pos - 1 }
          : File_Contents).peek = g.file_data.getD (g.pos - 1) 0 := rfl
      simp only [hpk]
      have h10 : (g.file_data.getD (g.pos - 1) 0 == 10) = false := by simpa using hbyte
      rw [h10]
      rfl
    rw [rewind_steps, hstep]
    have := ih { g with current_column := g.current_column - 1, pos := g.pos - 1 }
      (fun i h1 h2 => hb i (by simp only at h1; omega) (by simp only at h2; omega))
      (by simp only; omega)
    simp only at this
    refine ⟨this.1, ?_⟩
    rw [this.2]
    omega

theorem rewind_after_punct (start : Nat) (fuel : Nat) (f g : File_Contents) (b : Bool)
    (h : punct_loop start fuel f = .ok (g, b)) (size : Nat) :
    lex_le f.position (rewind_buffer_to g (f.pos + size)).position := by
  obtain ⟨i1, i2, i3, i4, i5⟩ := punct_loop_position start fuel f g b h
  have := rewind_steps_position (g.pos - (f.pos + size)) g
    (fun i h1 h2 => by rw [i4]; exact i5 i (by omega) h2) (by omega)
  unfold rewind_buffer_to
  unfold lex_le File_Contents.position
  right
  simp only
  rw [this.1, this.2, i1, i2]
  exact ⟨rfl, by omega⟩

theorem punct_loop_le (start : Nat) (fuel : Nat) (f g : File_Contents) (b : Bool)
    (h : punct_loop start fuel f = .ok (g, b)) : lex_le f.position g.position := by
  obtain ⟨i1, i2, _, _, _⟩ := punct_loop_position start fuel f g b h
  unfold lex_le File_Contents.position
  right
  simp only
  rw [i1, i2]
  exact ⟨rfl, by omega⟩

theorem get_token_fuel_position :
    ∀ (fuel : Nat) (g g1 : File_Contents) (t : Token_Iden),
      get_token_fuel fuel g = .ok (t, g1) →
        lex_le g.position g1.position
        ∧ (t = Token_Iden.zero
            ∨ (lex_le g.position t.position ∧ lex_le t.position g1.position)) := by
  intro fuel
  induction fuel with
  | zero => intro g g1 t h; simp [get_token_fuel] at h
  | succ n ih =>
    intro g g1 t h
    rw [get_token_fuel] at h
    obtain ⟨f, hws, h⟩ := (Result.bind_eq_ok _ _ _).mp h
    have hwp := advance_while_position _ _ _ _ hws
    dsimp only at h
    have key : ∀ (type : Token) (payload : Option (List Nat)) (path : List Nat),
        lex_le f.position g1.position →
        lex_le g.position g1.position
        ∧ ((⟨payload, some path, type, f.current_line, f.current_column⟩ : Token_Iden)
              = Token_Iden.zero
            ∨ (lex_le g.position
                (⟨payload, some path, type, f.current_line, f.current_column⟩
                  : Token_Iden).position
              ∧ lex_le (⟨payload, some path, type, f.current_line, f.current_column⟩
                  : Token_Iden).position g1.position)) :=
      fun _ _ _ hle => ⟨lex_le_trans hwp hle, Or.inr ⟨hwp, hle⟩⟩
    by_cases c1 : (is_alpha f.peek || is_non_special_char f.peek) = true
    · -- identifier or keyword
      rw [if_pos c1] at h
      obtain ⟨f1, h1, h⟩ := (Result.bind_eq_ok _ _ _).mp h
      have hf1 := advance_while_position _ _ _ _ h1
      split at h
      · injection h with h; injection h with ht hg
        subst ht; subst hg
        exact key _ _ _ hf1
      · injection h with h; injection h with ht hg
        subst ht; subst hg
        exact key _ _ _ hf1
    rw [if_neg c1] at h
    by_cases c2 : is_number f.peek = true
    · -- number
      rw [if_pos c2] at h
      split at h
      · obtain ⟨f1, h1, h⟩ := (Result.bind_eq_ok _ _ _).mp h
        obtain ⟨f2, h2, h⟩ := (Result.bind_eq_ok _ _ _).mp h
        split at h
        · exact absurd h (by simp)
        · obtain ⟨f3, h3, h⟩ := (Result.bind_eq_ok _ _ _).mp h
          split at h
          · injection h with h; injection h with ht hg
            subst ht; subst hg
            exact key _ _ _ (lex_le_trans (advance_buffer_position _ _ h1)
              (lex_le_trans (advance_buffer_position _ _ h2)
                (advance_while_position _ _ _ _ h3)))
          · cases h
      · obtain ⟨f1, h1, h⟩ := (Result.bind_eq_ok _ _ _).mp h
        injection h with h; injection h with ht hg
        subst ht; subst hg
        exact key _ _ _ (number_loop_position _ _ _ _ _ _ h1)
    rw [if_neg c2] at h
    by_cases c3 : (f.peek == 34) = true
    · -- string literal
      rw [if_pos c3] at h
      obtain ⟨f1, h1, h⟩ := (Result.bind_eq_ok _ _ _).mp h
      obtain ⟨f2, h2, h⟩ := (Result.bind_eq_ok _ _ _).mp h
      obtain ⟨f3, h3, h⟩ := (Result.bind_eq_ok _ _ _).mp h
      injection h with h; injection h with ht hg
      subst ht; subst hg
      exact key _ _ _ (lex_le_trans (advance_buffer_position _ _ h1)
        (lex_le_trans (string_loop_position _ _ _ _ _ h2)
          (advance_buffer_position _ _ h3)))
    rw [if_neg c3] at h
    by_cases c4 : (f.peek == 39) = true
    · -- character literal
      rw [if_pos c4] at h
      obtain ⟨f1, h1, h⟩ := (Result.bind_eq_ok _ _ _).mp h
      obtain ⟨f2, h2, h⟩ := (Result.bind_eq_ok _ _ _).mp h
      split at h
      · exact absurd h (by simp)
      · obtain ⟨f3, h3, h⟩ := (Result.bind_eq_ok _ _ _).mp h
        injection h with h; injection h with ht hg
        subst ht; subst hg
        exact key _ _ _ (lex_le_trans (advance_buffer_position _ _ h1)
          (lex_le_trans (advance_buffer_position _ _ h2)
            (advance_buffer_position _ _ h3)))
    rw [if_neg c4] at h
    by_cases c5 : (f.peek == 36) = true
    · -- compiler directive
      rw [if_pos c5] at h
      obtain ⟨f1, h1, h⟩ := (Result.bind_eq_ok _ _ _).mp h
      obtain ⟨f2, h2, h⟩ := (Result.bind_eq_ok _ _ _).mp h
      split at h
      · exact absurd h (by simp)
      · injection h with h; injection h with ht hg
        subst ht; subst hg
        exact key _ _ _ (lex_le_trans (advance_buffer_position _ _ h1)
          (advance_while_position _ _ _ _ h2))
    rw [if_neg c5] at h
    -- punctuation
    obtain ⟨r, h1, h⟩ := (Result.bind_eq_ok _ _ _).mp h
    obtain ⟨f1, b⟩ := r
    have hpl := punct_loop_le _ _ _ _ _ h1
    dsimp only at h
    by_cases c6 : b = true
    · rw [if_pos c6] at h
      injection h with h; injection h with ht hg
      subst ht; subst hg
      exact ⟨lex_le_trans hwp hpl, Or.inl rfl⟩
    rw [if_neg c6] at h
    by_cases c7 : (f1.pos - f.pos == 1) = true
    · rw [if_pos c7] at h
      injection h with h; injection h with ht hg
      subst ht; subst hg
      exact key _ _ _ hpl
    rw [if_neg c7] at h
    by_cases c8 : (f1.file_data.getD f.pos 0 == 47
        && f1.file_data.getD (f.pos + 1) 0 == 47) = true
    · rw [if_pos c8] at h
      obtain ⟨f2, h2, h⟩ := (Result.bind_eq_ok _ _ _).mp h
      obtain ⟨f3, h3, h⟩ := (Result.bind_eq_ok _ _ _).mp h
      have hrec := ih _ _ _ h
      have hto : lex_le g.position f3.position :=
        lex_le_trans hwp (lex_le_trans hpl
          (lex_le_trans (advance_while_position _ _ _ _ h2) (advance_buffer_position _ _ h3)))
      refine ⟨lex_le_trans hto hrec.1, ?_⟩
      rcases hrec.2 with hz | hz
      · exact Or.inl hz
      · exact Or.inr ⟨lex_le_trans hto hz.1, hz.2⟩
    rw [if_neg c8] at h
    by_cases c9 : (f1.file_data.getD f.pos 0 == 47
        && f1.file_data.getD (f.pos + 1) 0 == 42) = true
    · rw [if_pos c9] at h
      obtain ⟨f2, h2, h⟩ := (Result.bind_eq_ok _ _ _).mp h
      have hrec := ih _ _ _ h
      have hto : lex_le g.position f2.position :=
        lex_le_trans hwp (lex_le_trans hpl (block_comment_position _ _ _ _ _ _ h2))
      refine ⟨lex_le_trans hto hrec.1, ?_⟩
      rcases hrec.2 with hz | hz
      · exact Or.inl hz
      · exact Or.inr ⟨lex_le_trans hto hz.1, hz.2⟩
    rw [if_neg c9] at h
    by_cases c10 : (shget keyword_table (f1.slice f.pos f1.pos) == KEYWORD_ERROR) = true
    · rw [if_pos c10] at h
      cases hs : shorten_loop (f1.slice f.pos f1.pos) (f1.slice f.pos f1.pos).length with
      | none =>
        rw [hs] at h
        injection h with h; injection h with ht hg
        subst ht; subst hg
        exact key _ _ _ (rewind_after_punct _ _ _ _ _ h1 1)
      | some st =>
        obtain ⟨size, t0⟩ := st
        rw [hs] at h
        injection h with h; injection h with ht hg
        subst ht; subst hg
        exact key _ _ _ (rewind_after_punct _ _ _ _ _ h1 size)
    · rw [if_neg c10] at h
      injection h with h; injection h with ht hg
      subst ht; subst hg
      exact key _ _ _ hpl

theorem lex_loop_positions :
    ∀ (fuel : Nat) (f g : File_Contents), lex_loop fuel f = .ok g →
      (∀ t ∈ f.token_buffer, lex_le t.position f.position) →
      f.token_buffer.Pairwise (fun t u => lex_le t.position u.position) →
        (∀ t ∈ g.token_buffer, lex_le t.position g.position)
        ∧ g.token_buffer.Pairwise (fun t u => lex_le t.position u.position) := by
  intro fuel
  induction fuel with
  | zero => intro f g h; simp [lex_loop] at h
  | succ n ih =>
    intro f g h hall hsorted
    rw [lex_loop] at h
    split at h
    · obtain ⟨r, h1, h⟩ := (Result.bind_eq_ok _ _ _).mp h
      obtain ⟨t, f1⟩ := r
      obtain ⟨hfr, _⟩ := get_token_kind f f1 t h1
      obtain ⟨hle, ht⟩ := get_token_fuel_position _ f f1 t h1
      dsimp only at h
      have hall1 : ∀ u ∈ f1.token_buffer, lex_le u.position f1.position := by
        intro u hu
        rw [hfr.1] at hu
        exact lex_le_trans (hall u hu) hle
      split at h
      · rename_i hput
        have h0 : t ≠ Token_Iden.zero := by
          intro he
          rw [he] at hput
          simp [Token_Iden.zero] at hput
        have htp := ht.resolve_left h0
        apply ih _ g h
        · intro u hu
          simp only [List.mem_append, List.mem_singleton] at hu
          rcases hu with hu | hu
          · exact hall1 u hu
          · rw [hu]; exact htp.2
        · simp only
          rw [List.pairwise_append]
          refine ⟨by rw [hfr.1]; exact hsorted, List.pairwise_singleton _ _, ?_⟩
          intro u hu v hv
          rw [List.mem_singleton] at hv
          rw [hv]
          rw [hfr.1] at hu
          exact lex_le_trans (hall u hu) htp.1
      · exact ih _ g h hall1 (by rw [hfr.1]; exact hsorted)
    · injection h with h
      subst h
      exact ⟨hall, hsorted⟩

theorem lex_file_positions (path src : List Nat) (f : File_Contents)
    (h : lex_file path src = .ok f) :
    f.token_buffer.Pairwise (fun t u => lex_le t.position u.position) := by
  unfold lex_file at h
  obtain ⟨g, h1, h⟩ := (Result.bind_eq_ok _ _ _).mp h
  injection h with h
  subst h
  obtain ⟨hall, hsorted⟩ := lex_loop_positions _ _ g h1
    (by intro t ht; simp [lex_init] at ht) (by simp [lex_init])
  simp only
  rw [List.pairwise_append]
  refine ⟨hsorted, List.pairwise_singleton _ _, ?_⟩
  intro u hu v hv
  rw [List.mem_singleton] at hv
  rw [hv]
  exact hall u hu

/-! ## Pointer types -/

theorem drop_cons_get {α : Type} :
    ∀ (l : List α) (k : Nat) (x : α) (xs : List α), l.drop k = x :: xs →
      l.get? k = some x ∧ l.drop (k + 1) = xs := by
  intro l
  induction l with
  | nil => intro k x xs h; simp at h
  | cons a l ih =>
    intro k x xs h
    cases k with
    | zero =>
      simp only [List.drop_zero, List.cons.injEq] at h
      obtain ⟨rfl, rfl⟩ := h
      exact ⟨rfl, rfl⟩
    | succ k =>
      have := ih k x xs (by simpa using h)
      exact ⟨by simpa using this.1, by simpa using this.2⟩

theorem c_string_stars (b : List Nat) (k : Nat) :
    c_string (c_string b ++ List.replicate k 42 ++ [0]) = c_string b ++ List.replicate k 42 := by
  unfold c_string
  rw [List.append_assoc, List.takeWhile_append_of_pos, List.takeWhile_append_of_pos]
  · simp
  · intro c hc
    rw [List.eq_of_mem_replicate hc]
    rfl
  · intro c hc
    exact List.mem_takeWhile_imp (p := fun c => c != 0) hc

theorem pointer_buffer (b : List Nat) (p : Type_Info) (i : Option (List Nat)) (tok : Token_Iden)
    (k : Nat)
    (h : ptr_to_identifier_buffer p
          = .ok (c_string b ++ List.replicate k 42 ++ [0], (c_string b).length + 64)) :
    ptr_to_identifier_buffer (.pointer p i tok)
      = if k + 1 ≤ 63 then
          .ok (c_string b ++ List.replicate (k + 1) 42 ++ [0], (c_string b).length + 64)
        else .undefined := by
  rw [ptr_to_identifier_buffer, h]
  simp only [Result.bind, c_string_stars, List.length_append, List.length_replicate]
  by_cases hk : k + 1 ≤ 63
  · rw [if_pos hk, if_pos (by omega)]
    simp [List.replicate_succ']
  · rw [if_neg hk, if_neg (by omega)]

theorem pointer_chain_buffer (b : List Nat) (ty : Type_Type) (sz : Nat) (tk : Token_Iden) :
    ∀ stars : List Token_Iden, stars.length ≤ 63 →
      ptr_to_identifier_buffer (pointer_chain b (.plain ty sz (some b) tk) stars)
        = .ok (c_string b ++ List.replicate stars.length 42 ++ [0],
               (c_string b).length + 64) := by
  intro stars
  induction stars with
  | nil => intro _; simp [pointer_chain, ptr_to_identifier_buffer]
  | cons s stars ih =>
    intro h
    simp only [List.length_cons] at h
    rw [pointer_chain, pointer_buffer b _ _ _ stars.length (ih (by omega)), if_pos h]
    rfl

theorem parse_type_chain (b : List Nat) (ty : Type_Type) (sz : Nat) (tk tb : Token_Iden)
    (rest : List Token_Iden) (htb : tb.type = tok_identifier) (hb : tb.identifier = some b) :
    ∀ (stars : List Token_Iden) (f : File_Contents) (fuel : Nat),
      f.token_buffer.drop f.curr_token = stars ++ tb :: rest →
      (∀ s ∈ stars, s.type = 42) →
      get_type f (some b) = .plain ty sz (some b) tk →
      stars.length ≤ 63 → stars.length < fuel →
      parse_type fuel f
        = .ok (pointer_chain b (.plain ty sz (some b) tb) stars,
               advance_tokens (stars.length + 1) f) := by
  intro stars
  induction stars with
  | nil =>
    intro f fuel hd _ hreg _ hfuel
    obtain ⟨n, rfl⟩ : ∃ n, fuel = n + 1 := ⟨fuel - 1, by simp at hfuel; omega⟩
    have hcur := current_of_get f tb (drop_cons_get _ _ _ _ (by simpa using hd)).1
    rw [parse_type, hcur]
    simp only [Result.bind, htb, hb, hreg]
    rfl
  | cons s stars ih =>
    intro f fuel hd hs hreg hlen hfuel
    obtain ⟨n, rfl⟩ : ∃ n, fuel = n + 1 := ⟨fuel - 1, by simp at hfuel; omega⟩
    simp only [List.length_cons] at hlen hfuel
    have hget := drop_cons_get _ _ _ _ (by simpa using hd)
    have hcur := current_of_get f s hget.1
    have hs42 : s.type = 42 := hs s (by simp)
    have hrec := ih (advance_token f).2 n hget.2 (fun x hx => hs x (by simp [hx])) hreg
      (by omega) (by omega)
    have hid : ptr_to_identifier
        (.pointer (pointer_chain b (.plain ty sz (some b) tb) stars) none s)
          = .ok (c_string b ++ List.replicate (stars.length + 1) 42 ++ [0]) := by
      unfold ptr_to_identifier
      rw [pointer_buffer b _ _ _ stars.length (pointer_chain_buffer b ty sz tb stars (by omega)),
        if_pos hlen]
      rfl
    rw [parse_type, hcur]
    simp only [Result.bind, hs42, hrec, hid]
    rfl

theorem parse_type_too_deep (b : List Nat) (ty : Type_Type) (sz : Nat) (tk tb : Token_Iden)
    (rest : List Token_Iden) (htb : tb.type = tok_identifier) (hb : tb.identifier = some b) :
    ∀ (stars : List Token_Iden) (f : File_Contents) (fuel : Nat),
      f.token_buffer.drop f.curr_token = stars ++ tb :: rest →
      (∀ s ∈ stars, s.type = 42) →
      get_type f (some b) = .plain ty sz (some b) tk →
      64 ≤ stars.length → stars.length < fuel →
      parse_type fuel f = .undefined := by
  intro stars
  induction stars with
  | nil => intro f fuel _ _ _ h _; simp at h
  | cons s stars ih =>
    intro f fuel hd hs hreg hlen hfuel
    obtain ⟨n, rfl⟩ : ∃ n, fuel = n + 1 := ⟨fuel - 1, by simp at hfuel; omega⟩
    simp only [List.length_cons] at hlen hfuel
    have hget := drop_cons_get _ _ _ _ (by simpa using hd)
    have hcur := current_of_get f s hget.1
    have hs42 : s.type = 42 := hs s (by simp)
    rw [parse_type, hcur]
    by_cases h64 : 64 ≤ stars.length
    · have hrec := ih (advance_token f).2 n hget.2 (fun x hx => hs x (by simp [hx])) hreg
        h64 (by omega)
      simp only [Result.bind, hs42, hrec]
      rfl
    · have hrec := parse_type_chain b ty sz tk tb rest htb hb stars (advance_token f).2 n
        hget.2 (fun x hx => hs x (by simp [hx])) hreg (by omega) (by omega)
      have hid : ptr_to_identifier
          (.pointer (pointer_chain b (.plain ty sz (some b) tb) stars) none s)
            = .undefined := by
        unfold ptr_to_identifier
        rw [pointer_buffer b _ _ _ stars.length
          (pointer_chain_buffer b ty sz tb stars (by omega)), if_neg (by omega)]
        rfl
      simp only [Result.bind, hs42, hrec, hid]
      rfl

/-! ## The stack -/

theorem list_array_stores (α : Type) : (list_array α).stores := by
  intro a x i hi
  simp only [list_array, Int.toNat_ofNat]
  by_cases h : i < a.length
  · rw [if_pos h]
    refine ⟨by simp [List.getElem?_set, h], ?_⟩
    intro j hj
    simp only [List.get?_eq_getElem?]
    rw [List.getElem?_set_ne (by omega)]
  · rw [if_neg h]
    have he : i = a.length := by omega
    subst he
    refine ⟨by simp, ?_⟩
    intro j hj
    simp only [List.get?_eq_getElem?]
    rw [List.getElem?_append_left hj]

theorem take_succ_of_get {α : Type} (l : List α) (n : Nat) (x : α) (h : l.get? n = some x) :
    l.take (n + 1) = l.take n ++ [x] := by
  rw [List.take_succ]
  simp only [List.get?_eq_getElem?] at h
  rw [h]
  rfl

theorem take_eq_of_get {α : Type} (l m : List α) (n : Nat)
    (h : ∀ j, j < n → l.get? j = m.get? j) : l.take n = m.take n := by
  apply List.ext_get?
  intro j
  by_cases hj : j < n
  · simp only [List.get?_eq_getElem?, List.getElem?_take_of_lt hj]
    have := h j hj
    simpa only [List.get?_eq_getElem?] using this
  · simp only [List.get?_eq_getElem?]
    rw [List.getElem?_eq_none (by simp; omega), List.getElem?_eq_none (by simp; omega)]

theorem stack_push_items {α : Type} (lib : SimpleDArray α) (hlib : lib.stores) (s : Stack α)
    (x : α) (h : s.valid) :
    ∃ s1, _stack_push lib s x = .ok s1
      ∧ s1.top = s.top + 1
      ∧ s1.type_size = s.type_size
      ∧ s1.d_array_ptr.get? (s.top + 1).toNat = some x
      ∧ s1.top + 1 ≤ s1.d_array_ptr.length
      ∧ s1.items = s.items ++ [x] := by
  obtain ⟨h1, h2, h3, h4, h5⟩ := h
  obtain ⟨n, hn⟩ : ∃ n : Nat, s.top + 1 = n := ⟨(s.top + 1).toNat, by omega⟩
  have hnl : n ≤ s.d_array_ptr.length := by omega
  obtain ⟨c1, c2⟩ := hlib s.d_array_ptr x n hnl
  have hfit : fits_i32 (s.top + 1) = true := by
    simp only [fits_i32, Bool.and_eq_true, decide_eq_true_eq]
    omega
  refine ⟨{ s with top := s.top + 1,
                     d_array_ptr := lib._ISimpleDArrayInsert s.d_array_ptr x (s.top + 1) },
    by rw [_stack_push, if_pos hfit], rfl, rfl, ?_, ?_, ?_⟩
  · simp only [hn, Int.toNat_ofNat]
    exact c1
  · simp only [hn]
    have : n < (lib._ISimpleDArrayInsert s.d_array_ptr x n).length := by
      simp only [List.get?_eq_getElem?] at c1
      exact (List.getElem?_eq_some_iff.mp c1).1
    omega
  · simp only [Stack.items, hn]
    have e1 : ((n : Int) + 1).toNat = n + 1 := by omega
    simp only [e1, Int.toNat_ofNat]
    rw [take_succ_of_get _ n x c1, take_eq_of_get _ s.d_array_ptr n c2]

theorem stack_pop_items {α : Type} (s : Stack α) (ys : List α) (x : α)
    (hi : s.items = ys ++ [x]) (h1 : s.top + 1 ≤ s.d_array_ptr.length) (h3 : 0 ≤ s.type_size)
    (h4 : s.top ≤ 2147483647) (h5 : s.top * s.type_size ≤ 2147483647) (h0 : -1 ≤ s.top) :
    ∃ s2, _stack_pop s = .ok (some s.top, s2)
      ∧ stack_pop s = .ok (x, s2)
      ∧ s2.top = s.top - 1 ∧ s2.d_array_ptr = s.d_array_ptr ∧ s2.type_size = s.type_size
      ∧ s2.items = ys := by
  have hlen : (s.top + 1).toNat = ys.length + 1 := by
    have := congrArg List.length hi
    simp only [Stack.items, List.length_take, List.length_append, List.length_singleton] at this
    omega
  have htop : s.top = ys.length := by omega
  have hne : (s.top == -1) = false := by
    simp only [beq_eq_false_iff_ne]
    omega
  have hmul : 0 ≤ s.top * s.type_size := Int.mul_nonneg (by omega) h3
  have hfit : (fits_i32 (s.top * s.type_size) && fits_i32 (s.top - 1)) = true := by
    simp only [fits_i32, Bool.and_eq_true, decide_eq_true_eq]
    omega
  have hpop : _stack_pop s = .ok (some s.top, { s with top := s.top - 1 }) := by
    rw [_stack_pop, hne]
    simp only [Bool.false_eq_true, if_false]
    rw [if_pos hfit]
  have hget : s.d_array_ptr.get? ys.length = some x := by
    have : (s.d_array_ptr.take (ys.length + 1)).get? ys.length = some x := by
      have e := hi
      simp only [Stack.items, hlen] at e
      rw [e]
      simp
    simpa only [List.get?_eq_getElem?, List.getElem?_take_of_lt (Nat.lt_succ_self _)] using this
  refine ⟨_, hpop, ?_, rfl, rfl, rfl, ?_⟩
  · rw [stack_pop, hpop]
    simp only [Result.bind, read_slot]
    have h0' : (0 : Int) ≤ s.top := by omega
    rw [if_pos h0']
    have e : s.top.toNat = ys.length := by omega
    rw [e, hget]
  · simp only [Stack.items]
    have e : (s.top - 1 + 1).toNat = ys.length := by omega
    rw [e]
    have e2 := hi
    simp only [Stack.items, hlen] at e2
    have : (s.d_array_ptr.take (ys.length + 1)).take ys.length = ys := by
      rw [e2]
      simp
    rw [List.take_take] at this
    simpa using this

theorem push_all_items {α : Type} (lib : SimpleDArray α) (hlib : lib.stores) :
    ∀ (xs : List α) (s : Stack α), -1 ≤ s.top → s.top + 1 ≤ s.d_array_ptr.length →
      0 ≤ s.type_size → s.top + 1 + xs.length ≤ 2147483647 →
      (s.top + 1 + xs.length) * s.type_size ≤ 2147483647 →
      ∃ s1, push_all lib s xs = .ok s1 ∧ s1.items = s.items ++ xs
        ∧ s1.top = s.top + xs.length ∧ s1.type_size = s.type_size
        ∧ s1.top + 1 ≤ s1.d_array_ptr.length := by
  intro xs
  induction xs with
  | nil =>
    intro s _ h2 _ _ _
    exact ⟨s, rfl, by simp, by simp, rfl, h2⟩
  | cons x xs ih =>
    intro s h1 h2 h3 h4 h5
    simp only [List.length_cons, Nat.cast_add, Nat.cast_one] at h4 h5
    have hmono : (s.top + 1) * s.type_size ≤ (s.top + 1 + (↑xs.length + 1)) * s.type_size :=
      Int.mul_le_mul_of_nonneg_right (by omega) h3
    obtain ⟨s1, p1, p2, p3, p4, p5, p6⟩ := stack_push_items lib hlib s x
      ⟨h1, h2, h3, by omega, by omega⟩
    obtain ⟨s2, q1, q2, q3, q4, q5⟩ := ih s1 (by omega) p5 (by omega)
      (by rw [p2]; omega)
      (by rw [p2, p3]
          have e : s.top + 1 + 1 + (xs.length : Int) = s.top + 1 + (↑xs.length + 1) := by omega
          rw [e]; exact h5)
    refine ⟨s2, ?_, ?_, ?_, ?_, q5⟩
    · rw [push_all, stack_push, p1]
      exact q1
    · rw [q2, p6]
      simp
    · rw [q3, p2]
      simp only [List.length_cons, Nat.cast_add, Nat.cast_one]
      omega
    · rw [q4, p3]

theorem pop_all_items {α : Type} :
    ∀ (ys : List α) (s : Stack α), s.items = ys → -1 ≤ s.top →
      s.top + 1 ≤ s.d_array_ptr.length → 0 ≤ s.type_size → s.top ≤ 2147483647 →
      s.top * s.type_size ≤ 2147483647 →
      ∃ s2, pop_all ys.length s = .ok (ys.reverse, s2) ∧ s2.top = -1
        ∧ s2.d_array_ptr = s.d_array_ptr := by
  intro ys
  induction ys using List.reverseRecOn with
  | nil =>
    intro s hi h0 h1 _ _ _
    refine ⟨s, rfl, ?_, rfl⟩
    have := congrArg List.length hi
    simp only [Stack.items, List.length_take, List.length_nil] at this
    omega
  | append_singleton ys x ih =>
    intro s hi h0 h1 h3 h4 h5
    obtain ⟨s2, _, p2, p3, p4, p5, p6⟩ := stack_pop_items s ys x hi h1 h3 h4 h5 h0
    have hlen : (s.top + 1).toNat = ys.length + 1 := by
      have := congrArg List.length hi
      simp only [Stack.items, List.length_take, List.length_append,
        List.length_singleton] at this
      omega
    have hmono : (s.top - 1) * s.type_size ≤ s.top * s.type_size :=
      Int.mul_le_mul_of_nonneg_right (by omega) h3
    obtain ⟨s3, q1, q2, q3⟩ := ih s2 p6 (by omega) (by rw [p3, p4]; omega) (by rw [p5]; exact h3)
      (by omega) (by rw [p3, p5]; omega)
    refine ⟨s3, ?_, q2, by rw [q3, p4]⟩
    rw [List.length_append, List.length_singleton, pop_all, p2]
    simp only [Result.bind, q1, List.reverse_append, List.reverse_singleton,
      List.singleton_append]

theorem run_ops_top {α : Type} (lib : SimpleDArray α) :
    ∀ (ops : List (Stack_Op α)) (s : Stack α) (pushes pops : Nat),
      s.top = pushes - pops - 1 → pops ≤ pushes → 0 ≤ s.type_size →
      pushes + ops.length ≤ 2147483647 →
      (pushes + ops.length) * s.type_size ≤ 2147483647 →
      ∃ s1 pushes1 pops1, run_ops lib s pushes pops ops = .ok (s1, pushes1, pops1)
        ∧ s1.top = pushes1 - pops1 - 1 ∧ pops1 ≤ pushes1 := by
  intro ops
  induction ops with
  | nil => intro s pushes pops h1 h2 _ _ _; exact ⟨s, pushes, pops, rfl, h1, h2⟩
  | cons op ops ih =>
    intro s pushes pops h1 h2 h3 h4 h5
    simp only [List.length_cons, Nat.cast_add, Nat.cast_one] at h4 h5
    have hp : ((pushes : Int) + ops.length) * s.type_size ≤ 2147483647 := by
      have : ((pushes : Int) + ops.length) * s.type_size
          ≤ ((pushes : Int) + (ops.length + 1)) * s.type_size :=
        Int.mul_le_mul_of_nonneg_right (by omega) h3
      omega
    have htop : s.top * s.type_size ≤ 2147483647 := by
      have : s.top * s.type_size ≤ ((pushes : Int) + (ops.length + 1)) * s.type_size :=
        Int.mul_le_mul_of_nonneg_right (by omega) h3
      omega
    cases op with
    | push item =>
      have hfit : fits_i32 (s.top + 1) = true := by
        simp only [fits_i32, Bool.and_eq_true, decide_eq_true_eq]
        omega
      have := ih { s with top := s.top + 1,
                          d_array_ptr := lib._ISimpleDArrayInsert s.d_array_ptr item (s.top + 1) }
        (pushes + 1) pops (by simp only [Nat.cast_add, Nat.cast_one]; omega) (by omega) h3
        (by omega)
        (by simp only [Nat.cast_add, Nat.cast_one]
            have e : (pushes : Int) + 1 + ops.length = pushes + (ops.length + 1) := by omega
            rw [e]; exact h5)
      rw [run_ops, _stack_push, if_pos hfit]
      exact this
    | pop =>
      by_cases he : s.top = -1
      · have := ih s pushes pops h1 h2 h3 (by omega) hp
        rw [run_ops, _stack_pop, he]
        simpa [Result.bind] using this
      · have hne : (s.top == -1) = false := by simpa using he
        have h0 : 0 ≤ s.top := by omega
        have hmul : 0 ≤ s.top * s.type_size := Int.mul_nonneg h0 h3
        have hfit : (fits_i32 (s.top * s.type_size) && fits_i32 (s.top - 1)) = true := by
          simp only [fits_i32, Bool.and_eq_true, decide_eq_true_eq]
          omega
        have := ih { s with top := s.top - 1 } pushes (pops + 1)
          (by simp only [Nat.cast_add, Nat.cast_one]; omega) (by omega) h3 (by omega) hp
        rw [run_ops, _stack_pop, hne]
        simp only [Bool.false_eq_true, if_false]
        rw [if_pos hfit]
        simpa [Result.bind] using this
    | peek =>
      have := ih s pushes pops h1 h2 h3 (by omega) hp
      by_cases he : s.top = -1
      · rw [run_ops, _stack_peek, he]
        simpa [Result.bind] using this
      · have hne : (s.top == -1) = false := by simpa using he
        have h0 : 0 ≤ s.top := by omega
        have hmul : 0 ≤ s.top * s.type_size := Int.mul_nonneg h0 h3
        have hfit : fits_i32 (s.top * s.type_size) = true := by
          simp only [fits_i32, Bool.and_eq_true, decide_eq_true_eq]
          omega
        rw [run_ops, _stack_peek, hne]
        simp only [Bool.false_eq_true, if_false]
        rw [if_pos hfit]
        simpa [Result.bind] using this

/-! ## The lexer ends -/

theorem ends_of_ok {α : Type} {r : Result α} {Q : α → Prop} (h : Ends r Q) (a : α)
    (ha : r = .ok a) : Q a := by
  rcases h with ⟨e, l, c, h⟩ | ⟨b, h1, h2⟩
  · rw [h] at ha; cases ha
  · rw [h1] at ha; cases ha; exact h2

theorem wide_member_parse (start : File_Contents) (rest : List Token_Iden)
    (hd : start.token_buffer.drop start.curr_token
      = ⟨some [120, 0], some [], tok_identifier, 1, 1⟩ :: ⟨none, some [], 58, 1, 1⟩
        :: ⟨some [105, 51, 50, 0], some [], tok_identifier, 1, 1⟩ :: rest)
    (ht : start.type_table = []) :
    ∃ g, start.token_buffer.get? start.curr_token = some wide_member.identifier
      ∧ start.token_buffer.get? (start.curr_token + 1) = some ⟨none, some [], 58, 1, 1⟩
      ∧ parse_type (start.token_buffer.length + 1)
          { (advance_tokens 2 start) with last_read_token := ⟨none, some [], 58, 1, 1⟩ }
          = .ok (wide_member.type, g)
      ∧ g.token_buffer.drop g.curr_token = rest ∧ g.type_table = [] := by
  obtain ⟨a1, a2⟩ := drop_cons_get _ _ _ _ hd
  obtain ⟨b1, b2⟩ := drop_cons_get _ _ _ _ a2
  obtain ⟨c1, c2⟩ := drop_cons_get _ _ _ _ b2
  refine ⟨(advance_token { (advance_tokens 2 start) with
    last_read_token := ⟨none, some [], 58, 1, 1⟩ }).2, a1, b1, ?_, ?_, ?_⟩
  · rw [parse_type]
    have hcur : ({ (advance_tokens 2 start) with
        last_read_token := ⟨none, some [], 58, 1, 1⟩ } : File_Contents).current
        = .ok ⟨some [105, 51, 50, 0], some [], tok_identifier, 1, 1⟩ :=
      current_of_get _ _ (by simpa [advance_tokens, advance_token] using c1)
    rw [hcur]
    simp only [Result.bind]
    rw [if_neg (by decide), if_pos (by decide)]
    simp only [get_type, advance_tokens, advance_token, ht, List.find?_nil]
    rfl
  · simpa [advance_tokens, advance_token] using c2
  · simpa [advance_tokens, advance_token] using ht

theorem wide_member_run : ∀ (k : Nat) (g : File_Contents),
    g.token_buffer.drop g.curr_token = wide_struct_rest k → g.type_table = [] →
    ∃ g1, member_run true g (List.replicate k wide_member) g1 := by
  intro k
  induction k with
  | zero => intro g _ _; exact ⟨g, rfl⟩
  | succ k ih =>
    intro g hd ht
    rw [wide_struct_rest] at hd
    obtain ⟨s1, s2⟩ := drop_cons_get _ _ _ _ hd
    obtain ⟨g2, p1, p2, p3, p4, p5⟩ := wide_member_parse (advance_token g).2 _
      (by simpa [advance_token] using s2) (by simpa [advance_token] using ht)
    obtain ⟨g1, hrun⟩ := ih g2 p4 p5
    exact ⟨g1, g2, ⟨(advance_token g).2, ⟨none, some [], 58, 1, 1⟩,
      ⟨⟨⟨none, some [], 59, 1, 1⟩, s1, rfl⟩, rfl⟩, p1, rfl, p2, rfl, p3, rfl⟩, hrun⟩

theorem wide_struct_overflow (n : Nat) :
    parse_struct (n + 2) { token_buffer := tokens_wide_struct n, reasonable_maximum := n }
      = .undefined := by
  have h1 : parser_eat { token_buffer := tokens_wide_struct n, reasonable_maximum := n }
      tok_struct
      = .ok { (advance_token
          { token_buffer := tokens_wide_struct n, reasonable_maximum := n }).2 with
          last_read_token := ⟨none, some [], tok_struct, 1, 1⟩ } :=
    parser_eat_of_get _ _ _ rfl rfl
  have h2 : get_next_expecting
      { (advance_token { token_buffer := tokens_wide_struct n, reasonable_maximum := n }).2 with
        last_read_token := ⟨none, some [], tok_struct, 1, 1⟩ }
      tok_identifier "struct name"
      = .ok (⟨some [86, 0], some [], tok_identifier, 1, 1⟩,
          { (advance_tokens 2
              { token_buffer := tokens_wide_struct n, reasonable_maximum := n }) with
            last_read_token := ⟨none, some [], tok_struct, 1, 1⟩ }) := by
    rfl
  have h3 : parser_eat
      { (advance_tokens 2 { token_buffer := tokens_wide_struct n, reasonable_maximum := n }) with
        last_read_token := ⟨none, some [], tok_struct, 1, 1⟩ } 123
      = .ok { (advance_tokens 3
          { token_buffer := tokens_wide_struct n, reasonable_maximum := n }) with
          last_read_token := ⟨none, some [], 123, 1, 1⟩ } :=
    parser_eat_of_get _ ⟨none, some [], 123, 1, 1⟩ _ rfl rfl
  obtain ⟨g2, p1, p2, p3, p4, p5⟩ := wide_member_parse
    { (advance_tokens 3 { token_buffer := tokens_wide_struct n, reasonable_maximum := n }) with
      last_read_token := ⟨none, some [], 123, 1, 1⟩ } (wide_struct_rest n) rfl rfl
  obtain ⟨g1, hrun⟩ := wide_member_run n g2 p4 p5
  have hall : member_run false
      { (advance_tokens 3 { token_buffer := tokens_wide_struct n, reasonable_maximum := n }) with
        last_read_token := ⟨none, some [], 123, 1, 1⟩ }
      (wide_member :: List.replicate n wide_member) g1 :=
    ⟨g2, ⟨_, ⟨none, some [], 58, 1, 1⟩, rfl, p1, rfl, p2, rfl, p3, rfl⟩, hrun⟩
  have h4 := struct_member_loop_overflow n (wide_member :: List.replicate n wide_member)
    false _ g1 [] (n + 2) hall (by simp) (Nat.zero_le _) (by simp)
  simp only [parse_struct, h1, h2, h3, h4, Result.bind]

/-- C1 fails on the code.  On the source `"\t" x` the lexer gives the
identifier `x` the position (1, 4).  In the source `x` is the byte at offset 5,
which is line 1, column 6; in the buffer as the string branch leaves it, with
the escape collapsed to one byte, `x` is at offset 4, which is line 1,
column 5.  The position of the token is neither. -/
theorem C1_column_lost_after_escape :
    lex_tokens (bytes "\"\\t\" x") =
        .ok [ ⟨some [9, 0], some [], tok_const_str, 1, 1⟩,
              ⟨some [120, 0], some [], tok_identifier, 1, 4⟩,
              ⟨none, some [], tok_eof, 1, 5⟩ ]
      ∧ (bytes "\"\\t\" x").getD 5 0 = 120
      ∧ position_of (bytes "\"\\t\" x") 5 = (1, 6)
      ∧ lex_buffer (bytes "\"\\t\" x") = .ok [34, 9, 34, 32, 120, 0]
      ∧ position_of [34, 9, 34, 32, 120, 0] 4 = (1, 5) := by
  decide

/-- C2: when `lex_file` returns, the token sequence is some tokens followed by
one last token; the last token has kind `tok_eof` and the line and column at
which the scan ended; no token before it has kind `tok_eof`, kind 0 or the
kind of a whitespace byte. -/
theorem C2_eof_terminated (path src : List Nat) (f : File_Contents)
    (h : lex_file path src = .ok f) :
    ∃ toks last, f.token_buffer = toks ++ [last] ∧ last.type = tok_eof ∧
      last.line = f.current_line ∧ last.column = f.current_column ∧
      ∀ t ∈ toks, t.type ≠ tok_eof ∧ t.type ≠ 0 ∧
        ∀ c : Nat, is_whitespace c = true → t.type ≠ Int.ofNat c := by
  unfold lex_file at h
  obtain ⟨g, hloop, h⟩ := (Result.bind_eq_ok _ _ _).mp h
  obtain ⟨toks, htoks, hall⟩ := lex_loop_kinds _ _ g hloop
  injection h with h
  subst h
  refine ⟨toks, ⟨none, some g.path, tok_eof, g.current_line, g.current_column⟩,
    ?_, rfl, rfl, rfl, ?_⟩
  · show g.token_buffer ++ _ = _
    rw [htoks]
    simp [lex_init]
  · intro t ht
    have := hall t ht
    exact ⟨this.2.1, this.1, this.2.2⟩

/-- C2 at the source `a +`, which `lex_file` accepts. -/
theorem C2_eof_terminated_witness :
    ∃ toks last,
      [ (⟨some [97, 0], some [], tok_identifier, 1, 1⟩ : Token_Iden),
        ⟨none, some [], 43, 1, 3⟩, ⟨none, some [], tok_eof, 1, 4⟩ ] = toks ++ [last] ∧
      last.type = tok_eof ∧ last.line = 1 ∧ last.column = 4 ∧
      ∀ t ∈ toks, t.type ≠ tok_eof ∧ t.type ≠ 0 ∧
        ∀ c : Nat, is_whitespace c = true → t.type ≠ Int.ofNat c :=
  C2_eof_terminated [] (bytes "a +")
    { path := [], file_data := bytes "a +" ++ [0], file_size := 3, pos := 3,
      current_line := 1, current_column := 4,
      token_buffer := [ ⟨some [97, 0], some [], tok_identifier, 1, 1⟩,
        ⟨none, some [], 43, 1, 3⟩, ⟨none, some [], tok_eof, 1, 4⟩ ] }
    (by decide)

/-- C3: let `w` be a maximal run of identifier bytes (letters, digits,
non-special bytes) at the scan position whose first byte is a letter or a
non-special byte.  If `w` is a key of the keyword table with value `v`,
`get_token` returns the token of kind `v` without payload; if `w` is not a
key, it returns an identifier token whose payload is the NUL-terminated copy
of `w`.  In both cases the token carries the position of the first byte of
`w` and the scan stops right after `w`. -/
theorem C3_identifier_or_keyword (f : File_Contents) (pre w rest : List Nat)
    (hd : f.file_data = pre ++ (w ++ rest)) (hp : f.pos = pre.length)
    (hstart : (is_alpha (w.headD 0) || is_non_special_char (w.headD 0)) = true)
    (hw : ∀ c ∈ w, (is_alnum c || is_non_special_char c) = true)
    (hmax : (is_alnum (rest.headD 0) || is_non_special_char (rest.headD 0)) = false) :
    (∀ v, (w, v) ∈ keyword_table →
        get_token f = .ok (plain_token f v f.current_line f.current_column,
                           f.moved w.length))
    ∧ (w ∉ keyword_table.map Prod.fst →
        get_token f = .ok (payload_token f (w ++ [0]) tok_identifier
                             f.current_line f.current_column, f.moved w.length)) := by
  -- the lexeme is not empty
  obtain ⟨c, w', rfl⟩ : ∃ c w', w = c :: w' := by
    cases w with
    | nil => simp [is_alpha, is_non_special_char] at hstart
    | cons c w' => exact ⟨c, w', rfl⟩
  have hc := ident_char_props c (hw c (by simp))
  have hws : advance_while is_whitespace (f.file_data.length + 1) f = .ok f :=
    skip_whitespace_none f pre (c :: w' ++ rest) (by simpa using hd) hp (by simpa using hc.2.2) _
  have hpk : f.peek = c := by
    rw [peek_of_data f pre (c :: w' ++ rest) (by simpa using hd) hp]; rfl
  have hscan : advance_while (fun c => is_alnum c || is_non_special_char c)
      (f.file_data.length + 1) f = .ok (f.moved (c :: w').length) :=
    advance_while_run _ (c :: w') pre rest f _ hd hp
      (fun d hdm => ⟨hw d hdm, (ident_char_props d (hw d hdm)).1,
        (ident_char_props d (hw d hdm)).2.1⟩) hmax (by rw [hd]; simp; omega)
  have hslice : (f.moved (c :: w').length).slice f.pos (f.moved (c :: w').length).pos
      = c :: w' := by
    have := slice_of_data f pre (c :: w') rest hd
    simpa [File_Contents.slice, File_Contents.moved, hp] using this
  have hbranch : (is_alpha c || is_non_special_char c) = true := by simpa using hstart
  have key : get_token f =
      if shget keyword_table (c :: w') == KEYWORD_ERROR then
        .ok (payload_token f ((c :: w') ++ [0]) tok_identifier
              f.current_line f.current_column, f.moved (c :: w').length)
      else
        .ok (plain_token f (shget keyword_table (c :: w')) f.current_line f.current_column,
              f.moved (c :: w').length) := by
    unfold get_token
    rw [get_token_fuel, hws]
    simp only [Result.bind, hpk, hbranch, if_true]
    rw [hscan]
    simp only [hslice]
    rfl
  constructor
  · intro v hv
    have hval := shget_of_mem _ v hv
    have hne : v ≠ KEYWORD_ERROR := by
      have h2 : -54 ≤ v ∧ v ≤ -2 := keyword_values_range _ hv
      intro he
      rw [he] at h2
      exact absurd h2.2 (by decide)
    rw [key, hval]
    simp [hne]
  · intro hnot
    rw [key, shget_of_not_mem _ hnot]
    simp

/-- C3 at the sources `if` (a key: the token is `tok_if`, without payload) and
`iff` (not a key: an identifier with payload `iff`). -/
theorem C3_identifier_or_keyword_witness :
    get_token (lex_init [] (bytes "if")) =
        .ok (plain_token (lex_init [] (bytes "if")) tok_if 1 1,
             (lex_init [] (bytes "if")).moved 2)
      ∧ get_token (lex_init [] (bytes "iff")) =
        .ok (payload_token (lex_init [] (bytes "iff")) (bytes "iff" ++ [0]) tok_identifier 1 1,
             (lex_init [] (bytes "iff")).moved 3) :=
  ⟨(C3_identifier_or_keyword (lex_init [] (bytes "if")) [] (bytes "if") [0]
      (by decide) (by decide) (by decide) (by decide) (by decide)).1 tok_if (by decide),
   (C3_identifier_or_keyword (lex_init [] (bytes "iff")) [] (bytes "iff") [0]
      (by decide) (by decide) (by decide) (by decide) (by decide)).2 (by decide)⟩

/-- C4, amended: let `r` be a maximal run of at least two bytes at the scan
position, none of them alphanumeric, whitespace or NUL, whose first byte is not
a non-special (identifier) byte and which does not start a string, a character
literal, a directive or a comment.  If `r.take k` is the longest prefix of `r`
that is a key of the keyword table, with value `v`, then `get_token` returns
the token of kind `v` and leaves the scan position, with its column, `k` bytes
after the start of `r`.  If no prefix of length two or more is a key,
`get_token` returns the token whose kind is the code of the first byte of `r`
and leaves the scan position one byte after the start of `r`.  The token
carries the position of the first byte of `r`. -/
theorem C4_longest_match (f : File_Contents) (pre r rest : List Nat)
    (hd : f.file_data = pre ++ (r ++ rest)) (hp : f.pos = pre.length)
    (hlen : 2 ≤ r.length)
    (hr : ∀ c ∈ r, is_alnum c = false ∧ is_whitespace c = false ∧ c ≠ 0)
    (hmax : is_whitespace (rest.headD 0) = true ∨ is_alnum (rest.headD 0) = true
      ∨ rest.headD 0 = 0)
    (hnsc : is_non_special_char (r.headD 0) = false)
    (hstr : r.headD 0 ≠ 34) (hchr : r.headD 0 ≠ 39) (hdir : r.headD 0 ≠ 36)
    (hcom : ¬ (r.headD 0 = 47 ∧ (r.getD 1 0 = 47 ∨ r.getD 1 0 = 42))) :
    (∀ k v, k ≤ r.length → (r.take k, v) ∈ keyword_table →
        (∀ j, k < j → j ≤ r.length → r.take j ∉ keyword_table.map Prod.fst) →
        get_token f = .ok (plain_token f v f.current_line f.current_column, f.moved k))
    ∧ ((∀ j, 2 ≤ j → j ≤ r.length → r.take j ∉ keyword_table.map Prod.fst) →
        get_token f = .ok (plain_token f (Int.ofNat (r.headD 0))
                             f.current_line f.current_column, f.moved 1)) := by
  obtain ⟨c, r1, rfl⟩ : ∃ c r1, r = c :: r1 := by
    cases r with
    | nil => simp at hlen
    | cons c r1 => exact ⟨c, r1, rfl⟩
  obtain ⟨c2, r2, rfl⟩ : ∃ c2 r2, r1 = c2 :: r2 := by
    cases r1 with
    | nil => simp at hlen
    | cons c2 r2 => exact ⟨c2, r2, rfl⟩
  have hc := punct_char_props c (hr c (by simp))
  have hcws : is_whitespace c = false := (hr c (by simp)).2.1
  simp only [List.headD_cons] at hnsc hstr hchr hdir hcom
  have hc2 : (c :: c2 :: r2).getD 1 0 = c2 := rfl
  rw [hc2] at hcom
  have hws : advance_while is_whitespace (f.file_data.length + 1) f = .ok f :=
    skip_whitespace_none f pre (c :: c2 :: r2 ++ rest) (by simpa using hd) hp
      (by simpa using hcws) _
  have hpk : f.peek = c := by
    rw [peek_of_data f pre (c :: c2 :: r2 ++ rest) (by simpa using hd) hp]; rfl
  have hrun : punct_loop f.pos (f.file_data.length + 1) f
      = .ok (f.moved (c :: c2 :: r2).length, false) :=
    punct_loop_run f.pos (c :: c2 :: r2) pre rest f _ hd hp hr hmax
      (by rw [hd]; simp; omega) (Nat.le_refl _) (by simp)
  have hb1 : (is_alpha c || is_non_special_char c) = false := by simp [hc.2.2.2.1, hnsc]
  have hb2 : is_number c = false := hc.2.2.2.2
  have hb3 : (c == 34) = false := by simpa using hstr
  have hb4 : (c == 39) = false := by simpa using hchr
  have hb5 : (c == 36) = false := by simpa using hdir
  have hslice : (f.moved (c :: c2 :: r2).length).slice f.pos
      (f.moved (c :: c2 :: r2).length).pos = c :: c2 :: r2 := by
    have := slice_of_data f pre (c :: c2 :: r2) rest hd
    simpa [File_Contents.slice, File_Contents.moved, hp] using this
  have hg0 : (f.moved (c :: c2 :: r2).length).file_data.getD f.pos 0 = c := by
    show f.file_data.getD f.pos 0 = c
    exact hpk
  have hg1 : (f.moved (c :: c2 :: r2).length).file_data.getD (f.pos + 1) 0 = c2 := by
    show f.file_data.getD (f.pos + 1) 0 = c2
    rw [hd, hp, getD_append_mid]; rfl
  have hlen1 : ((f.moved (c :: c2 :: r2).length).pos - f.pos == 1) = false := by
    simp [File_Contents.moved]
  have hcm1 : (c == 47 && c2 == 47) = false := by
    rw [Bool.and_eq_false_iff]
    by_cases h47 : c = 47
    · right; simpa using fun h => hcom ⟨h47, Or.inl h⟩
    · left; simpa using h47
  have hcm2 : (c == 47 && c2 == 42) = false := by
    rw [Bool.and_eq_false_iff]
    by_cases h47 : c = 47
    · right; simpa using fun h => hcom ⟨h47, Or.inr h⟩
    · left; simpa using h47
  have key : get_token f =
      if shget keyword_table (c :: c2 :: r2) == KEYWORD_ERROR then
        match shorten_loop (c :: c2 :: r2) (c :: c2 :: r2).length with
        | some (size, t) =>
          .ok (plain_token f t f.current_line f.current_column,
               rewind_buffer_to (f.moved (c :: c2 :: r2).length) (f.pos + size))
        | none =>
          .ok (plain_token f (Int.ofNat c) f.current_line f.current_column,
               rewind_buffer_to (f.moved (c :: c2 :: r2).length) (f.pos + 1))
      else
        .ok (plain_token f (shget keyword_table (c :: c2 :: r2))
               f.current_line f.current_column, f.moved (c :: c2 :: r2).length) := by
    unfold get_token
    rw [get_token_fuel, hws]
    simp only [Result.bind, hpk, hb1, hb2, hb3, hb4, hb5, if_false, Bool.false_eq_true]
    rw [hrun]
    simp only [hlen1, hg0, hg1, hcm1, hcm2, hslice, if_false, Bool.false_eq_true]
    rfl
  have hrew : ∀ k, k ≤ (c :: c2 :: r2).length →
      rewind_buffer_to (f.moved (c :: c2 :: r2).length) (f.pos + k) = f.moved k := by
    intro k hk
    unfold rewind_buffer_to
    have hm : (f.moved (c :: c2 :: r2).length).pos - (f.pos + k) = (c :: c2 :: r2).length - k := by
      simp only [File_Contents.moved]; omega
    rw [hm]
    have := rewind_steps_moved f pre (c :: c2 :: r2) rest hd hp
      (fun d hdm => (punct_char_props d (hr d hdm)).2.2.1) ((c :: c2 :: r2).length - k) k
      (by omega)
    rw [← this]
    congr 2
    omega
  constructor
  · intro k v hk hkey hlong
    rcases Nat.eq_or_lt_of_le hk with he | hlt
    · have hfull : (c :: c2 :: r2, v) ∈ keyword_table := by
        rw [he, List.take_length] at hkey; exact hkey
      have hne := keyword_value_ne_error _ v hfull
      rw [key, shget_of_mem _ v hfull, he]
      simp [hne]
    · have hnot : (c :: c2 :: r2) ∉ keyword_table.map Prod.fst := by
        have := hlong (c :: c2 :: r2).length hlt (Nat.le_refl _)
        rwa [List.take_length] at this
      have hfind := shorten_loop_find (c :: c2 :: r2) k v hkey (c :: c2 :: r2).length hlt
        (fun j h1 h2 => hlong j h1 (Nat.le_of_lt h2))
      rw [key, shget_of_not_mem _ hnot, hfind]
      simp only [beq_self_eq_true, if_true]
      rw [hrew k hk]
  · intro hnone
    have hnot : (c :: c2 :: r2) ∉ keyword_table.map Prod.fst := by
      have := hnone (c :: c2 :: r2).length hlen (Nat.le_refl _)
      rwa [List.take_length] at this
    have hnf := shorten_loop_none (c :: c2 :: r2) (c :: c2 :: r2).length (by
      intro j hj
      by_cases h2 : 2 ≤ j
      · exact hnone j h2 (Nat.le_of_lt hj)
      · exact short_not_key _ (by rw [List.length_take]; omega))
    rw [key, shget_of_not_mem _ hnot, hnf]
    simp only [beq_self_eq_true, if_true]
    rw [hrew 1 (by simp)]
    rfl

/-- C4 (amended) at the source `>>=-`: the longest key is `>>=`, the scan goes
back to the `-`; and at the source `..`, where no prefix is a key. -/
theorem C4_longest_match_witness :
    get_token (lex_init [] (bytes ">>=-")) =
        .ok (plain_token (lex_init [] (bytes ">>=-")) tok_rshift_equals 1 1,
             (lex_init [] (bytes ">>=-")).moved 3)
      ∧ get_token (lex_init [] (bytes "..")) =
        .ok (plain_token (lex_init [] (bytes "..")) 46 1 1,
             (lex_init [] (bytes "..")).moved 1) :=
  ⟨(C4_longest_match (lex_init [] (bytes ">>=-")) [] (bytes ">>=-") [0]
      (by decide) (by decide) (by decide) (by decide) (by decide) (by decide)
      (by decide) (by decide) (by decide) (by decide)).1 3 tok_rshift_equals
      (by decide) (by decide)
      (fun j h1 h2 => by
        have h4 : (bytes ">>=-").length = 4 := by decide
        have hj : j = 4 := by omega
        subst hj
        decide),
   (C4_longest_match (lex_init [] (bytes "..")) [] (bytes "..") [0]
      (by decide) (by decide) (by decide) (by decide) (by decide) (by decide)
      (by decide) (by decide) (by decide) (by decide)).2
      (fun j h1 h2 => by
        have h4 : (bytes "..").length = 2 := by decide
        have hj : j = 2 := by omega
        subst hj
        decide)⟩

/-- C4 as stated fails at the run `_=`: its two bytes are neither alphanumeric
nor whitespace, it starts no string, character literal, directive or comment,
and it is not a key; `get_token` returns the identifier `_`, not the token
whose kind is the code 95 of the first byte. -/
theorem C4_underscore_run_counterexample :
    (∀ c ∈ bytes "_=", is_alnum c = false ∧ is_whitespace c = false ∧ c ≠ 0)
      ∧ (bytes "_=").headD 0 ≠ 34 ∧ (bytes "_=").headD 0 ≠ 39
      ∧ (bytes "_=").headD 0 ≠ 36 ∧ (bytes "_=").headD 0 ≠ 47
      ∧ bytes "_=" ∉ keyword_table.map Prod.fst
      ∧ get_token (lex_init [] (bytes "_=")) =
          .ok (payload_token (lex_init [] (bytes "_=")) [95, 0] tok_identifier 1 1,
               (lex_init [] (bytes "_=")).moved 1)
      ∧ get_token (lex_init [] (bytes "_=")) ≠
          .ok (plain_token (lex_init [] (bytes "_=")) 95 1 1,
               (lex_init [] (bytes "_=")).moved 1) := by
  decide

/-- C5: let `h` be a non-empty maximal run of hexadecimal digits that follows
`0x` at the scan position, with value below `2 ^ 64`.  When the value is 0 the
call of `get_token` is `undefined`: the loop that counts the decimal digits
gives `num_len = 0`, the buffer has `num_len + 1 = 1` byte, and
`_vstd_U64ToStr` writes the digit `0` and the terminating NUL.  For every other
value `get_token` returns one number token whose payload is the decimal string
of the value with its NUL; the token carries the position of the `0` and the
scan stops right after `h`. -/
theorem C5_hex_literal (f : File_Contents) (pre h rest : List Nat)
    (hd : f.file_data = pre ++ (48 :: 120 :: h ++ rest)) (hp : f.pos = pre.length)
    (hne : h ≠ []) (hh : ∀ c ∈ h, is_hex c = true)
    (hmax : is_hex (rest.headD 0) = false) (hv : hex_value h < 2 ^ 64) :
    get_token f =
      if hex_value h = 0 then .undefined
      else .ok (payload_token f (decimal_string (hex_value h) ++ [0]) tok_number
                  f.current_line f.current_column, f.moved (2 + h.length)) := by
  obtain ⟨c, h1, rfl⟩ : ∃ c h1, h = c :: h1 := by
    cases h with
    | nil => exact absurd rfl hne
    | cons c h1 => exact ⟨c, h1, rfl⟩
  have hws : advance_while is_whitespace (f.file_data.length + 1) f = .ok f :=
    skip_whitespace_none f pre (48 :: 120 :: (c :: h1) ++ rest) (by simpa using hd) hp
      (by simp [is_whitespace]) _
  have hpk : f.peek = 48 := by
    rw [peek_of_data f pre (48 :: 120 :: (c :: h1) ++ rest) (by simpa using hd) hp]; rfl
  have hpk1 : f.peek_at 1 = 120 := by
    unfold File_Contents.peek_at
    rw [hd, hp, getD_append_mid]; rfl
  have ha1 : advance_buffer f = .ok (f.moved 1) :=
    advance_buffer_plain f (by rw [hpk]; decide) (by rw [hpk]; decide)
  have hpk2 : (f.moved 1).peek = 120 := by
    rw [peek_of_data (f.moved 1) (pre ++ [48]) (120 :: (c :: h1) ++ rest)
      (by simp [File_Contents.moved, hd]) (by simp [File_Contents.moved, hp])]; rfl
  have ha2 : advance_buffer (f.moved 1) = .ok (f.moved 2) := by
    rw [advance_buffer_plain (f.moved 1) (by rw [hpk2]; decide) (by rw [hpk2]; decide),
      moved_moved]
  have hpk3 : (f.moved 2).peek = c := by
    rw [peek_of_data (f.moved 2) (pre ++ [48, 120]) ((c :: h1) ++ rest)
      (by simp [File_Contents.moved, hd]) (by simp [File_Contents.moved, hp])]; rfl
  have hscan : advance_while is_hex ((f.moved 2).file_data.length + 1) (f.moved 2)
      = .ok (f.moved (2 + (c :: h1).length)) := by
    rw [advance_while_run is_hex (c :: h1) (pre ++ [48, 120]) rest (f.moved 2) _
      (by simp [File_Contents.moved, hd]) (by simp [File_Contents.moved, hp])
      (fun d hdm => ⟨hh d hdm, hex_char_props d (hh d hdm)⟩) hmax
      (by simp [File_Contents.moved, hd]; omega), moved_moved]
  have hslice : (f.moved (2 + (c :: h1).length)).slice (f.pos + 2)
      (f.moved (2 + (c :: h1).length)).pos = c :: h1 := by
    have := slice_of_data f (pre ++ [48, 120]) (c :: h1) rest (by simp [hd])
    simpa [File_Contents.slice, File_Contents.moved, hp, Nat.add_assoc] using this
  have hhex : is_hex c = true := hh c (by simp)
  have hfit := U64ToStr_fits (hex_value (c :: h1)) hv
  unfold get_token
  rw [get_token_fuel, hws]
  simp only [Result.bind, hpk, hpk1]
  rw [ha1]
  simp only [ha2, hpk3, hhex]
  rw [hscan]
  simp only [hslice, hex_to_num_eq _ hh hv]
  by_cases hz : hex_value (c :: h1) = 0
  · rw [if_pos hz, if_neg (fun hc => (hfit.mp hc) hz)]
    rfl
  · rw [if_neg hz, if_pos (hfit.mpr hz), U64ToStr_eq]
    rfl

/-- C5 at the sources `0x0`, `0x10` and `0xffffffffffffffff`: the first is
`undefined`, the payloads of the others are `16` and `18446744073709551615`. -/
theorem C5_hex_literal_witness :
    get_token (lex_init [] (bytes "0x0")) = .undefined
      ∧ get_token (lex_init [] (bytes "0x10")) =
        .ok (payload_token (lex_init [] (bytes "0x10")) (bytes "16" ++ [0]) tok_number 1 1,
             (lex_init [] (bytes "0x10")).moved 4)
      ∧ get_token (lex_init [] (bytes "0xffffffffffffffff")) =
        .ok (payload_token (lex_init [] (bytes "0xffffffffffffffff"))
               (bytes "18446744073709551615" ++ [0]) tok_number 1 1,
             (lex_init [] (bytes "0xffffffffffffffff")).moved 18) :=
  ⟨C5_hex_literal (lex_init [] (bytes "0x0")) [] (bytes "0") [0]
      (by decide) (by decide) (by decide) (by decide) (by decide) (by decide),
   C5_hex_literal (lex_init [] (bytes "0x10")) [] (bytes "10") [0]
      (by decide) (by decide) (by decide) (by decide) (by decide) (by decide),
   C5_hex_literal (lex_init [] (bytes "0xffffffffffffffff")) [] (bytes "ffffffffffffffff") [0]
      (by decide) (by decide) (by decide) (by decide) (by decide) (by decide)⟩

/-- C6: let `d :: ds` be the maximal run of digits and `.` bytes at the scan
position, with `d` a digit, that is not the start of a `0x` literal.  When
the run holds at most one `.`, `get_token` returns a number token whose
payload is the run itself, with its terminating NUL, and the scan stops right
after the run.  When the run holds a second `.`, `get_token` ends in the fatal
diagnostic "Number has an extra decimal point". -/
theorem C6_decimal_literal (f : File_Contents) (pre ds rest : List Nat) (d : Nat)
    (hd : f.file_data = pre ++ (d :: ds ++ rest)) (hp : f.pos = pre.length)
    (hdig : is_number d = true) (hds : ∀ c ∈ ds, is_number c = true ∨ c = 46)
    (hmax1 : is_number (rest.headD 0) = false) (hmax2 : rest.headD 0 ≠ 46)
    (hnothex : ¬ (d = 48 ∧ (ds ++ rest).headD 0 = 120)) :
    (ds.count 46 ≤ 1 →
        get_token f = .ok (payload_token f (d :: ds ++ [0]) tok_number
                             f.current_line f.current_column, f.moved (1 + ds.length)))
    ∧ (2 ≤ ds.count 46 →
        get_token f = .fatal .extra_decimal_point f.current_line f.current_column) := by
  have hdp := digit_props d hdig
  have hws : advance_while is_whitespace (f.file_data.length + 1) f = .ok f :=
    skip_whitespace_none f pre (d :: ds ++ rest) (by simpa using hd) hp
      (by simpa using hdp.2.2.2.2.2) _
  have hpk : f.peek = d := by
    rw [peek_of_data f pre (d :: ds ++ rest) (by simpa using hd) hp]; rfl
  have hpk1 : f.peek_at 1 = (ds ++ rest).headD 0 := by
    unfold File_Contents.peek_at
    rw [hd, hp, getD_append_mid]
    show (ds ++ rest).getD 0 0 = _
    exact getD_zero_eq_headD _
  have hb1 : (is_alpha d || is_non_special_char d) = false := by
    simp [hdp.2.2.2.1, hdp.2.2.2.2.1]
  have hb2 : (d == 48 && (ds ++ rest).headD 0 == 120) = false := by
    rw [Bool.and_eq_false_iff]
    by_cases h48 : d = 48
    · right; simpa using fun h => hnothex ⟨h48, h⟩
    · left; simpa using h48
  have hloop := number_loop_run f.current_line f.current_column ds d pre rest f
    (f.file_data.length + 1) false hd hp hdp.1 hdp.2.1 hds hmax1 hmax2
    (by rw [hd]; simp; omega)
  have hslice : (f.moved (1 + ds.length)).slice f.pos (f.moved (1 + ds.length)).pos
      = d :: ds := by
    have := slice_of_data f pre (d :: ds) rest hd
    simpa [File_Contents.slice, File_Contents.moved, hp, Nat.add_comm] using this
  have key : get_token f =
      (number_loop f.current_line f.current_column (f.file_data.length + 1) f false).bind
        fun f1 => .ok (payload_token f1 (f1.slice f.pos f1.pos ++ [0]) tok_number
          f.current_line f.current_column, f1) := by
    unfold get_token
    rw [get_token_fuel, hws]
    simp only [Result.bind, hpk, hpk1, hb1, hb2, hdig, if_false, if_true, Bool.false_eq_true]
  constructor
  · intro h
    rw [key, hloop.1 (by simpa using h)]
    simp only [Result.bind, hslice]
    rfl
  · intro h
    rw [key, hloop.2 (by simpa using h)]
    rfl

/-- C6 at the sources `1.5` (one `.`: the payload is `1.5`) and `1..2` (a second
`.`: fatal). -/
theorem C6_decimal_literal_witness :
    get_token (lex_init [] (bytes "1.5")) =
        .ok (payload_token (lex_init [] (bytes "1.5")) (bytes "1.5" ++ [0]) tok_number 1 1,
             (lex_init [] (bytes "1.5")).moved 3)
      ∧ get_token (lex_init [] (bytes "1..2")) = .fatal .extra_decimal_point 1 1 :=
  ⟨(C6_decimal_literal (lex_init [] (bytes "1.5")) [] (bytes ".5") [0] 49
      (by decide) (by decide) (by decide) (by decide) (by decide) (by decide)
      (by decide)).1 (by decide),
   (C6_decimal_literal (lex_init [] (bytes "1..2")) [] (bytes "..2") [0] 49
      (by decide) (by decide) (by decide) (by decide) (by decide) (by decide)
      (by decide)).2 (by decide)⟩

/-- C7: let the scan position be at a string literal whose body is made of
ordinary bytes (not a quote, a backslash or NUL) and of the escapes
`\a \b \f \n \r \t \v \\ \' \" \? \0`, in a NUL-terminated buffer.  Then
`get_token` returns one `tok_const_str` token whose payload is the body with
each escape replaced by the byte it stands for, followed by a terminating
NUL; the buffer is left with the escapes collapsed and the scan stops right
after the closing quote.  If instead, after such a body, a backslash is
followed by any other byte (or by the end of the buffer), `get_token` ends in
the fatal diagnostic "Incorrect escaped charracter". -/
theorem C7_string_literal (f : File_Contents) (pre tail : List Nat) (body : List StrItem)
    (hp : f.pos = pre.length) (hvalid : ∀ i ∈ body, i.valid) (htail : ∀ c ∈ tail, c ≠ 0) :
    (f.file_data = pre ++ (34 :: (encode_body body ++ 34 :: tail ++ [0])) →
      ∃ f', get_token f = .ok (payload_token f (decode_body body ++ [0]) tok_const_str
                                 f.current_line f.current_column, f')
        ∧ f'.file_data = pre ++ (34 :: (decode_body body ++ 34 :: tail ++ [0]))
        ∧ f'.pos = pre.length + body.length + 2)
    ∧ (f.file_data = pre ++ (34 :: (encode_body body ++ 92 :: tail ++ [0])) →
        escape_value (tail.headD 0) = none →
        get_token f = .fatal .incorrect_escaped_character
                        f.current_line f.current_column) := by
  constructor
  · intro hd
    have hopen := string_open f pre _ hd hp
    obtain ⟨g', hrun, hd', hp', hpath'⟩ :=
      string_loop_body f.current_line f.current_column body (pre ++ [34]) (34 :: tail)
        (f.moved 1) (f.file_data.length + 1)
        (by simp [File_Contents.moved, hd]) (by simp [File_Contents.moved, hp]) hvalid
        (by intro c hc
            rcases List.mem_cons.mp hc with h | h
            · subst h; decide
            · exact htail c h)
        (by have := encode_body_length body
            rw [hd]; simp; omega)
    obtain ⟨m, hm⟩ : ∃ m, f.file_data.length + 1 - body.length = m + 1 :=
      ⟨f.file_data.length - body.length, by
        have := encode_body_length body
        rw [hd]; simp; omega⟩
    have hpk' : g'.peek = 34 := by
      rw [peek_of_data g' (pre ++ [34] ++ decode_body body) (34 :: tail ++ [0])
        (by rw [hd']; simp) (by rw [hp']; simp [decode_body]; omega)]; rfl
    have hstop : string_loop f.current_line f.current_column (m + 1) g' = .ok g' := by
      rw [string_loop, hpk']; rfl
    obtain ⟨g3, ha3, hd3, hp3, hpath3⟩ := advance_buffer_ok g' (by rw [hpk']; decide)
    refine ⟨g3, ?_, ?_, ?_⟩
    · rw [hopen, hrun, hm, hstop]
      simp only [Result.bind, ha3]
      have hpos : g3.pos = (pre ++ [34]).length + (decode_body body).length + 1 := by
        rw [hp3, hp']; simp [decode_body]
      have hpre : f.pos + 1 = (pre ++ [34]).length := by rw [hp]; simp
      have hset := slice_set_last g3 (pre ++ [34]) (decode_body body) (tail ++ [0]) 34
        (by rw [hd3, hd']; simp)
      rw [hpos, hpre, hset]
      have hpath : g3.path = f.path := by rw [hpath3, hpath']; rfl
      simp only [payload_token, hpath]
    · rw [hd3, hd']; simp
    · rw [hp3, hp']; simp; omega
  · intro hd hbad
    have hopen := string_open f pre _ hd hp
    obtain ⟨g', hrun, hd', hp', hpath'⟩ :=
      string_loop_body f.current_line f.current_column body (pre ++ [34]) (92 :: tail)
        (f.moved 1) (f.file_data.length + 1)
        (by simp [File_Contents.moved, hd]) (by simp [File_Contents.moved, hp]) hvalid
        (by intro c hc
            rcases List.mem_cons.mp hc with h | h
            · subst h; decide
            · exact htail c h)
        (by have := encode_body_length body
            rw [hd]; simp; omega)
    obtain ⟨m, hm⟩ : ∃ m, f.file_data.length + 1 - body.length = m + 1 :=
      ⟨f.file_data.length - body.length, by
        have := encode_body_length body
        rw [hd]; simp; omega⟩
    have hd2 : g'.file_data = (pre ++ [34] ++ decode_body body) ++ (92 :: tail ++ [0]) := by
      rw [hd']; simp
    have hp2 : g'.pos = (pre ++ [34] ++ decode_body body).length := by
      rw [hp']; simp [decode_body]; omega
    have hpk' : g'.peek = 92 := by
      rw [peek_of_data g' _ (92 :: tail ++ [0]) hd2 hp2]; rfl
    have hmm : memmove_left g'.file_data g'.pos
        = (pre ++ [34] ++ decode_body body) ++ (tail ++ [0]) := by
      rw [hd2, hp2]
      exact memmove_left_run _ tail 92 (by
        intro d hdm
        rcases List.mem_cons.mp hdm with h | h
        · subst h; decide
        · exact htail d h)
    obtain ⟨c, tl, htl, hc⟩ : ∃ c tl, tail ++ [0] = c :: tl ∧ c = tail.headD 0 := by
      cases tail with
      | nil => exact ⟨0, [], rfl, rfl⟩
      | cons c t => exact ⟨c, t ++ [0], by simp, rfl⟩
    rw [htl] at hmm
    have hpk1 : ({ g' with file_data := memmove_left g'.file_data g'.pos } : File_Contents).peek
        = c := by
      rw [peek_of_data { g' with file_data := memmove_left g'.file_data g'.pos } _
        (c :: tl) hmm hp2]; rfl
    have hesc : char_to_escaped c = 1 := by rw [hc]; exact escape_value_none _ hbad
    have hset : (memmove_left g'.file_data g'.pos).set g'.pos 1
        = (pre ++ [34] ++ decode_body body) ++ (1 :: tl) := by
      rw [hmm, hp2, set_at_split]
    have hpk2 : ({ g' with file_data := (pre ++ [34] ++ decode_body body) ++ (1 :: tl) }
        : File_Contents).peek = 1 := by
      rw [peek_of_data
        { g' with file_data := (pre ++ [34] ++ decode_body body) ++ (1 :: tl) } _
        (1 :: tl) rfl hp2]; rfl
    have hfatal : string_loop f.current_line f.current_column (m + 1) g'
        = .fatal .incorrect_escaped_character f.current_line f.current_column := by
      rw [string_loop, hpk']
      simp only [bne_iff_ne, ne_eq, Nat.reduceEqDiff, not_false_eq_true, if_true,
        Nat.reduceBEq, Bool.false_eq_true, if_false, beq_self_eq_true]
      rw [hpk1, hesc]
      simp only [hset]
      rw [hpk2]
      rfl
    rw [hopen, hrun, hm, hfatal]
    rfl

/-- C7 at the source `"a\nb"`, whose payload is `a`, 0x0A, `b`, NUL, and at the
source `"\q"`, which is fatal. -/
theorem C7_string_literal_witness :
    (∃ f', get_token (lex_init [] (bytes "\"a\\nb\"")) =
          .ok (payload_token (lex_init [] (bytes "\"a\\nb\"")) [97, 10, 98, 0]
                 tok_const_str 1 1, f')
        ∧ f'.file_data = [34, 97, 10, 98, 34, 0] ∧ f'.pos = 5)
      ∧ get_token (lex_init [] (bytes "\"\\q\"")) =
          .fatal .incorrect_escaped_character 1 1 :=
  ⟨(C7_string_literal (lex_init [] (bytes "\"a\\nb\"")) [] []
      [.plain 97, .esc 110, .plain 98] (by decide) (by decide) (by decide)).1 (by decide),
   (C7_string_literal (lex_init [] (bytes "\"\\q\"")) [] (bytes "q\"") []
      (by decide) (by decide) (by decide)).2 (by decide) (by decide)⟩

/-- C8 fails on the code.  The comment `/**/` is well nested, and the lexer
does not find its end: the loop of the punctuation branch has already moved
the scan past `*/` when the search for `*` starts, so `/**/ x` ends in the
diagnostic for an unterminated block comment instead of giving the identifier
`x`.  In `/*/* */ */ x` the inner `/*` is skipped in the same way and is not
counted, so the comment ends at the first `*/` and the second `*/` is lexed as
the two tokens `*` and `/`. -/
theorem C8_block_comment_misses_adjacent_marks :
    lex_tokens (bytes "/**/ x") = .fatal .block_comment_end_of_file 1 1
      ∧ lex_tokens (bytes "x") =
          .ok [ ⟨some [120, 0], some [], tok_identifier, 1, 1⟩,
                ⟨none, some [], tok_eof, 1, 2⟩ ]
      ∧ lex_tokens (bytes "/*/* */ */ x") =
          .ok [ ⟨none, some [], 42, 1, 9⟩, ⟨none, some [], 47, 1, 10⟩,
                ⟨some [120, 0], some [], tok_identifier, 1, 12⟩,
                ⟨none, some [], tok_eof, 1, 13⟩ ] := by
  decide

/-- C9 fails on the code.  The source `a - b - c;` lexes to the seven tokens
`a`, `-`, `b`, `-`, `c`, `;`, eof, and on them `parse_binary_expression`
(stop token `;`, least binding power 1, with any fuel from 8 on) returns the
node `-(a, -(b, c))`, which is not the node `-(-(a, b), c)` of the claim: the
right operand is parsed with `r_bp = 30`, and `l_bp = 31` of the second `-` is
not below it, so the inner call takes the second operator. -/
theorem C9_equal_precedence_nests_right :
    lex_tokens (bytes "a - b - c;") = .ok tokens_a_minus_b_minus_c
      ∧ (∀ fuel : Nat, 8 ≤ fuel →
          parse_binary_expression fuel { token_buffer := tokens_a_minus_b_minus_c } 59 1 false
            = .ok (.binary_expr 45 ⟨none, some [], 45, 1, 3⟩
                    (.identifier ⟨some [97, 0], some [], tok_identifier, 1, 1⟩)
                    (.binary_expr 45 ⟨none, some [], 45, 1, 7⟩
                      (.identifier ⟨some [98, 0], some [], tok_identifier, 1, 5⟩)
                      (.identifier ⟨some [99, 0], some [], tok_identifier, 1, 9⟩)),
                   advance_tokens 5 { token_buffer := tokens_a_minus_b_minus_c }))
      ∧ Ast_Node.binary_expr 45 ⟨none, some [], 45, 1, 3⟩
            (.identifier ⟨some [97, 0], some [], tok_identifier, 1, 1⟩)
            (.binary_expr 45 ⟨none, some [], 45, 1, 7⟩
              (.identifier ⟨some [98, 0], some [], tok_identifier, 1, 5⟩)
              (.identifier ⟨some [99, 0], some [], tok_identifier, 1, 9⟩))
          ≠ Ast_Node.binary_expr 45 ⟨none, some [], 45, 1, 7⟩
              (.binary_expr 45 ⟨none, some [], 45, 1, 3⟩
                (.identifier ⟨some [97, 0], some [], tok_identifier, 1, 1⟩)
                (.identifier ⟨some [98, 0], some [], tok_identifier, 1, 5⟩))
              (.identifier ⟨some [99, 0], some [], tok_identifier, 1, 9⟩)
      ∧ get_precedence 45 true = 31 ∧ get_precedence 45 false = 30 := by
  refine ⟨by decide, ?_, by simp, by decide, by decide⟩
  intro fuel hfuel
  exact parse_binary_nest_right
    { token_buffer := tokens_a_minus_b_minus_c }
    (advance_tokens 1 { token_buffer := tokens_a_minus_b_minus_c })
    (advance_tokens 3 { token_buffer := tokens_a_minus_b_minus_c })
    (advance_tokens 4 { token_buffer := tokens_a_minus_b_minus_c })
    (advance_tokens 5 { token_buffer := tokens_a_minus_b_minus_c })
    _ _ _ ⟨none, some [], 45, 1, 3⟩ ⟨none, some [], 45, 1, 7⟩ ⟨none, some [], 59, 1, 10⟩
    59 1 2 fuel
    (operand_of_token _ ⟨some [97, 0], some [], tok_identifier, 1, 1⟩
      ⟨none, some [], 45, 1, 3⟩ _ rfl rfl (Or.inl rfl) (by decide))
    rfl
    (operand_of_token _ ⟨some [98, 0], some [], tok_identifier, 1, 5⟩
      ⟨none, some [], 45, 1, 7⟩ _ rfl rfl (Or.inl rfl) (by decide))
    rfl rfl
    (operand_of_token _ ⟨some [99, 0], some [], tok_identifier, 1, 9⟩
      ⟨none, some [], 59, 1, 10⟩ _ rfl rfl (Or.inl rfl) (by decide))
    rfl (by decide) (by decide) (by decide) (by decide) (Or.inl rfl) (by decide)
    (by decide) (by decide) (by decide) hfuel

/-- C10: let the tokens at the cursor be an operand, a binary operator `x`, an
operand, a binary operator `y`, an operand, and a token that ends the
expression (the stop token, or a token without precedence), where an operand
is any stretch of tokens that `parse_unary_expression` turns into a node.
With enough fuel `parse_binary_expression` returns: when `y` has the higher
`lhs_bp`, the node of `x` over the first operand and the node of `y` over the
other two; when `x` has the higher `lhs_bp`, the node of `y` over the node of
`x` over the first two operands and the third operand.  The cursor is left at
the token that ends the expression. -/
theorem C10_higher_precedence_binds_tighter
    (g0 g1 g2 g3 g4 : File_Contents) (na nb nc : Ast_Node)
    (x y e : Token_Iden) (stop : Token) (min_bp : Int) (k fuel : Nat)
    (hA : ∀ n : Nat, k ≤ n →
      parse_unary_expression n g0 (to_char stop) false = .ok (na, g1))
    (hx0 : g1.current = .ok x)
    (hB : ∀ n : Nat, k ≤ n →
      parse_unary_expression n (advance_token g1).2 (to_char stop) false = .ok (nb, g2))
    (hy0 : g2.current = .ok y) (hg3 : g3 = (advance_token g2).2)
    (hC : ∀ n : Nat, k ≤ n →
      parse_unary_expression n g3 (to_char stop) false = .ok (nc, g4))
    (he0 : g4.current = .ok e)
    (hx : x.type ∈ binary_operators) (hy : y.type ∈ binary_operators)
    (hxs : x.type ≠ stop) (hys : y.type ≠ stop)
    (he2 : e.type = stop ∨ get_precedence e.type true = 0)
    (hmin1 : 1 ≤ min_bp) (hk : 1 ≤ k) (hfuel : k + 6 ≤ fuel) :
    (get_precedence x.type true < get_precedence y.type true →
        min_bp ≤ get_precedence x.type true →
        parse_binary_expression fuel g0 stop min_bp false
          = .ok (binary_node x na (binary_node y nb nc), g4))
    ∧ (get_precedence y.type true < get_precedence x.type true →
        min_bp ≤ get_precedence y.type true →
        parse_binary_expression fuel g0 stop min_bp false
          = .ok (binary_node y (binary_node x na nb) nc, g4)) := by
  obtain ⟨hx1, _, hx3, _⟩ := binary_operator_facts x.type hx
  obtain ⟨hy1, _, hy3, _⟩ := binary_operator_facts y.type hy
  constructor
  · intro hprec hmin2
    exact parse_binary_nest_right g0 g1 g2 g3 g4 na nb nc x y e stop min_bp k fuel
      hA hx0 hB hy0 hg3 hC he0 hx hy hxs hys he2 hmin1 hmin2 (by omega) hk hfuel
  · intro hprec hmin2
    exact parse_binary_nest_left g0 g1 g2 g3 g4 na nb nc x y e stop min_bp k fuel
      hA hx0 hB hy0 hg3 hC he0 hx hy hxs hys he2 hmin1 hmin2 (by omega) hk hfuel

/-- C10 on the tokens of `a + b * c;`, which give `+(a, *(b, c))`, and on the
tokens of `a * b + c;`, which give `+(*(a, b), c)`. -/
theorem C10_higher_precedence_binds_tighter_witness :
    parse_binary_expression 8 { token_buffer := tokens_a_plus_b_times_c } 59 1 false
      = .ok (.binary_expr 43 ⟨none, some [], 43, 1, 3⟩
               (.identifier ⟨some [97, 0], some [], tok_identifier, 1, 1⟩)
               (.binary_expr 42 ⟨none, some [], 42, 1, 7⟩
                 (.identifier ⟨some [98, 0], some [], tok_identifier, 1, 5⟩)
                 (.identifier ⟨some [99, 0], some [], tok_identifier, 1, 9⟩)),
             advance_tokens 5 { token_buffer := tokens_a_plus_b_times_c })
    ∧ parse_binary_expression 8 { token_buffer := tokens_a_times_b_plus_c } 59 1 false
      = .ok (.binary_expr 43 ⟨none, some [], 43, 1, 7⟩
               (.binary_expr 42 ⟨none, some [], 42, 1, 3⟩
                 (.identifier ⟨some [97, 0], some [], tok_identifier, 1, 1⟩)
                 (.identifier ⟨some [98, 0], some [], tok_identifier, 1, 5⟩))
               (.identifier ⟨some [99, 0], some [], tok_identifier, 1, 9⟩),
             advance_tokens 5 { token_buffer := tokens_a_times_b_plus_c }) :=
  ⟨(C10_higher_precedence_binds_tighter
      { token_buffer := tokens_a_plus_b_times_c }
      (advance_tokens 1 { token_buffer := tokens_a_plus_b_times_c })
      (advance_tokens 3 { token_buffer := tokens_a_plus_b_times_c })
      (advance_tokens 4 { token_buffer := tokens_a_plus_b_times_c })
      (advance_tokens 5 { token_buffer := tokens_a_plus_b_times_c })
      _ _ _ ⟨none, some [], 43, 1, 3⟩ ⟨none, some [], 42, 1, 7⟩ ⟨none, some [], 59, 1, 10⟩
      59 1 2 8
      (operand_of_token _ ⟨some [97, 0], some [], tok_identifier, 1, 1⟩
        ⟨none, some [], 43, 1, 3⟩ _ rfl rfl (Or.inl rfl) (by decide))
      rfl
      (operand_of_token _ ⟨some [98, 0], some [], tok_identifier, 1, 5⟩
        ⟨none, some [], 42, 1, 7⟩ _ rfl rfl (Or.inl rfl) (by decide))
      rfl rfl
      (operand_of_token _ ⟨some [99, 0], some [], tok_identifier, 1, 9⟩
        ⟨none, some [], 59, 1, 10⟩ _ rfl rfl (Or.inl rfl) (by decide))
      rfl (by decide) (by decide) (by decide) (by decide) (Or.inl rfl) (by decide)
      (by decide) (by decide)).1 (by decide) (by decide),
   (C10_higher_precedence_binds_tighter
      { token_buffer := tokens_a_times_b_plus_c }
      (advance_tokens 1 { token_buffer := tokens_a_times_b_plus_c })
      (advance_tokens 3 { token_buffer := tokens_a_times_b_plus_c })
      (advance_tokens 4 { token_buffer := tokens_a_times_b_plus_c })
      (advance_tokens 5 { token_buffer := tokens_a_times_b_plus_c })
      _ _ _ ⟨none, some [], 42, 1, 3⟩ ⟨none, some [], 43, 1, 7⟩ ⟨none, some [], 59, 1, 10⟩
      59 1 2 8
      (operand_of_token _ ⟨some [97, 0], some [], tok_identifier, 1, 1⟩
        ⟨none, some [], 42, 1, 3⟩ _ rfl rfl (Or.inl rfl) (by decide))
      rfl
      (operand_of_token _ ⟨some [98, 0], some [], tok_identifier, 1, 5⟩
        ⟨none, some [], 43, 1, 7⟩ _ rfl rfl (Or.inl rfl) (by decide))
      rfl rfl
      (operand_of_token _ ⟨some [99, 0], some [], tok_identifier, 1, 9⟩
        ⟨none, some [], 59, 1, 10⟩ _ rfl rfl (Or.inl rfl) (by decide))
      rfl (by decide) (by decide) (by decide) (by decide) (Or.inl rfl) (by decide)
      (by decide) (by decide)).2 (by decide) (by decide)⟩

/-- C11: for every token kind and both values of `is_lhs`, `get_precedence`
returns what the table of the specification gives: with `is_lhs` true 35 for
`++ -- ( [`, 33 for `* / %`, 31 for `+ -`, 29 for `<< >>`, 27 for
`< > <= >=`, 25 for `== !=`, 23 for `&`, 21 for `^`, 19 for `|`, 17 for `&&`,
15 for `||`; with `is_lhs` false one less; and 0 for every other kind. -/
theorem C11_precedence_table (op : Token) (is_lhs : Bool) :
    get_precedence op is_lhs = table_precedence op is_lhs := by
  by_cases h : op ∈ ([tok_plusplus, tok_minusminus, 40, 91, 42, 47, 37, 43, 45,
      tok_bits_lshift, tok_bits_rshift, 60, 62, tok_logical_lequal, tok_logical_gequal,
      tok_logical_is, tok_logical_isnot, 38, 94, 124, tok_logical_and, tok_logical_or]
      : List Token)
  · exact precedence_kinds op h is_lhs
  · simp only [List.mem_cons, List.mem_singleton, List.mem_nil_iff, or_false, not_or] at h
    obtain ⟨h1, h2, h3, h4, h5, h6, h7, h8, h9, h10, h11, h12, h13, h14, h15, h16, h17, h18,
      h19, h20, h21, h22⟩ := h
    have e1 : get_precedence op is_lhs = 0 := by
      simp [get_precedence, h1, h2, h3, h4, h5, h6, h7, h8, h9, h10, h11, h12, h13, h14, h15,
        h16, h17, h18, h19, h20, h21, h22, tok_bits_and, tok_bits_xor, tok_bits_or]
    have hnone : precedence_table.find? (fun row => row.1.contains op) = none := by
      rw [List.find?_eq_none]
      intro row hrow
      simp only [precedence_table, List.mem_cons, List.mem_singleton, List.mem_nil_iff,
        or_false] at hrow
      rcases hrow with r | r | r | r | r | r | r | r | r | r | r <;> subst r <;>
        simp [h1, h2, h3, h4, h5, h6, h7, h8, h9, h10, h11, h12, h13, h14, h15, h16, h17,
          h18, h19, h20, h21, h22]
    have e2 : table_precedence op is_lhs = 0 := by
      rw [table_precedence, hnone]
    rw [e1, e2]

/-- C12: let the tokens at the cursor be a prefix operator `u` among
`* @ - ! ++ --`, an operand, a binary operator `p`, an operand and a token `e`
that ends the expression, where an operand is any stretch of tokens that
`parse_unary_expression` turns into a node.  With enough fuel
`parse_expression` returns the node of `p` over the unary node of `u` on the
first operand and the second operand: with a stop token, when `e` is that
token, which is read; and without one (`NO_EXPECT`), when `e` has no
precedence, the cursor staying on `e`. -/
theorem C12_prefix_binds_tighter
    (g0 g1 g2 : File_Contents) (na nb : Ast_Node) (u p e : Token_Iden) (stop : Token)
    (k fuel : Nat)
    (hu0 : g0.current = .ok u) (hu : u.type ∈ prefix_operators) (hus : u.type ≠ stop)
    (hA : ∀ n : Nat, k ≤ n →
      parse_unary_expression n (advance_token g0).2 (to_char stop) false = .ok (na, g1))
    (hp0 : g1.current = .ok p) (hp : p.type ∈ binary_operators) (hps : p.type ≠ stop)
    (hB : ∀ n : Nat, k ≤ n →
      parse_unary_expression n (advance_token g1).2 (to_char stop) false = .ok (nb, g2))
    (he0 : g2.current = .ok e) (hk : 1 ≤ k) (hfuel : k + 5 ≤ fuel) :
    (stop ≠ NO_EXPECT → e.type = stop →
      parse_expression fuel g0 stop false
        = .ok (binary_node p (unary_node u na) nb,
               { (advance_token g2).2 with last_read_token := e }))
    ∧ (stop = NO_EXPECT → get_precedence e.type true = 0 →
      parse_expression fuel g0 stop false
        = .ok (binary_node p (unary_node u na) nb, g2)) := by
  obtain ⟨m, rfl⟩ : ∃ m, fuel = m + 5 := ⟨fuel - 5, by omega⟩
  obtain ⟨hp1, hp2, _⟩ := binary_operator_facts p.type hp
  have hue : (u.type == stop) = false := by simpa using hus
  have main : ∀ he : e.type = stop ∨ get_precedence e.type true = 0,
      parse_binary_expression (m + 4) g0 stop 1 false
        = .ok (binary_node p (unary_node u na) nb, g2) := by
    intro he
    have hend : ∀ bound : Int, 1 ≤ bound →
        (e.type = stop ∨ get_precedence e.type true < bound) := by
      intro bound hbd
      rcases he with h | h
      · exact Or.inl h
      · exact Or.inr (by rw [h]; omega)
    have inner : parse_binary_expression (m + 2) (advance_token g1).2 stop
        (get_precedence p.type false) false = .ok (nb, g2) :=
      parse_binary_single _ g2 nb e stop _ k (m + 2) hB he0 (hend _ (by omega)) (by omega) hk
    rw [parse_binary_expression,
      parse_unary_prefix g0 u _ (m + 2) (get_of_current g0 u hu0) hu, hA (m + 2) (by omega)]
    simp only [Result.bind]
    rw [binary_loop_operator g1 p stop 1 _ (m + 2) hp0 hps (by omega), inner]
    simp only [Result.bind]
    exact binary_loop_end g2 e stop 1 _ (m + 2) he0 (hend _ (by omega)) (by omega)
  constructor
  · intro hstop he
    have hst : (stop != 24) = true := by simpa [NO_EXPECT] using hstop
    rw [parse_expression, hu0]
    simp only [Result.bind, hue, Bool.false_eq_true, if_false, main (Or.inl he), hst, if_true]
    rw [parser_eat_of_get g2 e stop (get_of_current g2 e he0) he]
  · intro hstop he
    have hst : (stop != 24) = false := by simp [hstop, NO_EXPECT]
    rw [parse_expression, hu0]
    simp only [Result.bind, hue, Bool.false_eq_true, if_false, main (Or.inr he), hst]

/-- C12 on the tokens of `*x + 1;`, which give `+(*(x), 1)`, with the stop
token `;` and without stop token. -/
theorem C12_prefix_binds_tighter_witness :
    parse_expression 7 { token_buffer := tokens_star_x_plus_1 } 59 false
      = .ok (.binary_expr 43 ⟨none, some [], 43, 1, 4⟩
               (.unary_expr ⟨none, some [], 42, 1, 1⟩
                 (.identifier ⟨some [120, 0], some [], tok_identifier, 1, 2⟩))
               (.literal ⟨some [49, 0], some [], tok_number, 1, 6⟩),
             { (advance_tokens 5 { token_buffer := tokens_star_x_plus_1 }) with
               last_read_token := ⟨none, some [], 59, 1, 7⟩ })
    ∧ parse_expression 7 { token_buffer := tokens_star_x_plus_1 } NO_EXPECT false
      = .ok (.binary_expr 43 ⟨none, some [], 43, 1, 4⟩
               (.unary_expr ⟨none, some [], 42, 1, 1⟩
                 (.identifier ⟨some [120, 0], some [], tok_identifier, 1, 2⟩))
               (.literal ⟨some [49, 0], some [], tok_number, 1, 6⟩),
             advance_tokens 4 { token_buffer := tokens_star_x_plus_1 }) :=
  ⟨(C12_prefix_binds_tighter
      { token_buffer := tokens_star_x_plus_1 }
      (advance_tokens 2 { token_buffer := tokens_star_x_plus_1 })
      (advance_tokens 4 { token_buffer := tokens_star_x_plus_1 })
      _ _ ⟨none, some [], 42, 1, 1⟩ ⟨none, some [], 43, 1, 4⟩ ⟨none, some [], 59, 1, 7⟩
      59 2 7 rfl (by decide) (by decide)
      (operand_of_token _ ⟨some [120, 0], some [], tok_identifier, 1, 2⟩
        ⟨none, some [], 43, 1, 4⟩ _ rfl rfl (Or.inl rfl) (by decide))
      rfl (by decide) (by decide)
      (operand_of_token _ ⟨some [49, 0], some [], tok_number, 1, 6⟩
        ⟨none, some [], 59, 1, 7⟩ _ rfl rfl (Or.inr (Or.inl rfl)) (by decide))
      rfl (by decide) (by decide)).1 (by decide) rfl,
   (C12_prefix_binds_tighter
      { token_buffer := tokens_star_x_plus_1 }
      (advance_tokens 2 { token_buffer := tokens_star_x_plus_1 })
      (advance_tokens 4 { token_buffer := tokens_star_x_plus_1 })
      _ _ ⟨none, some [], 42, 1, 1⟩ ⟨none, some [], 43, 1, 4⟩ ⟨none, some [], 59, 1, 7⟩
      NO_EXPECT 2 7 rfl (by decide) (by decide)
      (operand_of_token _ ⟨some [120, 0], some [], tok_identifier, 1, 2⟩
        ⟨none, some [], 43, 1, 4⟩ _ rfl rfl (Or.inl rfl) (by decide))
      rfl (by decide) (by decide)
      (operand_of_token _ ⟨some [49, 0], some [], tok_number, 1, 6⟩
        ⟨none, some [], 59, 1, 7⟩ _ rfl rfl (Or.inr (Or.inl rfl)) (by decide))
      rfl (by decide) (by decide)).2 rfl (by decide)⟩

/-- C13: on the source `struct V \x7b x : i32 \x7d` the node `parse` returns is
the struct node, not a node of kind Root; on `fn f() -> void \x7b \x7d` it is the
function node, and the first `left` link from it leads to the scope-start node
of the body, which is neither a struct nor a function node. -/
theorem C13_no_root_and_scope_start_in_chain :
    lex_tokens (bytes "struct V \x7b x : i32 \x7d") = .ok tokens_one_struct
    ∧ (parse 10 { token_buffer := tokens_one_struct }).bind
        (fun r => .ok (r.1.is_root, r.1.is_struct)) = .ok (false, true)
    ∧ lex_tokens (bytes "fn f() -> void \x7b \x7d") = .ok tokens_one_func
    ∧ (parse 10 { token_buffer := tokens_one_func }).bind
        (fun r => .ok (r.1.is_root, r.1.is_func, r.1.left.is_scope_start))
        = .ok (false, true, true) := by
  decide!

/-- C13 as the code has it: when `parse` accepts a token sequence, following
the links `left` from the node it returns visits the nodes of the file-level
declarations, each once and in source order, after each function node the
scope-start node of its body, and no other node.  The declarations `ds` on the
chain are all the declarations of the file: from the cursor, in the state in
which `parse` has pushed the global frame, each of them is read on its own
where the one before it ended, and the eof token follows the last.  Moreover
there are positions of the token sequence, strictly increasing from the cursor
on, such that the chain holds for each position but the last the node of the
struct or function declared there (the keyword at that position, the name of
the node next to it), and ends with NULL at the last position, which holds the
eof token. -/
theorem C13_left_chain (fuel : Nat) (f : File_Contents)
    (h0 : f.reached_eof = false) (h : outcome (parse fuel f) = .ok ()) :
    ∃ (node : Ast_Node) (g : File_Contents) (info_tok : Token_Iden) (ds : List Ast_Node),
      parse fuel f = .ok (node, g) ∧ f.current = .ok info_tok
      ∧ declarations_of node = some ds
      ∧ Declarations
          (push_scope f
            { has_terminator := false, start_line := to_unsigned_int info_tok.line, third := 0,
              file := info_tok.file, symbols := [] }) ds
      ∧ ∃ ps : List Nat, ps.Pairwise (fun a b => a < b) ∧ (∀ p ∈ ps, f.curr_token ≤ p)
        ∧ chain_matches f.token_buffer ps node = true := by
  rw [outcome] at h
  obtain ⟨r, hr, _⟩ := (Result.bind_eq_ok _ _ _).mp h
  have hparse := hr
  rw [parse] at hr
  obtain ⟨info_tok, hinfo, hr⟩ := (Result.bind_eq_ok _ _ _).mp hr
  dsimp only at hr
  obtain ⟨root, hroot, hr⟩ := (Result.bind_eq_ok _ _ _).mp hr
  obtain ⟨u, hu, hr⟩ := (Result.bind_eq_ok _ _ _).mp hr
  obtain ⟨prev, _, hr⟩ := (Result.bind_eq_ok _ _ _).mp hr
  obtain ⟨f1, _, hr⟩ := (Result.bind_eq_ok _ _ _).mp hr
  have heof : root.2.reached_eof = true := by
    by_cases c : (!root.2.reached_eof) = true
    · rw [if_pos c] at hu
      exact absurd hu (raise_not_ok _ _ _)
    · simpa using c
  by_cases c : (!is_scope_stack_empty f1) = true
  · rw [if_pos c] at hr
    cases hr
  rw [if_neg c] at hr
  simp only [Result.ok.injEq] at hr
  subst hr
  have hch := (file_level_chain fuel).1 (push_scope f _) root.1 root.2 hroot h0 heof
  obtain ⟨ds, hds, hdecl⟩ :=
    (file_level_declarations fuel).1 (push_scope f _) root.1 root.2 hroot h0 heof
  exact ⟨root.1, f1, info_tok, ds, hparse, hinfo, hds, hdecl, hch⟩

/-- C13 on the tokens of `struct V \x7b x : i32 \x7d fn f() -> void \x7b \x7d`,
which `parse` accepts; the chain of the node it returns holds two
declarations. -/
theorem C13_left_chain_witness :
    (parse 12 { token_buffer := tokens_struct_and_func }).bind
        (fun r => .ok ((declarations_of r.1).map fun ds => ds.map Ast_Node.is_struct))
      = .ok (some [true, false])
    ∧ ∃ (node : Ast_Node) (g : File_Contents) (info_tok : Token_Iden) (ds : List Ast_Node),
      parse 12 { token_buffer := tokens_struct_and_func } = .ok (node, g)
      ∧ ({ token_buffer := tokens_struct_and_func } : File_Contents).current = .ok info_tok
      ∧ declarations_of node = some ds
      ∧ Declarations
          (push_scope { token_buffer := tokens_struct_and_func }
            { has_terminator := false, start_line := to_unsigned_int info_tok.line, third := 0,
              file := info_tok.file, symbols := [] }) ds
      ∧ ∃ ps : List Nat, ps.Pairwise (fun a b => a < b) ∧ (∀ p ∈ ps, 0 ≤ p)
        ∧ chain_matches tokens_struct_and_func ps node = true :=
  ⟨by decide!, C13_left_chain 12 { token_buffer := tokens_struct_and_func } rfl (by decide!)⟩

/-- C14: the source `fn f() -> i32;` is a function prototype of the form
`fn IDENT ( params ) -> Type ;`.  `parse` does not accept it: `parse_func`
leaves the cursor on the `;` and `parse_file_level_statement`, called on that
token, raises "top level statement". -/
theorem C14_prototype_is_rejected :
    lex_tokens (bytes "fn f() -> i32;") = .ok tokens_prototype
    ∧ outcome (parse 20 { token_buffer := tokens_prototype })
        = .fatal (.unexpected_token "top level statement") 1 11
    ∧ outcome (parse_func 20 (push_scope { token_buffer := tokens_prototype } global_frame))
        = .fatal (.unexpected_token "top level statement") 1 11 := by
  decide!

/-- C15: let `parse_func` have read the keyword, the name, the parameters and
the arrow, and let `t` be the token at the cursor, where the return type would
be.  When `t` is an opening brace or a semicolon, the return type that
`parse_func` stores in `this_func.type` is of kind `T_VOID` with the identifier
"void" and every other field zero, the cursor stays on `t`, and every node
`parse_func` returns is a function node with that type.  Otherwise the return
type and the cursor are what `parse_type` returns at that position, and every
node `parse_func` returns is a function node with the type `parse_type`
returned. -/
theorem C15_return_type
    (fuel : Nat) (f f1 f2 f3 g : File_Contents) (name t : Token_Iden)
    (arguments : List Ast_Node)
    (h1 : parser_eat f tok_func = .ok f1)
    (h2 : advance_token_read f1 = .ok (name, f2)) (hn : name.type = tok_identifier)
    (h3 : delimited fuel f2 40 41 44 parse_func_arg = .ok (arguments, f3))
    (h4 : parser_eat f3 tok_arrow = .ok g)
    (ht : g.current = .ok t) :
    (t.type = 123 ∨ t.type = 59 →
      parse_func_signature fuel f
        = .ok ({ identifier := name, arguments := arguments,
                 type := .plain .T_VOID 0 (some [118, 111, 105, 100, 0])
                           ⟨none, none, 0, 0, 0⟩ }, g)
      ∧ ∀ node g1, parse_func (fuel + 1) f = .ok (node, g1) →
          ∃ left, node = .type_func name arguments
            (.plain .T_VOID 0 (some [118, 111, 105, 100, 0]) ⟨none, none, 0, 0, 0⟩) left)
    ∧ (t.type ≠ 123 → t.type ≠ 59 →
      parse_func_signature fuel f
        = ((parse_type (g.token_buffer.length + 1) g).bind fun r =>
            .ok ({ identifier := name, arguments := arguments, type := r.1 }, r.2))
      ∧ ∀ node g1, parse_func (fuel + 1) f = .ok (node, g1) →
          ∃ r left, parse_type (g.token_buffer.length + 1) g = .ok r
            ∧ node = .type_func name arguments r.1 left) := by
  have hid : ast_identifier f2 name = .ok (.identifier name) := by
    simp [ast_identifier, hn]
  have hnode : ∀ (s : Ast_Func × File_Contents) (node : Ast_Node) (g1 : File_Contents),
      parse_func_signature fuel f = .ok s → parse_func (fuel + 1) f = .ok (node, g1) →
      ∃ left, node = .type_func s.1.identifier s.1.arguments s.1.type left := by
    intro s node g1 hs h
    rw [parse_func, hs] at h
    simp only [Result.bind] at h
    obtain ⟨body, _, h⟩ := (Result.bind_eq_ok _ _ _).mp h
    obtain ⟨f4, _, h⟩ := (Result.bind_eq_ok _ _ _).mp h
    by_cases c1 : (body.type == 123) = true
    · rw [if_pos c1] at h
      obtain ⟨f5, _, h⟩ := (Result.bind_eq_ok _ _ _).mp h
      obtain ⟨left, _, h⟩ := (Result.bind_eq_ok _ _ _).mp h
      simp only [Result.ok.injEq, Prod.mk.injEq] at h
      exact ⟨left.1, h.1.symm⟩
    rw [if_neg c1] at h
    by_cases c2 : (body.type == 59) = true
    · rw [if_pos c2] at h
      obtain ⟨left, _, h⟩ := (Result.bind_eq_ok _ _ _).mp h
      simp only [Result.ok.injEq, Prod.mk.injEq] at h
      exact ⟨left.1, h.1.symm⟩
    rw [if_neg c2] at h
    exact absurd h (raise_not_ok _ _ _)
  constructor
  · intro h
    have hc : (t.type != 123 && t.type != 59) = false := by
      rcases h with h | h <;> simp [h]
    have hs : parse_func_signature fuel f
        = .ok ({ identifier := name, arguments := arguments,
                 type := .plain .T_VOID 0 (some [118, 111, 105, 100, 0])
                           ⟨none, none, 0, 0, 0⟩ }, g) := by
      simp only [parse_func_signature, h1, h2, hid, h3, h4, ht, Result.bind, hc,
        Bool.false_eq_true, if_false]
      rfl
    exact ⟨hs, fun node g1 hp => hnode _ node g1 hs hp⟩
  · intro ha hb
    have hc : (t.type != 123 && t.type != 59) = true := by
      simp [ha, hb]
    have hs : parse_func_signature fuel f
        = ((parse_type (g.token_buffer.length + 1) g).bind fun r =>
            .ok ({ identifier := name, arguments := arguments, type := r.1 }, r.2)) := by
      simp only [parse_func_signature, h1, h2, hid, h3, h4, ht, Result.bind, hc, if_true]
    refine ⟨hs, fun node g1 hp => ?_⟩
    cases hty : parse_type (g.token_buffer.length + 1) g with
    | ok r =>
      rw [hty] at hs
      obtain ⟨left, hl⟩ := hnode _ node g1 hs hp
      exact ⟨r, left, rfl, hl⟩
    | fatal e l c =>
      rw [hty] at hs
      rw [parse_func, hs] at hp
      cases hp
    | diverge =>
      rw [hty] at hs
      rw [parse_func, hs] at hp
      cases hp
    | undefined =>
      rw [hty] at hs
      rw [parse_func, hs] at hp
      cases hp

/-- C15 on the tokens of `fn f() -> \x7b \x7d`, where the return type is void and
the cursor stays on the brace, and of `fn f() -> i32 \x7b \x7d`, where the return
type is what `parse_type` gives for `i32`; in both cases `parse_func` returns
a function node, in the state `parse` sets up (the global frame pushed). -/
theorem C15_return_type_witness :
    (parse_func 4 (push_scope { token_buffer := tokens_func_without_type } global_frame)).bind
        (fun r => .ok r.1)
      = .ok (.type_func ⟨some [102, 0], some [], tok_identifier, 1, 4⟩ []
          (.plain .T_VOID 0 (some [118, 111, 105, 100, 0]) ⟨none, none, 0, 0, 0⟩)
          (.type_scope_start ⟨none, some [], 123, 1, 11⟩
            (.type_scope_end ⟨none, some [], tok_eof, 1, 14⟩ .null) .null))
    ∧ (parse_func_signature 3
          (push_scope { token_buffer := tokens_func_without_type } global_frame)).bind
        (fun r => .ok (r.1.type, r.2.curr_token, r.2.current))
      = .ok (.plain .T_VOID 0 (some [118, 111, 105, 100, 0]) ⟨none, none, 0, 0, 0⟩, 5,
             .ok ⟨none, some [], 123, 1, 11⟩)
    ∧ (∀ node g1,
        parse_func 4 (push_scope { token_buffer := tokens_func_without_type } global_frame)
          = .ok (node, g1) →
        ∃ left, node = .type_func ⟨some [102, 0], some [], tok_identifier, 1, 4⟩ []
          (.plain .T_VOID 0 (some [118, 111, 105, 100, 0]) ⟨none, none, 0, 0, 0⟩) left)
    ∧ (parse_func 4
          (push_scope { token_buffer := tokens_func_with_type, type_table := [i32_entry] }
            global_frame)).bind (fun r => .ok r.1)
      = .ok (.type_func ⟨some [102, 0], some [], tok_identifier, 1, 4⟩ []
          (.plain .T_INTEGER 3 (some [105, 51, 50, 0])
            ⟨some [105, 51, 50, 0], some [], tok_identifier, 1, 11⟩)
          (.type_scope_start ⟨none, some [], 123, 1, 15⟩
            (.type_scope_end ⟨none, some [], tok_eof, 1, 18⟩ .null) .null))
    ∧ (∀ node g1,
        parse_func 4
          (push_scope { token_buffer := tokens_func_with_type, type_table := [i32_entry] }
            global_frame) = .ok (node, g1) →
        ∃ r left,
          parse_type 9
            { (advance_tokens 5
                (push_scope { token_buffer := tokens_func_with_type, type_table := [i32_entry] }
                  global_frame)) with
              last_read_token := ⟨none, some [], tok_arrow, 1, 8⟩ } = .ok r
          ∧ node = .type_func ⟨some [102, 0], some [], tok_identifier, 1, 4⟩ [] r.1 left) :=
  ⟨by rfl,
   by
    rw [((C15_return_type 3
      (push_scope { token_buffer := tokens_func_without_type } global_frame) _ _ _ _
      ⟨some [102, 0], some [], tok_identifier, 1, 4⟩ ⟨none, some [], 123, 1, 11⟩ []
      rfl rfl rfl rfl rfl rfl).1 (Or.inl rfl)).1]
    rfl,
   ((C15_return_type 3
      (push_scope { token_buffer := tokens_func_without_type } global_frame) _ _ _ _
      ⟨some [102, 0], some [], tok_identifier, 1, 4⟩ ⟨none, some [], 123, 1, 11⟩ []
      rfl rfl rfl rfl rfl rfl).1 (Or.inl rfl)).2,
   by rfl,
   ((C15_return_type 3
      (push_scope { token_buffer := tokens_func_with_type, type_table := [i32_entry] }
        global_frame) _ _ _ _ ⟨some [102, 0], some [], tok_identifier, 1, 4⟩
      ⟨some [105, 51, 50, 0], some [], tok_identifier, 1, 11⟩ []
      rfl rfl rfl rfl rfl rfl).2 (by decide) (by decide)).2⟩

/-- C16: the source `fn f(x : i32) -> void \x7b \x7d`, parsed by `parse_func`
in the state `parse` sets up (the global frame pushed).  When `parse_func` has
registered its symbols and is about to call `parse_body`, which pushes the
frame of the body, the stack holds the global frame alone, with the symbols of
`f` and of the parameter `x`.  After the body has been closed the global frame
still holds the symbol of `x`: the parameter is in the enclosing scope and not
in the frame that the closing brace popped. -/
theorem C16_parameter_in_enclosing_scope :
    lex_tokens (bytes "fn f(x : i32) -> void \x7b \x7d") = .ok tokens_func_with_parameter
    ∧ ((parse_func_signature 19
          (push_scope { token_buffer := tokens_func_with_parameter } global_frame)).bind
        fun (s : Ast_Func × File_Contents) =>
          (add_symbol s.2 (function_symbol s.1)).bind
            fun (f1 : File_Contents) => (add_argument_symbols s.1 s.1.arguments f1).bind
              fun (f2 : File_Contents) => Result.ok (frame_symbols f2))
        = Result.ok [[(.S_FUNCTION, some [102, 0]), (.S_FUNC_ARG, some [120, 0])]]
    ∧ (parse_func 20
          (push_scope { token_buffer := tokens_func_with_parameter } global_frame)).bind
        (fun r => .ok (frame_symbols r.2))
        = .ok [[(.S_FUNCTION, some [102, 0]), (.S_FUNC_ARG, some [120, 0])]] :=
  ⟨by decide!, by decide!, by decide!⟩

/-- C17: the source `fn f() -> void \x7b break for` opens a body and never
closes it, and `parse` accepts it with an empty scope stack: the frame pushed
at the opening brace is popped by `case tok_break` running into the block of
the closing brace, not at a closing brace.  On
`fn f() -> void \x7b break \x7d ;` the one closing brace pops two frames, the
frame of the body and the global frame: `parse_func`, entered with the global
frame on the stack, leaves the stack empty, whereas on
`fn f() -> void \x7b \x7d` it leaves the global frame. -/
theorem C17_break_pops_a_second_frame :
    lex_tokens (bytes "fn f() -> void \x7b break for") = .ok tokens_break_for
    ∧ (125 : Token) ∉ token_kinds tokens_break_for
    ∧ (parse 20 { token_buffer := tokens_break_for }).bind (fun r => .ok r.2.scope_stack)
        = .ok []
    ∧ lex_tokens (bytes "fn f() -> void \x7b break \x7d ;") = .ok tokens_break_close
    ∧ (parse_func 20 (push_scope { token_buffer := tokens_break_close } global_frame)).bind
        (fun r => .ok r.2.scope_stack.length) = .ok 0
    ∧ (parse_func 20 (push_scope { token_buffer := tokens_one_func } global_frame)).bind
        (fun r => .ok r.2.scope_stack.length) = .ok 1 := by
  decide!

/-- C18: a struct with one member more than the array `members` of
`parse_struct` has entries is not parsed into a struct node: whatever the
length `n` of the array, on `struct V \x7b x : i32; ...; x : i32 \x7d` with
`n + 1` members the write `members[member_count++] = member` of the last
member is after the last entry, which is `undefined`.  The tokens are those of
the source text, up to the positions. -/
theorem C18_more_members_than_entries :
    (∀ n : Nat,
      parse_struct (n + 2) { token_buffer := tokens_wide_struct n, reasonable_maximum := n }
        = .undefined)
    ∧ (lex_tokens (bytes "struct V \x7b x : i32; x : i32 \x7d")).bind
        (fun ts => .ok (ts.map fun t => (t.type, t.identifier)))
      = .ok ((tokens_wide_struct 1).map fun t => (t.type, t.identifier)) :=
  ⟨wide_struct_overflow, by decide⟩

/-- C18: let the tokens at the cursor be `struct`, an identifier `name`, an
opening brace, the members `m1 : T1; ...; mk : Tk` (each type a stretch of
tokens for which `parse_type` returns) and a closing brace, and let the array
`members` of `parse_struct` have `f.reasonable_maximum` entries.  With one unit
of fuel for each member and one more, `parse_struct` returns, when there is a
member and the members are no more than the entries of the array, the struct
node of `name` with these members in source order and their number as
`member_count`, in the state that `add_type` gives for that node; when there is
no member it ends with the fatal diagnostic "struct members", not having
called `add_type`; and when there are more members than entries it is
`undefined`, at the write of the first member for which the array has no
entry. -/
theorem C18_struct_members
    (fuel : Nat) (f g1 : File_Contents) (kw name brace close : Token_Iden)
    (members : List Ast_Variable)
    (hkw : f.token_buffer.get? f.curr_token = some kw) (hkw1 : kw.type = tok_struct)
    (hname : f.token_buffer.get? (f.curr_token + 1) = some name)
    (hname1 : name.type = tok_identifier)
    (hbrace : f.token_buffer.get? (f.curr_token + 2) = some brace) (hbrace1 : brace.type = 123)
    (hrun : member_run false { (advance_tokens 3 f) with last_read_token := brace } members g1)
    (hclose : g1.token_buffer.get? g1.curr_token = some close) (hclose1 : close.type = 125)
    (hfuel : members.length + 1 ≤ fuel) :
    (members ≠ [] → members.length ≤ f.reasonable_maximum →
      parse_struct fuel f
        = .ok (.type_struct name members members.length .null,
               add_type (advance_token g1).2
                 (.type_struct name members members.length .null)))
    ∧ (members = [] →
      parse_struct fuel f = .fatal (.unexpected_token "struct members") close.line close.column)
    ∧ (f.reasonable_maximum < members.length → parse_struct fuel f = .undefined) := by
  have h1 : parser_eat f tok_struct = .ok { (advance_token f).2 with last_read_token := kw } :=
    parser_eat_of_get f kw _ hkw hkw1
  have h2 : get_next_expecting { (advance_token f).2 with last_read_token := kw }
      tok_identifier "struct name"
      = .ok (name, { (advance_tokens 2 f) with last_read_token := kw }) := by
    rw [get_next_expecting, advance_token_read_of_get _ name (by simpa [advance_token] using hname)]
    simp [Result.bind, hname1]
    rfl
  have h3 : parser_eat { (advance_tokens 2 f) with last_read_token := kw } 123
      = .ok { (advance_tokens 3 f) with last_read_token := brace } :=
    parser_eat_of_get _ brace _ (by simpa [advance_tokens, advance_token] using hbrace) hbrace1
  have hid : ∀ g, ast_identifier g name = .ok (.identifier name) := by
    intro g
    simp [ast_identifier, hname1]
  refine ⟨?_, ?_, ?_⟩
  · intro hne hcap
    have h4 := struct_member_loop_run f.reasonable_maximum members false _ g1 [] close fuel
      hrun hclose hclose1 hfuel (by simpa using hcap)
    have hl : (members.length == 0) = false := by
      cases members with
      | nil => exact absurd rfl hne
      | cons a b => rfl
    simp only [parse_struct, h1, h2, h3, h4, Result.bind, List.nil_append, hl,
      Bool.false_eq_true, if_false, hid]
  · intro he
    subst he
    have h4 := struct_member_loop_run f.reasonable_maximum [] false _ g1 [] close fuel
      hrun hclose hclose1 hfuel (by simp)
    simp only [parse_struct, h1, h2, h3, h4, Result.bind, List.nil_append, List.length_nil,
      beq_self_eq_true, if_true]
    simp only [raise_parsing_unexpected_token, advance_token, hclose]
  · intro hover
    have h4 := struct_member_loop_overflow f.reasonable_maximum members false _ g1 [] fuel
      hrun hfuel (Nat.zero_le _) (by simpa using hover)
    simp only [parse_struct, h1, h2, h3, h4, Result.bind]

/-- C18 on the tokens of `struct V \x7b x : i32; y : *i32 \x7d`, with `i32` in
the registry, in a state whose array has 256 entries and in one whose array has
a single entry, and of `struct V \x7b \x7d`. -/
theorem C18_struct_members_witness :
    parse_struct 3 { token_buffer := tokens_struct, type_table := [i32_entry] }
      = .ok (.type_struct ⟨some [86, 0], some [], tok_identifier, 1, 8⟩
               [ { type := .plain .T_INTEGER 3 (some [105, 51, 50, 0])
                     ⟨some [105, 51, 50, 0], some [], tok_identifier, 1, 16⟩,
                   identifier := ⟨some [120, 0], some [], tok_identifier, 1, 12⟩,
                   is_const := false },
                 { type := .pointer
                     (.plain .T_INTEGER 3 (some [105, 51, 50, 0])
                       ⟨some [105, 51, 50, 0], some [], tok_identifier, 1, 26⟩)
                     (some [105, 51, 50, 42, 0]) ⟨none, some [], 42, 1, 25⟩,
                   identifier := ⟨some [121, 0], some [], tok_identifier, 1, 21⟩,
                   is_const := false } ] 2 .null,
             { (advance_tokens 12 { token_buffer := tokens_struct }) with
               last_read_token := ⟨none, some [], 58, 1, 23⟩,
               type_table :=
                 [ ([86, 0], .plain .T_STRUCT 0 (some [86, 0])
                      ⟨some [86, 0], some [], tok_identifier, 1, 8⟩), i32_entry ] })
    ∧ parse_struct 1 { token_buffer := tokens_empty_struct }
      = .fatal (.unexpected_token "struct members") 1 12
    ∧ parse_struct 3
        { token_buffer := tokens_struct, type_table := [i32_entry], reasonable_maximum := 1 }
      = .undefined :=
  ⟨((C18_struct_members 3 { token_buffer := tokens_struct, type_table := [i32_entry] }
      { (advance_tokens 11 { token_buffer := tokens_struct, type_table := [i32_entry] }) with
        last_read_token := ⟨none, some [], 58, 1, 23⟩ }
      ⟨none, some [], tok_struct, 1, 1⟩ ⟨some [86, 0], some [], tok_identifier, 1, 8⟩
      ⟨none, some [], 123, 1, 10⟩ ⟨none, some [], 125, 1, 30⟩
      [ { type := .plain .T_INTEGER 3 (some [105, 51, 50, 0])
            ⟨some [105, 51, 50, 0], some [], tok_identifier, 1, 16⟩,
          identifier := ⟨some [120, 0], some [], tok_identifier, 1, 12⟩, is_const := false },
        { type := .pointer
            (.plain .T_INTEGER 3 (some [105, 51, 50, 0])
              ⟨some [105, 51, 50, 0], some [], tok_identifier, 1, 26⟩)
            (some [105, 51, 50, 42, 0]) ⟨none, some [], 42, 1, 25⟩,
          identifier := ⟨some [121, 0], some [], tok_identifier, 1, 21⟩, is_const := false } ]
      rfl rfl rfl rfl rfl rfl
      ⟨_, ⟨_, ⟨none, some [], 58, 1, 14⟩, rfl, rfl, rfl, rfl, rfl, rfl, rfl⟩,
        _, ⟨_, ⟨none, some [], 58, 1, 23⟩, ⟨⟨⟨none, some [], 59, 1, 19⟩, rfl, rfl⟩, rfl⟩,
          rfl, rfl, rfl, rfl, rfl, rfl⟩, rfl⟩
      rfl rfl (by decide)).1 (by simp) (by decide)).trans rfl,
   (C18_struct_members 1 { token_buffer := tokens_empty_struct } _
      ⟨none, some [], tok_struct, 1, 1⟩ ⟨some [86, 0], some [], tok_identifier, 1, 8⟩
      ⟨none, some [], 123, 1, 10⟩ ⟨none, some [], 125, 1, 12⟩ []
      rfl rfl rfl rfl rfl rfl rfl rfl rfl (by decide)).2.1 rfl,
   (C18_struct_members 3
      { token_buffer := tokens_struct, type_table := [i32_entry], reasonable_maximum := 1 }
      { (advance_tokens 11
          { token_buffer := tokens_struct, type_table := [i32_entry],
            reasonable_maximum := 1 }) with
        last_read_token := ⟨none, some [], 58, 1, 23⟩ }
      ⟨none, some [], tok_struct, 1, 1⟩ ⟨some [86, 0], some [], tok_identifier, 1, 8⟩
      ⟨none, some [], 123, 1, 10⟩ ⟨none, some [], 125, 1, 30⟩
      [ { type := .plain .T_INTEGER 3 (some [105, 51, 50, 0])
            ⟨some [105, 51, 50, 0], some [], tok_identifier, 1, 16⟩,
          identifier := ⟨some [120, 0], some [], tok_identifier, 1, 12⟩, is_const := false },
        { type := .pointer
            (.plain .T_INTEGER 3 (some [105, 51, 50, 0])
              ⟨some [105, 51, 50, 0], some [], tok_identifier, 1, 26⟩)
            (some [105, 51, 50, 42, 0]) ⟨none, some [], 42, 1, 25⟩,
          identifier := ⟨some [121, 0], some [], tok_identifier, 1, 21⟩, is_const := false } ]
      rfl rfl rfl rfl rfl rfl
      ⟨_, ⟨_, ⟨none, some [], 58, 1, 14⟩, rfl, rfl, rfl, rfl, rfl, rfl, rfl⟩,
        _, ⟨_, ⟨none, some [], 58, 1, 23⟩, ⟨⟨⟨none, some [], 59, 1, 19⟩, rfl, rfl⟩, rfl⟩,
          rfl, rfl, rfl, rfl, rfl, rfl⟩, rfl⟩
      rfl rfl (by decide)).2.2 (by decide)⟩

/-- C19: let `parse_expression` in an lhs context turn the tokens at the cursor
into the node `lhs`, in which `find_identifier` finds a token, and let the
next token `sep` be `:` or `::`.  When the token after `sep` is `=`, and the
tokens after it are an expression `rhs` up to `;`, `parse_identifier_statement`
returns the declaration of `lhs` with declared type `T_DETECT`.  Otherwise let
`parse_type` return the type `ty` at that position and let `eq` be the token
after the type: when `eq` is `=`, followed by an expression `rhs` up to `;`,
the declaration of `lhs` with declared type `ty` is returned, and when `eq` is
another token the call ends with a fatal diagnostic at `eq`.  The declaration
has `is_declaration` true and the operator `=`, and `is_const` is true exactly
when `sep` is `::`. -/
theorem C19_declaration_forms
    (fuel : Nat) (f g1 : File_Contents) (lhs : Ast_Node) (id sep t : Token_Iden)
    (hlhs : parse_expression fuel f NO_EXPECT true = .ok (lhs, g1))
    (hid : find_identifier lhs = .ok (some id))
    (hsep : g1.current = .ok sep) (hs : sep.type = 58 ∨ sep.type = tok_const)
    (ht : (advance_token g1).2.current = .ok t) :
    (∀ (rhs : Ast_Node) (g4 : File_Contents), t.type = tok_equals →
        parse_expression fuel { (advance_tokens 2 g1) with last_read_token := t } 59 false
          = .ok (rhs, g4) →
        parse_identifier_statement fuel f
          = .ok (declaration_node lhs rhs detect_type id (sep.type == tok_const), g4))
    ∧ (∀ (ty : Type_Info) (g3 g4 : File_Contents) (eq : Token_Iden) (rhs : Ast_Node),
        t.type ≠ tok_equals →
        parse_type ((advance_token g1).2.token_buffer.length + 1) (advance_token g1).2
          = .ok (ty, g3) →
        g3.current = .ok eq → eq.type = 61 →
        parse_expression fuel { (advance_token g3).2 with last_read_token := eq } 59 false
          = .ok (rhs, g4) →
        parse_identifier_statement fuel f
          = .ok (declaration_node lhs rhs ty id (sep.type == tok_const), g4))
    ∧ (∀ (ty : Type_Info) (g3 : File_Contents) (eq : Token_Iden),
        t.type ≠ tok_equals →
        parse_type ((advance_token g1).2.token_buffer.length + 1) (advance_token g1).2
          = .ok (ty, g3) →
        g3.current = .ok eq → eq.type ≠ 61 →
        parse_identifier_statement fuel f
          = .fatal (.expected_kind 61) eq.line eq.column) := by
  obtain ⟨hs1, hs2⟩ := separator_facts sep.type hs
  refine ⟨?_, ?_, ?_⟩
  · intro rhs g4 hte hrhs
    have hc : (t.type == tok_equals) = true := by simpa using hte
    have heat : parser_eat (advance_token g1).2 61
        = .ok { (advance_tokens 2 g1) with last_read_token := t } :=
      parser_eat_of_get _ t 61 (get_of_current _ t ht) hte
    simp only [parse_identifier_statement, hlhs, hid, hsep, Result.bind, hs1, hs2, ht, hc,
      Bool.false_eq_true, if_false, if_true, heat, hrhs, declaration_node, detect_type]
  · intro ty g3 g4 eq rhs hte hty heq0 heq hrhs
    have hc : (t.type == tok_equals) = false := by simpa using hte
    have heat : parser_eat g3 61 = .ok { (advance_token g3).2 with last_read_token := eq } :=
      parser_eat_of_get _ eq 61 (get_of_current _ eq heq0) heq
    simp only [parse_identifier_statement, hlhs, hid, hsep, Result.bind, hs1, hs2, ht, hc,
      Bool.false_eq_true, if_false, if_true, hty, heat, hrhs, declaration_node]
  · intro ty g3 eq hte hty heq0 heq
    have hc : (t.type == tok_equals) = false := by simpa using hte
    have heat : parser_eat g3 61 = .fatal (.expected_kind 61) eq.line eq.column :=
      parser_eat_other _ eq 61 (get_of_current _ eq heq0) heq
    simp only [parse_identifier_statement, hlhs, hid, hsep, Result.bind, hs1, hs2, ht, hc,
      Bool.false_eq_true, if_false, if_true, hty, heat]

/-- C19 on the tokens of `x := 1;`, a declaration with type `T_DETECT` that is
not constant, of `x :: i32 = 1;`, a constant declaration with the type
`parse_type` gives for `i32`, and of `x : i32 ;`, which is fatal at the `;`. -/
theorem C19_declaration_forms_witness :
    parse_identifier_statement 6 { token_buffer := tokens_declaration }
      = .ok (.type_assignment true
               (.identifier ⟨some [120, 0], some [], tok_identifier, 1, 1⟩)
               (.literal ⟨some [49, 0], some [], tok_number, 1, 6⟩)
               ⟨some [120, 0], some [], tok_identifier, 1, 1⟩ 61 false
               (.plain .T_DETECT 0 none Token_Iden.zero) .null,
             { (advance_tokens 5 { token_buffer := tokens_declaration }) with
               last_read_token := ⟨none, some [], 59, 1, 7⟩ })
    ∧ parse_identifier_statement 6
        { token_buffer := tokens_const_declaration, type_table := [i32_entry] }
      = .ok (.type_assignment true
               (.identifier ⟨some [120, 0], some [], tok_identifier, 1, 1⟩)
               (.literal ⟨some [49, 0], some [], tok_number, 1, 12⟩)
               ⟨some [120, 0], some [], tok_identifier, 1, 1⟩ 61 true
               (.plain .T_INTEGER 3 (some [105, 51, 50, 0])
                 ⟨some [105, 51, 50, 0], some [], tok_identifier, 1, 6⟩) .null,
             { (advance_tokens 6
                 { token_buffer := tokens_const_declaration, type_table := [i32_entry] }) with
               last_read_token := ⟨none, some [], 59, 1, 13⟩ })
    ∧ parse_identifier_statement 6
        { token_buffer := tokens_declaration_without_value, type_table := [i32_entry] }
      = .fatal (.expected_kind 61) 1 9 :=
  ⟨(C19_declaration_forms 6 { token_buffer := tokens_declaration } _ _
      ⟨some [120, 0], some [], tok_identifier, 1, 1⟩ ⟨none, some [], 58, 1, 3⟩
      ⟨none, some [], 61, 1, 4⟩ rfl rfl rfl (Or.inl rfl) rfl).1 _ _ rfl rfl,
   (C19_declaration_forms 6
      { token_buffer := tokens_const_declaration, type_table := [i32_entry] } _ _
      ⟨some [120, 0], some [], tok_identifier, 1, 1⟩ ⟨none, some [], tok_const, 1, 3⟩
      ⟨some [105, 51, 50, 0], some [], tok_identifier, 1, 6⟩ rfl rfl rfl (Or.inr rfl)
      rfl).2.1 _ _ _ ⟨none, some [], 61, 1, 10⟩ _ (by decide) rfl rfl rfl rfl,
   (C19_declaration_forms 6
      { token_buffer := tokens_declaration_without_value, type_table := [i32_entry] } _ _
      ⟨some [120, 0], some [], tok_identifier, 1, 1⟩ ⟨none, some [], 58, 1, 3⟩
      ⟨some [105, 51, 50, 0], some [], tok_identifier, 1, 5⟩ rfl rfl rfl (Or.inl rfl)
      rfl).2.2 _ _ ⟨none, some [], 59, 1, 9⟩ (by decide) rfl rfl (by decide)⟩

/-- C20: the sources `*-a = 1;` and `*(a) = 1;` are not rejected.  In an lhs
context `parse_expression` returns the unary node of `*` over the operand,
which holds a prefix operator in the first and came from a parenthesised
expression in the second, and `parse_identifier_statement` accepts both
statements. -/
theorem C20_operand_of_star_is_not_lhs :
    lex_tokens (bytes "*-a = 1;") = .ok tokens_deref_minus
    ∧ parse_expression 6 { token_buffer := tokens_deref_minus } NO_EXPECT true
      = .ok (.unary_expr ⟨none, some [], 42, 1, 1⟩
               (.unary_expr ⟨none, some [], 45, 1, 2⟩
                 (.identifier ⟨some [97, 0], some [], tok_identifier, 1, 3⟩)),
             advance_tokens 3 { token_buffer := tokens_deref_minus })
    ∧ outcome (parse_identifier_statement 6 { token_buffer := tokens_deref_minus }) = .ok ()
    ∧ lex_tokens (bytes "*(a) = 1;") = .ok tokens_deref_paren
    ∧ parse_expression 12 { token_buffer := tokens_deref_paren } NO_EXPECT true
      = .ok (.unary_expr ⟨none, some [], 42, 1, 1⟩
               (.identifier ⟨some [97, 0], some [], tok_identifier, 1, 3⟩),
             { (advance_tokens 4 { token_buffer := tokens_deref_paren }) with
               last_read_token := ⟨none, some [], 41, 1, 4⟩ })
    ∧ outcome (parse_identifier_statement 12 { token_buffer := tokens_deref_paren }) = .ok () :=
  ⟨by decide!, rfl, by decide!, by decide!, rfl, by decide!⟩

/-- C20 as the code has it: in an lhs context, with the token `t` at the
cursor and enough fuel, `parse_expression` ends with a fatal diagnostic when
`t` is a number, a string literal or an opening parenthesis, when `t` is the
`#` of a cast, when `t` is a prefix operator other than `*`, when `t` is an
identifier followed by the opening brace of a struct initialisation, and when
the operand at the cursor is followed by a binary operator.  After a leading
`*` the operand is parsed by `parse_unary_expression` with `is_lhs` false, so
that nothing is rejected inside it for being on a left-hand side. -/
theorem C20_lhs_rejections
    (fuel k : Nat) (f g1 : File_Contents) (t t1 p : Token_Iden) (na : Ast_Node)
    (stop : Token)
    (ht : f.token_buffer.get? f.curr_token = some t) (hstop : t.type ≠ stop)
    (hfuel : 4 ≤ fuel) :
    (t.type = tok_number ∨ t.type = tok_const_str ∨ t.type = 40 →
      parse_expression fuel f stop true
        = .fatal (.unexpected_token "left-handside of statement") t.line t.column)
    ∧ (t.type = 35 →
      parse_expression fuel f stop true
        = .fatal (.unexpected_token "left-hand side of statement, not cast")
            t.line t.column)
    ∧ (t.type ∈ rejected_prefix_operators →
      parse_expression fuel f stop true
        = .fatal (.unexpected_token "left-hand side of statement, not unary expression")
            t.line t.column)
    ∧ (t.type = tok_identifier → f.token_buffer.get? (f.curr_token + 1) = some t1 →
        t1.type = 123 → to_char stop ≠ 123 →
      parse_expression fuel f stop true
        = .fatal (.unexpected_token
            "left-hand side of statement , not got struct initialization")
            t.line t.column)
    ∧ ((∀ n : Nat, k ≤ n →
          parse_unary_expression n f (to_char stop) true = .ok (na, g1)) →
        g1.token_buffer.get? g1.curr_token = some p → p.type ∈ binary_operators →
        p.type ≠ stop → 1 ≤ k → k + 2 ≤ fuel →
      parse_expression fuel f stop true
        = .fatal (.unexpected_token "left-handside of statement, not binary operation")
            p.line p.column)
    ∧ (t.type = 42 →
      parse_unary_expression fuel f (to_char stop) true =
        (parse_unary_expression (fuel - 1) (advance_token f).2 (to_char stop) false).bind
          fun r => .ok (unary_node t r.1, r.2)) := by
  obtain ⟨m, rfl⟩ : ∃ m, fuel = m + 4 := ⟨fuel - 4, by omega⟩
  refine ⟨lhs_literal_fatal m f t stop ht hstop, lhs_cast_fatal (m + 1) f t stop ht hstop,
    lhs_prefix_fatal (m + 1) f t stop ht hstop, ?_, ?_, ?_⟩
  · intro hk h1 hk1 hs1
    exact lhs_struct_init_fatal m f t t1 stop ht hstop hk h1 hk1 hs1
  · intro hA hp0 hp hps hk hkf
    exact lhs_binary_fatal (m + 4) k f g1 t p na stop ht hstop hA hp0 hp hps hk hkf
  · intro hk
    exact lhs_star_operand (m + 3) f t (to_char stop) ht hk

/-- C20 on the tokens of `1 = 2;`, fatal at the literal, of `a + b * c;`, fatal
at the `+`, and of `*-a = 1;`, where the operand of `*` is parsed outside the
lhs context. -/
theorem C20_lhs_rejections_witness :
    parse_expression 6 { token_buffer := tokens_literal_assignment } NO_EXPECT true
      = .fatal (.unexpected_token "left-handside of statement") 1 1
    ∧ parse_expression 6 { token_buffer := tokens_a_plus_b_times_c } NO_EXPECT true
      = .fatal (.unexpected_token "left-handside of statement, not binary operation") 1 3
    ∧ parse_unary_expression 6 { token_buffer := tokens_deref_minus } (to_char NO_EXPECT) true
      = (parse_unary_expression 5 (advance_tokens 1 { token_buffer := tokens_deref_minus })
          (to_char NO_EXPECT) false).bind
          fun r => .ok (unary_node ⟨none, some [], 42, 1, 1⟩ r.1, r.2) :=
  ⟨(C20_lhs_rejections 6 2 { token_buffer := tokens_literal_assignment }
      { token_buffer := tokens_literal_assignment }
      ⟨some [49, 0], some [], tok_number, 1, 1⟩ Token_Iden.zero Token_Iden.zero .null
      NO_EXPECT rfl (by decide) (by decide)).1 (Or.inl rfl),
   (C20_lhs_rejections 6 2 { token_buffer := tokens_a_plus_b_times_c }
      (advance_tokens 1 { token_buffer := tokens_a_plus_b_times_c })
      ⟨some [97, 0], some [], tok_identifier, 1, 1⟩ Token_Iden.zero
      ⟨none, some [], 43, 1, 3⟩ _ NO_EXPECT rfl (by decide) (by decide)).2.2.2.2.1
      (lhs_operand_of_identifier _ ⟨some [97, 0], some [], tok_identifier, 1, 1⟩
        ⟨none, some [], 43, 1, 3⟩ _ rfl rfl rfl (by decide))
      rfl (by decide) (by decide) (by decide) (by decide),
   (C20_lhs_rejections 6 2 { token_buffer := tokens_deref_minus }
      { token_buffer := tokens_deref_minus }
      ⟨none, some [], 42, 1, 1⟩ Token_Iden.zero Token_Iden.zero .null
      NO_EXPECT rfl (by decide) (by decide)).2.2.2.2.2 rfl⟩

/-- C21: `parse_func_call` accepts the argument list of `f(a, )`, in which a
comma is directly followed by the closing parenthesis: it returns the call node
with the one argument `a` and leaves the cursor after the parenthesis.  The
arguments of `f(a, b, c)` come in source order. -/
theorem C21_trailing_comma_is_accepted :
    lex_tokens (bytes "f(a, )") = .ok tokens_call_trailing_comma
    ∧ (parse_func_call 8 { token_buffer := tokens_call_trailing_comma, curr_token := 1 }
          (.identifier ⟨some [102, 0], some [], tok_identifier, 1, 1⟩)).bind
        (fun r => .ok (r.1, r.2.curr_token))
      = .ok (.func_call ⟨none, some [], 40, 1, 2⟩
              (.identifier ⟨some [102, 0], some [], tok_identifier, 1, 1⟩)
              [.identifier ⟨some [97, 0], some [], tok_identifier, 1, 3⟩], 5)
    ∧ (parse_func_call 8 { token_buffer := tokens_call_three_arguments, curr_token := 1 }
          (.identifier ⟨some [102, 0], some [], tok_identifier, 1, 1⟩)).bind
        (fun r => .ok (r.1, r.2.curr_token))
      = .ok (.func_call ⟨none, some [], 40, 1, 2⟩
              (.identifier ⟨some [102, 0], some [], tok_identifier, 1, 1⟩)
              [.identifier ⟨some [97, 0], some [], tok_identifier, 1, 3⟩,
               .identifier ⟨some [98, 0], some [], tok_identifier, 1, 6⟩,
               .identifier ⟨some [99, 0], some [], tok_identifier, 1, 9⟩], 8) :=
  ⟨by decide, by rfl, by rfl⟩

/-- C22 fails from 64 stars on: `ptr_to_identifier` copies the name of the
registered type into a buffer of `len + 64` bytes and appends one `*` and the
terminating NUL for each level, so the identifier of the pointer at depth 64
needs `len + 65` bytes.  On the tokens of 64 stars followed by `i32`, `i32`
being registered, `parse_type` writes after the end of that buffer and has no
defined result; on 63 stars it returns the chain of 63 pointers around the
registered type, the pointer at depth `k` named `i32` followed by `k` stars,
with the cursor after the 64 tokens. -/
theorem C22_sixty_four_stars :
    parse_type 65 { token_buffer := tokens_pointer_to_i32 64, type_table := [i32_entry] }
      = .undefined
    ∧ parse_type 64 { token_buffer := tokens_pointer_to_i32 63, type_table := [i32_entry] }
      = .ok (pointer_chain [105, 51, 50, 0]
              (.plain .T_INTEGER 3 (some [105, 51, 50, 0])
                ⟨some [105, 51, 50, 0], some [], tok_identifier, 1, 64⟩)
              (star_tokens 63),
             advance_tokens 64
               { token_buffer := tokens_pointer_to_i32 63, type_table := [i32_entry] }) := by
  constructor
  · exact parse_type_too_deep [105, 51, 50, 0] .T_INTEGER 3 Token_Iden.zero
      ⟨some [105, 51, 50, 0], some [], tok_identifier, 1, 65⟩
      [⟨none, some [], tok_eof, 1, 68⟩] rfl rfl (star_tokens 64)
      { token_buffer := tokens_pointer_to_i32 64, type_table := [i32_entry] } 65 rfl
      (by intro s hs; simp only [star_tokens, List.mem_map] at hs; obtain ⟨_, _, rfl⟩ := hs; rfl)
      (by decide) (by simp [star_tokens]) (by simp [star_tokens])
  · exact parse_type_chain [105, 51, 50, 0] .T_INTEGER 3 Token_Iden.zero
      ⟨some [105, 51, 50, 0], some [], tok_identifier, 1, 64⟩
      [⟨none, some [], tok_eof, 1, 67⟩] rfl rfl (star_tokens 63)
      { token_buffer := tokens_pointer_to_i32 63, type_table := [i32_entry] } 64 rfl
      (by intro s hs; simp only [star_tokens, List.mem_map] at hs; obtain ⟨_, _, rfl⟩ := hs; rfl)
      (by decide) (by simp [star_tokens]) (by simp [star_tokens])

/-- C23: `parse_func_arg` accepts the parameter `1 : i32`, whose first token is
a number: it returns a variable whose name is the number token, and `parse`
accepts the source `fn f(1 : i32) -> void \x7b \x7d`. -/
theorem C23_number_as_parameter_name :
    lex_tokens (bytes "1 : i32") = .ok tokens_number_parameter
    ∧ (parse_func_arg { token_buffer := tokens_number_parameter, type_table := [i32_entry] }).bind
        (fun r => .ok (r.1.variable, r.2.curr_token))
      = .ok (some { type := .plain .T_INTEGER 3 (some [105, 51, 50, 0])
                              ⟨some [105, 51, 50, 0], some [], tok_identifier, 1, 5⟩,
                    identifier := ⟨some [49, 0], some [], tok_number, 1, 1⟩,
                    is_const := false }, 3)
    ∧ lex_tokens (bytes "fn f(1 : i32) -> void \x7b \x7d") = .ok tokens_func_number_parameter
    ∧ outcome (parse 20 { token_buffer := tokens_func_number_parameter,
                          type_table := [i32_entry] }) = .ok () :=
  ⟨by decide, by decide!, by decide, by decide!⟩

/-- C24: on the tokens of `break \x7d \x7d`, with two frames on the scope
stack, `parse_statement` at the `break` returns a node of kind scope end, not
of kind break: the statements that follow the `break` end at token 2 with one
frame popped, and the `break` itself then reads one more token (the cursor
ends at 3) and pops the second frame. -/
theorem C24_break_returns_a_scope_end :
    lex_tokens (bytes "break \x7d \x7d") = .ok tokens_break_two_closes
    ∧ (parse_statement 4
          (advance_token { token_buffer := tokens_break_two_closes,
                           scope_stack := [global_frame, global_frame] }).2).bind
        (fun r => .ok (r.2.curr_token, r.2.scope_stack.length)) = .ok (2, 1)
    ∧ (parse_statement 4 { token_buffer := tokens_break_two_closes,
                           scope_stack := [global_frame, global_frame] }).bind
        (fun r => .ok (r.1.is_break, r.1.is_scope_end, r.2.curr_token, r.2.scope_stack.length))
      = .ok (false, true, 3, 0) :=
  ⟨by decide, by decide!, by decide!⟩

/-- C25: for the empty source `lex_file` yields the one token eof at line 1,
column 1, and `parse` on that state does not complete: no token is consumed, so
`f->prev_token` is still the NULL that `lex_file` stored when `parse` reads
`*f->prev_token` for `pop_scope`, whatever the path and the fuel. -/
theorem C25_empty_file_reads_null (path : List Nat) (fuel : Nat) :
    lex_tokens [] = .ok [⟨none, some [], tok_eof, 1, 1⟩]
    ∧ (lex_file path []).bind (fun f => .ok (f.token_buffer, f.curr_token, f.prev_token))
        = .ok ([⟨none, some path, tok_eof, 1, 1⟩], 0, none)
    ∧ (lex_file path []).bind (parse (fuel + 1)) = .undefined :=
  ⟨by decide, rfl, rfl⟩

/-- C26: for every source that `lex_file` accepts, any token of the output
(the final eof included) that comes before another has a (line, column) that is
at most the other's in lexicographic order.  Every token records the scan
position at its first byte; the scan position only grows, the rewind of a
mixed punctuation run stays after the first byte of the run, and such a run
holds no newline. -/
theorem C26_positions_never_decrease (path src : List Nat) (f : File_Contents)
    (h : lex_file path src = .ok f) :
    f.token_buffer.Pairwise (fun t u => lex_le t.position u.position) :=
  lex_file_positions path src f h

/-- C26 at an instance: a source with an escape in a string, a punctuation run
that is rewound, a newline and a block comment. -/
theorem C26_positions_never_decrease_witness :
    lex_file [] (bytes "a \"\\n\" b<=-1\n /* c */ 'd'") = .ok state_two_lines
    ∧ state_two_lines.token_buffer.Pairwise (fun t u => lex_le t.position u.position) :=
  ⟨by decide,
    C26_positions_never_decrease [] (bytes "a \"\\n\" b<=-1\n /* c */ 'd'") state_two_lines
      (by decide)⟩

/-- C27: `advance_token` moves the cursor forward by exactly one token and
returns the pointer to the token that was current; afterwards the cached
previous pointer is current - 1 and the cached next pointer is current + 1;
the token sequence and every other field are unchanged, and a caller that
reads the returned pointer gets the token that was current. -/
theorem C27_advance_token (f : File_Contents) :
    (advance_token f).2.curr_token = f.curr_token + 1
    ∧ (advance_token f).1 = f.curr_token
    ∧ (advance_token f).2.prev_token = some ((advance_token f).2.curr_token - 1)
    ∧ (advance_token f).2.next_token = some ((advance_token f).2.curr_token + 1)
    ∧ (advance_token f).2.token_buffer = f.token_buffer
    ∧ (advance_token f).2
        = { f with curr_token := f.curr_token + 1, prev_token := some f.curr_token,
                   next_token := some (f.curr_token + 2) }
    ∧ (advance_token f).2.token_at (advance_token f).1 = f.current
    ∧ advance_token_read f = f.current.bind fun t => .ok (t, (advance_token f).2) :=
  ⟨rfl, rfl, rfl, rfl, rfl, rfl, rfl, rfl⟩

/-- C28: for every cursor state and every `n`, `save_token_position`, `n`
calls of `advance_token` and `load_token_position` leave the cursor on the
token that was current at the save, in the same token sequence, and the next
`advance_token` returns the pointer to that token, so that reading it gives
the token read at the save. -/
theorem C28_save_load_round_trip (f : File_Contents) (n : Nat) :
    ∃ g, load_token_position (advance_tokens n (save_token_position f)) = .ok g
      ∧ g.curr_token = f.curr_token
      ∧ g.token_buffer = f.token_buffer
      ∧ g.current = f.current
      ∧ (advance_token g).1 = f.curr_token
      ∧ advance_token_read g = f.current.bind fun t => .ok (t, (advance_token g).2) := by
  have h : ∀ (n : Nat) (s : File_Contents),
      (advance_tokens n s).saved_token = s.saved_token
        ∧ (advance_tokens n s).token_buffer = s.token_buffer := by
    intro n
    induction n with
    | zero => intro s; exact ⟨rfl, rfl⟩
    | succ k ih => intro s; exact ih (advance_token s).2
  have h1 := (h n (save_token_position f)).1
  have h2 := (h n (save_token_position f)).2
  refine ⟨{ advance_tokens n (save_token_position f) with curr_token := f.curr_token }, ?_,
    rfl, h2, ?_, rfl, ?_⟩
  · have hs : (advance_tokens n (save_token_position f)).saved_token = some f.curr_token := h1
    unfold load_token_position
    split
    · rename_i saved heq
      rw [hs] at heq
      cases heq
      rfl
    · rename_i heq
      rw [hs] at heq
      cases heq
  · show File_Contents.token_at _ _ = File_Contents.token_at _ _
    unfold File_Contents.token_at
    simp only [h2]
    rfl
  · unfold advance_token_read File_Contents.current File_Contents.token_at advance_token
    simp only [h2]
    rfl

/-- C29: for the source of the five lines `a`, `b`, `c`, `d`, `e` and a token
on line 3, the buffer `get_error_segment` returns begins with lines 2, 3 and 4
(`b`, `c`, `d`), not with lines 1, 2 and 3, so the excerpt does not end with
the error line; for a token on line 1 or on line 2 the result is the empty
string; for `ab`, `cd`, `ef` and a token on line 2 the excerpt starts at the
third byte of the source. -/
theorem C29_excerpt_is_one_line_late :
    segment_of (bytes "a\nb\nc\nd\ne\n") 3 1 = .ok (bytes "b\nc\nd\n\n^^^")
    ∧ segment_of (bytes "a\nb\nc\nd\ne\n") 1 1 = .ok [0]
    ∧ segment_of (bytes "a\nb\nc\nd\ne\n") 2 1 = .ok [0]
    ∧ segment_of (bytes "ab\ncd\nef\n") 2 1 = .ok (bytes "\ncd\nef\n\n^^^") := by
  decide

/-- C30 fails for the byte NUL: the source of the three bytes quote, NUL, quote
ends in the fatal diagnostic "Unexpected end of file", raised by
`advance_buffer` at the NUL, and gives no char token. -/
theorem C30_nul_content_is_fatal :
    lex_tokens [39, 0, 39] = .fatal .unexpected_end_of_file 1 2 := by
  decide

/-- C30, for every byte `c` other than NUL: lexing the three bytes quote, `c`,
quote yields one token of kind char, at line 1, column 1, whose payload is the
byte `c` followed by a terminating NUL, and then the eof token; and when the
byte after the first content byte is not a quote, `get_token` raises the fatal
diagnostic "Character literal contains more than 1 character". -/
theorem C30_char_literal (c : Nat) (hc : c ≠ 0) :
    lex_tokens [39, c, 39]
        = .ok [⟨some [c, 0], some [], tok_char, 1, 1⟩,
               ⟨none, some [], tok_eof, if c = 10 then 2 else 1, if c = 10 then 2 else 4⟩]
    ∧ ∀ (x : Nat) (rest : List Nat), x ≠ 39 →
        get_token (lex_init [] (39 :: c :: x :: rest)) = .fatal .char_literal_too_long 1 1 := by
  have hw : is_whitespace 39 = false := by decide
  have h1 : (is_alpha 39 || is_non_special_char 39) = false := by decide
  have h2 : is_number 39 = false := by decide
  constructor
  · by_cases h10 : c = 10
    · subst h10
      decide
    · simp [lex_tokens, lex_file, lex_loop, lex_init, get_token, get_token_fuel, advance_while,
        advance_buffer, File_Contents.peek, Result.bind, hw, h1, h2, hc, h10, payload_token,
        tok_char, tok_eof]
  · intro x rest hx
    by_cases h10 : c = 10
    · subst h10
      simp [lex_init, get_token, get_token_fuel, advance_while,
        advance_buffer, File_Contents.peek, Result.bind, hw, h1, h2, hx]
    · simp [lex_init, get_token, get_token_fuel, advance_while,
        advance_buffer, File_Contents.peek, Result.bind, hw, h1, h2, hc, h10, hx]

/-- C30 at an instance: the byte `a`, and the source `'ab'`. -/
theorem C30_char_literal_witness :
    (97 : Nat) ≠ 0
    ∧ lex_tokens (bytes "'a'")
        = .ok [⟨some [97, 0], some [], tok_char, 1, 1⟩, ⟨none, some [], tok_eof, 1, 4⟩]
    ∧ get_token (lex_init [] (bytes "'ab'")) = .fatal .char_literal_too_long 1 1 :=
  ⟨by decide, (C30_char_literal 97 (by decide)).1,
    (C30_char_literal 97 (by decide)).2 98 [39] (by decide)⟩

/-- C31: `parse_identifier_statement` rejects `a[1] = 2;` and `v.x = 1;` with
the diagnostic "identifier", whichever order the build has for the arguments of
`ast_selector`.  `find_identifier` looks for the name in the index expression
of an index node, not in its operand, and has no case for a selector node, so
`a[1] = 2;` fails at the `]` after the left-hand side has been parsed; `v.x = 1;`
fails there too (at `x`) when the first argument is evaluated first, and inside
`parse_atom_expression` (at the dot, which `ast_identifier` is given) when the
last one is.  `a[i] = 2;` is accepted, and the token it records as the name of
the assignment is `i`, the index. -/
theorem C31_index_and_selector_lhs_rejected :
    lex_tokens (bytes "a[1] = 2;") = .ok tokens_index_assignment
    ∧ (∀ order : Bool,
        outcome (parse_identifier_statement 12
          { token_buffer := tokens_index_assignment, selector_right_to_left := order })
          = .fatal (.unexpected_token "identifier") 1 4)
    ∧ lex_tokens (bytes "v.x = 1;") = .ok tokens_selector_assignment
    ∧ outcome (parse_identifier_statement 12
          { token_buffer := tokens_selector_assignment, selector_right_to_left := false })
        = .fatal (.unexpected_token "identifier") 1 3
    ∧ outcome (parse_identifier_statement 12
          { token_buffer := tokens_selector_assignment, selector_right_to_left := true })
        = .fatal (.unexpected_token "identifier") 1 2
    ∧ lex_tokens (bytes "a[i] = 2;") = .ok tokens_index_by_name_assignment
    ∧ (∀ order : Bool,
        (parse_identifier_statement 12
          { token_buffer := tokens_index_by_name_assignment,
            selector_right_to_left := order }).bind
          (fun r => .ok (r.1.assignment_token, r.2.curr_token))
          = .ok (some ⟨some [105, 0], some [], tok_identifier, 1, 3⟩, 7)) :=
  ⟨by decide, fun order => by cases order <;> decide!, by decide, by decide!, by decide!,
    by decide, fun order => by cases order <;> decide!⟩

/-- C32: `parse_unary_expression` accepts an expression that begins with `[`,
whichever order the build has for the arguments of `ast_selector`:
`parse_operand` returns NULL, `parse_atom_expression` wraps that NULL in an
index node, and the test `result == NULL` that raises "opperand" comes after
it.  On `[1];` the result is an index node whose operand is NULL, and the
statement `x = [1];` is accepted.  On `.m;` the result is a selector node whose
operand is NULL when the first argument of `ast_selector` is evaluated first;
when the last one is, `ast_identifier` is given the dot and raises
"identifier". -/
theorem C32_postfix_without_operand :
    lex_tokens (bytes "[1];") = .ok tokens_leading_bracket
    ∧ (∀ order : Bool,
        (parse_unary_expression 6
          { token_buffer := tokens_leading_bracket, selector_right_to_left := order }
          59 false).bind (fun r => .ok (r.1, r.2.curr_token))
        = .ok (.index ⟨none, some [], 91, 1, 1⟩ .null
                (.literal ⟨some [49, 0], some [], tok_number, 1, 2⟩), 3))
    ∧ lex_tokens (bytes "x = [1];") = .ok tokens_assign_bracket
    ∧ (∀ order : Bool,
        outcome (parse_identifier_statement 12
          { token_buffer := tokens_assign_bracket, selector_right_to_left := order })
          = .ok ())
    ∧ lex_tokens (bytes ".m;") = .ok tokens_leading_dot
    ∧ (parse_unary_expression 6
          { token_buffer := tokens_leading_dot, selector_right_to_left := false }
          59 false).bind (fun r => .ok (r.1, r.2.curr_token))
      = .ok (.selector ⟨none, some [], 46, 1, 1⟩ .null
              (.identifier ⟨some [109, 0], some [], tok_identifier, 1, 2⟩), 2)
    ∧ outcome (parse_unary_expression 6
          { token_buffer := tokens_leading_dot, selector_right_to_left := true } 59 false)
      = .fatal (.unexpected_token "identifier") 1 1 :=
  ⟨by decide, fun order => by cases order <;> rfl, by decide,
    fun order => by cases order <;> decide!, by decide, by rfl, by decide!⟩

/-- C33: a `//` comment on the last line of a source that has no trailing
newline is a lex error: the loop `while(*f->at != '\n') advance_buffer(f);`
reaches the terminating NUL, where `advance_buffer` raises "Unexpected end of
file".  With the newline the comment yields no token. -/
theorem C33_comment_at_end_of_input_is_fatal :
    lex_tokens (bytes "x // abc") = .fatal .unexpected_end_of_file 1 9
    ∧ lex_tokens (bytes "x // abc\n")
        = .ok [⟨some [120, 0], some [], tok_identifier, 1, 1⟩, ⟨none, some [], tok_eof, 2, 1⟩]
    ∧ lex_tokens (bytes "x // abc\ny")
        = .ok [⟨some [120, 0], some [], tok_identifier, 1, 1⟩,
               ⟨some [121, 0], some [], tok_identifier, 2, 1⟩,
               ⟨none, some [], tok_eof, 2, 2⟩] := by
  decide

/-- C34: the stack is last-in first-out, for every array library whose insert
stores the item at the index and leaves the slots before it alone.  On every
stack state with room for a push, `_stack_push(s, x)` followed by `_stack_pop`
returns the address of slot `top + 1`, which holds `x`, and `top` is back at
its value before the push.  After the pushes of `x1..xn` onto a freshly
allocated stack, `n` calls of `stack_pop` give `xn..x1` and the stack is empty
again. -/
theorem C34_stack_is_lifo {α : Type} (lib : SimpleDArray α) (hlib : lib.stores) :
    (∀ (s : Stack α) (x : α), s.valid →
      ∃ s1 s2, _stack_push lib s x = .ok s1
        ∧ _stack_pop s1 = .ok (some (s.top + 1), s2)
        ∧ read_slot s2 (some (s.top + 1)) = .ok x
        ∧ s2.top = s.top)
    ∧ (∀ (type_size : Int) (xs : List α), 0 ≤ type_size → (xs.length : Int) ≤ 2147483647 →
        xs.length * type_size ≤ 2147483647 →
        ∃ s1 s2, push_all lib (_stack_allocate lib type_size) xs = .ok s1
          ∧ pop_all xs.length s1 = .ok (xs.reverse, s2)
          ∧ is_stack_empty s2 = true) := by
  constructor
  · intro s x hv
    obtain ⟨s1, p1, p2, p3, p4, p5, p6⟩ := stack_push_items lib hlib s x hv
    obtain ⟨h1, h2, h3, h4, h5⟩ := hv
    obtain ⟨s2, q1, _, q3, q4, _, _⟩ := stack_pop_items s1 s.items x p6 p5 (by rw [p3]; exact h3)
      (by omega) (by rw [p2, p3]; exact h5) (by omega)
    refine ⟨s1, s2, p1, by rw [q1, p2], ?_, by rw [q3, p2]; omega⟩
    unfold read_slot
    simp only
    rw [if_pos (by omega), q4, p4]
  · intro type_size xs h0 hn hm
    obtain ⟨s1, p1, p2, p3, p4, p5⟩ := push_all_items lib hlib xs (_stack_allocate lib type_size)
      (by simp [_stack_allocate]) (by simp [_stack_allocate]) h0
      (by simp only [_stack_allocate]; omega)
      (by simp only [_stack_allocate]
          have e : (-1 : Int) + 1 + (xs.length : Int) = xs.length := by omega
          rw [e]; exact hm)
    have hitems : s1.items = xs := by
      rw [p2]
      simp [Stack.items, _stack_allocate]
    have htop : s1.top = (xs.length : Int) - 1 := by
      rw [p3]
      simp only [_stack_allocate]
      omega
    have hmono : ((xs.length : Int) - 1) * type_size ≤ xs.length * type_size :=
      Int.mul_le_mul_of_nonneg_right (by omega) h0
    obtain ⟨s2, q1, q2, _⟩ := pop_all_items xs s1 hitems (by omega) p5
      (by rw [p4]; exact h0) (by omega)
      (by rw [htop, p4]; simp only [_stack_allocate]; omega)
    exact ⟨s1, s2, p1, q1, by simp [is_stack_empty, q2]⟩

/-- C34 at an instance: the list-based array library, slots of 4 bytes and the
items 7, 8, 9. -/
theorem C34_stack_is_lifo_witness :
    (list_array Nat).stores
    ∧ (∃ s1 s2, push_all (list_array Nat) (_stack_allocate (list_array Nat) 4) [7, 8, 9] = .ok s1
        ∧ pop_all 3 s1 = .ok ([9, 8, 7], s2) ∧ is_stack_empty s2 = true) :=
  ⟨list_array_stores Nat,
    (C34_stack_is_lifo (list_array Nat) (list_array_stores Nat)).2 4 [7, 8, 9]
      (by decide) (by decide) (by decide)⟩

/-- C36: on a stack whose `top` is -1, as `_stack_allocate` creates it,
`_stack_pop` and `_stack_peek` return NULL and leave the stack as it is;
`_stack_peek` never changes the stack; `is_stack_empty` holds exactly when
`top` is -1; and after any sequence of calls on a freshly allocated stack
(short enough for the slot offsets to stay in the range of `i32`) `top` is the
number of pushes minus the number of pops that returned a slot, minus one, so
the stack is empty exactly when the two numbers are equal. -/
theorem C36_empty_stack_and_counts {α : Type} (lib : SimpleDArray α) :
    (∀ type_size : Int, (_stack_allocate lib type_size).top = -1)
    ∧ (∀ s : Stack α, s.top = -1 → _stack_pop s = .ok (none, s) ∧ _stack_peek s = .ok (none, s))
    ∧ (∀ (s s1 : Stack α) (r : Option Int), _stack_peek s = .ok (r, s1) → s1 = s)
    ∧ (∀ s : Stack α, is_stack_empty s = true ↔ s.top = -1)
    ∧ (∀ (type_size : Int) (ops : List (Stack_Op α)), 0 ≤ type_size →
        ops.length ≤ 2147483647 → ops.length * type_size ≤ 2147483647 →
        ∃ s pushes pops,
          run_ops lib (_stack_allocate lib type_size) 0 0 ops = .ok (s, pushes, pops)
          ∧ s.top = (pushes : Int) - pops - 1
          ∧ (is_stack_empty s = true ↔ pushes = pops)) := by
  refine ⟨fun _ => rfl, ?_, ?_, ?_, ?_⟩
  · intro s h
    simp [_stack_pop, _stack_peek, h]
  · intro s s1 r h
    unfold _stack_peek at h
    split at h
    · cases h; rfl
    · split at h
      · cases h; rfl
      · cases h
  · intro s
    simp [is_stack_empty]
  · intro type_size ops h0 hn hm
    obtain ⟨s, pushes, pops, p1, p2, p3⟩ := run_ops_top lib ops (_stack_allocate lib type_size)
      0 0 (by simp [_stack_allocate]) (Nat.le_refl 0) h0 (by omega)
      (by simp only [Nat.cast_zero, zero_add, _stack_allocate]; exact hm)
    refine ⟨s, pushes, pops, p1, p2, ?_⟩
    simp only [is_stack_empty, beq_iff_eq, p2]
    omega

/-- C36 at an instance: two pushes, a peek and three pops, the last on the
empty stack. -/
theorem C36_empty_stack_and_counts_witness :
    run_ops (list_array Nat) (_stack_allocate (list_array Nat) 4) 0 0
        [.push 7, .push 8, .peek, .pop, .pop, .pop]
      = .ok ({ d_array_ptr := [7, 8], top := -1, default_value := STACK_DEFAULT_VALUE,
               type_size := 4 }, 2, 2)
    ∧ ∃ s pushes pops,
        run_ops (list_array Nat) (_stack_allocate (list_array Nat) 4) 0 0
            [.push 7, .push 8, .peek, .pop, .pop, .pop] = .ok (s, pushes, pops)
        ∧ s.top = (pushes : Int) - pops - 1
        ∧ (is_stack_empty s = true ↔ pushes = pops) :=
  ⟨by decide,
    (C36_empty_stack_and_counts (list_array Nat)).2.2.2.2 4
      [.push 7, .push 8, .peek, .pop, .pop, .pop] (by decide) (by decide) (by decide)⟩

/-- C37: the assertion of `ptr_to_identifier` fails on a call made from
`parse_type`.  On the tokens `*`, `1` the inner call of `parse_type` returns
`(Type_Info)\x7b.type = T_INVALID\x7d`, whose identifier is NULL, and the outer
call passes the pointer around it to `ptr_to_identifier`; this holds for every
fuel and every type registry.  The declaration `x : * = 1;` reaches it through
`parse_identifier_statement`. -/
theorem C37_assertion_fails_after_star (fuel : Nat)
    (type_table : List (List Nat × Type_Info)) :
    lex_tokens (bytes "* 1") = .ok tokens_star_number
    ∧ parse_type (fuel + 2) { token_buffer := tokens_star_number, type_table := type_table }
        = .fatal .assertion_failed 0 0
    ∧ lex_tokens (bytes "x : * = 1;") = .ok tokens_declare_star
    ∧ outcome (parse_identifier_statement 12 { token_buffer := tokens_declare_star })
        = .fatal .assertion_failed 0 0 :=
  ⟨by decide, rfl, by decide, by decide!⟩

/-- C38: for the cast from `i8` to `i32`, two integer types with different
identifiers and a wider destination, `get_cast_type` sets `should_cast` and
returns ZExt, not SExt, although the source is signed; for the cast from `u8`
to `i32` it returns SExt, although the source is unsigned.  Over the eight
integer primitives: a signed source and a wider destination give ZExt, an
unsigned source gives SExt for a wider signed destination and ZExt for a wider
unsigned one, and every narrower destination gives Trunc. -/
theorem C38_extension_is_swapped :
    get_cast_type (integer_type byte4) (integer_type byte1) = .ok (.ZExt, true)
    ∧ get_cast_type (integer_type byte4) (integer_type ubyte1) = .ok (.SExt, true)
    ∧ (∀ a ∈ signed_sizes ++ unsigned_sizes, ∀ b ∈ signed_sizes ++ unsigned_sizes,
        bit_width a < bit_width b →
        get_cast_type (integer_type b) (integer_type a)
          = .ok (if a ∈ unsigned_sizes ∧ b ∈ signed_sizes then .SExt else .ZExt, true))
    ∧ (∀ a ∈ signed_sizes ++ unsigned_sizes, ∀ b ∈ signed_sizes ++ unsigned_sizes,
        bit_width b < bit_width a →
        get_cast_type (integer_type b) (integer_type a) = .ok (.Trunc, true)) := by
  decide

/-- C39: for `i32`, `i64`, `u32` and `u64` the size in bits that
`to_debug_type` passes differs from the width of the type `apoc_type_to_llvm`
selects: `to_debug_type` passes 8 times the enumerator (8 times the enumerator
minus 4 for the unsigned ones), which is 8, 16, 24, 32, while `llvm_int_types`
gives 8, 16, 32, 64.  Whatever value the enumerator of `i32` has, `8 * size`
is not 32 together with `llvm_int_types[size]` being the 32-bit type. -/
theorem C39_debug_size_is_not_the_width :
    (signed_sizes ++ unsigned_sizes).map (fun size => (debug_bits size, llvm_bits size))
      = [ (.ok 8, .ok 8), (.ok 16, .ok 16), (.ok 24, .ok 32), (.ok 32, .ok 64),
          (.ok 8, .ok 8), (.ok 16, .ok 16), (.ok 24, .ok 32), (.ok 32, .ok 64) ]
    ∧ (signed_sizes ++ unsigned_sizes).map bit_width = [8, 16, 32, 64, 8, 16, 32, 64]
    ∧ (signed_sizes ++ unsigned_sizes).map (fun size => type_names.getD size [])
        = [bytes "i8", bytes "i16", bytes "i32", bytes "i64",
           bytes "u8", bytes "u16", bytes "u32", bytes "u64"]
    ∧ ∀ size : Nat, ¬ (to_uint64 (8 * (size : Int)) = 32
        ∧ llvm_int_types.get? size = some (some (.integer 32))) := by
  refine ⟨by decide, by decide, by decide, ?_⟩
  intro size h
  obtain ⟨h1, h2⟩ := h
  have hlt : size < 9 := by
    have := (List.getElem?_eq_some_iff.mp (by simpa only [List.get?_eq_getElem?] using h2)).1
    simpa [llvm_int_types] using this
  have hs : size = 4 := by
    unfold to_uint64 at h1
    omega
  subst hs
  exact absurd h2 (by decide)

end Apocalypse
